import Mathlib

/-!
# wotlisp: the reader, the printer, value equality and the evaluator

A shallow embedding of `src/reader/reader.go`, `src/printer/printer.go`,
`src/types/types.go`, `src/env/env.go`, `src/runtime/runtime.go` and of the
primitives of `src/core/core.go` and `src/core/namespace.go` that the
statements below are about.

Conventions of the embedding.

* A Go `string` is the list of its code points (`GoString`); inputs are taken
  to be valid UTF-8, on which byte-wise `strings.Replace`, byte indexing of an
  ASCII character and rune-wise regular-expression matching agree with the
  operations on code points used here.
* A Go pointer (`*types.List`, `*types.Atom`, ...) is a natural-number address
  stored next to the contents of the object it points to. Allocation is an
  explicit counter threaded through the reader.
* A `float64` is its IEEE-754 bit pattern. The two library conversions between
  a `float64` and text (`strconv.ParseFloat`, `fmt.Sprintf("%v", x)`) are not
  part of the repository and are taken as parameters (`GoLib`).
* A Go `map` is an association list whose keys are pairwise different under
  Go's `==`; the order of the list stands for one iteration order of the map,
  which Go leaves unspecified.
* A function returning `(value, error)` returns a `Result`; a run-time panic of
  the host is the separate outcome `Result.panic`.
* The evaluator works on an explicit heap (`Store`): frames, the allocation
  counter and the fields of objects that are assigned to after the object was
  made. Its functions return an `Outcome`, which carries the heap afterwards.
* `runtime.Eval` can run for ever. `Eval` takes two budgets, the depth of the
  nested calls of `Eval` and the turns of the loop inside one call, and yields
  `Outcome.fuel` when one of them is used up.
-/

namespace Wot

/-! ## Data model (`types/types.go`) -/

/-- A Go string as the sequence of its code points. -/
abbrev GoString := List Char

/-- A `float64`, given by its 64 bits: sign, 11 exponent bits, 52 fraction bits. -/
structure Float64 where
  bits : Nat
deriving DecidableEq, Repr

namespace Float64

/-- The 11-bit biased exponent field. -/
def expField (x : Float64) : Nat := (x.bits / 2 ^ 52) % 2 ^ 11

/-- The 52-bit fraction field. -/
def fracField (x : Float64) : Nat := x.bits % 2 ^ 52

/-- Not-a-number: exponent field all ones and a non-zero fraction. -/
def isNaN (x : Float64) : Bool := x.expField == 2047 && x.fracField != 0

/-- Positive or negative zero: every bit below the sign bit is clear. -/
def isZero (x : Float64) : Bool := x.bits % 2 ^ 63 == 0

/-- Go's `==` on two `float64`: false as soon as one side is NaN, `+0 == -0`,
otherwise equality of the bit patterns. -/
def eq (x y : Float64) : Bool :=
  !x.isNaN && !y.isNaN && ((x.isZero && y.isZero) || x.bits % 2 ^ 64 == y.bits % 2 ^ 64)

end Float64

/-- The library functions the source calls to turn a number into text and back. -/
structure GoLib where
  /-- The number `strconv.ParseFloat(token, 64)` returns (its error is dropped
  by the caller). -/
  ParseFloat : GoString → Float64
  /-- The text of `fmt.Sprintf("%v", x)`. -/
  Sprintf : Float64 → GoString

/-- `types.Base`: the values of the language. `ptr` is the address of the Go
object behind a pointer type; `env` in a closure is the address of the captured
frame. -/
inductive Value : Type
  | nil
  | bool (b : Bool)
  | number (x : Float64)
  | str (s : GoString)
  | symbol (s : GoString)
  | keyword (s : GoString)
  | list (ptr : Nat) (forms : List Value) (meta : Value)
  | vector (ptr : Nat) (forms : List Value) (meta : Value)
  | hashmap (ptr : Nat) (forms : List (Value × Value)) (meta : Value)
  | atom (ptr : Nat) (val : Value)
  | stdFunc (ptr : Nat) (meta : Value)
  | extFunc (ptr : Nat) (ast : Value) (params : List Value) (env : Nat) (isMacro : Bool)
      (meta : Value)

instance : Inhabited Value := ⟨Value.nil⟩

/-- A Go `error` value: the sentinel `reader.ErrUnderflow` or an error made by
`errors.New` / `fmt.Errorf` with the given message. -/
inductive Error
  | ErrUnderflow
  | new (msg : GoString)
deriving DecidableEq, Repr

/-- Outcome of a call returning `(value, error)`: `ok` when the error is nil,
`error` when it is not (no caller reads the value that comes with an error),
`panic` when the Go runtime panics, `fuel` when the recursion budget of the
embedding ran out (the theorems show that the entry points never yield it). -/
inductive Result (α : Type)
  | ok (val : α)
  | error (e : Error)
  | panic (msg : GoString)
  | fuel

/-- The dynamic type of an interface value, as `reflect.TypeOf` tells them apart. -/
def typeTag : Value → Nat
  | .nil => 0
  | .bool _ => 1
  | .number _ => 2
  | .str _ => 3
  | .symbol _ => 4
  | .keyword _ => 5
  | .list _ _ _ => 6
  | .vector _ _ _ => 7
  | .hashmap _ _ _ => 8
  | .atom _ _ => 9
  | .stdFunc _ _ => 10
  | .extFunc _ _ _ _ _ _ => 11

/-- Go's `==` on two interface values (`key == exclude`, and the comparison of
map keys): same dynamic type and equal contents, where a pointer's content is
its address. -/
def goEq : Value → Value → Bool
  | .nil, .nil => true
  | .bool a, .bool b => a == b
  | .number x, .number y => Float64.eq x y
  | .str a, .str b => a == b
  | .symbol a, .symbol b => a == b
  | .keyword a, .keyword b => a == b
  | .list p _ _, .list q _ _ => p == q
  | .vector p _ _, .vector q _ _ => p == q
  | .hashmap p _ _, .hashmap q _ _ => p == q
  | .atom p _, .atom q _ => p == q
  | .stdFunc p _, .stdFunc q _ => p == q
  | .extFunc p _ _ _ _ _, .extFunc q _ _ _ _ _ => p == q
  | _, _ => false

/-- A Go `map[Base]Base`. -/
abbrev GoMap := List (Value × Value)

/-- The lookup `other, found := m[key]`. -/
def mapLookup : GoMap → Value → Option Value
  | [], _ => none
  | (k, v) :: rest, key => if goEq k key then some v else mapLookup rest key

/-- The assignment `m[key] = val`: the entry of an equal key is overwritten,
otherwise a new entry is added. -/
def mapAssign : GoMap → Value → Value → GoMap
  | [], key, val => [(key, val)]
  | (k, v) :: rest, key, val =>
    if goEq k key then (key, val) :: rest else (k, v) :: mapAssign rest key val

/-- The loop of `NewHashmap` over the interleaved keys and values. -/
def newHashmapLoop (excludeKeys : List Value) : List Value → GoMap → GoMap
  | key :: val :: rest, m =>
    newHashmapLoop excludeKeys rest
      (if excludeKeys.any (fun exclude => goEq key exclude) then m else mapAssign m key val)
  | _, m => m

/-- `types.NewHashmap(values, excludeKeys...)`; `heap` is the next free address
and the new map object is allocated there. -/
def NewHashmap (values : List Value) (excludeKeys : List Value) (heap : Nat) :
    Result (Value × Nat) :=
  if values.length % 2 = 1 then
    .error (.new "Odd number of arguments to NewHashMap".toList)
  else
    .ok (.hashmap heap (newHashmapLoop excludeKeys values []) .nil, heap + 1)

/-- `(*Hashmap).ToList`: keys and values interleaved, in iteration order. -/
def ToList : GoMap → List Value
  | [] => []
  | (k, v) :: rest => k :: v :: ToList rest

/-! ## Tokenizer (`reader.tokenize`) -/

/-- The class `\s` of Go's regular expressions: `[\t\n\f\r ]`. -/
def isSpace (c : Char) : Bool :=
  c == '\t' || c == '\n' || c == '\x0c' || c == '\r' || c == ' '

/-- The class `[\s,]` skipped before every token. -/
def isSkip (c : Char) : Bool := isSpace c || c == ','

/-- The class ``[\[\]{}()'`~^@]`` of the second alternative. -/
def isSpecial (c : Char) : Bool :=
  c == '[' || c == ']' || c == '{' || c == '}' || c == '(' || c == ')' || c == '\'' ||
    c == '`' || c == '~' || c == '^' || c == '@'

/-- The class ``[^\s\[\]{}('"`,;)]`` of the last alternative. -/
def isSymChar (c : Char) : Bool :=
  !(isSpace c || c == '[' || c == ']' || c == '{' || c == '}' || c == '(' || c == '\'' ||
    c == '"' || c == '`' || c == ',' || c == ';' || c == ')')

/-- The greedy loop `(?:\\.|[^\\"])*`: the text matched and the text left.
`.` does not match a newline. -/
def stringBody : List Char → List Char × List Char
  | [] => ([], [])
  | c :: rest =>
    if c == '\\' then
      match rest with
      | [] => ([], c :: rest)
      | d :: rest' =>
        if d == '\n' then ([], c :: rest)
        else ('\\' :: d :: (stringBody rest').1, (stringBody rest').2)
    else if c == '"' then ([], c :: rest)
    else (c :: (stringBody rest).1, (stringBody rest).2)

/-- One match of `tokensPattern` at the start of `s` under leftmost-first
priority: the text of group 1 and the input left after the whole match. The
leading `[\s,]*` is greedy and never gives characters back, because the last
alternative of the group matches the empty string. -/
def matchToken (s : List Char) : List Char × List Char :=
  match s.dropWhile isSkip with
  | [] => ([], [])
  | c :: r =>
    if c == '~' && r.head? == some '@' then (['~', '@'], r.tail)
    else if isSpecial c then ([c], r)
    else if c == '"' then
      match (stringBody r).2 with
      | [] => ('"' :: (stringBody r).1, [])
      | d :: r' =>
        if d == '"' then ('"' :: (stringBody r).1 ++ ['"'], r')
        else ('"' :: (stringBody r).1, d :: r')
    else if c == ';' then
      (';' :: r.takeWhile (fun x => x != '\n'), r.dropWhile (fun x => x != '\n'))
    else ((c :: r).takeWhile isSymChar, (c :: r).dropWhile isSymChar)

/-- The loop of `FindAllStringSubmatch` together with the filter of `tokenize`:
matches are taken one after the other; a match whose group is empty or starts
with `;` is dropped. At the end of the input the only match is empty and the
loop stops. `fuel` bounds the number of matches. -/
def tokenizeLoop : Nat → List Char → List GoString
  | 0, _ => []
  | fuel + 1, s =>
    match s with
    | [] => []
    | _ :: _ =>
      if (matchToken s).1 = [] ∨ (matchToken s).1.head? = some ';' then
        tokenizeLoop fuel (matchToken s).2
      else (matchToken s).1 :: tokenizeLoop fuel (matchToken s).2

/-- `reader.tokenize`. Every match on a non-empty input consumes at least one
character, so `in.length` matches suffice. -/
def tokenize (inp : GoString) : List GoString := tokenizeLoop inp.length inp

/-! ## Reader (`reader/reader.go`) -/

/-- `strings.Replace(s, old, new, -1)` for a non-empty `old`: the occurrences
of `old` are replaced from left to right without overlap. `skip` counts the
characters of the occurrence just replaced that are still to be passed over. -/
def replaceFrom (old new : GoString) : Nat → GoString → GoString
  | _, [] => []
  | skip + 1, _ :: s => replaceFrom old new skip s
  | 0, c :: s =>
    if old.isPrefixOf (c :: s) then new ++ replaceFrom old new (old.length - 1) s
    else c :: replaceFrom old new 0 s

/-- `strings.Replace(s, old, new, -1)`, `old` non-empty. -/
def Replace (s old new : GoString) : GoString := replaceFrom old new 0 s

/-- The sentinel `"ʞ"` of the reader. -/
def sentinel : Char := Char.ofNat 0x29e

/-- The chain of four replacements `atom` applies to the body of a string token. -/
def unescape (str : GoString) : GoString :=
  Replace (Replace (Replace (Replace str ['\\', '\\'] [sentinel]) ['\\', '"'] ['"'])
    ['\\', 'n'] ['\n']) [sentinel] ['\\']

/-- An ASCII digit, the class `[0-9]`. -/
def isDigit (c : Char) : Bool := '0' ≤ c && c ≤ '9'

/-- `numberPattern.MatchString`: the whole token is `-?[0-9]+\.?[0-9]*`. -/
def numberPattern (token : GoString) : Bool :=
  let t := if token.head? == some '-' then token.tail else token
  let r := t.dropWhile isDigit
  !(t.takeWhile isDigit).isEmpty && (if r.head? == some '.' then r.tail else r).all isDigit

/-- The `reader` struct: the tokens not yet consumed. `heap` is the next free
address of the Go heap, carried along so that every object the reader
allocates gets an address of its own. -/
structure reader where
  tokens : List GoString
  heap : Nat

namespace reader

/-- `rdr.next()`: the first token and the reader without it, when there is one. -/
def next (rdr : reader) : Option (GoString × reader) :=
  match rdr.tokens with
  | [] => none
  | token :: rest => some (token, { rdr with tokens := rest })

/-- `rdr.peek()`. -/
def peek (rdr : reader) : Option GoString := rdr.tokens.head?

/-- Allocation of one object: its address and the reader afterwards. -/
def alloc (rdr : reader) : Nat × reader := (rdr.heap, { rdr with heap := rdr.heap + 1 })

/-- `rdr.atom()`. -/
def atom (lib : GoLib) (rdr : reader) : Result (Value × reader) :=
  match rdr.next with
  | none => .error .ErrUnderflow
  | some (token, rdr) =>
    if token = "nil".toList then .ok (.nil, rdr)
    else if token = "true".toList then .ok (.bool true, rdr)
    else if token = "false".toList then .ok (.bool false, rdr)
    else
      match token with
      | [] => .panic "runtime error: index out of range [0] with length 0".toList
      | c :: _ =>
        if c == ':' then .ok (.keyword token.tail, rdr)
        else if numberPattern token then .ok (.number (lib.ParseFloat token), rdr)
        else if c == '"' then
          if token.getLast? != some '"' then .error (.new "expected '\"', got EOF".toList)
          else if token.length < 2 then .panic "runtime error: slice bounds out of range [1:0]".toList
          else .ok (.str (unescape token.tail.dropLast), rdr)
        else .ok (.symbol token, rdr)

/-- `rdr.modifier(symbol)`, with the recursive call `rdr.form()` passed in. -/
def modifier (form : reader → Result (Value × reader)) (symbol : GoString) (rdr : reader) :
    Result (Value × reader) :=
  let rdr := match rdr.next with
    | none => rdr
    | some (_, r) => r
  match form rdr with
  | .ok (v, rdr) => .ok (.list rdr.alloc.1 [.symbol symbol, v] .nil, rdr.alloc.2)
  | .error e => .error e
  | .panic m => .panic m
  | .fuel => .fuel

/-- `rdr.meta()`. -/
def meta (form : reader → Result (Value × reader)) (rdr : reader) :
    Result (Value × reader) :=
  let rdr := match rdr.next with
    | none => rdr
    | some (_, r) => r
  match form rdr with
  | .ok (m, rdr) =>
    match form rdr with
    | .ok (f, rdr) =>
      .ok (.list rdr.alloc.1 [.symbol "with-meta".toList, f, m] .nil, rdr.alloc.2)
    | .error e => .error e
    | .panic m => .panic m
    | .fuel => .fuel
  | .error e => .error e
  | .panic m => .panic m
  | .fuel => .fuel

/-- The `for` loop of `rdr.list`: forms are read and appended to `forms` until
the next token is `end` or the tokens run out. `n` bounds the number of
iterations. -/
def listLoop (form : reader → Result (Value × reader)) («end» : GoString) :
    Nat → reader → List Value → Result (List Value × reader)
  | 0, _, _ => .fuel
  | n + 1, rdr, forms =>
    match rdr.peek with
    | none => .ok (forms, rdr)
    | some token =>
      if token = «end» then .ok (forms, rdr)
      else
        match form rdr with
        | .ok (v, rdr) => listLoop form «end» n rdr (forms ++ [v])
        | .error e => .error e
        | .panic m => .panic m
        | .fuel => .fuel

/-- `rdr.list(start, end)`: the address of the list object, allocated first,
its forms and the reader afterwards. Every iteration of the loop consumes a
token, so one more than the number of tokens bounds the iterations. -/
def list (form : reader → Result (Value × reader)) (start «end» : GoString) (rdr : reader) :
    Result ((Nat × List Value) × reader) :=
  let ptr := rdr.alloc.1
  let rdr := rdr.alloc.2
  match rdr.next with
  | none => .error .ErrUnderflow
  | some (token, rdr) =>
    if token ≠ start then .error (.new ("unexpected '".toList ++ token ++ "'".toList))
    else
      match listLoop form «end» (rdr.tokens.length + 1) rdr [] with
      | .ok (forms, rdr) =>
        match rdr.next with
        | none => .error .ErrUnderflow
        | some (token, rdr) =>
          if token ≠ «end» then .error (.new ("unexpected '".toList ++ token ++ "'".toList))
          else .ok ((ptr, forms), rdr)
      | .error e => .error e
      | .panic m => .panic m
      | .fuel => .fuel

/-- `rdr.vector()`. -/
def vector (form : reader → Result (Value × reader)) (rdr : reader) :
    Result (Value × reader) :=
  match list form "[".toList "]".toList rdr with
  | .ok ((_, forms), rdr) => .ok (.vector rdr.alloc.1 forms .nil, rdr.alloc.2)
  | .error e => .error e
  | .panic m => .panic m
  | .fuel => .fuel

/-- `rdr.hashMap()`. -/
def hashMap (form : reader → Result (Value × reader)) (rdr : reader) :
    Result (Value × reader) :=
  match list form "\x7b".toList "\x7d".toList rdr with
  | .ok ((_, forms), rdr) =>
    match NewHashmap forms [] rdr.heap with
    | .ok (m, heap) => .ok (m, { rdr with heap := heap })
    | .error e => .error e
    | .panic m => .panic m
    | .fuel => .fuel
  | .error e => .error e
  | .panic m => .panic m
  | .fuel => .fuel

/-- `rdr.form()`, with its recursive calls (made through `modifier`, `meta`,
`list`, `vector` and `hashMap`) going to `self`. -/
def form (lib : GoLib) (self : reader → Result (Value × reader)) (rdr : reader) :
    Result (Value × reader) :=
  match rdr.peek with
  | none => .error .ErrUnderflow
  | some token =>
    if token = "'".toList then modifier self "quote".toList rdr
    else if token = "`".toList then modifier self "quasiquote".toList rdr
    else if token = "~".toList then modifier self "unquote".toList rdr
    else if token = "~@".toList then modifier self "splice-unquote".toList rdr
    else if token = "^".toList then meta self rdr
    else if token = "@".toList then modifier self "deref".toList rdr
    else if token = ")".toList then .error (.new "unexpected ')'".toList)
    else if token = "(".toList then
      match list self "(".toList ")".toList rdr with
      | .ok ((ptr, forms), rdr) => .ok (.list ptr forms .nil, rdr)
      | .error e => .error e
      | .panic m => .panic m
      | .fuel => .fuel
    else if token = "]".toList then .error (.new "unexpected ']'".toList)
    else if token = "[".toList then vector self rdr
    else if token = "\x7d".toList then .error (.new "unexpected '\x7d'".toList)
    else if token = "\x7b".toList then hashMap self rdr
    else atom lib rdr

/-- `rdr.form()` as a recursive function: `fuel` bounds the depth of the nested
calls of `form`. -/
def formFuel (lib : GoLib) : Nat → reader → Result (Value × reader)
  | 0, _ => .fuel
  | fuel + 1, rdr => form lib (formFuel lib fuel) rdr

end reader

/-- `reader.ReadString(in)`, run with the heap's next free address `heap`: the
value read and the next free address afterwards. A call of `form` consumes a
token before it calls `form` again, so the depth of the calls is at most the
number of tokens. -/
def ReadString (lib : GoLib) (inp : GoString) (heap : Nat) : Result (Value × Nat) :=
  match reader.formFuel lib ((tokenize inp).length + 1) ⟨tokenize inp, heap⟩ with
  | .ok (v, rdr) => .ok (v, rdr.heap)
  | .error e => .error e
  | .panic m => .panic m
  | .fuel => .fuel

/-! ## Printer (`printer/printer.go`) -/

/-- `strings.Join(elems, sep)`. -/
def Join : List GoString → GoString → GoString
  | [], _ => []
  | [a], _ => a
  | a :: b :: rest, sep => a ++ sep ++ Join (b :: rest) sep

mutual
/-- `printer.Print(object, pretty)` on a value of the language. -/
def Print (lib : GoLib) : Value → Bool → GoString
  | .vector _ forms _, pretty => "[".toList ++ Join (printForms lib forms pretty) " ".toList ++ "]".toList
  | .list _ forms _, pretty => "(".toList ++ Join (printForms lib forms pretty) " ".toList ++ ")".toList
  | .hashmap _ forms _, pretty =>
    "\x7b".toList ++ Join (printEntries lib forms pretty) " ".toList ++ "\x7d".toList
  | .symbol s, _ => s
  | .keyword s, _ => ":".toList ++ s
  | .stdFunc _ _, _ => "#<std::function>".toList
  | .extFunc _ ast params _ isMacro _, pretty =>
    (if isMacro then "#<macro ".toList else "#<function ".toList) ++
      ("[".toList ++ Join (printForms lib params pretty) ", ".toList ++ "]".toList) ++
      Print lib ast pretty ++ ">".toList
  | .atom _ val, pretty => "(atom ".toList ++ Print lib val pretty ++ ")".toList
  | .str s, pretty =>
    if pretty then
      "\"".toList ++
        Replace (Replace (Replace s ['\\'] ['\\', '\\']) ['"'] ['\\', '"']) ['\n'] ['\\', 'n'] ++
        "\"".toList
    else s
  | .bool b, _ => if b then "true".toList else "false".toList
  | .nil, _ => "nil".toList
  | .number x, _ => lib.Sprintf x
/-- The loop of `printer.List`: `strList[i] = Print(e, pretty)`. -/
def printForms (lib : GoLib) : List Value → Bool → List GoString
  | [], _ => []
  | e :: forms, pretty => Print lib e pretty :: printForms lib forms pretty
/-- The same loop over `tobj.ToList()` of a hash-map. -/
def printEntries (lib : GoLib) : GoMap → Bool → List GoString
  | [], _ => []
  | (k, v) :: rest, pretty => Print lib k pretty :: Print lib v pretty :: printEntries lib rest pretty
end

/-- `printer.List(forms, pretty, pre, post, join)`. -/
def printer.List (lib : GoLib) (forms : List Value) (pretty : Bool) (pre post join : GoString) :
    GoString :=
  pre ++ Join (printForms lib forms pretty) join ++ post

/-! ## Equality (`core/core.go`) -/

/-- The type assertion `val.(types.Collection)`: the forms of a list or vector. -/
def asCollection : Value → Option (List Value)
  | .list _ forms _ => some forms
  | .vector _ forms _ => some forms
  | _ => none

mutual
/-- `checkEquality(val1, val2)`. -/
def checkEquality : Value → Value → Result Bool
  | .list _ data _, val2 =>
    match asCollection val2 with
    | none => .ok false
    | some other => if data.length ≠ other.length then .ok false else equalListsLoop data other
  | .vector _ data _, val2 =>
    match asCollection val2 with
    | none => .ok false
    | some other => if data.length ≠ other.length then .ok false else equalListsLoop data other
  | .hashmap _ data _, val2 =>
    match val2 with
    | .hashmap _ other _ => if data.length ≠ other.length then .ok false else equalMapsLoop data other
    | _ => .ok false
  | .symbol data, val2 =>
    match val2 with
    | .symbol other => .ok (data == other)
    | _ => .ok false
  | .keyword data, val2 =>
    match val2 with
    | .keyword other => .ok (data == other)
    | _ => .ok false
  | .str data, val2 =>
    match val2 with
    | .str other => .ok (data == other)
    | _ => .ok false
  | .number data, val2 =>
    match val2 with
    | .number other => .ok (Float64.eq data other)
    | _ => .ok false
  | .bool data, val2 =>
    match val2 with
    | .bool other => .ok (data == other)
    | _ => .ok false
  | .nil, val2 =>
    match val2 with
    | .nil => .ok true
    | _ => .ok false
  | .atom _ _, val2 =>
    match val2 with
    | .atom _ _ => .error (.new "invalid data type passed to equal".toList)
    | _ => .ok false
  | .stdFunc _ _, val2 =>
    match val2 with
    | .stdFunc _ _ => .error (.new "invalid data type passed to equal".toList)
    | _ => .ok false
  | .extFunc _ _ _ _ _ _, val2 =>
    match val2 with
    | .extFunc _ _ _ _ _ _ => .error (.new "invalid data type passed to equal".toList)
    | _ => .ok false
/-- The loop of `equalLists`, entered with two slices of the same length
(`lst2[i]` would panic on a shorter `lst2`). -/
def equalListsLoop : List Value → List Value → Result Bool
  | [], _ => .ok true
  | _ :: _, [] => .panic "runtime error: index out of range".toList
  | elm :: lst1, elm2 :: lst2 =>
    match checkEquality elm elm2 with
    | .ok equal => if !equal then .ok false else equalListsLoop lst1 lst2
    | .error err => .error err
    | .panic m => .panic m
    | .fuel => .fuel
/-- The loop of `equalMaps` over the entries of `m1`, in iteration order. -/
def equalMapsLoop : GoMap → GoMap → Result Bool
  | [], _ => .ok true
  | (key, val) :: m1, m2 =>
    match mapLookup m2 key with
    | none => .ok false
    | some other =>
      match checkEquality val other with
      | .ok equal => if !equal then .ok false else equalMapsLoop m1 m2
      | .error err => .error err
      | .panic m => .panic m
      | .fuel => .fuel
end

/-- `equalLists(lst1, lst2)`. -/
def equalLists (lst1 lst2 : List Value) : Result Bool :=
  if lst1.length ≠ lst2.length then .ok false else equalListsLoop lst1 lst2

/-- `equalMaps(m1, m2)`. -/
def equalMaps (m1 m2 : GoMap) : Result Bool :=
  if m1.length ≠ m2.length then .ok false else equalMapsLoop m1 m2

/-- The primitive `=`: `equal(e, a)`. -/
def equal (a : List Value) : Result Bool :=
  match a with
  | val1 :: val2 :: _ => checkEquality val1 val2
  | _ => .error (.new "not enough arguments to equal".toList)

/-- An atom, a built-in function or a closure. -/
def isAtomOrFunc : Value → Bool
  | .atom _ _ => true
  | .stdFunc _ _ => true
  | .extFunc _ _ _ _ _ _ => true
  | _ => false

/-- The first pair of elements of `l` and `v`, at the same position, that does
not compare as equal compares to `out`: the pairs before it are equal under
`checkEquality`, and `checkEquality` on the pair gives `out`. -/
def FirstUnequal (l v : List Value) (out : Result Bool) : Prop :=
  ∃ l1 x l2 v1 y v2, l = l1 ++ x :: l2 ∧ v = v1 ++ y :: v2 ∧
    List.Forall₂ (fun a b => checkEquality a b = .ok true) l1 v1 ∧ checkEquality x y = out

/-- The `float64` value 1. -/
def one : Float64 := ⟨0x3FF0000000000000⟩
/-- The `float64` value 2. -/
def two : Float64 := ⟨0x4000000000000000⟩
/-- The `float64` value 3. -/
def three : Float64 := ⟨0x4008000000000000⟩

/-- A maximal run of symbol characters in the input `inp`: `t` is not empty,
holds only characters of the last alternative of the pattern, does not start
with a special character, and stands in `inp` right before the end or a
character that the last alternative excludes. -/
def SymbolRun (inp t : GoString) : Prop :=
  t ≠ [] ∧ (∀ c ∈ t, isSymChar c = true) ∧ (∀ c, t.head? = some c → isSpecial c = false) ∧
    ∃ pre post, inp = pre ++ t ++ post ∧ ∀ c, post.head? = some c → isSymChar c = false

/-- The single left-to-right pass of the specification over the body of a
string token: each escape pair (backslash-backslash, backslash-quote,
backslash-n) is replaced by its character and the scan goes on after the pair,
so that no output is read again. -/
def unescapeOnePass : GoString → GoString
  | [] => []
  | [c] => [c]
  | c :: d :: rest =>
    if c = '\\' ∧ d = '\\' then '\\' :: unescapeOnePass rest
    else if c = '\\' ∧ d = '"' then '"' :: unescapeOnePass rest
    else if c = '\\' ∧ d = 'n' then '\n' :: unescapeOnePass rest
    else c :: unescapeOnePass (d :: rest)

/-- One left-to-right pass that rewrites the pairs `rule` accepts. -/
def rewritePairs (rule : Char → Char → Option Char) : GoString → GoString
  | [] => []
  | [c] => [c]
  | c :: d :: rest =>
    match rule c d with
    | some x => x :: rewritePairs rule rest
    | none => c :: rewritePairs rule (d :: rest)

/-- A rule on pairs that only fires after a backslash. -/
def afterBackslash (f : Char → Option Char) (c d : Char) : Option Char :=
  if c = '\\' then f d else none

/-- The text the printer writes for one character of a string in readable mode. -/
def escapeChar (c : Char) : GoString :=
  if c = '\\' then ['\\', '\\'] else if c = '"' then ['\\', '"']
  else if c = '\n' then ['\\', 'n'] else [c]

/-- The library functions used in the worked examples: they agree with Go on
the numbers 0, 1, 2 and 3 (`ParseFloat("1")` is 1, `Sprintf("%v", 1.0)` is `1`,
and so on), the only numbers the examples contain. -/
def exampleLib : GoLib where
  ParseFloat := fun token =>
    if token = "1".toList then one else if token = "2".toList then two
    else if token = "3".toList then three else ⟨0⟩
  Sprintf := fun x =>
    if x = one then "1".toList else if x = two then "2".toList
    else if x = three then "3".toList else "0".toList

/-- A reading function that, when it succeeds, leaves fewer tokens. -/
def Consumes (F : reader → Result (Value × reader)) : Prop :=
  ∀ rdr v rdr', F rdr = .ok (v, rdr') → rdr'.tokens.length < rdr.tokens.length

/-- `G` returns what `F` returns wherever `F` does not run out of budget. -/
def Extends (F G : reader → Result (Value × reader)) : Prop :=
  ∀ rdr, F rdr ≠ .fuel → G rdr = F rdr

/-- `F` does not run out of budget on a reader with fewer than `L` tokens. -/
def NoFuel (F : reader → Result (Value × reader)) (L : Nat) : Prop :=
  ∀ rdr, rdr.tokens.length < L → F rdr ≠ .fuel

/-- `rdr.form()` returns the value `v` and leaves the reader `rdr'`. -/
def Reads (lib : GoLib) (rdr : reader) (v : Value) (rdr' : reader) : Prop :=
  ∃ k, reader.formFuel lib k rdr = .ok (v, rdr')

/-- Successive calls of `rdr.form()` return the values `vs`, one after the
other, and leave the reader `rdr'`. -/
inductive ReadsAll (lib : GoLib) : reader → List Value → reader → Prop
  | nil (rdr : reader) : ReadsAll lib rdr [] rdr
  | cons {rdr r1 rdr' : reader} {v : Value} {vs : List Value} :
    Reads lib rdr v r1 → ReadsAll lib r1 vs rdr' → ReadsAll lib rdr (v :: vs) rdr'

/-- A closing bracket. -/
def isCloser (t : GoString) : Prop := t = ")".toList ∨ t = "]".toList ∨ t = "\x7d".toList

/-- The forms paired as key, value, key, value, ... -/
def pairUp : List Value → List (Value × Value)
  | key :: val :: rest => (key, val) :: pairUp rest
  | _ => []

/-- The map that holds the given pairs, assigned one after the other. -/
def mapOfPairs (pairs : List (Value × Value)) : GoMap :=
  pairs.foldl (fun m kv => mapAssign m kv.1 kv.2) []

/-- An opening bracket. -/
def isOpener (t : GoString) : Prop := t = "(".toList ∨ t = "[".toList ∨ t = "\x7b".toList

/-- A reader macro that wraps the next form. -/
def isModifier (t : GoString) : Prop :=
  t = "'".toList ∨ t = "`".toList ∨ t = "~".toList ∨ t = "~@".toList ∨ t = "@".toList

/-- The tokens of the reader start a list, vector or hash-map whose closing
bracket is missing: after the opening bracket come complete forms and then the
end of the input, or a form that is itself unterminated; such a form may also
stand behind a reader macro. -/
inductive Unterminated (lib : GoLib) : reader → Prop
  | missing (o : GoString) (ts : List GoString) (h : Nat) (vs : List Value) (rdr' : reader) :
    isOpener o → ReadsAll lib ⟨ts, h + 1⟩ vs rdr' → rdr'.tokens = [] →
    Unterminated lib ⟨o :: ts, h⟩
  | inner (o : GoString) (ts : List GoString) (h : Nat) (vs : List Value) (rdr' : reader) :
    isOpener o → ReadsAll lib ⟨ts, h + 1⟩ vs rdr' → Unterminated lib rdr' →
    Unterminated lib ⟨o :: ts, h⟩
  | modifier (m : GoString) (ts : List GoString) (h : Nat) :
    isModifier m → Unterminated lib ⟨ts, h⟩ → Unterminated lib ⟨m :: ts, h⟩
  | metaFirst (ts : List GoString) (h : Nat) :
    Unterminated lib ⟨ts, h⟩ → Unterminated lib ⟨"^".toList :: ts, h⟩
  | metaSecond (ts : List GoString) (h : Nat) (M : Value) (rdr1 : reader) :
    Reads lib ⟨ts, h⟩ M rdr1 → Unterminated lib rdr1 → Unterminated lib ⟨"^".toList :: ts, h⟩

/-- A token of the last alternative of the pattern that stands on its own: a
non-empty run of symbol characters that does not start with a special
character. -/
def isRun (t : GoString) : Bool :=
  match t with
  | [] => false
  | c :: _ => !isSpecial c && t.all isSymChar

/-- A text that `atom` reads as the symbol of that name. -/
def isSymbolToken (s : GoString) : Bool :=
  isRun s && s != "nil".toList && s != "true".toList && s != "false".toList &&
    s.head? != some ':' && !numberPattern s

/-- The keys admitted in a hash-map that is printed and read back: the values
that are no pointers. -/
def isMapKey : Value → Bool
  | .nil => true
  | .bool _ => true
  | .number _ => true
  | .str _ => true
  | .symbol _ => true
  | .keyword _ => true
  | _ => false

/-- No two keys of the map are equal under Go's `==` (true of every Go map). -/
def keysDistinct : GoMap → Bool
  | [] => true
  | (k, _) :: rest => rest.all (fun e => !goEq k e.1) && keysDistinct rest

mutual
/-- The values whose readable printing the reader reads back: data without
atoms and functions, in which every number is printed as a decimal literal that
parses back to an equal number, no string holds the sentinel, every symbol and
keyword name is a token of its kind, and every hash-map key is nil, a boolean,
a number, a string, a symbol or a keyword. -/
def printable (lib : GoLib) : Value → Bool
  | .nil => true
  | .bool _ => true
  | .number x =>
    numberPattern (lib.Sprintf x) && Float64.eq (lib.ParseFloat (lib.Sprintf x)) x
  | .str s => !s.contains sentinel
  | .symbol s => isSymbolToken s
  | .keyword s => s.all isSymChar
  | .list _ forms _ => printableAll lib forms
  | .vector _ forms _ => printableAll lib forms
  | .hashmap _ forms _ => printableEntries lib forms && keysDistinct forms
  | .atom _ _ => false
  | .stdFunc _ _ => false
  | .extFunc _ _ _ _ _ _ => false
/-- All values of a list are `printable`. -/
def printableAll (lib : GoLib) : List Value → Bool
  | [] => true
  | v :: vs => printable lib v && printableAll lib vs
/-- All keys are admitted keys and all keys and values are `printable`. -/
def printableEntries (lib : GoLib) : GoMap → Bool
  | [] => true
  | (k, v) :: rest =>
    isMapKey k && printable lib k && printable lib v && printableEntries lib rest
end

mutual
/-- The tokens of the readable printing of a value. -/
def toks (lib : GoLib) : Value → List GoString
  | .nil => ["nil".toList]
  | .bool b => [if b then "true".toList else "false".toList]
  | .number x => [lib.Sprintf x]
  | .str s => ['"' :: (s.flatMap escapeChar ++ ['"'])]
  | .symbol s => [s]
  | .keyword s => [':' :: s]
  | .list _ forms _ => "(".toList :: (toksAll lib forms ++ [")".toList])
  | .vector _ forms _ => "[".toList :: (toksAll lib forms ++ ["]".toList])
  | .hashmap _ forms _ => "\x7b".toList :: (toksEntries lib forms ++ ["\x7d".toList])
  | .atom _ _ => []
  | .stdFunc _ _ => []
  | .extFunc _ _ _ _ _ _ => []
/-- The tokens of the printings of the values of a list. -/
def toksAll (lib : GoLib) : List Value → List GoString
  | [] => []
  | v :: vs => toks lib v ++ toksAll lib vs
/-- The tokens of the printings of the keys and values of a map. -/
def toksEntries (lib : GoLib) : GoMap → List GoString
  | [] => []
  | (k, v) :: rest => toks lib k ++ (toks lib v ++ toksEntries lib rest)
end

/-- Text before which a run of symbol characters ends. -/
def Delimited (rest : List Char) : Prop := ∀ c, rest.head? = some c → isSymChar c = false

/-- Two keys that Go's `==` does not tell apart from any third value. -/
def KeyEquiv (a b : Value) : Prop := ∀ w, goEq a w = goEq b w ∧ goEq w a = goEq w b

/-- The relation between the entries read back and the entries printed. -/
def EntriesMatch (m' m : GoMap) : Prop :=
  List.Forall₂ (fun e' e => KeyEquiv e'.1 e.1 ∧ checkEquality e'.2 e.2 = .ok true ∧
    checkEquality e.2 e'.2 = .ok true) m' m

/-- The value read back equals the value printed, in both argument orders of
`checkEquality`; a map key is read back as a key that Go's `==` identifies with
it. -/
def ReadBack (v' v : Value) : Prop :=
  checkEquality v' v = .ok true ∧ checkEquality v v' = .ok true ∧
    (isMapKey v = true → KeyEquiv v' v)

/-! ## Environments (`env/env.go`) -/

/-- `env.Env`: the bindings of one frame (`data`) and the address of the
enclosing frame (`outer`), absent for the root. -/
structure Env where
  data : List (GoString × Value)
  outer : Option Nat

/-- The Go function held by the field `Fn` of a `StdFunc`: a function of
`core.go`, under the name it has there, or the closure that
`eval(defaultEnv)` of `namespace.go` returns. -/
inductive GoFn
  | core (name : GoString)
  | eval (defaultEnv : Nat)

/-- The Go heap, as far as the evaluator reads or writes it.

* `envs`: the frames; the address of a frame is its index and a new frame is
  added at the end.
* `heap`: the next free address for the other objects (lists, closures, ...).
* `macros`: the closures whose field `IsMacro` was set after they were made.
* `atoms`: the atoms assigned to after they were made, with their content.
* `fns`: the Go function of each `StdFunc` object.

A `Value` carries the content its object had when the value was made; the
fields that the program assigns to later (`Atom.Val`, `ExtFunc.IsMacro`) are
read through `atoms` and `macros`. -/
structure Store where
  envs : List Env
  heap : Nat
  macros : List Nat
  atoms : List (Nat × Value)
  fns : List (Nat × GoFn)

/-- A Go `error` met by the evaluator: an error of the host program or the
value thrown by the program under evaluation (`types.UserError`). -/
inductive GoError
  | native (e : Error)
  | UserError (val : Value)

/-- `err.Error()` of an error made by `errors.New` or `fmt.Errorf`. -/
def Error.text : Error → GoString
  | .ErrUnderflow => "EOF underflow error: more input expected".toList
  | .new msg => msg

/-- `err.Error()`. -/
def GoError.Error : GoError → GoString
  | .native e => e.text
  | .UserError _ => "User Error".toList

/-- Outcome of a call returning `(value, error)` that may change the heap.
The heap after the call comes with the value; with an error comes the value
that the source returns next to it (`nil` at most places, and read again only
by `swap`). A panic ends the program. -/
inductive Outcome (α : Type)
  | ok (val : α) (σ : Store)
  | error (err : GoError) (val : α) (σ : Store)
  | panic (msg : GoString)
  | fuel

/-- Sequencing `v, err := call; if err != nil \x7b return nil, err \x7d; ...`: the rest
of the function runs when the call returned no error, and an error is handed
on with the zero value. -/
def Outcome.bind {α β : Type} [Inhabited β] (x : Outcome α) (f : α → Store → Outcome β) :
    Outcome β :=
  match x with
  | .ok val σ => f val σ
  | .error err _ σ => .error err default σ
  | .panic msg => .panic msg
  | .fuel => .fuel

/-- The return `return nil, errors.New(msg)` (or `fmt.Errorf(msg)`). -/
def Outcome.fail {α : Type} [Inhabited α] (msg : String) (σ : Store) : Outcome α :=
  .error (.native (.new msg.toList)) default σ

/-- Decimal digits of a number, as `%d` prints it. -/
def natStr (n : Nat) : GoString := Nat.toDigits 10 n

/-- Text of the panic for `s[i]` with `i ≥ len(s)`. -/
def indexPanic (i len : Nat) : GoString :=
  "runtime error: index out of range [".toList ++ natStr i ++ "] with length ".toList ++ natStr len

/-- The name of the dynamic type of a value, as a failed type assertion prints it. -/
def typeName : Value → GoString
  | .nil => "nil".toList
  | .bool _ => "bool".toList
  | .number _ => "float64".toList
  | .str _ => "string".toList
  | .symbol _ => "types.Symbol".toList
  | .keyword _ => "types.Keyword".toList
  | .list _ _ _ => "*types.List".toList
  | .vector _ _ _ => "*types.Vector".toList
  | .hashmap _ _ _ => "*types.Hashmap".toList
  | .atom _ _ => "*types.Atom".toList
  | .stdFunc _ _ => "*types.StdFunc".toList
  | .extFunc _ _ _ _ _ _ => "*types.ExtFunc".toList

/-- Text of the panic for a failed type assertion `v.(T)`. -/
def conversionPanic (v : Value) (target : String) : GoString :=
  "interface conversion: types.Base is ".toList ++ typeName v ++ ", not ".toList ++
    target.toList

/-- Allocation of one object other than a frame. -/
def Store.alloc (σ : Store) : Nat × Store := (σ.heap, { σ with heap := σ.heap + 1 })

/-- `types.NewList(forms...)`. -/
def NewList (forms : List Value) (σ : Store) : Value × Store :=
  (.list σ.heap forms .nil, { σ with heap := σ.heap + 1 })

namespace Env

/-- The lookup `value, ok := data[key]` in a `map[string]Base`. -/
def lookup : List (GoString × Value) → GoString → Option Value
  | [], _ => none
  | (k, v) :: rest, key => if k = key then some v else lookup rest key

/-- The assignment `data[key] = value`. -/
def assign : List (GoString × Value) → GoString → Value → List (GoString × Value)
  | [], key, value => [(key, value)]
  | (k, v) :: rest, key, value =>
    if k = key then (key, value) :: rest else (k, v) :: assign rest key value

/-- The recursion of `e.Find(key)` over the frames `envs`; `fuel` bounds the
number of frames visited. -/
def findLoop (envs : List Env) : Nat → Nat → GoString → Option Nat
  | 0, _, _ => none
  | fuel + 1, e, key =>
    match envs[e]? with
    | none => none
    | some env =>
      if (lookup env.data key).isSome then some e
      else
        match env.outer with
        | some outer => findLoop envs fuel outer key
        | none => none

/-- `e.Find(key)`: the address of the nearest frame, from `e` outward, that
binds `key`, or `none` for Go's `nil`. The enclosing frame of a frame is made
before it and has a smaller address, so `e + 1` bounds the frames visited. -/
def Find (σ : Store) (e : Nat) (key : GoString) : Option Nat :=
  findLoop σ.envs (e + 1) e key

/-- `e.Set(key, value)`, for the address `e` of a frame of the heap. -/
def Set (σ : Store) (e : Nat) (key : GoString) (value : Value) : Store :=
  match σ.envs[e]? with
  | some env => { σ with envs := σ.envs.set e { env with data := assign env.data key value } }
  | none => σ

/-- `e.Get(key)`. -/
def Get (σ : Store) (e : Nat) (key : GoString) : Result Value :=
  match Find σ e key with
  | none => .error (.new ("'".toList ++ key ++ "' not found".toList))
  | some env =>
    match σ.envs[env]? with
    | some frame => .ok ((lookup frame.data key).getD .nil)
    | none => .ok .nil

/-- The loop of `New` over `binds`, from index `i` on, filling the frame `env`. -/
def newLoop (env : Nat) (exprs : List Value) : List Value → Nat → Store → Outcome Nat
  | [], _, σ => .ok env σ
  | bind :: rest, i, σ =>
    match bind with
    | .symbol key =>
      if key = "&".toList then
        match rest with
        | [] => .panic (indexPanic (i + 1) (i + 1))
        | .symbol name :: _ =>
          if exprs.length < i then
            .panic ("runtime error: slice bounds out of range [".toList ++ natStr i ++ ":".toList ++
              natStr exprs.length ++ "]".toList)
          else
            let (lst, σ) := NewList (exprs.drop i) σ
            .ok env (Set σ env name lst)
        | v :: _ => .panic (conversionPanic v "types.Symbol")
      else
        match exprs[i]? with
        | some value => newLoop env exprs rest (i + 1) (Set σ env key value)
        | none => .panic (indexPanic i exprs.length)
    | _ => .fail "non-symbol bind value" σ

/-- `env.New(outer, binds, exprs)`: the address of the new frame. -/
def New (σ : Store) (outer : Option Nat) (binds exprs : List Value) : Outcome Nat :=
  newLoop σ.envs.length exprs binds 0 { σ with envs := σ.envs ++ [⟨[], outer⟩] }

/-- `e.Child(binds, exprs)`. -/
def Child (σ : Store) (e : Nat) (binds exprs : List Value) : Outcome Nat :=
  New σ (some e) binds exprs

end Env

/-! ## Evaluator (`runtime/runtime.go`) -/

/-- `isPair(val)`: the forms of a list or vector, and whether there is one. -/
def isPair (val : Value) : List Value × Bool :=
  match asCollection val with
  | none => ([], false)
  | some data => (data, decide (0 < data.length))

/-- The body of `evalQuasiQuote` once `isPair(object)` gave the non-empty
`pair = head :: tail`. The two recursive calls are passed in: `onHead` is
`evalQuasiQuote(e, pair[0])` and `onTail` is
`evalQuasiQuote(e, types.NewList(pair[1:]...))`, each taking the next free
address. -/
def quasiQuotePair (onHead onTail : Nat → Result (Value × Nat)) (head : Value)
    (tail : List Value) (heap : Nat) : Result (Value × Nat) :=
  let cons : Result (Value × Nat) :=
    match onHead heap with
    | .ok (first, heap) =>
      match onTail heap with
      | .ok (rest, heap) => .ok (.list heap [.symbol "cons".toList, first, rest] .nil, heap + 1)
      | .error e => .error e
      | .panic m => .panic m
      | .fuel => .fuel
    | .error e => .error e
    | .panic m => .panic m
    | .fuel => .fuel
  let unquoted : Bool :=
    match head with
    | .symbol sym => sym = "unquote".toList
    | _ => false
  if unquoted then
    match tail with
    | operand :: _ => .ok (operand, heap)
    | [] => .panic (indexPanic 1 1)
  else
    match isPair head with
    | (.symbol sym :: nextTail, true) =>
      if sym = "splice-unquote".toList then
        match nextTail with
        | operand :: _ =>
          match onTail heap with
          | .ok (rest, heap) =>
            .ok (.list heap [.symbol "concat".toList, operand, rest] .nil, heap + 1)
          | .error e => .error e
          | .panic m => .panic m
          | .fuel => .fuel
        | [] => .panic (indexPanic 1 1)
      else cons
    | _ => cons

mutual
/-- `evalQuasiQuote(e, object)`, run with the next free address `heap`: the
rewritten form and the next free address afterwards. The source does not use
the frame `e`. -/
def evalQuasiQuote : Value → Nat → Result (Value × Nat)
  | .list _ (head :: tail) _, heap =>
    quasiQuotePair (evalQuasiQuote head) (quasiQuoteList tail) head tail heap
  | .vector _ (head :: tail) _, heap =>
    quasiQuotePair (evalQuasiQuote head) (quasiQuoteList tail) head tail heap
  | object, heap => .ok (.list heap [.symbol "quote".toList, object] .nil, heap + 1)

/-- The call `evalQuasiQuote(e, types.NewList(forms...))`: the list is
allocated, then rewritten. -/
def quasiQuoteList : List Value → Nat → Result (Value × Nat)
  | [], heap =>
    .ok (.list (heap + 1) [.symbol "quote".toList, .list heap [] .nil] .nil, heap + 2)
  | head :: tail, heap =>
    quasiQuotePair (evalQuasiQuote head) (quasiQuoteList tail) head tail (heap + 1)
end

/-- What a function of the host program may call back into: `runtime.Eval` and
`types.CallFunc`. -/
structure Caps where
  Eval : Store → Nat → Value → Outcome Value
  CallFunc : Store → Nat → Value → List Value → Outcome Value

/-- A Go function of type `func(Env, []Base) (Base, error)`, run on a heap. -/
abbrev StdFn := Caps → Store → Nat → List Value → Outcome Value

/-- What the evaluator and the functions of `core.go` take from outside the
repository: the conversions between numbers and text, `%v` of `fmt` on a value,
the arithmetic of `float64`, and the functions of `core.go` that read or write
files, the terminal or the clock (`hostFn`, by the name of the Go function). -/
structure Host where
  lib : GoLib
  Sprint : Value → GoString
  add : Float64 → Float64 → Float64
  sub : Float64 → Float64 → Float64
  mul : Float64 → Float64 → Float64
  div : Float64 → Float64 → Float64
  toInt : Float64 → Int
  ofNat : Nat → Float64
  hostFn : GoString → StdFn

/-- One turn of the loop of `Eval`: it returns, or goes round again with a new
frame and a new object. -/
inductive Step
  | ret (out : Outcome Value)
  | loop (σ : Store) (e : Nat) (object : Value)

/-- The current value of the field `IsMacro` of a closure. -/
def Store.IsMacro (σ : Store) (ptr : Nat) (isMacro : Bool) : Bool :=
  isMacro || σ.macros.contains ptr

/-- The current value of the field `Val` of an atom. -/
def Store.Val (σ : Store) (ptr : Nat) (val : Value) : Value :=
  (σ.atoms.lookup ptr).getD val

/-- `evalListForms(values, env)`, with `Eval` passed in. With an error the
source returns the forms evaluated so far, then what the failing call returned,
then `nil` for the forms not reached. -/
def evalListForms (Eval : Store → Nat → Value → Outcome Value) :
    List Value → Store → Nat → Outcome (List Value)
  | [], σ, _ => .ok [] σ
  | form :: rest, σ, env =>
    match Eval σ env form with
    | .ok value σ =>
      match evalListForms Eval rest σ env with
      | .ok values σ => .ok (value :: values) σ
      | .error err values σ => .error err (value :: values) σ
      | .panic msg => .panic msg
      | .fuel => .fuel
    | .error err value σ => .error err (value :: rest.map fun _ => Value.nil) σ
    | .panic msg => .panic msg
    | .fuel => .fuel

/-- `evalAST(env, ast)`. -/
def evalAST (Eval : Store → Nat → Value → Outcome Value) (σ : Store) (env : Nat)
    (ast : Value) : Outcome Value :=
  match ast with
  | .symbol tobject =>
    match Env.Get σ env tobject with
    | .ok symVal => .ok symVal σ
    | .error err => .error (.native err) .nil σ
    | .panic msg => .panic msg
    | .fuel => .fuel
  | .list _ forms _ =>
    match evalListForms Eval forms σ env with
    | .ok lst σ => .ok (.list σ.heap lst .nil) { σ with heap := σ.heap + 1 }
    | .error err lst σ => .error err (.list σ.heap lst .nil) { σ with heap := σ.heap + 1 }
    | .panic msg => .panic msg
    | .fuel => .fuel
  | .vector _ forms _ =>
    match evalListForms Eval forms σ env with
    | .ok lst σ => .ok (.vector σ.heap lst .nil) { σ with heap := σ.heap + 1 }
    | .error err lst σ => .error err (.vector σ.heap lst .nil) { σ with heap := σ.heap + 1 }
    | .panic msg => .panic msg
    | .fuel => .fuel
  | .hashmap _ forms _ =>
    (evalListForms Eval (ToList forms) σ env).bind fun lst σ =>
      match NewHashmap lst [] σ.heap with
      | .ok (hm, heap) => .ok hm { σ with heap := heap }
      | .error err => .error (.native err) .nil σ
      | .panic msg => .panic msg
      | .fuel => .fuel
  | _ => .ok ast σ

/-- `fn.Apply(arguments)` of a closure; `fn.eval` is always `runtime.Eval`. -/
def Apply (Eval : Store → Nat → Value → Outcome Value) (σ : Store) (fn : Value)
    (arguments : List Value) : Outcome Value :=
  match fn with
  | .extFunc _ ast params env _ _ =>
    (Env.Child σ env params arguments).bind fun newEnv σ => Eval σ newEnv ast
  | _ => .panic "runtime error: invalid memory address or nil pointer dereference".toList

/-- `isMacroCall(e, ast)`: the second result. -/
def isMacroCall (σ : Store) (e : Nat) (ast : Value) : Bool :=
  match ast with
  | .list _ (.symbol sym :: _) _ =>
    match Env.Get σ e sym with
    | .ok (.extFunc ptr _ _ _ isMacro _) => σ.IsMacro ptr isMacro
    | _ => false
  | _ => false

/-- `macroExpand(e, ast)`; `fuel` bounds the turns of its loop. -/
def macroExpand (Eval : Store → Nat → Value → Outcome Value) :
    Nat → Store → Nat → Value → Outcome Value
  | 0, _, _, _ => .fuel
  | fuel + 1, σ, e, ast =>
    if isMacroCall σ e ast then
      match ast with
      | .list _ (.symbol sym :: args) _ =>
        match Env.Get σ e sym with
        | .ok val => (Apply Eval σ val args).bind fun ast σ => macroExpand Eval fuel σ e ast
        | _ => .panic "runtime error: invalid memory address or nil pointer dereference".toList
      | _ => .panic "runtime error: invalid memory address or nil pointer dereference".toList
    else .ok ast σ

/-- `evalDef(e, args...)`. -/
def evalDef (Eval : Store → Nat → Value → Outcome Value) (σ : Store) (e : Nat)
    (args : List Value) : Outcome Value :=
  match args with
  | name :: expr :: _ =>
    match name with
    | .symbol name =>
      match Eval σ e expr with
      | .ok value σ => .ok value (Env.Set σ e name value)
      | out => out
    | _ => .fail "non-symbol bind value" σ
  | _ => .fail "not enough arguments" σ

/-- `evalDefMacro(e, args...)`. -/
def evalDefMacro (Eval : Store → Nat → Value → Outcome Value) (σ : Store) (e : Nat)
    (args : List Value) : Outcome Value :=
  (evalDef Eval σ e args).bind fun val σ =>
    match val with
    | .extFunc ptr ast params env _ meta =>
      .ok (.extFunc ptr ast params env true meta) { σ with macros := ptr :: σ.macros }
    | _ => .fail "non-func value passed to defmacro" σ

/-- The `for` loop of `evalLet`: `evalDef(newEnv, definitions[i:]...)` for
`i = 0, 2, 4, ...`. -/
def letLoop (Eval : Store → Nat → Value → Outcome Value) (newEnv : Nat) :
    List Value → Store → Outcome Unit
  | [], σ => .ok () σ
  | [name], σ => (evalDef Eval σ newEnv [name]).bind fun _ σ => .ok () σ
  | name :: expr :: rest, σ =>
    (evalDef Eval σ newEnv (name :: expr :: rest)).bind fun _ σ => letLoop Eval newEnv rest σ

/-- `evalLet(e, args...)`: the object and the frame the loop of `Eval` goes on with. -/
def evalLet (Eval : Store → Nat → Value → Outcome Value) (σ : Store) (e : Nat)
    (args : List Value) : Outcome (Value × Nat) :=
  match args with
  | bindings :: body :: _ =>
    (Env.Child σ e [] []).bind fun newEnv σ =>
      match asCollection bindings with
      | some definitions =>
        (letLoop Eval newEnv definitions σ).bind fun _ σ => .ok (body, newEnv) σ
      | none => .fail "invalid let* environment definition" σ
  | _ => .fail "not enough arguments for  let* call" σ

/-- `evalDo(e, args...)`. -/
def evalDo (Eval : Store → Nat → Value → Outcome Value) (σ : Store) (e : Nat)
    (args : List Value) : Outcome Value :=
  match args.getLast? with
  | none => .panic "runtime error: slice bounds out of range [:-1]".toList
  | some last =>
    let (lst, σ) := NewList args.dropLast σ
    (evalAST Eval σ e lst).bind fun _ σ => .ok last σ

/-- `evalBool(e, condition)`. -/
def evalBool (Eval : Store → Nat → Value → Outcome Value) (σ : Store) (e : Nat)
    (condition : Value) : Outcome Bool :=
  (Eval σ e condition).bind fun value σ =>
    match value with
    | .bool tVal => .ok tVal σ
    | .nil => .ok false σ
    | _ => .ok true σ

/-- `evalIf(e, args...)`. -/
def evalIf (Eval : Store → Nat → Value → Outcome Value) (σ : Store) (e : Nat)
    (args : List Value) : Outcome Value :=
  match args with
  | cond :: thenForm :: rest =>
    (evalBool Eval σ e cond).bind fun condition σ =>
      if condition then .ok thenForm σ
      else
        match rest with
        | elseForm :: _ => .ok elseForm σ
        | [] => .ok .nil σ
  | _ => .fail "improperly formatted if statement" σ

/-- `evalTry(e, args...)`. -/
def evalTry (Eval : Store → Nat → Value → Outcome Value) (σ : Store) (e : Nat)
    (args : List Value) : Outcome Value :=
  match args with
  | [] => .fail "not enough arguments" σ
  | expr :: more =>
    let run (handler : Option (GoString × Value)) : Outcome Value :=
      match Eval σ e expr with
      | .error evalErr val σ =>
        match handler with
        | some (name, body) =>
          let exprs : List Value :=
            match evalErr with
            | .UserError val => [val]
            | .native err => [.str err.text]
          (Env.Child σ e [.symbol name] exprs).bind fun newEnv σ => Eval σ newEnv body
        | none => .error evalErr val σ
      | out => out
    match more with
    | [] => run none
    | clause :: _ =>
      match isPair clause with
      | (catch0 :: catchRest, true) =>
        match catchRest with
        | [] => .panic (indexPanic 1 1)
        | catch1 :: catchRest =>
          match catch0, catch1, catchRest with
          | .symbol catchSym, .symbol name, body :: _ =>
            if catchSym = "catch*".toList then run (some (name, body))
            else .fail "invalid catch declaration" σ
          | _, _, _ => .fail "invalid catch declaration" σ
      | _ => run none

/-- `types.NewFunc(env, eval, args...)`. With an error the source returns a nil
`*ExtFunc`, which as a `types.Base` is not the nil interface; it is taken here
as `nil`. The two differ only for a caller that keeps the value that comes
with an error, which is `swap!` alone. -/
def NewFunc (σ : Store) (env : Nat) (args : List Value) : Outcome Value :=
  match args with
  | params :: body :: _ =>
    match asCollection params with
    | some params => .ok (.extFunc σ.heap body params env false .nil) { σ with heap := σ.heap + 1 }
    | none => .fail "invalid fn* param declaration" σ
  | _ => .fail "improperly formatted fn* statement" σ

/-! ## Primitives (`core/core.go`, `core/namespace.go`) -/

namespace core

/-- `assertArgNum(a, expectedLen)` failing. -/
def wrongNumber {α : Type} [Inhabited α] (σ : Store) : Outcome α :=
  .fail "wrong number of arguments" σ

/-- The body shared by `add`, `sub`, `mul` and `div`: `a[0].(float64) op a[1].(float64)`. -/
def arith (op : Float64 → Float64 → Float64) : StdFn := fun _ σ _ a =>
  match a with
  | [x, y] =>
    match x with
    | .number x =>
      match y with
      | .number y => .ok (.number (op x y)) σ
      | v => .panic (conversionPanic v "float64")
    | v => .panic (conversionPanic v "float64")
  | _ => wrongNumber σ

/-- `add(e, a)`. -/
def add (H : Host) : StdFn := arith H.add

/-- `sub(e, a)`. -/
def sub (H : Host) : StdFn := arith H.sub

/-- `mul(e, a)`. -/
def mul (H : Host) : StdFn := arith H.mul

/-- `div(e, a)`. -/
def div (H : Host) : StdFn := arith H.div

/-- `equal(e, a)`, the primitive `=`. -/
def equalFn : StdFn := fun _ σ _ a =>
  match equal a with
  | .ok b => .ok (.bool b) σ
  | .error err => .error (.native err) (.bool false) σ
  | .panic msg => .panic msg
  | .fuel => .fuel

/-- `list(e, a)`. -/
def list : StdFn := fun _ σ _ a => .ok (NewList a σ).1 (NewList a σ).2

/-- `cons(e, a)`. -/
def cons : StdFn := fun _ σ _ a =>
  match a with
  | [x, col] =>
    match asCollection col with
    | some data => .ok (NewList (x :: data) σ).1 (NewList (x :: data) σ).2
    | none => .fail "cannot cons a non list" σ
  | _ => wrongNumber σ

/-- The loop of `concat`: the forms of the collections `a`, one after the
other, or `none` when an argument is not a collection. -/
def concatLoop : List Value → List Value → Option (List Value)
  | [], final => some final
  | elm :: rest, final =>
    match asCollection elm with
    | some data => concatLoop rest (final ++ data)
    | none => none

/-- `concat(e, a)`. -/
def concat : StdFn := fun _ σ _ a =>
  match concatLoop a [] with
  | some final => .ok (NewList final σ).1 (NewList final σ).2
  | none => .fail "cannot cons a non list" σ

/-- `nth(e, a)`. -/
def nth (H : Host) : StdFn := fun _ σ _ a =>
  match a with
  | [col, n] =>
    match asCollection col with
    | none => .fail "cannot get the nth part of non collection" σ
    | some data =>
      match n with
      | .number n =>
        if (data.length : Int) ≤ H.toInt n then .fail "index out of bounds" σ
        else
          match H.toInt n with
          | .ofNat i => .ok (data.getD i .nil) σ
          | .negSucc i => .panic ("runtime error: index out of range [-".toList ++ natStr (i + 1) ++ "]".toList)
      | _ => .fail "invalid value to index on collection" σ
  | _ => wrongNumber σ

/-- `first(e, a)`. -/
def first : StdFn := fun _ σ _ a =>
  match a with
  | [col] =>
    match asCollection col with
    | some (x :: _) => .ok x σ
    | _ => .ok .nil σ
  | _ => .ok .nil σ

/-- `rest(e, a)`. -/
def rest : StdFn := fun _ σ _ a =>
  match a with
  | [col] =>
    match asCollection col with
    | some (_ :: data) => .ok (NewList data σ).1 (NewList data σ).2
    | _ => .ok (NewList [] σ).1 (NewList [] σ).2
  | _ => wrongNumber σ

/-- `throw(e, a)`. -/
def throw : StdFn := fun _ σ _ a =>
  match a with
  | [] => .fail "standard error" σ
  | val :: _ => .error (.UserError val) .nil σ

/-- `atom(e, a)`. -/
def atom : StdFn := fun _ σ _ a =>
  match a with
  | [val] => .ok (.atom σ.heap val) { σ with heap := σ.heap + 1 }
  | _ => wrongNumber σ

/-- `deref(e, a)`. -/
def deref : StdFn := fun _ σ _ a =>
  match a with
  | [.atom ptr val] => .ok (σ.Val ptr val) σ
  | [_] => .fail "value is not atom" σ
  | _ => wrongNumber σ

/-- The assignment `atom.Val = value`. -/
def setVal (σ : Store) (ptr : Nat) (value : Value) : Store :=
  { σ with atoms := (ptr, value) :: σ.atoms }

/-- `reset(e, a)`. -/
def reset : StdFn := fun _ σ _ a =>
  match a with
  | [.atom ptr _, value] => .ok value (setVal σ ptr value)
  | [_, _] => .fail "value is not atom" σ
  | _ => wrongNumber σ

/-- `swap(e, a)`. -/
def swap : StdFn := fun c σ e a =>
  match a with
  | target :: fn :: more =>
    match target with
    | .atom ptr val =>
      match c.CallFunc σ e fn (σ.Val ptr val :: more) with
      | .ok value σ => .ok value (setVal σ ptr value)
      | .error err value σ => .error err value (setVal σ ptr value)
      | .panic msg => .panic msg
      | .fuel => .fuel
    | _ => .fail "value is not atom" σ
  | _ => wrongNumber σ

/-- `meta(e, a)`. -/
def meta : StdFn := fun _ σ _ a =>
  match a with
  | [val] =>
    match val with
    | .list _ _ meta => .ok meta σ
    | .vector _ _ meta => .ok meta σ
    | .hashmap _ _ meta => .ok meta σ
    | .stdFunc _ meta => .ok meta σ
    | .extFunc _ _ _ _ _ meta => .ok meta σ
    | _ => .ok .nil σ
  | _ => wrongNumber σ

/-- `withmeta(e, a)`. -/
def withmeta : StdFn := fun _ σ _ a =>
  match a with
  | [val, meta] =>
    match val with
    | .list _ forms _ => .ok (.list σ.heap forms meta) σ.alloc.2
    | .vector _ forms _ => .ok (.vector σ.heap forms meta) σ.alloc.2
    | .hashmap _ forms _ =>
      .ok (.hashmap σ.heap (newHashmapLoop [] (ToList forms) []) meta) σ.alloc.2
    | .stdFunc ptr _ =>
      .ok (.stdFunc σ.heap meta)
        { σ.alloc.2 with fns := match σ.fns.lookup ptr with
                                | some fn => (σ.heap, fn) :: σ.fns
                                | none => σ.fns }
    | .extFunc ptr ast params env isMacro _ =>
      .ok (.extFunc σ.heap ast params env (σ.IsMacro ptr isMacro) meta) σ.alloc.2
    | _ => .fail "invalid data type for metadata" σ
  | _ => wrongNumber σ

/-- `istrue(e, a)`. -/
def istrue : StdFn := fun _ σ _ a =>
  match a with
  | [.bool val] => .ok (.bool val) σ
  | [_] => .ok (.bool false) σ
  | _ => wrongNumber σ

/-- `isfalse(e, a)`. -/
def isfalse : StdFn := fun _ σ _ a =>
  match a with
  | [.bool val] => .ok (.bool !val) σ
  | [_] => .ok (.bool true) σ
  | _ => wrongNumber σ

/-- `isnil(e, a)`. -/
def isnil : StdFn := fun _ σ _ a =>
  match a with
  | [.nil] => .ok (.bool true) σ
  | [_] => .ok (.bool false) σ
  | _ => wrongNumber σ

/-- `slurp(e, a)`: the argument is indexed and tested, the file is read by the host. -/
def slurp (H : Host) : StdFn := fun c σ e a =>
  match a with
  | [] => .panic (indexPanic 0 0)
  | .str _ :: _ => H.hostFn "slurp".toList c σ e a
  | _ :: _ => .fail "cannot read source from non-string path" σ

/-- `readString(e, a)`. With an error of the reader the source hands on the
value that `reader.ReadString` returns next to it (a list `(quote nil)` after
a lone quote mark, for instance); `Result` keeps no value with an error, and
`nil` stands for it here. The two differ only for a caller that keeps the
value that comes with an error, which is `swap!` alone. -/
def readString (H : Host) : StdFn := fun _ σ _ a =>
  match a with
  | [.str source] =>
    match ReadString H.lib source σ.heap with
    | .ok (v, heap) => .ok v { σ with heap := heap }
    | .error err => .error (.native err) .nil σ
    | .panic msg => .panic msg
    | .fuel => .fuel
  | [_] => .fail "cannot read source from non-string" σ
  | _ => wrongNumber σ

/-- The closure made by `eval(defaultEnv)` in `namespace.go`. -/
def eval (defaultEnv : Nat) : StdFn := fun c σ _ a =>
  match a with
  | [] => .ok .nil σ
  | ast :: _ => c.Eval σ defaultEnv ast

/-- `apply(e, a)`. -/
def apply : StdFn := fun c σ e a =>
  match a with
  | fn :: arg :: more =>
    c.CallFunc σ e fn
      ((arg :: more).foldl (fun final val => final ++ (asCollection val).getD [val]) [])
  | _ => .fail "not enough arugments" σ

/-- The Go function behind a `StdFunc`: the functions of `core.go` embedded
above, by their Go names, and the host's for the others. -/
def Fn (H : Host) : GoFn → StdFn
  | .eval defaultEnv => eval defaultEnv
  | .core name =>
    if name = "add".toList then add H
    else if name = "sub".toList then sub H
    else if name = "mul".toList then mul H
    else if name = "div".toList then div H
    else if name = "equal".toList then equalFn
    else if name = "list".toList then list
    else if name = "cons".toList then cons
    else if name = "concat".toList then concat
    else if name = "nth".toList then nth H
    else if name = "first".toList then first
    else if name = "rest".toList then rest
    else if name = "throw".toList then throw
    else if name = "atom".toList then atom
    else if name = "deref".toList then deref
    else if name = "reset".toList then reset
    else if name = "swap".toList then swap
    else if name = "meta".toList then meta
    else if name = "withmeta".toList then withmeta
    else if name = "istrue".toList then istrue
    else if name = "isfalse".toList then isfalse
    else if name = "isnil".toList then isnil
    else if name = "slurp".toList then slurp H
    else if name = "readString".toList then readString H
    else if name = "apply".toList then apply
    else H.hostFn name

end core

/-- The call `fn.Fn(e, arguments)` of the `StdFunc` at address `ptr`. -/
def callStd (H : Host) (c : Caps) (σ : Store) (e : Nat) (ptr : Nat) (arguments : List Value) :
    Outcome Value :=
  match σ.fns.lookup ptr with
  | some fn => core.Fn H fn c σ e arguments
  | none => .panic "runtime error: invalid memory address or nil pointer dereference".toList

/-- `types.CallFunc(e, baseFn, arguments)`; the calls made from inside the
function go to `c`. -/
def CallFunc (H : Host) (c : Caps) (σ : Store) (e : Nat) (baseFn : Value)
    (arguments : List Value) : Outcome Value :=
  match baseFn with
  | .stdFunc ptr _ => callStd H c σ e ptr arguments
  | .extFunc _ _ _ _ _ _ => Apply c.Eval σ baseFn arguments
  | _ => .error (.native (.new ("attempt to call non-function ".toList ++ H.Sprint baseFn))) .nil σ

/-- The head of a non-empty list as the switch of `Eval` sees it:
`sym, _ := tobject.Forms[0].(types.Symbol)`, the empty text for a head that is
not a symbol. -/
def headSymbol : Value → GoString
  | .symbol sym => sym
  | _ => []

/-- The turn of the loop of `Eval` on a non-empty list `tobject` with forms
`head :: args`, after macro expansion. The calls of `Eval` and of `CallFunc`
made during the turn go to `c`; `fuel` bounds the loop of `macroExpand`. -/
def evalList (H : Host) (c : Caps) (fuel : Nat) (σ : Store) (e : Nat) (tobject head : Value)
    (args : List Value) : Step :=
  let sym := headSymbol head
  if sym = "try*".toList then
    match evalTry c.Eval σ e args with
    | .ok object σ => .loop σ e object
    | .error err _ σ => .ret (.error err .nil σ)
    | .panic msg => .ret (.panic msg)
    | .fuel => .ret .fuel
  else if sym = "quote".toList then
    match args with
    | [] => .ret (.ok .nil σ)
    | form :: _ => .ret (.ok form σ)
  else if sym = "quasiquote".toList then
    match args with
    | [] => .ret (.panic (indexPanic 1 1))
    | form :: _ =>
      match evalQuasiQuote form σ.heap with
      | .ok (object, heap) => .loop { σ with heap := heap } e object
      | .error err => .ret (.error (.native err) .nil σ)
      | .panic msg => .ret (.panic msg)
      | .fuel => .ret .fuel
  else if sym = "do".toList then
    match evalDo c.Eval σ e args with
    | .ok object σ => .loop σ e object
    | .error err _ σ => .ret (.error err .nil σ)
    | .panic msg => .ret (.panic msg)
    | .fuel => .ret .fuel
  else if sym = "if".toList then
    match evalIf c.Eval σ e args with
    | .ok object σ => .loop σ e object
    | .error err _ σ => .ret (.error err .nil σ)
    | .panic msg => .ret (.panic msg)
    | .fuel => .ret .fuel
  else if sym = "defmacro!".toList then .ret (evalDefMacro c.Eval σ e args)
  else if sym = "macroexpand".toList then
    match args with
    | [] => .ret (.panic (indexPanic 1 1))
    | form :: _ => .ret (macroExpand c.Eval fuel σ e form)
  else if sym = "fn*".toList then .ret (NewFunc σ e args)
  else if sym = "def!".toList then .ret (evalDef c.Eval σ e args)
  else if sym = "let*".toList then
    match evalLet c.Eval σ e args with
    | .ok (object, newEnv) σ => .loop σ newEnv object
    | .error err _ σ => .ret (.error err .nil σ)
    | .panic msg => .ret (.panic msg)
    | .fuel => .ret .fuel
  else
    match evalAST c.Eval σ e tobject with
    | .ok lst σ =>
      match lst with
      | .list _ (fn :: arguments) _ =>
        match fn with
        | .stdFunc ptr _ => .ret (callStd H c σ e ptr arguments)
        | .extFunc _ ast params env _ _ =>
          match Env.Child σ env params arguments with
          | .ok newEnv σ => .loop σ newEnv ast
          | .error err _ σ => .ret (.error err .nil σ)
          | .panic msg => .ret (.panic msg)
          | .fuel => .ret .fuel
        | _ =>
          .ret (.error (.native (.new ("attempt to call non-function ".toList ++ H.Sprint fn)))
            .nil σ)
      | _ => .ret (.panic (indexPanic 0 0))
    | .error err _ σ => .ret (.error err .nil σ)
    | .panic msg => .ret (.panic msg)
    | .fuel => .ret .fuel

/-- One turn of the loop of `Eval`. -/
def evalStep (H : Host) (c : Caps) (fuel : Nat) (σ : Store) (e : Nat) (object : Value) : Step :=
  match macroExpand c.Eval fuel σ e object with
  | .ok object σ =>
    match object with
    | .list _ [] _ => .ret (.ok object σ)
    | .list _ (head :: args) _ => evalList H c fuel σ e object head args
    | _ => .ret (evalAST c.Eval σ e object)
  | .error err _ σ => .ret (.error err .nil σ)
  | .panic msg => .ret (.panic msg)
  | .fuel => .ret .fuel

/-- The loop of `Eval`, for at most `n` turns; the calls made during a turn go
to `c`. -/
def evalLoop (H : Host) (c : Caps) : Nat → Store → Nat → Value → Outcome Value
  | 0, _, _, _ => .fuel
  | n + 1, σ, e, object =>
    match evalStep H c (n + 1) σ e object with
    | .ret out => out
    | .loop σ e object => evalLoop H c n σ e object

/-- `runtime.Eval` and `types.CallFunc` as recursive functions: `depth` bounds
the nesting of the calls of `Eval` (the depth of the Go stack, counted in calls
of `Eval`), `turns` the turns of the loop in each of them. -/
def capsFuel (H : Host) : Nat → Nat → Caps
  | 0, _ => ⟨fun _ _ _ => .fuel, fun _ _ _ _ => .fuel⟩
  | depth + 1, turns =>
    ⟨evalLoop H (capsFuel H depth turns) turns, CallFunc H (capsFuel H depth turns)⟩

/-- `runtime.Eval(e, object)` on the heap `σ`. -/
def Eval (H : Host) (depth turns : Nat) (σ : Store) (e : Nat) (object : Value) :
    Outcome Value :=
  (capsFuel H depth turns).Eval σ e object

/-! ## Frames along a chain -/

/-- The chain of frames from the frame at address `e` outward to a root: each
frame's `outer` is the address of the next one. A frame is made after the
frame it encloses, so its `outer` is a smaller address. -/
inductive Chain (σ : Store) : Nat → List Env → Prop
  | root (e : Nat) (env : Env) : σ.envs[e]? = some env → env.outer = none → Chain σ e [env]
  | frame (e outer : Nat) (env : Env) (frames : List Env) :
    σ.envs[e]? = some env → env.outer = some outer → outer < e → Chain σ outer frames →
    Chain σ e (env :: frames)

/-- The value bound to `key` in the first frame of the list that binds it. -/
def nearest : List Env → GoString → Option Value
  | [], _ => none
  | env :: frames, key =>
    match Env.lookup env.data key with
    | some value => some value
    | none => nearest frames key

/-- The assignments `e.Set(key, value)` for the pairs of a list, in order. -/
def Env.bindAll (env : Nat) (σ : Store) (pairs : List (GoString × Value)) : Store :=
  pairs.foldl (fun σ p => Env.Set σ env p.1 p.2) σ

/-- The value paired with the last occurrence of `key` in a list of pairs. -/
def lastBinding : List (GoString × Value) → GoString → Option Value
  | [], _ => none
  | (k, v) :: rest, key =>
    match lastBinding rest key with
    | some w => some w
    | none => if k = key then some v else none

/-! ## The default namespace (`core/namespace.go`) and worked examples -/

/-- The map `namespace` of `core.go`: the symbol of each primitive and the name
of the Go function behind it, in one order of iteration. -/
def core.namespace : List (String × String) :=
  [("+", "add"), ("-", "sub"), ("*", "mul"), ("/", "div"), ("=", "equal"),
   ("<", "lessThan"), ("<=", "lessThanEqual"), (">", "greaterThan"),
   (">=", "greaterThanEqual"), ("prn", "prn"), ("println", "prnln"), ("pr-str", "prnstr"),
   ("str", "str"), ("list", "list"), ("list?", "islist"), ("empty?", "isempty"),
   ("count", "count"), ("read-string", "readString"), ("slurp", "slurp"), ("atom", "atom"),
   ("atom?", "isatom"), ("deref", "deref"), ("reset!", "reset"), ("swap!", "swap"),
   ("cons", "cons"), ("concat", "concat"), ("nth", "nth"), ("first", "first"),
   ("rest", "rest"), ("throw", "throw"), ("apply", "apply"), ("map", "mapvals"),
   ("nil?", "isnil"), ("true?", "istrue"), ("false?", "isfalse"), ("symbol?", "issymbol"),
   ("symbol", "makesymbol"), ("keyword?", "iskeyword"), ("keyword", "makekeyword"),
   ("vector?", "isvector"), ("vector", "makevector"), ("map?", "ismap"),
   ("hash-map", "makemap"), ("assoc", "assoc"), ("dissoc", "dissoc"), ("get", "get"),
   ("contains?", "contains"), ("keys", "keys"), ("vals", "vals"),
   ("sequential?", "sequential"), ("readline", "rdline"), ("meta", "meta"),
   ("with-meta", "withmeta"), ("string?", "isstring"), ("number?", "isnumber"),
   ("fn?", "isfn"), ("macro?", "ismacro"), ("conj", "conj"), ("seq", "seq"),
   ("time-ms", "timems")]

/-- The heap when `DefaultNamespace` starts: the `StdFunc` objects of the map
`namespace` are there, the `i`-th at address `i`, and no frame. -/
def core.initStore : Store where
  envs := []
  heap := core.namespace.length
  macros := []
  atoms := []
  fns := core.namespace.enum.map fun p => (p.1, GoFn.core p.2.2.toList)

/-- `ev(e, source)` of `namespace.go`: the source is read and evaluated by the
primitive bound to `eval`; an error of either step panics. -/
def core.ev (H : Host) (depth turns : Nat) (σ : Store) (e : Nat) (source : String) :
    Outcome Unit :=
  match core.readString H (capsFuel H depth turns) σ e [.str source.toList] with
  | .ok ast σ =>
    match Env.Get σ e "eval".toList with
    | .ok (.stdFunc ptr _) =>
      match callStd H (capsFuel H depth turns) σ e ptr [ast] with
      | .ok _ σ => .ok () σ
      | .error err _ _ => .panic err.Error
      | .panic msg => .panic msg
      | .fuel => .fuel
    | .ok v => .panic (conversionPanic v "*types.StdFunc")
    | .error err => .panic err.text
    | .panic msg => .panic msg
    | .fuel => .fuel
  | .error err _ _ => .panic err.Error
  | .panic msg => .panic msg
  | .fuel => .fuel

/-- The sources that `DefaultNamespace` evaluates, in order. -/
def core.bootstrap : List String :=
  ["(def! not (fn* (a) (if a false true)))",
   "(def! load-file (fn* (f) (eval (read-string (str \"(do \" (slurp f) \")\")))))",
   "(defmacro! cond (fn* (& xs) (if (> (count xs) 0) (list 'if (first xs) (if (> (count xs) 1) (nth xs 1) (throw \"odd number of forms to cond\")) (cons 'cond (rest (rest xs)))))))",
   "(def! *gensym-counter* (atom 0))",
   "(def! gensym (fn* [] (symbol (str \"G__\" (swap! *gensym-counter* (fn* [x] (+ 1 x)))))))",
   "(defmacro! or (fn* (& xs) (if (empty? xs) nil (if (= 1 (count xs)) (first xs) (let* (condvar (gensym)) `(let* (~condvar ~(first xs)) (if ~condvar ~condvar (or ~@(rest xs)))))))))"]

/-- `DefaultNamespace()`: the address of the root frame and the heap it leaves. -/
def core.DefaultNamespace (H : Host) (depth turns : Nat) : Outcome Nat :=
  (Env.New core.initStore none [] []).bind fun defaultEnv σ =>
    let σ := (core.namespace.enum).foldl
      (fun σ p => Env.Set σ defaultEnv p.2.1.toList (.stdFunc p.1 .nil)) σ
    let σ := Env.Set { σ with heap := σ.heap + 1, fns := (σ.heap, .eval defaultEnv) :: σ.fns }
      defaultEnv "eval".toList (.stdFunc σ.heap .nil)
    let σ := Env.Set σ defaultEnv "*host-language*".toList (.str "wot".toList)
    (core.bootstrap.foldl
      (fun (out : Outcome Unit) source =>
        out.bind fun _ σ => core.ev H depth turns σ defaultEnv source)
      (.ok () σ)).bind fun _ σ => .ok defaultEnv σ

/-- The number -1. -/
def minusOne : Float64 := ⟨0xBFF0000000000000⟩

/-- The host used in the worked examples. Its arithmetic agrees with Go's on
the numbers the examples contain (`1 + 1`, `1 + 2`, `2 + 1`, and the
conversion of -1, 0, 1, 2 and 3 to `int`); its `Sprint` is the printer, which
agrees with `%v` on numbers; its other functions are not called. -/
def exampleHost : Host where
  lib := exampleLib
  Sprint := fun v => Print exampleLib v true
  add := fun x y =>
    if x = one ∧ y = one then two
    else if (x = one ∧ y = two) ∨ (x = two ∧ y = one) then three else ⟨0⟩
  sub := fun _ _ => ⟨0⟩
  mul := fun _ _ => ⟨0⟩
  div := fun _ _ => ⟨0⟩
  toInt := fun x =>
    if x = one then 1 else if x = two then 2 else if x = three then 3
    else if x = minusOne then -1 else 0
  ofNat := fun n => if n = 1 then one else if n = 2 then two else if n = 3 then three else ⟨0⟩
  hostFn := fun _ _ σ _ _ => .ok .nil σ

/-- The heap that `DefaultNamespace` leaves on the example host, written out:
the root frame at address 0 with the primitives, `eval`, `*host-language*` and
the six definitions of the bootstrap sources. -/
def defaultStore : Store where
  envs := [⟨[("+".toList, (Value.stdFunc 0 Value.nil)),
      ("-".toList, (Value.stdFunc 1 Value.nil)),
      ("*".toList, (Value.stdFunc 2 Value.nil)),
      ("/".toList, (Value.stdFunc 3 Value.nil)),
      ("=".toList, (Value.stdFunc 4 Value.nil)),
      ("<".toList, (Value.stdFunc 5 Value.nil)),
      ("<=".toList, (Value.stdFunc 6 Value.nil)),
      (">".toList, (Value.stdFunc 7 Value.nil)),
      (">=".toList, (Value.stdFunc 8 Value.nil)),
      ("prn".toList, (Value.stdFunc 9 Value.nil)),
      ("println".toList, (Value.stdFunc 10 Value.nil)),
      ("pr-str".toList, (Value.stdFunc 11 Value.nil)),
      ("str".toList, (Value.stdFunc 12 Value.nil)),
      ("list".toList, (Value.stdFunc 13 Value.nil)),
      ("list?".toList, (Value.stdFunc 14 Value.nil)),
      ("empty?".toList, (Value.stdFunc 15 Value.nil)),
      ("count".toList, (Value.stdFunc 16 Value.nil)),
      ("read-string".toList, (Value.stdFunc 17 Value.nil)),
      ("slurp".toList, (Value.stdFunc 18 Value.nil)),
      ("atom".toList, (Value.stdFunc 19 Value.nil)),
      ("atom?".toList, (Value.stdFunc 20 Value.nil)),
      ("deref".toList, (Value.stdFunc 21 Value.nil)),
      ("reset!".toList, (Value.stdFunc 22 Value.nil)),
      ("swap!".toList, (Value.stdFunc 23 Value.nil)),
      ("cons".toList, (Value.stdFunc 24 Value.nil)),
      ("concat".toList, (Value.stdFunc 25 Value.nil)),
      ("nth".toList, (Value.stdFunc 26 Value.nil)),
      ("first".toList, (Value.stdFunc 27 Value.nil)),
      ("rest".toList, (Value.stdFunc 28 Value.nil)),
      ("throw".toList, (Value.stdFunc 29 Value.nil)),
      ("apply".toList, (Value.stdFunc 30 Value.nil)),
      ("map".toList, (Value.stdFunc 31 Value.nil)),
      ("nil?".toList, (Value.stdFunc 32 Value.nil)),
      ("true?".toList, (Value.stdFunc 33 Value.nil)),
      ("false?".toList, (Value.stdFunc 34 Value.nil)),
      ("symbol?".toList, (Value.stdFunc 35 Value.nil)),
      ("symbol".toList, (Value.stdFunc 36 Value.nil)),
      ("keyword?".toList, (Value.stdFunc 37 Value.nil)),
      ("keyword".toList, (Value.stdFunc 38 Value.nil)),
      ("vector?".toList, (Value.stdFunc 39 Value.nil)),
      ("vector".toList, (Value.stdFunc 40 Value.nil)),
      ("map?".toList, (Value.stdFunc 41 Value.nil)),
      ("hash-map".toList, (Value.stdFunc 42 Value.nil)),
      ("assoc".toList, (Value.stdFunc 43 Value.nil)),
      ("dissoc".toList, (Value.stdFunc 44 Value.nil)),
      ("get".toList, (Value.stdFunc 45 Value.nil)),
      ("contains?".toList, (Value.stdFunc 46 Value.nil)),
      ("keys".toList, (Value.stdFunc 47 Value.nil)),
      ("vals".toList, (Value.stdFunc 48 Value.nil)),
      ("sequential?".toList, (Value.stdFunc 49 Value.nil)),
      ("readline".toList, (Value.stdFunc 50 Value.nil)),
      ("meta".toList, (Value.stdFunc 51 Value.nil)),
      ("with-meta".toList, (Value.stdFunc 52 Value.nil)),
      ("string?".toList, (Value.stdFunc 53 Value.nil)),
      ("number?".toList, (Value.stdFunc 54 Value.nil)),
      ("fn?".toList, (Value.stdFunc 55 Value.nil)),
      ("macro?".toList, (Value.stdFunc 56 Value.nil)),
      ("conj".toList, (Value.stdFunc 57 Value.nil)),
      ("seq".toList, (Value.stdFunc 58 Value.nil)),
      ("time-ms".toList, (Value.stdFunc 59 Value.nil)),
      ("eval".toList, (Value.stdFunc 60 Value.nil)),
      ("*host-language*".toList, (Value.str "wot".toList)),
      ("not".toList,
        (Value.extFunc 65
          (Value.list 64
            [(Value.symbol "if".toList),
             (Value.symbol "a".toList),
             (Value.bool false),
             (Value.bool true)]
            Value.nil)
          [(Value.symbol "a".toList)] 0 false Value.nil)),
      ("load-file".toList,
        (Value.extFunc 73
          (Value.list 69
            [(Value.symbol "eval".toList),
             (Value.list 70
               [(Value.symbol "read-string".toList),
                (Value.list 71
                  [(Value.symbol "str".toList),
                   (Value.str "(do ".toList),
                   (Value.list 72
                     [(Value.symbol "slurp".toList),
                      (Value.symbol "f".toList)]
                     Value.nil),
                   (Value.str ")".toList)]
                  Value.nil)]
               Value.nil)]
            Value.nil)
          [(Value.symbol "f".toList)] 0 false Value.nil)),
      ("cond".toList,
        (Value.extFunc 92
          (Value.list 77
            [(Value.symbol "if".toList),
             (Value.list 78
               [(Value.symbol ">".toList),
                (Value.list 79
                  [(Value.symbol "count".toList),
                   (Value.symbol "xs".toList)]
                  Value.nil),
                (Value.number ⟨0⟩)]
               Value.nil),
             (Value.list 80
               [(Value.symbol "list".toList),
                (Value.list 81
                  [(Value.symbol "quote".toList),
                   (Value.symbol "if".toList)]
                  Value.nil),
                (Value.list 82
                  [(Value.symbol "first".toList),
                   (Value.symbol "xs".toList)]
                  Value.nil),
                (Value.list 83
                  [(Value.symbol "if".toList),
                   (Value.list 84
                     [(Value.symbol ">".toList),
                      (Value.list 85
                        [(Value.symbol "count".toList),
                         (Value.symbol "xs".toList)]
                        Value.nil),
                      (Value.number ⟨4607182418800017408⟩)]
                     Value.nil),
                   (Value.list 86
                     [(Value.symbol "nth".toList),
                      (Value.symbol "xs".toList),
                      (Value.number ⟨4607182418800017408⟩)]
                     Value.nil),
                   (Value.list 87
                     [(Value.symbol "throw".toList),
                      (Value.str "odd number of forms to cond".toList)]
                     Value.nil)]
                  Value.nil),
                (Value.list 88
                  [(Value.symbol "cons".toList),
                   (Value.list 89
                     [(Value.symbol "quote".toList),
                      (Value.symbol "cond".toList)]
                     Value.nil),
                   (Value.list 90
                     [(Value.symbol "rest".toList),
                      (Value.list 91
                        [(Value.symbol "rest".toList),
                         (Value.symbol "xs".toList)]
                        Value.nil)]
                     Value.nil)]
                  Value.nil)]
               Value.nil)]
            Value.nil)
          [(Value.symbol "&".toList), (Value.symbol "xs".toList)] 0 false Value.nil)),
      ("*gensym-counter*".toList, (Value.atom 96 (Value.number ⟨0⟩))),
      ("gensym".toList,
        (Value.extFunc 108
          (Value.list 101
            [(Value.symbol "symbol".toList),
             (Value.list 102
               [(Value.symbol "str".toList),
                (Value.str "G__".toList),
                (Value.list 103
                  [(Value.symbol "swap!".toList),
                   (Value.symbol "*gensym-counter*".toList),
                   (Value.list 104
                     [(Value.symbol "fn*".toList),
                      (Value.vector 106 [(Value.symbol "x".toList)] Value.nil),
                      (Value.list 107
                        [(Value.symbol "+".toList),
                         (Value.number ⟨4607182418800017408⟩),
                         (Value.symbol "x".toList)]
                        Value.nil)]
                     Value.nil)]
                  Value.nil)]
               Value.nil)]
            Value.nil)
          [] 0 false Value.nil)),
      ("or".toList,
        (Value.extFunc 133
          (Value.list 112
            [(Value.symbol "if".toList),
             (Value.list 113
               [(Value.symbol "empty?".toList),
                (Value.symbol "xs".toList)]
               Value.nil),
             Value.nil,
             (Value.list 114
               [(Value.symbol "if".toList),
                (Value.list 115
                  [(Value.symbol "=".toList),
                   (Value.number ⟨4607182418800017408⟩),
                   (Value.list 116
                     [(Value.symbol "count".toList),
                      (Value.symbol "xs".toList)]
                     Value.nil)]
                  Value.nil),
                (Value.list 117
                  [(Value.symbol "first".toList),
                   (Value.symbol "xs".toList)]
                  Value.nil),
                (Value.list 118
                  [(Value.symbol "let*".toList),
                   (Value.list 119
                     [(Value.symbol "condvar".toList),
                      (Value.list 120 [(Value.symbol "gensym".toList)] Value.nil)]
                     Value.nil),
                   (Value.list 132
                     [(Value.symbol "quasiquote".toList),
                      (Value.list 121
                        [(Value.symbol "let*".toList),
                         (Value.list 122
                           [(Value.list 123
                              [(Value.symbol "unquote".toList),
                               (Value.symbol "condvar".toList)]
                              Value.nil),
                            (Value.list 125
                              [(Value.symbol "unquote".toList),
                               (Value.list 124
                                 [(Value.symbol "first".toList),
                                  (Value.symbol "xs".toList)]
                                 Value.nil)]
                              Value.nil)]
                           Value.nil),
                         (Value.list 126
                           [(Value.symbol "if".toList),
                            (Value.list 127
                              [(Value.symbol "unquote".toList),
                               (Value.symbol "condvar".toList)]
                              Value.nil),
                            (Value.list 128
                              [(Value.symbol "unquote".toList),
                               (Value.symbol "condvar".toList)]
                              Value.nil),
                            (Value.list 129
                              [(Value.symbol "or".toList),
                               (Value.list 131
                                 [(Value.symbol "splice-unquote".toList),
                                  (Value.list 130
                                    [(Value.symbol "rest".toList),
                                     (Value.symbol "xs".toList)]
                                    Value.nil)]
                                 Value.nil)]
                              Value.nil)]
                           Value.nil)]
                        Value.nil)]
                     Value.nil)]
                  Value.nil)]
               Value.nil)]
            Value.nil)
          [(Value.symbol "&".toList), (Value.symbol "xs".toList)] 0 false Value.nil))],
     none⟩]
  heap := 134
  macros := [133, 92]
  atoms := []
  fns := [(60, GoFn.eval 0),
    (0, GoFn.core "add".toList),
    (1, GoFn.core "sub".toList),
    (2, GoFn.core "mul".toList),
    (3, GoFn.core "div".toList),
    (4, GoFn.core "equal".toList),
    (5, GoFn.core "lessThan".toList),
    (6, GoFn.core "lessThanEqual".toList),
    (7, GoFn.core "greaterThan".toList),
    (8, GoFn.core "greaterThanEqual".toList),
    (9, GoFn.core "prn".toList),
    (10, GoFn.core "prnln".toList),
    (11, GoFn.core "prnstr".toList),
    (12, GoFn.core "str".toList),
    (13, GoFn.core "list".toList),
    (14, GoFn.core "islist".toList),
    (15, GoFn.core "isempty".toList),
    (16, GoFn.core "count".toList),
    (17, GoFn.core "readString".toList),
    (18, GoFn.core "slurp".toList),
    (19, GoFn.core "atom".toList),
    (20, GoFn.core "isatom".toList),
    (21, GoFn.core "deref".toList),
    (22, GoFn.core "reset".toList),
    (23, GoFn.core "swap".toList),
    (24, GoFn.core "cons".toList),
    (25, GoFn.core "concat".toList),
    (26, GoFn.core "nth".toList),
    (27, GoFn.core "first".toList),
    (28, GoFn.core "rest".toList),
    (29, GoFn.core "throw".toList),
    (30, GoFn.core "apply".toList),
    (31, GoFn.core "mapvals".toList),
    (32, GoFn.core "isnil".toList),
    (33, GoFn.core "istrue".toList),
    (34, GoFn.core "isfalse".toList),
    (35, GoFn.core "issymbol".toList),
    (36, GoFn.core "makesymbol".toList),
    (37, GoFn.core "iskeyword".toList),
    (38, GoFn.core "makekeyword".toList),
    (39, GoFn.core "isvector".toList),
    (40, GoFn.core "makevector".toList),
    (41, GoFn.core "ismap".toList),
    (42, GoFn.core "makemap".toList),
    (43, GoFn.core "assoc".toList),
    (44, GoFn.core "dissoc".toList),
    (45, GoFn.core "get".toList),
    (46, GoFn.core "contains".toList),
    (47, GoFn.core "keys".toList),
    (48, GoFn.core "vals".toList),
    (49, GoFn.core "sequential".toList),
    (50, GoFn.core "rdline".toList),
    (51, GoFn.core "meta".toList),
    (52, GoFn.core "withmeta".toList),
    (53, GoFn.core "isstring".toList),
    (54, GoFn.core "isnumber".toList),
    (55, GoFn.core "isfn".toList),
    (56, GoFn.core "ismacro".toList),
    (57, GoFn.core "conj".toList),
    (58, GoFn.core "seq".toList),
    (59, GoFn.core "timems".toList)]

/-- A heap with two frames for the worked examples: the root binds `x` to 1 and
`y` to 2, its child at address 1 binds `x` to 3. -/
def twoFrames : Store where
  envs := [⟨[("x".toList, .number one), ("y".toList, .number two)], none⟩,
           ⟨[("x".toList, .number three)], some 0⟩]
  heap := 0
  macros := []
  atoms := []
  fns := []

/-- The form the loop of `Eval` goes on with after the condition of an `if`
gave `v`: the `else` form (`nil` when there is none) for `nil` and `false`,
the `then` form for every other value. -/
def ifBranch (v thenForm : Value) (rest : List Value) : Value :=
  match v with
  | .nil => rest.headD .nil
  | .bool false => rest.headD .nil
  | _ => thenForm

/-- A closure (`*types.ExtFunc`). -/
def isClosure : Value → Bool
  | .extFunc _ _ _ _ _ _ => true
  | _ => false

/-- The first two steps of `rep` in `main.go`: the input is read and the form
evaluated in the frame `e`. -/
def readEval (H : Host) (depth turns : Nat) (σ : Store) (e : Nat) (inp : String) :
    Outcome Value :=
  match ReadString H.lib inp.toList σ.heap with
  | .ok (ast, heap) => Eval H depth turns { σ with heap := heap } e ast
  | .error err => .error (.native err) .nil σ
  | .panic msg => .panic msg
  | .fuel => .fuel

/-- The definitions `x1 e1 … xn en` of a `let*`, done in order in the frame
`newEnv`: each `ei` is evaluated in `newEnv` on the heap that the definitions
before it left, and `xi` is then bound there to its value. The last two
arguments are the heap before and the heap after. -/
inductive LetBinds (Eval : Store → Nat → Value → Outcome Value) (newEnv : Nat) :
    List Value → Store → Store → Prop
  | done (σ : Store) : LetBinds Eval newEnv [] σ σ
  | bind (name : GoString) (expr : Value) (rest : List Value) (σ : Store) (value : Value)
      (σ' σ'' : Store) :
    Eval σ newEnv expr = .ok value σ' →
    LetBinds Eval newEnv rest (Env.Set σ' newEnv name value) σ'' →
    LetBinds Eval newEnv (.symbol name :: expr :: rest) σ σ''

/-- The keys and the values of the entries of a hash-map form, evaluated in
order in the frame `env`: each entry's key and then its value, each on the heap
that the evaluation before left. The third argument is the list of the
results, pair by pair; the last is the heap after. -/
inductive EvalsEntries (Eval : Store → Nat → Value → Outcome Value) (env : Nat) :
    GoMap → Store → List (Value × Value) → Store → Prop
  | done (σ : Store) : EvalsEntries Eval env [] σ [] σ
  | entry (key expr : Value) (rest : GoMap) (σ : Store) (k : Value) (σ1 : Store) (v : Value)
      (σ2 : Store) (pairs : List (Value × Value)) (σ3 : Store) :
    Eval σ env key = .ok k σ1 → Eval σ1 env expr = .ok v σ2 →
    EvalsEntries Eval env rest σ2 pairs σ3 →
    EvalsEntries Eval env ((key, expr) :: rest) σ ((k, v) :: pairs) σ3

/-! ## The quasiquote rewrite of the specification -/

/-- The symbol `unquote`. -/
def isUnquote : Value → Bool
  | .symbol sym => sym = "unquote".toList
  | _ => false

/-- The forms that follow the symbol `splice-unquote` in a list or vector that
starts with it. -/
def spliceForm (head : Value) : Option (List Value) :=
  match asCollection head with
  | some (.symbol sym :: rest) => if sym = "splice-unquote".toList then some rest else none
  | _ => none

/-- The four rules of the quasiquote rewrite, as the specification words them,
`QuasiquoteRewrite x y` saying that `y` is a rewrite of `x`:
1. an `x` that is not a non-empty list or vector rewrites to `(quote x)`;
2. a sequence whose head is the symbol `unquote` rewrites to its second element;
3. a sequence whose head is a sequence starting with the symbol
   `splice-unquote` rewrites to `(concat A T)`, `A` the second element of the
   head and `T` a rewrite of the tail;
4. any other sequence rewrites to `(cons H T)`, `H` a rewrite of the head and
   `T` a rewrite of the tail.
The tail is a list whatever the sequence is. The lists a rewrite makes are new
objects: their addresses (`p`, `q`) are left open. -/
inductive QuasiquoteRewrite : Value → Value → Prop
  | quote (x : Value) (p : Nat) :
    (isPair x).2 = false → QuasiquoteRewrite x (.list p [.symbol "quote".toList, x] .nil)
  | unquote (x : Value) (head operand : Value) (rest : List Value) :
    isPair x = (head :: operand :: rest, true) → isUnquote head = true →
    QuasiquoteRewrite x operand
  | splice (x head : Value) (tail : List Value) (operand : Value) (more : List Value)
      (q p : Nat) (t : Value) :
    isPair x = (head :: tail, true) → isUnquote head = false →
    spliceForm head = some (operand :: more) → QuasiquoteRewrite (.list q tail .nil) t →
    QuasiquoteRewrite x (.list p [.symbol "concat".toList, operand, t] .nil)
  | cons (x head : Value) (tail : List Value) (q p : Nat) (h t : Value) :
    isPair x = (head :: tail, true) → isUnquote head = false → spliceForm head = none →
    QuasiquoteRewrite head h → QuasiquoteRewrite (.list q tail .nil) t →
    QuasiquoteRewrite x (.list p [.symbol "cons".toList, h, t] .nil)

mutual
/-- Each `unquote` and `splice-unquote` form that the rewrite of the value
meets has an operand. -/
def hasOperands : Value → Bool
  | .list _ forms _ => hasOperandsList forms
  | .vector _ forms _ => hasOperandsList forms
  | _ => true

/-- The same for a sequence given by its forms: a sequence that starts with
`unquote` has a second element; one whose head starts with `splice-unquote`
has a second element in that head, and its tail has its operands; otherwise
the head and the tail have their operands. -/
def hasOperandsList : List Value → Bool
  | [] => true
  | head :: tail =>
    if isUnquote head then !tail.isEmpty
    else
      match spliceForm head with
      | some more => !more.isEmpty && hasOperandsList tail
      | none => hasOperands head && hasOperandsList tail
end

/-- A value that is neither a symbol nor a list, vector or hash-map: `Eval`
returns it as it is. -/
def selfEvaluating : Value → Bool
  | .symbol _ => false
  | .list _ _ _ => false
  | .vector _ _ _ => false
  | .hashmap _ _ _ => false
  | _ => true

/-- The head symbols that the switch of `Eval` treats as special forms. -/
def specialForms : List GoString :=
  ["try*", "quote", "quasiquote", "do", "if", "defmacro!", "macroexpand", "fn*", "def!",
    "let*"].map String.toList

/-- The default namespace after
`(defmacro! unless (fn* (p a b) (list (quote if) p b a)))`. -/
def unlessStore : Store :=
  match readEval exampleHost 3 3 defaultStore 0
      "(defmacro! unless (fn* (p a b) (list (quote if) p b a)))" with
  | .ok _ σ => σ
  | _ => defaultStore

mutual
/-- No list or vector that the quasiquote rewrite of the value reaches (the
value, the heads of the sequences reached, and their tails) starts with the
symbol `unquote` or has a first element that starts with `splice-unquote`. -/
def noUnquote : Value → Bool
  | .list _ forms _ => noUnquoteList forms
  | .vector _ forms _ => noUnquoteList forms
  | _ => true

/-- The same for a sequence given by its forms. -/
def noUnquoteList : List Value → Bool
  | [] => true
  | head :: tail =>
    !isUnquote head && (spliceForm head).isNone && noUnquote head && noUnquoteList tail
end

/-- What the evaluation of a quasiquoted datum uses of the default namespace:
from the frame `e`, `cons` is bound to a built-in function whose Go function is
`cons`, and `quote` and `quasiquote` are not bound. -/
def QuasiquoteEnv (σ : Store) (e : Nat) : Prop :=
  (∃ p m, Env.Get σ e "cons".toList = .ok (.stdFunc p m) ∧
    σ.fns.lookup p = some (.core "cons".toList)) ∧
  Env.Find σ e "quote".toList = none ∧ Env.Find σ e "quasiquote".toList = none

/-- The number NaN (a quiet NaN). -/
def NaN : Float64 := ⟨0x7FF8000000000001⟩

/-- The rewrite of the datum `x` evaluates, from the frame `e` and on the heap
`σ` with any allocation counter, to a value equal to `x` under `=`: the loop of `Eval`
returns it within any positive number of turns, when the calls of `Eval` made
on the way have a depth budget of at least some `D`. -/
def RebuildsValue (H : Host) (σ : Store) (e : Nat) (x : Value) : Prop :=
  ∃ D, ∀ d, D ≤ d → ∀ n t h0, ∃ y h1, evalQuasiQuote x h0 = .ok (y, h1) ∧
    ∀ h, ∃ x' h', evalLoop H (capsFuel H d (n + 1)) (t + 1) { σ with heap := h } e y = .ok x' { σ with heap := h' } ∧
      checkEquality x' x = .ok true

/-- The rewrite of the list of the forms `forms` evaluates to a list of as many
forms, equal to `forms` one by one. -/
def RebuildsList (H : Host) (σ : Store) (e : Nat) (forms : List Value) : Prop :=
  ∃ D, ∀ d, D ≤ d → ∀ n t h0, ∃ y h1, quasiQuoteList forms h0 = .ok (y, h1) ∧
    ∀ h, ∃ p' forms' m' h',
      evalLoop H (capsFuel H d (n + 1)) (t + 1) { σ with heap := h } e y =
        .ok (.list p' forms' m') { σ with heap := h' } ∧
      forms'.length = forms.length ∧ equalListsLoop forms' forms = .ok true

/-- The same for the non-empty sequence `head :: tail`, rewritten by
`quasiQuotePair`. -/
def RebuildsPair (H : Host) (σ : Store) (e : Nat) (head : Value) (tail : List Value) : Prop :=
  ∃ D, ∀ d, D ≤ d → ∀ n t h0, ∃ y h1,
    quasiQuotePair (evalQuasiQuote head) (quasiQuoteList tail) head tail h0 = .ok (y, h1) ∧
    ∀ h, ∃ p' forms' m' h',
      evalLoop H (capsFuel H d (n + 1)) (t + 1) { σ with heap := h } e y =
        .ok (.list p' forms' m') { σ with heap := h' } ∧
      forms'.length = (head :: tail).length ∧
      equalListsLoop forms' (head :: tail) = .ok true

/-! ## A self-recursive closure in tail position -/

/-- The form `(if (first xs) (walk (rest xs)) :done)`, the body of the closure
`walk`; its four lists are at the addresses `q`, ..., `q + 3`. -/
def walkBody (q : Nat) : Value :=
  .list q [.symbol "if".toList,
    .list (q + 1) [.symbol "first".toList, .symbol "xs".toList] .nil,
    .list (q + 2) [.symbol "walk".toList,
      .list (q + 3) [.symbol "rest".toList, .symbol "xs".toList] .nil] .nil,
    .keyword "done".toList] .nil

/-- The closure `(fn* (xs) (if (first xs) (walk (rest xs)) :done))` made in the
root frame: it calls itself in tail position, once for each element of `xs`. -/
def walkFn (p q : Nat) : Value :=
  .extFunc p (walkBody q) [.symbol "xs".toList] 0 false .nil

/-- The form `(walk (quote items))`. -/
def walkCall (a b : Nat) (items : Value) : Value :=
  .list a [.symbol "walk".toList, .list b [.symbol "quote".toList, items] .nil] .nil

/-- The values that count as true in an `if`: all but `nil` and `false`. -/
def truthy : Value → Bool
  | .nil => false
  | .bool false => false
  | _ => true

/-- The root frame (address 0) binds `walk` to the closure `walkFn p q`, which
is no macro, and `first` and `rest` to the primitives of these names; it binds
neither `if` nor `quote`. -/
def WalkRoot (σ : Store) (p q : Nat) : Prop :=
  ∃ (root : Env) (pf pr : Nat) (mf mr : Value),
    σ.envs[0]? = some root ∧ root.outer = none ∧
    Env.lookup root.data "walk".toList = some (walkFn p q) ∧
    Env.lookup root.data "first".toList = some (.stdFunc pf mf) ∧
    Env.lookup root.data "rest".toList = some (.stdFunc pr mr) ∧
    Env.lookup root.data "if".toList = none ∧
    Env.lookup root.data "quote".toList = none ∧
    σ.fns.lookup pf = some (.core "first".toList) ∧
    σ.fns.lookup pr = some (.core "rest".toList) ∧
    σ.macros.contains p = false

/-- The frame `e` of a call of `walk`: enclosed by the root frame, it binds
`xs` to `arg` and nothing else. -/
def WalkFrame (σ : Store) (p q e : Nat) (arg : Value) : Prop :=
  WalkRoot σ p q ∧ 0 < e ∧ σ.envs[e]? = some ⟨[("xs".toList, arg)], some 0⟩

/-- The default namespace after
`(def! walk (fn* (xs) (if (first xs) (walk (rest xs)) :done)))`. -/
def walkStore : Store :=
  match readEval exampleHost 3 3 defaultStore 0
      "(def! walk (fn* (xs) (if (first xs) (walk (rest xs)) :done)))" with
  | .ok _ σ => σ
  | _ => defaultStore

/-- The form `(if (= n 0) acc (f (- n 1) (+ acc 1)))`, the body of the closure
`f` of the specification; `zero` and `one` are the numbers read from `0` and
`1`, and its five lists are at the addresses `q`, ..., `q + 4`. -/
def countBody (q : Nat) (zero one : Float64) : Value :=
  .list q [.symbol "if".toList,
    .list (q + 1) [.symbol "=".toList, .symbol "n".toList, .number zero] .nil,
    .symbol "acc".toList,
    .list (q + 2) [.symbol "f".toList,
      .list (q + 3) [.symbol "-".toList, .symbol "n".toList, .number one] .nil,
      .list (q + 4) [.symbol "+".toList, .symbol "acc".toList, .number one] .nil] .nil] .nil

/-- The closure `(fn* (n acc) (if (= n 0) acc (f (- n 1) (+ acc 1))))` made in
the root frame. -/
def countFn (p q : Nat) (zero one : Float64) : Value :=
  .extFunc p (countBody q zero one) [.symbol "n".toList, .symbol "acc".toList] 0 false .nil

/-- The form `(f n acc)` on two numbers. -/
def countCall (a : Nat) (n acc : Float64) : Value :=
  .list a [.symbol "f".toList, .number n, .number acc] .nil

/-- The root frame (address 0) binds `f` to the closure `countFn p q zero one`,
which is no macro, and `=`, `-` and `+` to the primitives `equal`, `sub` and
`add`; it does not bind `if`. -/
def CountRoot (σ : Store) (p q : Nat) (zero one : Float64) : Prop :=
  ∃ (root : Env) (pe ps pa : Nat) (me ms ma : Value),
    σ.envs[0]? = some root ∧ root.outer = none ∧
    Env.lookup root.data "f".toList = some (countFn p q zero one) ∧
    Env.lookup root.data "=".toList = some (.stdFunc pe me) ∧
    Env.lookup root.data "-".toList = some (.stdFunc ps ms) ∧
    Env.lookup root.data "+".toList = some (.stdFunc pa ma) ∧
    Env.lookup root.data "if".toList = none ∧
    σ.fns.lookup pe = some (.core "equal".toList) ∧
    σ.fns.lookup ps = some (.core "sub".toList) ∧
    σ.fns.lookup pa = some (.core "add".toList) ∧
    σ.macros.contains p = false

/-- The frame `e` of a call of `f`: enclosed by the root frame, it binds `n`
and `acc` to two numbers and nothing else. -/
def CountFrame (σ : Store) (p q : Nat) (zero one : Float64) (e : Nat) (x y : Float64) : Prop :=
  CountRoot σ p q zero one ∧ 0 < e ∧
    σ.envs[e]? = some ⟨[("n".toList, .number x), ("acc".toList, .number y)], some 0⟩

/-- What the closure `f` needs of the host's arithmetic: `num k` is the number
`k`, for `k` up to `K`; subtracting and adding the number 1 count down and up,
and only `num 0` is `==` to the number 0. -/
def Counts (H : Host) (num : Nat → Float64) (K : Nat) : Prop :=
  (∀ k, k < K → H.sub (num (k + 1)) (num 1) = num k) ∧
  (∀ k, k < K → H.add (num k) (num 1) = num (k + 1)) ∧
  (∀ k, k ≤ K → Float64.eq (num k) (num 0) = decide (k = 0))

/-- The `float64` that is the whole number `k`, for `k` below `2^53`: sign 0,
exponent field `1023 + ⌊log₂ k⌋`, and as fraction the bits of `k` below its
leading one. -/
def ofWhole (k : Nat) : Float64 :=
  if k = 0 then ⟨0⟩
  else ⟨(1023 + Nat.log 2 k) * 2 ^ 52 + (k - 2 ^ Nat.log 2 k) * 2 ^ (52 - Nat.log 2 k)⟩

/-- The whole part of a positive `float64` below `2^53`. -/
def toWhole (x : Float64) : Nat :=
  if x.expField = 0 then 0 else (2 ^ 52 + x.fracField) / 2 ^ (1075 - x.expField)

/-- The example host with the addition and subtraction of Go on the whole
numbers from 0 to `2^53 - 1`, where they are exact. -/
def wholeHost : Host :=
  { exampleHost with
    add := fun x y => ofWhole (toWhole x + toWhole y)
    sub := fun x y => ofWhole (toWhole x - toWhole y) }

/-- The default namespace after
`(def! f (fn* (n acc) (if (= n 0) acc (f (- n 1) (+ acc 1)))))`. -/
def countStore : Store :=
  match readEval wholeHost 3 3 defaultStore 0
      "(def! f (fn* (n acc) (if (= n 0) acc (f (- n 1) (+ acc 1)))))" with
  | .ok _ σ => σ
  | _ => defaultStore

/-! ## Plain data -/

/-- A string or a keyword: the keys of a hash-map of plain data. -/
def isStringKey : Value → Bool
  | .str _ => true
  | .keyword _ => true
  | _ => false

mutual
/-- The values built from nil, booleans, numbers, strings, symbols, keywords,
lists, vectors and hash-maps keyed by strings or keywords; as in every Go map,
no two keys of a hash-map are equal. -/
def isData : Value → Bool
  | .nil => true
  | .bool _ => true
  | .number _ => true
  | .str _ => true
  | .symbol _ => true
  | .keyword _ => true
  | .list _ forms _ => isDataAll forms
  | .vector _ forms _ => isDataAll forms
  | .hashmap _ forms _ => isDataEntries forms && keysDistinct forms
  | _ => false
/-- All the values of the list are plain data. -/
def isDataAll : List Value → Bool
  | [] => true
  | x :: rest => isData x && isDataAll rest
/-- All the keys are strings or keywords and all the values plain data. -/
def isDataEntries : GoMap → Bool
  | [] => true
  | (k, v) :: rest => isStringKey k && isData v && isDataEntries rest
end

mutual
/-- No number inside the value is a NaN. -/
def noNaN : Value → Bool
  | .number x => !x.isNaN
  | .list _ forms _ => noNaNAll forms
  | .vector _ forms _ => noNaNAll forms
  | .hashmap _ forms _ => noNaNEntries forms
  | _ => true
/-- No number inside the values of the list is a NaN. -/
def noNaNAll : List Value → Bool
  | [] => true
  | x :: rest => noNaN x && noNaNAll rest
/-- No number inside the keys and values of the map is a NaN. -/
def noNaNEntries : GoMap → Bool
  | [] => true
  | (k, v) :: rest => noNaN k && noNaN v && noNaNEntries rest
end

/-- The list `(1 {"k" [nil] :j true})`. -/
def exampleData : Value :=
  .list 1 [.number one,
    .hashmap 2 [(.str "k".toList, .vector 3 [.nil] .nil), (.keyword "j".toList, .bool true)]
      .nil] .nil

/-- The vector `[1 {:j true "k" (nil)}]`, the entries of the map in another
order. -/
def exampleData2 : Value :=
  .vector 4 [.number one,
    .hashmap 5 [(.keyword "j".toList, .bool true), (.str "k".toList, .list 6 [.nil] .nil)]
      .nil] .nil

/-! # Theorems -/

/-! ## Equality of lists, vectors, atoms and functions -/

theorem checkEquality_list (p : Nat) (l : List Value) (m val2 : Value) :
    checkEquality (.list p l m) val2 =
      match asCollection val2 with
      | none => .ok false
      | some other => equalLists l other := by
  simp only [checkEquality, equalLists]

theorem checkEquality_vector (p : Nat) (l : List Value) (m val2 : Value) :
    checkEquality (.vector p l m) val2 =
      match asCollection val2 with
      | none => .ok false
      | some other => equalLists l other := by
  simp only [checkEquality, equalLists]

theorem equalListsLoop_true_iff :
    ∀ l v : List Value, l.length = v.length →
      (equalListsLoop l v = .ok true ↔
        List.Forall₂ (fun x y => checkEquality x y = .ok true) l v)
  | [], [], _ => by simp [equalListsLoop]
  | [], _ :: _, h => by simp at h
  | _ :: _, [], h => by simp at h
  | x :: l, y :: v, h => by
    have ih := equalListsLoop_true_iff l v (by simpa using h)
    simp only [equalListsLoop, List.forall₂_cons]
    cases hxy : checkEquality x y with
    | ok b => cases b <;> simp [ih]
    | error e => simp
    | panic m => simp
    | fuel => simp

theorem equalLists_true_iff (l v : List Value) :
    equalLists l v = .ok true ↔ List.Forall₂ (fun x y => checkEquality x y = .ok true) l v := by
  unfold equalLists
  by_cases h : l.length = v.length
  · simp [h, equalListsLoop_true_iff l v h]
  · simp only [ne_eq, h, not_false_eq_true, ↓reduceIte]
    constructor
    · intro h'; cases h'
    · intro h'; exact absurd h'.length_eq h

theorem equalListsLoop_bool :
    ∀ l v : List Value, l.length = v.length →
      (∀ x ∈ l, ∀ y ∈ v, ∃ b, checkEquality x y = .ok b) →
      ∃ b, equalListsLoop l v = .ok b
  | [], _, _, _ => ⟨true, by simp [equalListsLoop]⟩
  | _ :: _, [], h, _ => by simp at h
  | x :: l, y :: v, h, hb => by
    obtain ⟨b, hxy⟩ := hb x (by simp) y (by simp)
    obtain ⟨b', ih⟩ := equalListsLoop_bool l v (by simpa using h)
      (fun x hx y hy => hb x (by simp [hx]) y (by simp [hy]))
    simp only [equalListsLoop, hxy]
    cases b <;> simp [ih]

theorem equalLists_bool (l v : List Value)
    (hb : ∀ x ∈ l, ∀ y ∈ v, ∃ b, checkEquality x y = .ok b) : ∃ b, equalLists l v = .ok b := by
  unfold equalLists
  by_cases h : l.length = v.length
  · simpa [h] using equalListsLoop_bool l v h hb
  · exact ⟨false, by simp [h]⟩

theorem equalListsLoop_first (l2 v2 : List Value) (x y : Value) :
    ∀ (l1 v1 : List Value), List.Forall₂ (fun a b => checkEquality a b = .ok true) l1 v1 →
      (checkEquality x y = .ok false →
        equalListsLoop (l1 ++ x :: l2) (v1 ++ y :: v2) = .ok false) ∧
      (∀ err, checkEquality x y = .error err →
        equalListsLoop (l1 ++ x :: l2) (v1 ++ y :: v2) = .error err)
  | [], [], _ => by
    constructor
    · intro h; simp [equalListsLoop, h]
    · intro err h; simp [equalListsLoop, h]
  | a :: l1, b :: v1, h => by
    have hab : checkEquality a b = .ok true := by
      cases h with
      | cons hab _ => exact hab
    have ht : List.Forall₂ (fun a b => checkEquality a b = .ok true) l1 v1 := by
      cases h with
      | cons _ ht => exact ht
    have ih := equalListsLoop_first l2 v2 x y l1 v1 ht
    constructor
    · intro hxy; simp [equalListsLoop, hab, ih.1 hxy]
    · intro err hxy; simp [equalListsLoop, hab, ih.2 err hxy]
  | [], _ :: _, h => by cases h
  | _ :: _, [], h => by cases h

/-- `equalLists` on two slices of the same length returns what the comparison
of the first pair that is not equal returns: false, or the error. -/
theorem equalLists_first (l v : List Value) (hlen : l.length = v.length) :
    (FirstUnequal l v (.ok false) → equalLists l v = .ok false) ∧
    (∀ err, FirstUnequal l v (.error err) → equalLists l v = .error err) := by
  constructor
  · rintro ⟨l1, x, l2, v1, y, v2, rfl, rfl, h12, hxy⟩
    simp only [equalLists, ne_eq, hlen, not_true_eq_false, if_false]
    exact (equalListsLoop_first l2 v2 x y l1 v1 h12).1 hxy
  · rintro err ⟨l1, x, l2, v1, y, v2, rfl, rfl, h12, hxy⟩
    simp only [equalLists, ne_eq, hlen, not_true_eq_false, if_false]
    exact (equalListsLoop_first l2 v2 x y l1 v1 h12).2 err hxy

mutual
/-- `checkEquality` returns a Bool or the error `invalid data type passed to
equal`. -/
theorem checkEquality_ok_or_error :
    ∀ a b : Value, (∃ r, checkEquality a b = .ok r) ∨
      checkEquality a b = .error (.new "invalid data type passed to equal".toList)
  | .nil, b => by cases b <;> simp [checkEquality]
  | .bool _, b => by cases b <;> simp [checkEquality]
  | .number _, b => by cases b <;> simp [checkEquality]
  | .str _, b => by cases b <;> simp [checkEquality]
  | .symbol _, b => by cases b <;> simp [checkEquality]
  | .keyword _, b => by cases b <;> simp [checkEquality]
  | .atom _ _, b => by cases b <;> simp [checkEquality]
  | .stdFunc _ _, b => by cases b <;> simp [checkEquality]
  | .extFunc _ _ _ _ _ _, b => by cases b <;> simp [checkEquality]
  | .list _ l _, b => by
    simp only [checkEquality]
    cases asCollection b with
    | none => exact Or.inl ⟨false, rfl⟩
    | some other =>
      by_cases h : l.length = other.length
      · simp only [ne_eq, h, not_true_eq_false, if_false]
        exact equalListsLoop_ok_or_error l other h
      · simp only [ne_eq, h, not_false_eq_true, if_true]
        exact Or.inl ⟨false, rfl⟩
  | .vector _ l _, b => by
    simp only [checkEquality]
    cases asCollection b with
    | none => exact Or.inl ⟨false, rfl⟩
    | some other =>
      by_cases h : l.length = other.length
      · simp only [ne_eq, h, not_true_eq_false, if_false]
        exact equalListsLoop_ok_or_error l other h
      · simp only [ne_eq, h, not_false_eq_true, if_true]
        exact Or.inl ⟨false, rfl⟩
  | .hashmap _ m1 _, b => by
    cases b with
    | hashmap q m2 m' =>
      simp only [checkEquality]
      by_cases h : m1.length = m2.length
      · simp only [ne_eq, h, not_true_eq_false, if_false]
        exact equalMapsLoop_ok_or_error m1 m2
      · simp only [ne_eq, h, not_false_eq_true, if_true]
        exact Or.inl ⟨false, rfl⟩
    | _ => simp [checkEquality]
/-- The loop of `equalLists` on two slices of the same length. -/
theorem equalListsLoop_ok_or_error :
    ∀ l v : List Value, l.length = v.length →
      (∃ r, equalListsLoop l v = .ok r) ∨
        equalListsLoop l v = .error (.new "invalid data type passed to equal".toList)
  | [], _, _ => Or.inl ⟨true, by simp [equalListsLoop]⟩
  | _ :: _, [], h => by simp at h
  | x :: l, y :: v, h => by
    simp only [equalListsLoop]
    rcases checkEquality_ok_or_error x y with ⟨r, hr⟩ | he
    · rw [hr]
      cases r with
      | false => exact Or.inl ⟨false, rfl⟩
      | true => simpa using equalListsLoop_ok_or_error l v (by simpa using h)
    · rw [he]
      exact Or.inr rfl
/-- The loop of `equalMaps`. -/
theorem equalMapsLoop_ok_or_error :
    ∀ m1 m2 : GoMap, (∃ r, equalMapsLoop m1 m2 = .ok r) ∨
      equalMapsLoop m1 m2 = .error (.new "invalid data type passed to equal".toList)
  | [], _ => Or.inl ⟨true, by simp [equalMapsLoop]⟩
  | (k, val) :: m1, m2 => by
    simp only [equalMapsLoop]
    cases mapLookup m2 k with
    | none => exact Or.inl ⟨false, rfl⟩
    | some other =>
      rcases checkEquality_ok_or_error val other with ⟨r, hr⟩ | he
      · simp only [hr]
        cases r with
        | false => exact Or.inl ⟨false, rfl⟩
        | true => simpa using equalMapsLoop_ok_or_error m1 m2
      · simp [he]
end

/-- Two slices of the same length are pairwise equal, or the first pair that
is not equal is unequal or fails to compare. -/
theorem equalLists_cases :
    ∀ l v : List Value, l.length = v.length →
      List.Forall₂ (fun a b => checkEquality a b = .ok true) l v ∨
      FirstUnequal l v (.ok false) ∨
      FirstUnequal l v (.error (.new "invalid data type passed to equal".toList))
  | [], [], _ => Or.inl List.Forall₂.nil
  | [], _ :: _, h => by simp at h
  | _ :: _, [], h => by simp at h
  | x :: l, y :: v, h => by
    rcases checkEquality_ok_or_error x y with ⟨r, hr⟩ | he
    · cases r with
      | false => exact Or.inr (Or.inl ⟨[], x, l, [], y, v, rfl, rfl, List.Forall₂.nil, hr⟩)
      | true =>
        rcases equalLists_cases l v (by simpa using h) with hall | hf | hf
        · exact Or.inl (List.Forall₂.cons hr hall)
        · obtain ⟨l1, a, l2, v1, b, v2, rfl, rfl, h12, hab⟩ := hf
          exact Or.inr (Or.inl ⟨x :: l1, a, l2, y :: v1, b, v2, rfl, rfl,
            List.Forall₂.cons hr h12, hab⟩)
        · obtain ⟨l1, a, l2, v1, b, v2, rfl, rfl, h12, hab⟩ := hf
          exact Or.inr (Or.inr ⟨x :: l1, a, l2, y :: v1, b, v2, rfl, rfl,
            List.Forall₂.cons hr h12, hab⟩)
    · exact Or.inr (Or.inr ⟨[], x, l, [], y, v, rfl, rfl, List.Forall₂.nil, he⟩)

/-- C9, counterexample: a list and a vector that both hold the same atom have
the same number of elements, yet `=` returns neither true nor false on them
but the error of comparing two atoms. -/
theorem equal_list_vector_of_atom_errors :
    equal [.list 0 [.atom 1 .nil] .nil, .vector 2 [.atom 1 .nil] .nil] =
      .error (.new "invalid data type passed to equal".toList) := by
  rfl

/-- C9, amended: on a list `l` and a vector `v`, in either order, `=` returns
true exactly when they have the same number of elements and the elements are
pairwise equal under `=`; it returns false when the lengths differ; and it
returns a Bool (so false in every remaining case) whenever comparing the
elements never fails. `(= (list 1 2 3) [1 2 3])` is true. When the lengths are
equal and the elements are not pairwise equal, `=` returns what the comparison
of the first pair that is not equal returns (`FirstUnequal`): false when that
pair is unequal, whatever comes after it, and the error when that comparison
fails; and one of the three holds, the error being `invalid data type passed
to equal`. So `(1 a)` and `[2 a]` with an atom `a` give false, and `(1 a)` and
`[1 a]` give the error. -/
theorem equal_list_vector (p q : Nat) (l v : List Value) (m m' : Value) :
    (equal [.list p l m, .vector q v m'] = .ok true ↔
      List.Forall₂ (fun x y => checkEquality x y = .ok true) l v) ∧
    (equal [.vector q v m', .list p l m] = .ok true ↔
      List.Forall₂ (fun x y => checkEquality x y = .ok true) v l) ∧
    (l.length ≠ v.length →
      equal [.list p l m, .vector q v m'] = .ok false ∧
      equal [.vector q v m', .list p l m] = .ok false) ∧
    ((∀ x ∈ l, ∀ y ∈ v, ∃ b, checkEquality x y = .ok b) →
      ∃ b, equal [.list p l m, .vector q v m'] = .ok b) ∧
    ((∀ y ∈ v, ∀ x ∈ l, ∃ b, checkEquality y x = .ok b) →
      ∃ b, equal [.vector q v m', .list p l m] = .ok b) ∧
    equal [.list 0 [.number one, .number two, .number three] .nil,
      .vector 1 [.number one, .number two, .number three] .nil] = .ok true ∧
    (l.length = v.length →
      (FirstUnequal l v (.ok false) → equal [.list p l m, .vector q v m'] = .ok false) ∧
      (∀ err, FirstUnequal l v (.error err) →
        equal [.list p l m, .vector q v m'] = .error err) ∧
      (FirstUnequal v l (.ok false) → equal [.vector q v m', .list p l m] = .ok false) ∧
      (∀ err, FirstUnequal v l (.error err) →
        equal [.vector q v m', .list p l m] = .error err) ∧
      (List.Forall₂ (fun x y => checkEquality x y = .ok true) l v ∨
        FirstUnequal l v (.ok false) ∨
        FirstUnequal l v (.error (.new "invalid data type passed to equal".toList))) ∧
      (List.Forall₂ (fun x y => checkEquality x y = .ok true) v l ∨
        FirstUnequal v l (.ok false) ∨
        FirstUnequal v l (.error (.new "invalid data type passed to equal".toList)))) ∧
    equal [.list 0 [.number one, .atom 1 .nil] .nil,
      .vector 2 [.number two, .atom 1 .nil] .nil] = .ok false ∧
    equal [.list 0 [.number one, .atom 1 .nil] .nil,
      .vector 2 [.number one, .atom 1 .nil] .nil] =
        .error (.new "invalid data type passed to equal".toList) := by
  simp only [equal, checkEquality_list, checkEquality_vector, asCollection]
  refine ⟨equalLists_true_iff l v, equalLists_true_iff v l, ?_, equalLists_bool l v,
    equalLists_bool v l, by rfl, ?_, by rfl, by rfl⟩
  · intro h
    simp [equalLists, h, Ne.symm h]
  · intro h
    exact ⟨(equalLists_first l v h).1, (equalLists_first l v h).2,
      (equalLists_first v l h.symm).1, (equalLists_first v l h.symm).2,
      equalLists_cases l v h, equalLists_cases v l h.symm⟩

/-- Witness for C9, amended: the list `(1 a 3)` and the vector `[1 a 2]`, with
an atom `a`: the first pair that is not equal is the pair of atoms, whose
comparison fails, and `=` returns that error in both orders. -/
theorem equal_list_vector_witness :
    FirstUnequal [.number one, .atom 1 .nil, .number three]
        [.number one, .atom 1 .nil, .number two]
        (.error (.new "invalid data type passed to equal".toList)) ∧
    equal [.list 0 [.number one, .atom 1 .nil, .number three] .nil,
        .vector 2 [.number one, .atom 1 .nil, .number two] .nil] =
      .error (.new "invalid data type passed to equal".toList) ∧
    equal [.vector 2 [.number one, .atom 1 .nil, .number two] .nil,
        .list 0 [.number one, .atom 1 .nil, .number three] .nil] =
      .error (.new "invalid data type passed to equal".toList) :=
  have h1 : FirstUnequal [.number one, .atom 1 .nil, .number three]
      [.number one, .atom 1 .nil, .number two]
      (.error (.new "invalid data type passed to equal".toList)) :=
    ⟨[.number one], .atom 1 .nil, [.number three], [.number one], .atom 1 .nil, [.number two],
      rfl, rfl, List.Forall₂.cons rfl List.Forall₂.nil, rfl⟩
  have h2 : FirstUnequal [.number one, .atom 1 .nil, .number two]
      [.number one, .atom 1 .nil, .number three]
      (.error (.new "invalid data type passed to equal".toList)) :=
    ⟨[.number one], .atom 1 .nil, [.number two], [.number one], .atom 1 .nil, [.number three],
      rfl, rfl, List.Forall₂.cons rfl List.Forall₂.nil, rfl⟩
  have h := (equal_list_vector 0 2 [.number one, .atom 1 .nil, .number three]
    [.number one, .atom 1 .nil, .number two] .nil .nil).2.2.2.2.2.2.1 rfl
  ⟨h1, h.2.1 _ h1, h.2.2.2.1 _ h2⟩

/-- C10, counterexample: `(= a a)` on an atom `a` is an error, not true. -/
theorem equal_same_atom_errors :
    equal [.atom 0 .nil, .atom 0 .nil] =
      .error (.new "invalid data type passed to equal".toList) := by
  rfl

/-- C10, amended: for an atom or function `x`, `(= x x)` returns the error
`invalid data type passed to equal`, and so does `=` on `x` and any value of the
same kind (two atoms, two built-ins, two closures), whatever their addresses;
on `x` and a value of another kind `=` returns false, in either order. -/
theorem equal_atom_or_function (x y : Value) (hx : isAtomOrFunc x = true) :
    equal [x, x] = .error (.new "invalid data type passed to equal".toList) ∧
    (typeTag x = typeTag y →
      equal [x, y] = .error (.new "invalid data type passed to equal".toList)) ∧
    (typeTag x ≠ typeTag y → equal [x, y] = .ok false ∧ equal [y, x] = .ok false) := by
  cases x <;> simp [isAtomOrFunc] at hx <;>
    cases y <;> simp [equal, checkEquality, typeTag, asCollection]

/-- C10, witness: an atom against itself and against a built-in function. -/
theorem equal_atom_or_function_witness :
    equal [.atom 0 .nil, .atom 0 .nil] =
      .error (.new "invalid data type passed to equal".toList) ∧
    (typeTag (.atom 0 .nil) = typeTag (.stdFunc 1 .nil) →
      equal [.atom 0 .nil, .stdFunc 1 .nil] =
        .error (.new "invalid data type passed to equal".toList)) ∧
    (typeTag (.atom 0 .nil) ≠ typeTag (.stdFunc 1 .nil) →
      equal [.atom 0 .nil, .stdFunc 1 .nil] = .ok false ∧
      equal [.stdFunc 1 .nil, .atom 0 .nil] = .ok false) :=
  equal_atom_or_function (.atom 0 .nil) (.stdFunc 1 .nil) rfl

/-! ## The reader on a lone double quote -/

/-- C4, the failing input: on the one-character input `"` the token is `"`
itself, `atom` finds a quote at both ends and slices `token[1:0]`, which
panics. -/
theorem ReadString_lone_quote_panics (lib : GoLib) (heap : Nat) :
    ReadString lib ['"'] heap = .panic "runtime error: slice bounds out of range [1:0]".toList := by
  rfl

/-! ## Tokens -/

theorem stringBody_append : ∀ s : List Char, (stringBody s).1 ++ (stringBody s).2 = s
  | [] => by simp [stringBody]
  | [c] => by
    unfold stringBody
    by_cases h1 : c = '\\'
    · simp [h1]
    · by_cases h2 : c = '"'
      · simp [h1, h2]
      · simp [h1, h2, stringBody]
  | c :: d :: rest => by
    have ih1 := stringBody_append rest
    have ih2 := stringBody_append (d :: rest)
    unfold stringBody
    by_cases h1 : c = '\\'
    · by_cases h3 : d = '\n'
      · simp [h1, h3]
      · simp [h1, h3, ih1]
    · by_cases h2 : c = '"'
      · simp [h1, h2]
      · simp [h1, h2, ih2]


theorem isSymChar_of_not (c : Char) (h1 : isSkip c = false) (h2 : isSpecial c = false)
    (h3 : (c == '"') = false) (h4 : (c == ';') = false) : isSymChar c = true := by
  simp only [isSkip, isSpecial, isSymChar, Bool.or_eq_false_iff, Bool.not_eq_true',
    Bool.or_eq_false_iff] at *
  simp_all

/-- What one match yields: the input splits into the skipped text, the group
and the rest, and the group is empty, `~@`, one special character, a string, a
comment, or a maximal run of symbol characters. -/
theorem matchToken_spec (s : List Char) :
    (∃ sk, s = sk ++ (matchToken s).1 ++ (matchToken s).2) ∧
    (((matchToken s).1 = [] ∧ (matchToken s).2 = []) ∨ (matchToken s).1 = ['~', '@'] ∨
      (∃ c, isSpecial c = true ∧ (matchToken s).1 = [c]) ∨
      (matchToken s).1.head? = some '"' ∨ (matchToken s).1.head? = some ';' ∨
      ((matchToken s).1 ≠ [] ∧ (∀ c ∈ (matchToken s).1, isSymChar c = true) ∧
        (∀ c, (matchToken s).1.head? = some c → isSpecial c = false) ∧
        ∀ c, (matchToken s).2.head? = some c → isSymChar c = false)) := by
  have hsplit := List.takeWhile_append_dropWhile isSkip s
  unfold matchToken
  cases hd : s.dropWhile isSkip with
  | nil =>
    refine ⟨⟨s, by simp⟩, Or.inl ⟨rfl, rfl⟩⟩
  | cons c r =>
    have hc : isSkip c = false := by
      have := List.head_dropWhile_not isSkip s (by simp [hd])
      simpa [hd] using this
    rw [hd] at hsplit
    simp only
    split_ifs with h1 h2 h3 h4
    · -- ~@
      simp only [Bool.and_eq_true, beq_iff_eq] at h1
      obtain ⟨hc1, hr⟩ := h1
      cases r with
      | nil => simp at hr
      | cons d r' =>
        simp only [List.head?_cons, Option.some.injEq] at hr
        subst hc1 hr
        exact ⟨⟨s.takeWhile isSkip, by simpa using hsplit.symm⟩, Or.inr (Or.inl rfl)⟩
    · exact ⟨⟨s.takeWhile isSkip, by simpa using hsplit.symm⟩, Or.inr (Or.inr (Or.inl ⟨c, h2, rfl⟩))⟩
    · -- string
      simp only [beq_iff_eq] at h3
      subst h3
      have hb := stringBody_append r
      cases hr : (stringBody r).2 with
      | nil =>
        rw [hr] at hb
        refine ⟨⟨s.takeWhile isSkip, ?_⟩, Or.inr (Or.inr (Or.inr (Or.inl rfl)))⟩
        simp only [List.append_nil] at hb ⊢
        rw [hb]; exact hsplit.symm
      | cons d r' =>
        rw [hr] at hb
        simp only
        split_ifs with h5
        · simp only [beq_iff_eq] at h5
          subst h5
          refine ⟨⟨s.takeWhile isSkip, ?_⟩, Or.inr (Or.inr (Or.inr (Or.inl rfl)))⟩
          conv_lhs => rw [← hsplit, ← hb]
          simp
        · refine ⟨⟨s.takeWhile isSkip, ?_⟩, Or.inr (Or.inr (Or.inr (Or.inl rfl)))⟩
          conv_lhs => rw [← hsplit, ← hb]
          simp
    · -- comment
      simp only [beq_iff_eq] at h4
      subst h4
      refine ⟨⟨s.takeWhile isSkip, ?_⟩, Or.inr (Or.inr (Or.inr (Or.inr (Or.inl rfl))))⟩
      conv_lhs => rw [← hsplit]
      simp
    · -- run of symbol characters
      have hs : isSymChar c = true :=
        isSymChar_of_not c hc (by simpa using h2) (by simpa using h3) (by simpa using h4)
      refine ⟨⟨s.takeWhile isSkip, ?_⟩, Or.inr (Or.inr (Or.inr (Or.inr (Or.inr ⟨?_, ?_, ?_, ?_⟩))))⟩
      · rw [List.append_assoc, List.takeWhile_append_dropWhile]; exact hsplit.symm
      · simp [List.takeWhile, hs]
      · intro x hx; exact (List.mem_takeWhile_imp hx)
      · intro x hx
        simp only [List.takeWhile, hs, List.head?_cons, Option.some.injEq] at hx
        subst hx; simpa using h2
      · intro x hx
        cases hdw : (c :: r).dropWhile isSymChar with
        | nil => simp [hdw] at hx
        | cons y ys =>
          have := List.head_dropWhile_not isSymChar (c :: r) (by simp [hdw])
          simp only [hdw, List.head?_cons, Option.some.injEq] at hx
          subst hx
          simpa [hdw] using this


theorem matchToken_progress (c : Char) (s : List Char) :
    (matchToken (c :: s)).2.length < (c :: s).length := by
  obtain ⟨⟨sk, hsk⟩, hcases⟩ := matchToken_spec (c :: s)
  have hlen := congrArg List.length hsk
  simp only [List.length_append, List.length_cons] at hlen ⊢
  by_cases hg : (matchToken (c :: s)).1 = []
  · have hr : (matchToken (c :: s)).2 = [] := by
      rcases hcases with h | h | ⟨x, _, h⟩ | h | h | h
      · exact h.2
      · simp [hg] at h
      · simp [hg] at h
      · simp [hg] at h
      · simp [hg] at h
      · exact absurd hg h.1
    simp [hr]
  · have : 0 < (matchToken (c :: s)).1.length := List.length_pos.mpr hg
    omega

theorem tokenizeLoop_fuel :
    ∀ (n m : Nat) (s : List Char), s.length ≤ n → s.length ≤ m →
      tokenizeLoop n s = tokenizeLoop m s
  | 0, m, s, hn, _ => by
    have : s = [] := List.length_eq_zero.mp (Nat.le_zero.mp hn)
    subst this
    cases m <;> simp [tokenizeLoop]
  | n + 1, 0, s, _, hm => by
    have : s = [] := List.length_eq_zero.mp (Nat.le_zero.mp hm)
    subst this
    simp [tokenizeLoop]
  | n + 1, m + 1, [], _, _ => by simp [tokenizeLoop]
  | n + 1, m + 1, c :: s, hn, hm => by
    have hp := matchToken_progress c s
    have ih := tokenizeLoop_fuel n m (matchToken (c :: s)).2
      (by simp only [List.length_cons] at hn hp; omega)
      (by simp only [List.length_cons] at hm hp; omega)
    simp only [tokenizeLoop, ih]

/-- The tokens of a non-empty input: the group of the first match, unless it is
empty or a comment, then the tokens of the input after that match. -/
theorem tokenize_cons (c : Char) (s : List Char) :
    tokenize (c :: s) =
      if (matchToken (c :: s)).1 = [] ∨ (matchToken (c :: s)).1.head? = some ';' then
        tokenize (matchToken (c :: s)).2
      else (matchToken (c :: s)).1 :: tokenize (matchToken (c :: s)).2 := by
  have hp := matchToken_progress c s
  have := tokenizeLoop_fuel s.length (matchToken (c :: s)).2.length (matchToken (c :: s)).2
    (by simp only [List.length_cons] at hp; omega) (le_refl _)
  simp only [tokenize, List.length_cons, tokenizeLoop, this]

theorem tokenize_nil : tokenize [] = [] := rfl

theorem tokenize_mem_run :
    ∀ (n : Nat) (s t : List Char), s.length ≤ n → t ∈ tokenize s →
      t ≠ ['~', '@'] → (∀ c, isSpecial c = true → t ≠ [c]) → t.head? ≠ some '"' →
      t ≠ [] ∧ (∀ c ∈ t, isSymChar c = true) ∧ (∀ c, t.head? = some c → isSpecial c = false) ∧
        ∃ pre post, s = pre ++ t ++ post ∧ ∀ c, post.head? = some c → isSymChar c = false
  | _, [], t, _, ht, _, _, _ => by simp [tokenize_nil] at ht
  | 0, _ :: _, _, hn, _, _, _, _ => by simp at hn
  | n + 1, c :: s, t, hn, ht, h1, h2, h3 => by
    have hp := matchToken_progress c s
    obtain ⟨⟨sk, hsk⟩, hcases⟩ := matchToken_spec (c :: s)
    have ih := tokenize_mem_run n (matchToken (c :: s)).2 t
      (by simp only [List.length_cons] at hn hp; omega)
    have hrest : t ∈ tokenize (matchToken (c :: s)).2 →
        t ≠ [] ∧ (∀ c ∈ t, isSymChar c = true) ∧
          (∀ c, t.head? = some c → isSpecial c = false) ∧
          ∃ pre post, c :: s = pre ++ t ++ post ∧
            ∀ c, post.head? = some c → isSymChar c = false := by
      intro hmem
      obtain ⟨a, b, d, pre, post, hpp, hpost⟩ := ih hmem h1 h2 h3
      refine ⟨a, b, d, sk ++ (matchToken (c :: s)).1 ++ pre, post, ?_, hpost⟩
      conv_lhs => rw [hsk, hpp]
      simp
    rw [tokenize_cons] at ht
    split_ifs at ht with hdrop
    · exact hrest ht
    · rcases List.mem_cons.mp ht with heq | hmem
      · subst heq
        push_neg at hdrop
        rcases hcases with h | h | ⟨x, hx, h⟩ | h | h | h
        · exact absurd h.1 hdrop.1
        · exact absurd h h1
        · exact absurd h (h2 x hx)
        · exact absurd h h3
        · exact absurd h hdrop.2
        · exact ⟨h.1, h.2.1, h.2.2.1, sk, _, hsk, h.2.2.2⟩
      · exact hrest hmem

/-- C6, counterexample: `a~b` is one token, not the three tokens `a`, `~`, `b`:
the last alternative of the pattern excludes neither `~` nor `^` nor `@`. -/
theorem tokenize_tilde_inside :
    tokenize "a~b".toList = ["a~b".toList] ∧
    tokenize "a~b".toList ≠ ["a".toList, "~".toList, "b".toList] := by
  refine ⟨by rfl, ?_⟩
  have h : tokenize "a~b".toList = ["a~b".toList] := by rfl
  rw [h]
  decide

/-- C6, amended: every token of `tokenize` that is not `~@`, not a single
special character and not a string is a non-empty run of characters none of
which is whitespace, a comma, a bracket, a parenthesis, a brace, a quote, a
double quote, a backquote or a semicolon; its first character is none of
`~ ^ @` (these may occur further on); and the run is maximal: it is followed in
the input by the end or by a character it excludes. -/
theorem tokenize_symbol_run (inp t : GoString) (ht : t ∈ tokenize inp)
    (h1 : t ≠ "~@".toList) (h2 : ∀ c, isSpecial c = true → t ≠ [c])
    (h3 : t.head? ≠ some '"') : SymbolRun inp t :=
  tokenize_mem_run inp.length inp t (le_refl _) ht h1 h2 h3

/-- C6, witness: the token `a~b` of the input `(a~b c)`. -/
theorem tokenize_symbol_run_witness : SymbolRun "(a~b c)".toList "a~b".toList :=
  tokenize_symbol_run "(a~b c)".toList "a~b".toList
    (by
      have h : tokenize "(a~b c)".toList = ["(".toList, "a~b".toList, "c".toList, ")".toList] := by
        rfl
      rw [h]; decide)
    (by decide) (by intro c _; simp) (by decide)

/-! ## String escapes -/

theorem two_step_induction {P : List Char → Prop} (h0 : P []) (h1 : ∀ c, P [c])
    (h2 : ∀ c d rest, P rest → P (d :: rest) → P (c :: d :: rest)) : ∀ s, P s := by
  have : ∀ s, P s ∧ ∀ c, P (c :: s) := by
    intro s
    induction s with
    | nil => exact ⟨h0, h1⟩
    | cons d rest ih => exact ⟨ih.2 d, fun c => h2 c d rest ih.1 (ih.2 d)⟩
  exact fun s => (this s).1

/-- `strings.Replace` with a pattern of two characters and a replacement of one
is a pass over pairs. -/
theorem Replace_pair (a b x : Char) (s : GoString) :
    Replace s [a, b] [x] = rewritePairs (fun c d => if c = a ∧ d = b then some x else none) s := by
  induction s using two_step_induction with
  | h0 => rfl
  | h1 c => simp [Replace, replaceFrom, rewritePairs, List.isPrefixOf]
  | h2 c d rest ih1 ih2 =>
    simp only [Replace] at ih1 ih2 ⊢
    by_cases h : c = a ∧ d = b
    · obtain ⟨rfl, rfl⟩ := h
      simp [replaceFrom, rewritePairs, List.isPrefixOf, ih1]
    · have h' : ((a == c) && (b == d)) = false := by
        simp only [Bool.and_eq_false_iff, beq_eq_false_iff_ne, ne_eq]
        by_cases hc : a = c
        · right; intro hd; exact h ⟨hc.symm, hd.symm⟩
        · left; exact hc
      rw [rewritePairs]
      simp only [h, ↓reduceIte]
      rw [← ih2]
      conv_lhs => rw [replaceFrom]
      simp [List.isPrefixOf, h']

theorem Replace_single (a : Char) (new s : GoString) :
    Replace s [a] new = s.flatMap (fun c => if c = a then new else [c]) := by
  induction s with
  | nil => rfl
  | cons c s ih =>
    simp only [Replace] at ih ⊢
    by_cases h : c = a
    · subst h
      simp [replaceFrom, List.isPrefixOf, ih]
    · have : (a == c) = false := by simpa using Ne.symm h
      simp [replaceFrom, List.isPrefixOf, ih, h, this]


theorem rewritePairs_cons_of_ne (f : Char → Option Char) (c : Char) (hc : c ≠ '\\')
    (s : GoString) :
    rewritePairs (afterBackslash f) (c :: s) = c :: rewritePairs (afterBackslash f) s := by
  cases s with
  | nil => simp [rewritePairs]
  | cons d rest => simp [rewritePairs, afterBackslash, hc]

/-- Two passes after one another are one pass, when the first pass rewrites a
doubled backslash and never writes a backslash. -/
theorem rewritePairs_comp (f g : Char → Option Char)
    (hf : ∀ d x, f d = some x → x ≠ '\\') (hbs : f '\\' ≠ none) (s : GoString) :
    rewritePairs (afterBackslash g) (rewritePairs (afterBackslash f) s) =
      rewritePairs (afterBackslash (fun d => (f d).orElse (fun _ => g d))) s := by
  induction s using two_step_induction with
  | h0 => rfl
  | h1 c => simp [rewritePairs]
  | h2 c d rest ih1 ih2 =>
    by_cases hc : c = '\\'
    · subst hc
      cases hfd : f d with
      | some x =>
        have hx := hf d x hfd
        simp [rewritePairs, afterBackslash, hfd, rewritePairs_cons_of_ne g x hx, ih1]
      | none =>
        have hd : d ≠ '\\' := by
          intro h; subst h; exact hbs hfd
        have e1 : rewritePairs (afterBackslash f) ('\\' :: d :: rest) =
            '\\' :: d :: rewritePairs (afterBackslash f) rest := by
          rw [rewritePairs]
          simp only [afterBackslash, ↓reduceIte, hfd]
          rw [rewritePairs_cons_of_ne f d hd]
        rw [rewritePairs_cons_of_ne f d hd] at ih2
        rw [e1]
        cases hgd : g d with
        | some y => simp [rewritePairs, afterBackslash, hfd, hgd, ih1]
        | none => simp [rewritePairs, afterBackslash, hfd, hgd, ih2]
    · rw [rewritePairs_cons_of_ne f c hc, rewritePairs_cons_of_ne g c hc,
        rewritePairs_cons_of_ne _ c hc, ih2]

theorem rewritePairs_map (rule : Char → Char → Option Char) (h : Char → Char) (s : GoString)
    (hs : ∀ c ∈ s, h c = c) :
    (rewritePairs rule s).map h = rewritePairs (fun c d => (rule c d).map h) s := by
  induction s using two_step_induction with
  | h0 => rfl
  | h1 c => simpa [rewritePairs] using hs
  | h2 c d rest ih1 ih2 =>
    have hrest : ∀ c ∈ rest, h c = c := fun x hx => hs x (by simp [hx])
    have hdrest : ∀ c ∈ d :: rest, h c = c := fun x hx => hs x (List.mem_cons_of_mem _ hx)
    have hcc : h c = c := hs c (by simp)
    cases hr : rule c d with
    | some x => simp [rewritePairs, hr, ih1 hrest]
    | none => simp [rewritePairs, hr, ih2 hdrest, hcc]


theorem Replace_char (a b : Char) (s : GoString) :
    Replace s [a] [b] = s.map (fun c => if c = a then b else c) := by
  rw [Replace_single]
  induction s with
  | nil => rfl
  | cons c s ih =>
    by_cases h : c = a <;> simp [h, ih]

theorem pair_rule_eq (b x : Char) :
    (fun c d => if c = '\\' ∧ d = b then some x else none) =
      afterBackslash (fun d => if d = b then some x else none) := by
  funext c d
  by_cases hc : c = '\\' <;> simp [afterBackslash, hc]

theorem sentinel_ne_backslash : sentinel ≠ '\\' := by decide

/-- The pass that the chain of replacements amounts to, by rules. -/
theorem rewritePairs_eq_onePass (s : GoString) (hs : sentinel ∉ s) :
    rewritePairs (fun c d => Option.map (fun c => if c = sentinel then '\\' else c)
      (afterBackslash (fun d => ((if d = '\\' then some sentinel else none).orElse
        (fun _ => if d = '"' then some '"' else none)).orElse
        (fun _ => if d = 'n' then some '\n' else none)) c d)) s = unescapeOnePass s := by
  have q1 : ¬ '"' = sentinel := by decide
  have q2 : ¬ '\n' = sentinel := by decide
  induction s using two_step_induction with
  | h0 => rfl
  | h1 c => rfl
  | h2 c d rest ih1 ih2 =>
    have hrest : sentinel ∉ rest := fun h => hs (by simp [h])
    have hdrest : sentinel ∉ d :: rest := fun h => hs (List.mem_cons_of_mem _ h)
    rw [rewritePairs, unescapeOnePass, ← ih1 hrest, ← ih2 hdrest]
    by_cases hc : c = '\\'
    · by_cases h1 : d = '\\'
      · simp [afterBackslash, hc, h1]
      · by_cases h2 : d = '"'
        · simp [afterBackslash, hc, h2, q1]
        · by_cases h3 : d = 'n'
          · simp [afterBackslash, hc, h3, q2]
          · simp [afterBackslash, hc, h1, h2, h3]
    · simp [afterBackslash, hc]

/-- The reader's chain of replacements is the single pass, on a body free of
the sentinel. -/
theorem unescape_eq_onePass (s : GoString) (hs : sentinel ∉ s) :
    unescape s = unescapeOnePass s := by
  have e12 := rewritePairs_comp (fun d => if d = '\\' then some sentinel else none)
    (fun d => if d = '"' then some '"' else none)
    (by
      intro d x h
      by_cases h1 : d = '\\'
      · subst h1
        simp only [↓reduceIte, Option.some.injEq] at h
        subst h; exact sentinel_ne_backslash
      · simp [h1] at h)
    (by simp) s
  have e123 := rewritePairs_comp
    (fun d => (if d = '\\' then some sentinel else none).orElse
      (fun _ => if d = '"' then some '"' else none))
    (fun d => if d = 'n' then some '\n' else none)
    (by
      intro d x h
      by_cases h1 : d = '\\'
      · subst h1
        simp only [↓reduceIte, Option.orElse, Option.some.injEq] at h
        subst h; exact sentinel_ne_backslash
      · by_cases h2 : d = '"'
        · subst h2
          simp at h
          subst h; decide
        · simp [h1, h2] at h)
    (by simp) s
  have emap := rewritePairs_map
    (afterBackslash (fun d => ((if d = '\\' then some sentinel else none).orElse
      (fun _ => if d = '"' then some '"' else none)).orElse
      (fun _ => if d = 'n' then some '\n' else none)))
    (fun c => if c = sentinel then '\\' else c) s
    (by
      intro c hc
      have : c ≠ sentinel := fun h => hs (h ▸ hc)
      simp [this])
  unfold unescape
  rw [Replace_char, Replace_pair, Replace_pair, Replace_pair, pair_rule_eq, pair_rule_eq,
    pair_rule_eq, e12, e123, emap]
  exact rewritePairs_eq_onePass s hs


theorem Replace_flatMap (f : Char → GoString) (a : Char) (new s : GoString) :
    Replace (s.flatMap f) [a] new = s.flatMap (fun c => Replace (f c) [a] new) := by
  rw [Replace_single, List.flatMap_assoc]
  congr 1
  funext c
  rw [Replace_single]

/-- The printer's three replacements escape a string character by character. -/
theorem escape_eq_flatMap (s : GoString) :
    Replace (Replace (Replace s ['\\'] ['\\', '\\']) ['"'] ['\\', '"']) ['\n'] ['\\', 'n'] =
      s.flatMap escapeChar := by
  rw [Replace_single '\\' ['\\', '\\'] s, Replace_flatMap, Replace_flatMap]
  congr 1
  funext c
  unfold escapeChar
  by_cases h1 : c = '\\'
  · subst h1; rfl
  · by_cases h2 : c = '"'
    · subst h2; rfl
    · by_cases h3 : c = '\n'
      · subst h3; rfl
      · have e1 : ('\\' == c) = false := by simpa using Ne.symm h1
        have e2 : ('"' == c) = false := by simpa using Ne.symm h2
        have e3 : ('\n' == c) = false := by simpa using Ne.symm h3
        simp [h1, h2, h3, Replace, replaceFrom, List.isPrefixOf, e1, e2, e3]

theorem Print_str_pretty (lib : GoLib) (s : GoString) :
    Print lib (.str s) true = '"' :: (s.flatMap escapeChar ++ ['"']) := by
  simp [Print, escape_eq_flatMap]

theorem unescapeOnePass_cons_of_ne (c : Char) (hc : c ≠ '\\') (s : GoString) :
    unescapeOnePass (c :: s) = c :: unescapeOnePass s := by
  cases s with
  | nil => simp [unescapeOnePass]
  | cons d rest => simp [unescapeOnePass, hc]

theorem unescapeOnePass_escape (s : GoString) : unescapeOnePass (s.flatMap escapeChar) = s := by
  induction s with
  | nil => rfl
  | cons c s ih =>
    rw [List.flatMap_cons]
    by_cases h1 : c = '\\'
    · subst h1
      have e : escapeChar '\\' = ['\\', '\\'] := rfl
      rw [e]; simp [unescapeOnePass, ih]
    · by_cases h2 : c = '"'
      · subst h2
        have e : escapeChar '"' = ['\\', '"'] := rfl
        rw [e]; simp [unescapeOnePass, ih]
      · by_cases h3 : c = '\n'
        · subst h3
          have e : escapeChar '\n' = ['\\', 'n'] := rfl
          rw [e]; simp [unescapeOnePass, ih]
        · have e : escapeChar c = [c] := by simp [escapeChar, h1, h2, h3]
          rw [e]; simp [unescapeOnePass_cons_of_ne c h1, ih]

theorem sentinel_not_mem_escape (s : GoString) (hs : sentinel ∉ s) :
    sentinel ∉ s.flatMap escapeChar := by
  intro h
  rw [List.mem_flatMap] at h
  obtain ⟨c, hc, hmem⟩ := h
  have hne : c ≠ sentinel := fun h => hs (h ▸ hc)
  unfold escapeChar at hmem
  have e1 : sentinel ≠ '\\' := by decide
  have e2 : sentinel ≠ '"' := by decide
  have e3 : sentinel ≠ 'n' := by decide
  split_ifs at hmem <;> simp_all

theorem numberPattern_quote (s : GoString) : numberPattern ('"' :: s) = false := by
  simp [numberPattern, isDigit, List.takeWhile]
  
theorem getLast?_cons_concat (c x : Char) (body : GoString) :
    (c :: (body ++ [x])).getLast? = some x := by
  rw [← List.cons_append, List.getLast?_concat]

theorem atom_string_token (lib : GoLib) (body : GoString) (rest : List GoString) (heap : Nat) :
    reader.atom lib ⟨('"' :: (body ++ ['"'])) :: rest, heap⟩ =
      .ok (.str (unescape body), ⟨rest, heap⟩) := by
  have h1 : ('"' :: (body ++ ['"'])) ≠ "nil".toList := by simp
  have h2 : ('"' :: (body ++ ['"'])) ≠ "true".toList := by simp
  have h3 : ('"' :: (body ++ ['"'])) ≠ "false".toList := by simp
  simp only [reader.atom, reader.next, h1, h2, h3, ↓reduceIte, numberPattern_quote]
  simp [getLast?_cons_concat, List.dropLast_concat]


/-- C3, counterexample: on the body `ʞn` the four replacements return a
backslash followed by `n`, the single pass returns the body unchanged. -/
theorem unescape_sentinel_body :
    unescape [sentinel, 'n'] = ['\\', 'n'] ∧ unescapeOnePass [sentinel, 'n'] = [sentinel, 'n'] ∧
    unescape [sentinel, 'n'] ≠ unescapeOnePass [sentinel, 'n'] := by
  refine ⟨by rfl, by rfl, ?_⟩
  have h1 : unescape [sentinel, 'n'] = ['\\', 'n'] := by rfl
  have h2 : unescapeOnePass [sentinel, 'n'] = [sentinel, 'n'] := by rfl
  rw [h1, h2]
  decide

/-- C3, amended: for every string-token body that does not contain the
sentinel U+029E, the reader's chain of four global replacements returns the
same string as the single left-to-right pass over the escape pairs. -/
theorem unescape_single_pass (body : GoString) (h : sentinel ∉ body) :
    unescape body = unescapeOnePass body :=
  unescape_eq_onePass body h

/-- C3, witness: the body `a\\n\"b\n`. -/
theorem unescape_single_pass_witness :
    unescape "a\\\\n\\\"b\\n".toList = unescapeOnePass "a\\\\n\\\"b\\n".toList :=
  unescape_single_pass "a\\\\n\\\"b\\n".toList (by decide)

/-- C2, counterexample: the string `ʞ` is printed as `"ʞ"` and read back as a
single backslash. -/
theorem atom_Print_sentinel :
    reader.atom exampleLib ⟨[Print exampleLib (.str [sentinel]) true], 0⟩ =
      .ok (.str ['\\'], ⟨[], 0⟩) := by
  rfl

/-- C2, amended: for every string `s` that does not contain the sentinel
U+029E, the reader's string-atom processing applied to the token the printer
emits for `s` in readable mode returns exactly `s`. -/
theorem atom_Print_str (lib : GoLib) (s : GoString) (rest : List GoString) (heap : Nat)
    (hs : sentinel ∉ s) :
    reader.atom lib ⟨Print lib (.str s) true :: rest, heap⟩ = .ok (.str s, ⟨rest, heap⟩) := by
  rw [Print_str_pretty, atom_string_token,
    unescape_eq_onePass _ (sentinel_not_mem_escape s hs), unescapeOnePass_escape]

/-- C2, witness: a string with a quote, a backslash and a newline. -/
theorem atom_Print_str_witness :
    reader.atom exampleLib ⟨[Print exampleLib (.str "a\"b\\c\nd".toList) true], 0⟩ =
      .ok (.str "a\"b\\c\nd".toList, ⟨[], 0⟩) :=
  atom_Print_str exampleLib "a\"b\\c\nd".toList [] 0 (by decide)

/-! ## The reader: tokens consumed, recursion budget -/

namespace reader

theorem next_nil (h : Nat) : next ⟨[], h⟩ = none := rfl

theorem next_cons (t : GoString) (ts : List GoString) (h : Nat) :
    next ⟨t :: ts, h⟩ = some (t, ⟨ts, h⟩) := rfl

/-- After a successful `atom` the first token is gone and nothing else changed. -/
theorem atom_ok (lib : GoLib) (t : GoString) (ts : List GoString) (h : Nat) (v : Value)
    (rdr' : reader) (hok : atom lib ⟨t :: ts, h⟩ = .ok (v, rdr')) : rdr' = ⟨ts, h⟩ := by
  cases t with
  | nil => simp [atom, next] at hok
  | cons c cs =>
    simp only [atom, next] at hok
    split_ifs at hok <;> simp_all

theorem atom_ne_fuel (lib : GoLib) (rdr : reader) : atom lib rdr ≠ .fuel := by
  obtain ⟨ts, h⟩ := rdr
  cases ts with
  | nil => simp [atom, next]
  | cons t ts =>
    cases t with
    | nil => simp [atom, next]
    | cons c cs =>
      simp only [atom, next]
      split_ifs <;> simp

theorem atom_consumes (lib : GoLib) : Consumes (atom lib) := by
  intro rdr v rdr' h
  obtain ⟨ts, hp⟩ := rdr
  cases ts with
  | nil => simp [atom, next] at h
  | cons t ts =>
    rw [atom_ok lib t ts hp v rdr' h]
    simp

/-- The reader left by `next`, or the reader itself when it has no token. -/
theorem modifier_def (F : reader → Result (Value × reader)) (symbol : GoString)
    (t : GoString) (ts : List GoString) (h : Nat) :
    modifier F symbol ⟨t :: ts, h⟩ =
      match F ⟨ts, h⟩ with
      | .ok (v, rdr) => .ok (.list rdr.heap [.symbol symbol, v] .nil, ⟨rdr.tokens, rdr.heap + 1⟩)
      | .error e => .error e
      | .panic m => .panic m
      | .fuel => .fuel := rfl

theorem meta_def (F : reader → Result (Value × reader)) (t : GoString) (ts : List GoString)
    (h : Nat) :
    meta F ⟨t :: ts, h⟩ =
      match F ⟨ts, h⟩ with
      | .ok (m, rdr) =>
        match F rdr with
        | .ok (f, rdr) =>
          .ok (.list rdr.heap [.symbol "with-meta".toList, f, m] .nil,
            ⟨rdr.tokens, rdr.heap + 1⟩)
        | .error e => .error e
        | .panic m => .panic m
        | .fuel => .fuel
      | .error e => .error e
      | .panic m => .panic m
      | .fuel => .fuel := rfl

theorem modifier_consumes (F : reader → Result (Value × reader)) (hF : Consumes F)
    (symbol : GoString) (t : GoString) (ts : List GoString) (h : Nat) (v : Value) (rdr' : reader)
    (hok : modifier F symbol ⟨t :: ts, h⟩ = .ok (v, rdr')) :
    rdr'.tokens.length < ts.length := by
  rw [modifier_def] at hok
  cases hF' : F ⟨ts, h⟩ with
  | ok x =>
    obtain ⟨v1, r1⟩ := x
    have := hF _ _ _ hF'
    simp only [hF', Result.ok.injEq, Prod.mk.injEq] at hok
    rw [← hok.2]; simpa using this
  | error e => simp [hF'] at hok
  | panic m => simp [hF'] at hok
  | fuel => simp [hF'] at hok

theorem meta_consumes (F : reader → Result (Value × reader)) (hF : Consumes F)
    (t : GoString) (ts : List GoString) (h : Nat) (v : Value) (rdr' : reader)
    (hok : meta F ⟨t :: ts, h⟩ = .ok (v, rdr')) :
    rdr'.tokens.length < ts.length := by
  rw [meta_def] at hok
  cases hF1 : F ⟨ts, h⟩ with
  | ok x =>
    obtain ⟨v1, r1⟩ := x
    have l1 := hF _ _ _ hF1
    simp only [hF1] at hok
    cases hF2 : F r1 with
    | ok y =>
      obtain ⟨v2, r2⟩ := y
      have l2 := hF _ _ _ hF2
      simp only [hF2, Result.ok.injEq, Prod.mk.injEq] at hok
      rw [← hok.2]
      simp only at l1 l2 ⊢
      omega
    | error e => simp [hF2] at hok
    | panic m => simp [hF2] at hok
    | fuel => simp [hF2] at hok
  | error e => simp [hF1] at hok
  | panic m => simp [hF1] at hok
  | fuel => simp [hF1] at hok

theorem listLoop_le (F : reader → Result (Value × reader)) (hF : Consumes F)
    (e : GoString) :
    ∀ (n : Nat) (rdr : reader) (acc vs : List Value) (rdr' : reader),
      listLoop F e n rdr acc = .ok (vs, rdr') → rdr'.tokens.length ≤ rdr.tokens.length
  | 0, _, _, _, _, h => by simp [listLoop] at h
  | n + 1, rdr, acc, vs, rdr', h => by
    rw [listLoop] at h
    cases hp : rdr.peek with
    | none =>
      simp only [hp, Result.ok.injEq, Prod.mk.injEq] at h
      rw [← h.2]
    | some token =>
      simp only [hp] at h
      split_ifs at h with he
      · simp only [Result.ok.injEq, Prod.mk.injEq] at h
        rw [← h.2]
      · cases hF1 : F rdr with
        | ok x =>
          obtain ⟨v1, r1⟩ := x
          have l1 := hF _ _ _ hF1
          simp only [hF1] at h
          have := listLoop_le F hF e n r1 _ vs rdr' h
          omega
        | error e => simp [hF1] at h
        | panic m => simp [hF1] at h
        | fuel => simp [hF1] at h

theorem list_def (F : reader → Result (Value × reader)) (start e : GoString)
    (t : GoString) (ts : List GoString) (h : Nat) :
    list F start e ⟨t :: ts, h⟩ =
      if t ≠ start then .error (.new ("unexpected '".toList ++ t ++ "'".toList))
      else
        match listLoop F e (ts.length + 1) ⟨ts, h + 1⟩ [] with
        | .ok (forms, rdr) =>
          match rdr.next with
          | none => .error .ErrUnderflow
          | some (token, rdr) =>
            if token ≠ e then .error (.new ("unexpected '".toList ++ token ++ "'".toList))
            else .ok ((h, forms), rdr)
        | .error e => .error e
        | .panic m => .panic m
        | .fuel => .fuel := rfl

theorem list_consumes (F : reader → Result (Value × reader)) (hF : Consumes F)
    (start e : GoString) (t : GoString) (ts : List GoString) (h : Nat) (x : Nat × List Value)
    (rdr' : reader) (hok : list F start e ⟨t :: ts, h⟩ = .ok (x, rdr')) :
    rdr'.tokens.length < ts.length := by
  rw [list_def] at hok
  split_ifs at hok with hs
  cases hl : listLoop F e (ts.length + 1) ⟨ts, h + 1⟩ [] with
  | ok y =>
    obtain ⟨forms, r1⟩ := y
    have l1 := listLoop_le F hF e _ _ _ _ _ hl
    simp only [hl] at hok
    obtain ⟨ts1, h1⟩ := r1
    cases ts1 with
    | nil => simp [next] at hok
    | cons t1 ts1 =>
      simp only [next] at hok
      split_ifs at hok with he
      simp only [Result.ok.injEq, Prod.mk.injEq] at hok
      rw [← hok.2]
      simp only [List.length_cons] at l1 ⊢
      omega
  | error e => rw [hl] at hok; simp at hok
  | panic m => rw [hl] at hok; simp at hok
  | fuel => rw [hl] at hok; simp at hok

theorem vector_def (F : reader → Result (Value × reader)) (rdr : reader) :
    vector F rdr =
      match list F "[".toList "]".toList rdr with
      | .ok ((_, forms), rdr) => .ok (.vector rdr.heap forms .nil, ⟨rdr.tokens, rdr.heap + 1⟩)
      | .error e => .error e
      | .panic m => .panic m
      | .fuel => .fuel := rfl

theorem hashMap_def (F : reader → Result (Value × reader)) (rdr : reader) :
    hashMap F rdr =
      match list F "\x7b".toList "\x7d".toList rdr with
      | .ok ((_, forms), rdr) =>
        if forms.length % 2 = 1 then
          .error (.new "Odd number of arguments to NewHashMap".toList)
        else .ok (.hashmap rdr.heap (newHashmapLoop [] forms []) .nil, ⟨rdr.tokens, rdr.heap + 1⟩)
      | .error e => .error e
      | .panic m => .panic m
      | .fuel => .fuel := by
  unfold hashMap NewHashmap
  cases list F "\x7b".toList "\x7d".toList rdr with
  | ok y =>
    obtain ⟨⟨p, forms⟩, r1⟩ := y
    simp only
    split_ifs <;> rfl
  | error e => rfl
  | panic m => rfl
  | fuel => rfl

theorem vector_consumes (F : reader → Result (Value × reader)) (hF : Consumes F)
    (t : GoString) (ts : List GoString) (h : Nat) (v : Value)
    (rdr' : reader) (hok : vector F ⟨t :: ts, h⟩ = .ok (v, rdr')) :
    rdr'.tokens.length < ts.length := by
  rw [vector_def] at hok
  cases hl : list F "[".toList "]".toList ⟨t :: ts, h⟩ with
  | ok y =>
    obtain ⟨⟨p, forms⟩, r1⟩ := y
    have l1 := list_consumes F hF _ _ _ _ _ _ _ hl
    simp only [hl, Result.ok.injEq, Prod.mk.injEq] at hok
    rw [← hok.2]; simpa using l1
  | error e => rw [hl] at hok; simp at hok
  | panic m => rw [hl] at hok; simp at hok
  | fuel => rw [hl] at hok; simp at hok

theorem hashMap_consumes (F : reader → Result (Value × reader)) (hF : Consumes F)
    (t : GoString) (ts : List GoString) (h : Nat) (v : Value)
    (rdr' : reader) (hok : hashMap F ⟨t :: ts, h⟩ = .ok (v, rdr')) :
    rdr'.tokens.length < ts.length := by
  rw [hashMap_def] at hok
  cases hl : list F "\x7b".toList "\x7d".toList ⟨t :: ts, h⟩ with
  | ok y =>
    obtain ⟨⟨p, forms⟩, r1⟩ := y
    have l1 := list_consumes F hF _ _ _ _ _ _ _ hl
    simp only [hl] at hok
    split_ifs at hok
    simp only [Result.ok.injEq, Prod.mk.injEq] at hok
    rw [← hok.2]; simpa using l1
  | error e => rw [hl] at hok; simp at hok
  | panic m => rw [hl] at hok; simp at hok
  | fuel => rw [hl] at hok; simp at hok

theorem form_cons (lib : GoLib) (F : reader → Result (Value × reader)) (t : GoString)
    (ts : List GoString) (h : Nat) :
    form lib F ⟨t :: ts, h⟩ =
      if t = "'".toList then modifier F "quote".toList ⟨t :: ts, h⟩
      else if t = "`".toList then modifier F "quasiquote".toList ⟨t :: ts, h⟩
      else if t = "~".toList then modifier F "unquote".toList ⟨t :: ts, h⟩
      else if t = "~@".toList then modifier F "splice-unquote".toList ⟨t :: ts, h⟩
      else if t = "^".toList then meta F ⟨t :: ts, h⟩
      else if t = "@".toList then modifier F "deref".toList ⟨t :: ts, h⟩
      else if t = ")".toList then .error (.new "unexpected ')'".toList)
      else if t = "(".toList then
        match list F "(".toList ")".toList ⟨t :: ts, h⟩ with
        | .ok ((ptr, forms), rdr) => .ok (.list ptr forms .nil, rdr)
        | .error e => .error e
        | .panic m => .panic m
        | .fuel => .fuel
      else if t = "]".toList then .error (.new "unexpected ']'".toList)
      else if t = "[".toList then vector F ⟨t :: ts, h⟩
      else if t = "\x7d".toList then .error (.new "unexpected '\x7d'".toList)
      else if t = "\x7b".toList then hashMap F ⟨t :: ts, h⟩
      else atom lib ⟨t :: ts, h⟩ := rfl

/-- The branch of `form` taken on a first token `t` does not depend on `self`. -/
theorem form_dispatch (lib : GoLib) (t : GoString) (ts : List GoString) (h : Nat) :
    (∃ sym, ∀ F, form lib F ⟨t :: ts, h⟩ = modifier F sym ⟨t :: ts, h⟩) ∨
    (∀ F, form lib F ⟨t :: ts, h⟩ = meta F ⟨t :: ts, h⟩) ∨
    (∃ e, ∀ F, form lib F ⟨t :: ts, h⟩ = .error e) ∨
    (∀ F, form lib F ⟨t :: ts, h⟩ =
      match list F "(".toList ")".toList ⟨t :: ts, h⟩ with
      | .ok ((ptr, forms), rdr) => .ok (.list ptr forms .nil, rdr)
      | .error e => .error e
      | .panic m => .panic m
      | .fuel => .fuel) ∨
    (∀ F, form lib F ⟨t :: ts, h⟩ = vector F ⟨t :: ts, h⟩) ∨
    (∀ F, form lib F ⟨t :: ts, h⟩ = hashMap F ⟨t :: ts, h⟩) ∨
    (∀ F, form lib F ⟨t :: ts, h⟩ = atom lib ⟨t :: ts, h⟩) := by
  by_cases c1 : t = "'".toList
  · refine Or.inl ⟨"quote".toList, fun F => ?_⟩
    rw [form_cons, if_pos c1]
  by_cases c2 : t = "`".toList
  · refine Or.inl ⟨"quasiquote".toList, fun F => ?_⟩
    rw [form_cons, if_neg c1, if_pos c2]
  by_cases c3 : t = "~".toList
  · refine Or.inl ⟨"unquote".toList, fun F => ?_⟩
    rw [form_cons, if_neg c1, if_neg c2, if_pos c3]
  by_cases c4 : t = "~@".toList
  · refine Or.inl ⟨"splice-unquote".toList, fun F => ?_⟩
    rw [form_cons, if_neg c1, if_neg c2, if_neg c3, if_pos c4]
  by_cases c5 : t = "^".toList
  · refine Or.inr (Or.inl fun F => ?_)
    rw [form_cons, if_neg c1, if_neg c2, if_neg c3, if_neg c4, if_pos c5]
  by_cases c6 : t = "@".toList
  · refine Or.inl ⟨"deref".toList, fun F => ?_⟩
    rw [form_cons, if_neg c1, if_neg c2, if_neg c3, if_neg c4, if_neg c5, if_pos c6]
  by_cases c7 : t = ")".toList
  · refine Or.inr (Or.inr (Or.inl ⟨.new "unexpected ')'".toList, fun F => ?_⟩))
    rw [form_cons, if_neg c1, if_neg c2, if_neg c3, if_neg c4, if_neg c5, if_neg c6, if_pos c7]
  by_cases c8 : t = "(".toList
  · refine Or.inr (Or.inr (Or.inr (Or.inl fun F => ?_)))
    rw [form_cons, if_neg c1, if_neg c2, if_neg c3, if_neg c4, if_neg c5, if_neg c6, if_neg c7, if_pos c8]
  by_cases c9 : t = "]".toList
  · refine Or.inr (Or.inr (Or.inl ⟨.new "unexpected ']'".toList, fun F => ?_⟩))
    rw [form_cons, if_neg c1, if_neg c2, if_neg c3, if_neg c4, if_neg c5, if_neg c6, if_neg c7, if_neg c8, if_pos c9]
  by_cases c10 : t = "[".toList
  · refine Or.inr (Or.inr (Or.inr (Or.inr (Or.inl fun F => ?_))))
    rw [form_cons, if_neg c1, if_neg c2, if_neg c3, if_neg c4, if_neg c5, if_neg c6, if_neg c7, if_neg c8, if_neg c9, if_pos c10]
  by_cases c11 : t = "\x7d".toList
  · refine Or.inr (Or.inr (Or.inl ⟨.new "unexpected '\x7d'".toList, fun F => ?_⟩))
    rw [form_cons, if_neg c1, if_neg c2, if_neg c3, if_neg c4, if_neg c5, if_neg c6, if_neg c7, if_neg c8, if_neg c9, if_neg c10, if_pos c11]
  by_cases c12 : t = "\x7b".toList
  · refine Or.inr (Or.inr (Or.inr (Or.inr (Or.inr (Or.inl fun F => ?_)))))
    rw [form_cons, if_neg c1, if_neg c2, if_neg c3, if_neg c4, if_neg c5, if_neg c6, if_neg c7, if_neg c8, if_neg c9, if_neg c10, if_neg c11, if_pos c12]
  refine Or.inr (Or.inr (Or.inr (Or.inr (Or.inr (Or.inr fun F => ?_)))))
  rw [form_cons, if_neg c1, if_neg c2, if_neg c3, if_neg c4, if_neg c5, if_neg c6, if_neg c7, if_neg c8, if_neg c9, if_neg c10, if_neg c11, if_neg c12]

theorem form_nil (lib : GoLib) (F : reader → Result (Value × reader)) (h : Nat) :
    form lib F ⟨[], h⟩ = .error .ErrUnderflow := rfl

theorem form_consumes (lib : GoLib) (F : reader → Result (Value × reader)) (hF : Consumes F) :
    Consumes (form lib F) := by
  intro rdr v rdr'
  obtain ⟨ts, hp⟩ := rdr
  cases ts with
  | nil => intro h; simp [form_nil] at h
  | cons t ts =>
    simp only [List.length_cons]
    intro h
    rcases form_dispatch lib t ts hp with ⟨sym, e⟩ | e | ⟨err, e⟩ | e | e | e | e <;>
      rw [e F] at h
    · have := modifier_consumes _ hF _ _ _ _ _ _ h; omega
    · have := meta_consumes _ hF _ _ _ _ _ h; omega
    · simp at h
    · cases hl : list F "(".toList ")".toList ⟨t :: ts, hp⟩ with
      | ok y =>
        obtain ⟨⟨p, forms⟩, r1⟩ := y
        have l1 := list_consumes _ hF _ _ _ _ _ _ _ hl
        rw [hl] at h
        simp only [Result.ok.injEq, Prod.mk.injEq] at h
        rw [← h.2]; omega
      | error e => rw [hl] at h; simp at h
      | panic m => rw [hl] at h; simp at h
      | fuel => rw [hl] at h; simp at h
    · have := vector_consumes _ hF _ _ _ _ _ h; omega
    · have := hashMap_consumes _ hF _ _ _ _ _ h; omega
    · have := atom_consumes lib _ _ _ h
      simpa using this

theorem formFuel_consumes (lib : GoLib) : ∀ k, Consumes (formFuel lib k)
  | 0 => by intro rdr v rdr' h; simp [formFuel] at h
  | k + 1 => by
    have := form_consumes lib _ (formFuel_consumes lib k)
    exact this

/-! ### More budget never changes a result -/

theorem modifier_nil (F : reader → Result (Value × reader)) (symbol : GoString) (h : Nat) :
    modifier F symbol ⟨[], h⟩ =
      match F ⟨[], h⟩ with
      | .ok (v, rdr) => .ok (.list rdr.heap [.symbol symbol, v] .nil, ⟨rdr.tokens, rdr.heap + 1⟩)
      | .error e => .error e
      | .panic m => .panic m
      | .fuel => .fuel := rfl

theorem modifier_extends (F G : reader → Result (Value × reader)) (hFG : Extends F G)
    (symbol : GoString) : Extends (modifier F symbol) (modifier G symbol) := by
  intro rdr hne
  obtain ⟨ts, h⟩ := rdr
  cases ts with
  | nil =>
    rw [modifier_nil] at hne; rw [modifier_nil, modifier_nil]
    have hF : F ⟨[], h⟩ ≠ .fuel := by intro hf; rw [hf] at hne; exact hne rfl
    rw [hFG _ hF]
  | cons t ts =>
    rw [modifier_def] at hne; rw [modifier_def, modifier_def]
    have hF : F ⟨ts, h⟩ ≠ .fuel := by intro hf; rw [hf] at hne; exact hne rfl
    rw [hFG _ hF]

theorem meta_nil (F : reader → Result (Value × reader)) (h : Nat) :
    meta F ⟨[], h⟩ =
      match F ⟨[], h⟩ with
      | .ok (m, rdr) =>
        match F rdr with
        | .ok (f, rdr) =>
          .ok (.list rdr.heap [.symbol "with-meta".toList, f, m] .nil,
            ⟨rdr.tokens, rdr.heap + 1⟩)
        | .error e => .error e
        | .panic m => .panic m
        | .fuel => .fuel
      | .error e => .error e
      | .panic m => .panic m
      | .fuel => .fuel := rfl

theorem meta_extends_aux (F G : reader → Result (Value × reader)) (hFG : Extends F G)
    (r0 : reader)
    (hne : (match F r0 with
      | .ok (m, rdr) =>
        match F rdr with
        | .ok (f, rdr) =>
          Result.ok (Value.list rdr.heap [.symbol "with-meta".toList, f, m] .nil,
            (⟨rdr.tokens, rdr.heap + 1⟩ : reader))
        | .error e => .error e
        | .panic m => .panic m
        | .fuel => .fuel
      | .error e => .error e
      | .panic m => .panic m
      | .fuel => .fuel) ≠ .fuel) :
    (match G r0 with
      | .ok (m, rdr) =>
        match G rdr with
        | .ok (f, rdr) =>
          Result.ok (Value.list rdr.heap [.symbol "with-meta".toList, f, m] .nil,
            (⟨rdr.tokens, rdr.heap + 1⟩ : reader))
        | .error e => .error e
        | .panic m => .panic m
        | .fuel => .fuel
      | .error e => .error e
      | .panic m => .panic m
      | .fuel => .fuel) =
    (match F r0 with
      | .ok (m, rdr) =>
        match F rdr with
        | .ok (f, rdr) =>
          Result.ok (Value.list rdr.heap [.symbol "with-meta".toList, f, m] .nil,
            (⟨rdr.tokens, rdr.heap + 1⟩ : reader))
        | .error e => .error e
        | .panic m => .panic m
        | .fuel => .fuel
      | .error e => .error e
      | .panic m => .panic m
      | .fuel => .fuel) := by
  have hF : F r0 ≠ .fuel := by intro hf; rw [hf] at hne; exact hne rfl
  rw [hFG _ hF]
  cases hF1 : F r0 with
  | ok x =>
    obtain ⟨m, r1⟩ := x
    rw [hF1] at hne
    simp only at hne ⊢
    have hF2 : F r1 ≠ .fuel := by intro hf; rw [hf] at hne; exact hne rfl
    rw [hFG _ hF2]
  | error e => rfl
  | panic m => rfl
  | fuel => rfl

theorem meta_extends (F G : reader → Result (Value × reader)) (hFG : Extends F G) :
    Extends (meta F) (meta G) := by
  intro rdr hne
  obtain ⟨ts, h⟩ := rdr
  cases ts with
  | nil =>
    rw [meta_nil] at hne; rw [meta_nil, meta_nil]
    exact meta_extends_aux F G hFG _ hne
  | cons t ts =>
    rw [meta_def] at hne; rw [meta_def, meta_def]
    exact meta_extends_aux F G hFG _ hne

theorem listLoop_extends (F G : reader → Result (Value × reader)) (hFG : Extends F G)
    (e : GoString) :
    ∀ (n : Nat) (rdr : reader) (acc : List Value),
      listLoop F e n rdr acc ≠ .fuel → listLoop G e n rdr acc = listLoop F e n rdr acc
  | 0, _, _, h => by simp [listLoop] at h
  | n + 1, rdr, acc, h => by
    rw [listLoop] at h; rw [listLoop, listLoop]
    cases hp : rdr.peek with
    | none => rfl
    | some token =>
      simp only [hp] at h ⊢
      by_cases he : token = e
      · simp only [if_pos he]
      · simp only [if_neg he] at h ⊢
        have hF : F rdr ≠ .fuel := by intro hf; rw [hf] at h; exact h rfl
        rw [hFG _ hF]
        cases hF1 : F rdr with
        | ok x =>
          obtain ⟨v, r1⟩ := x
          rw [hF1] at h
          exact listLoop_extends F G hFG e n r1 _ h
        | error e => rfl
        | panic m => rfl
        | fuel => rfl

theorem list_nil (F : reader → Result (Value × reader)) (start e : GoString) (h : Nat) :
    list F start e ⟨[], h⟩ = .error .ErrUnderflow := rfl

theorem list_extends (F G : reader → Result (Value × reader)) (hFG : Extends F G)
    (start e : GoString) (rdr : reader) (hne : list F start e rdr ≠ .fuel) :
    list G start e rdr = list F start e rdr := by
  obtain ⟨ts, h⟩ := rdr
  cases ts with
  | nil => rfl
  | cons t ts =>
    rw [list_def] at hne; rw [list_def, list_def]
    by_cases hs : t ≠ start
    · simp only [if_pos hs]
    · simp only [if_neg hs] at hne ⊢
      have hl : listLoop F e (ts.length + 1) ⟨ts, h + 1⟩ [] ≠ .fuel := by
        intro hf; rw [hf] at hne; exact hne rfl
      rw [listLoop_extends F G hFG e _ _ _ hl]

theorem vector_extends (F G : reader → Result (Value × reader)) (hFG : Extends F G) :
    Extends (vector F) (vector G) := by
  intro rdr hne
  rw [vector_def] at hne; rw [vector_def, vector_def]
  have hl : list F "[".toList "]".toList rdr ≠ .fuel := by
    intro hf; rw [hf] at hne; exact hne rfl
  rw [list_extends F G hFG _ _ _ hl]

theorem hashMap_extends (F G : reader → Result (Value × reader)) (hFG : Extends F G) :
    Extends (hashMap F) (hashMap G) := by
  intro rdr hne
  rw [hashMap_def] at hne; rw [hashMap_def, hashMap_def]
  have hl : list F "\x7b".toList "\x7d".toList rdr ≠ .fuel := by
    intro hf; rw [hf] at hne; exact hne rfl
  rw [list_extends F G hFG _ _ _ hl]

theorem form_extends (lib : GoLib) (F G : reader → Result (Value × reader))
    (hFG : Extends F G) : Extends (form lib F) (form lib G) := by
  intro rdr hne
  obtain ⟨ts, hp⟩ := rdr
  cases ts with
  | nil => rfl
  | cons t ts =>
    rcases form_dispatch lib t ts hp with ⟨sym, e⟩ | e | ⟨err, e⟩ | e | e | e | e <;>
      rw [e F] at hne ⊢ <;> rw [e G]
    · exact modifier_extends F G hFG sym _ hne
    · exact meta_extends F G hFG _ hne
    · have hl : list F "(".toList ")".toList ⟨t :: ts, hp⟩ ≠ .fuel := by
        intro hf; rw [hf] at hne; exact hne rfl
      rw [list_extends F G hFG _ _ _ hl]
    · exact vector_extends F G hFG _ hne
    · exact hashMap_extends F G hFG _ hne

theorem formFuel_extends_succ (lib : GoLib) :
    ∀ k, Extends (formFuel lib k) (formFuel lib (k + 1))
  | 0 => by intro rdr h; simp [formFuel] at h
  | k + 1 => form_extends lib _ _ (formFuel_extends_succ lib k)

theorem formFuel_mono (lib : GoLib) (k k' : Nat) (hk : k ≤ k') (rdr : reader)
    (hne : formFuel lib k rdr ≠ .fuel) : formFuel lib k' rdr = formFuel lib k rdr := by
  induction k' with
  | zero =>
    have : k = 0 := Nat.le_zero.mp hk
    subst this; rfl
  | succ n ih =>
    by_cases hkn : k = n + 1
    · subst hkn; rfl
    · have hle : k ≤ n := by omega
      have e := ih hle
      rw [← e] at hne ⊢
      exact formFuel_extends_succ lib n rdr hne

/-! ### A budget above the number of tokens is enough -/

theorem modifier_noFuel (F : reader → Result (Value × reader)) (L : Nat) (hL : NoFuel F L)
    (symbol : GoString) (t : GoString) (ts : List GoString) (h : Nat) (hts : ts.length < L) :
    modifier F symbol ⟨t :: ts, h⟩ ≠ .fuel := by
  rw [modifier_def]
  have := hL ⟨ts, h⟩ hts
  cases hF : F ⟨ts, h⟩ with
  | ok x => simp
  | error e => simp
  | panic m => simp
  | fuel => exact absurd hF this

theorem meta_noFuel (F : reader → Result (Value × reader)) (hF : Consumes F) (L : Nat)
    (hL : NoFuel F L) (t : GoString) (ts : List GoString) (h : Nat) (hts : ts.length < L) :
    meta F ⟨t :: ts, h⟩ ≠ .fuel := by
  rw [meta_def]
  have h1 := hL ⟨ts, h⟩ hts
  cases hF1 : F ⟨ts, h⟩ with
  | ok x =>
    obtain ⟨m, r1⟩ := x
    have l1 := hF _ _ _ hF1
    have h2 := hL r1 (by simp only at l1; omega)
    simp only
    cases hF2 : F r1 with
    | ok y => simp
    | error e => simp
    | panic m => simp
    | fuel => exact absurd hF2 h2
  | error e => simp
  | panic m => simp
  | fuel => exact absurd hF1 h1

theorem listLoop_noFuel (F : reader → Result (Value × reader)) (hF : Consumes F) (L : Nat)
    (hL : NoFuel F L) (e : GoString) :
    ∀ (n : Nat) (rdr : reader) (acc : List Value), rdr.tokens.length < n →
      rdr.tokens.length < L → listLoop F e n rdr acc ≠ .fuel
  | 0, _, _, h, _ => by simp at h
  | n + 1, rdr, acc, hn, hl => by
    rw [listLoop]
    cases hp : rdr.peek with
    | none => simp
    | some token =>
      simp only
      by_cases he : token = e
      · simp [if_pos he]
      · simp only [if_neg he]
        have h1 := hL rdr hl
        cases hF1 : F rdr with
        | ok x =>
          obtain ⟨v, r1⟩ := x
          have l1 := hF _ _ _ hF1
          exact listLoop_noFuel F hF L hL e n r1 _ (by omega) (by omega)
        | error e => simp
        | panic m => simp
        | fuel => exact absurd hF1 h1

theorem list_noFuel (F : reader → Result (Value × reader)) (hF : Consumes F) (L : Nat)
    (hL : NoFuel F L) (start e : GoString) (t : GoString) (ts : List GoString) (h : Nat)
    (hts : ts.length < L) : list F start e ⟨t :: ts, h⟩ ≠ .fuel := by
  rw [list_def]
  by_cases hs : t ≠ start
  · simp [if_pos hs]
  · simp only [if_neg hs]
    have hl := listLoop_noFuel F hF L hL e (ts.length + 1) ⟨ts, h + 1⟩ [] (by simp) hts
    cases hll : listLoop F e (ts.length + 1) ⟨ts, h + 1⟩ [] with
    | ok x =>
      obtain ⟨forms, r1⟩ := x
      simp only
      cases r1.next with
      | none => simp
      | some y =>
        obtain ⟨tok, r2⟩ := y
        simp only
        split_ifs <;> simp
    | error e => simp
    | panic m => simp
    | fuel => exact absurd hll hl

theorem vector_noFuel (F : reader → Result (Value × reader)) (hF : Consumes F) (L : Nat)
    (hL : NoFuel F L) (t : GoString) (ts : List GoString) (h : Nat)
    (hts : ts.length < L) : vector F ⟨t :: ts, h⟩ ≠ .fuel := by
  rw [vector_def]
  have hl := list_noFuel F hF L hL "[".toList "]".toList t ts h hts
  cases hll : list F "[".toList "]".toList ⟨t :: ts, h⟩ with
  | ok x => simp
  | error e => simp
  | panic m => simp
  | fuel => exact absurd hll hl

theorem hashMap_noFuel (F : reader → Result (Value × reader)) (hF : Consumes F) (L : Nat)
    (hL : NoFuel F L) (t : GoString) (ts : List GoString) (h : Nat)
    (hts : ts.length < L) : hashMap F ⟨t :: ts, h⟩ ≠ .fuel := by
  rw [hashMap_def]
  have hl := list_noFuel F hF L hL "\x7b".toList "\x7d".toList t ts h hts
  cases hll : list F "\x7b".toList "\x7d".toList ⟨t :: ts, h⟩ with
  | ok x =>
    simp only
    split_ifs <;> simp
  | error e => simp
  | panic m => simp
  | fuel => exact absurd hll hl

theorem form_noFuel (lib : GoLib) (F : reader → Result (Value × reader)) (hF : Consumes F)
    (L : Nat) (hL : NoFuel F L) : NoFuel (form lib F) (L + 1) := by
  intro rdr hlen
  obtain ⟨ts, hp⟩ := rdr
  cases ts with
  | nil => simp [form_nil]
  | cons t ts =>
    have hts : ts.length < L := by simpa using hlen
    rcases form_dispatch lib t ts hp with ⟨sym, e⟩ | e | ⟨err, e⟩ | e | e | e | e <;> rw [e F]
    · exact modifier_noFuel F L hL sym t ts hp hts
    · exact meta_noFuel F hF L hL t ts hp hts
    · simp
    · have hl := list_noFuel F hF L hL "(".toList ")".toList t ts hp hts
      cases hll : list F "(".toList ")".toList ⟨t :: ts, hp⟩ with
      | ok x => simp
      | error e => simp
      | panic m => simp
      | fuel => exact absurd hll hl
    · exact vector_noFuel F hF L hL t ts hp hts
    · exact hashMap_noFuel F hF L hL t ts hp hts
    · exact atom_ne_fuel lib _

theorem formFuel_noFuel (lib : GoLib) : ∀ k, NoFuel (formFuel lib k) k
  | 0 => by intro rdr h; simp at h
  | k + 1 => form_noFuel lib _ (formFuel_consumes lib k) k (formFuel_noFuel lib k)

/-- A result obtained with some budget is the result with every budget above
the number of tokens. -/
theorem formFuel_of_ok (lib : GoLib) (k k' : Nat) (rdr : reader) (r : Result (Value × reader))
    (hr : formFuel lib k rdr = r) (hne : r ≠ .fuel) (hk' : rdr.tokens.length < k') :
    formFuel lib k' rdr = r := by
  have h1 : formFuel lib (max k k') rdr = formFuel lib k rdr :=
    formFuel_mono lib k _ (le_max_left _ _) rdr (by rw [hr]; exact hne)
  have h2 : formFuel lib (max k k') rdr = formFuel lib k' rdr :=
    formFuel_mono lib k' _ (le_max_right _ _) rdr (formFuel_noFuel lib k' rdr hk')
  rw [← h2, h1, hr]


theorem reads_fuel {lib : GoLib} {rdr rdr' : reader} {v : Value} (h : Reads lib rdr v rdr')
    (k : Nat) (hk : rdr.tokens.length < k) : formFuel lib k rdr = .ok (v, rdr') := by
  obtain ⟨k0, h0⟩ := h
  exact formFuel_of_ok lib k0 k rdr _ h0 (by simp) hk

theorem reads_lt {lib : GoLib} {rdr rdr' : reader} {v : Value} (h : Reads lib rdr v rdr') :
    rdr'.tokens.length < rdr.tokens.length := by
  obtain ⟨k0, h0⟩ := h
  exact formFuel_consumes lib k0 _ _ _ h0

theorem readsAll_le {lib : GoLib} {rdr rdr' : reader} {vs : List Value}
    (h : ReadsAll lib rdr vs rdr') : rdr'.tokens.length ≤ rdr.tokens.length := by
  induction h with
  | nil => exact le_refl _
  | cons h1 _ ih => have := reads_lt h1; omega

theorem formFuel_closer (lib : GoLib) (k : Nat) (t : GoString) (ts : List GoString) (h : Nat)
    (ht : isCloser t) : ∃ msg, formFuel lib (k + 1) ⟨t :: ts, h⟩ = .error (.new msg) := by
  rcases ht with rfl | rfl | rfl
  · exact ⟨_, rfl⟩
  · exact ⟨_, rfl⟩
  · exact ⟨_, rfl⟩

/-- A form that is read does not start with a closing bracket. -/
theorem reads_peek {lib : GoLib} {rdr rdr' : reader} {v : Value} (h : Reads lib rdr v rdr') :
    ∃ t, rdr.peek = some t ∧ ¬ isCloser t := by
  obtain ⟨k0, h0⟩ := h
  obtain ⟨ts, hp⟩ := rdr
  cases k0 with
  | zero => simp [formFuel] at h0
  | succ k =>
    cases ts with
    | nil => simp [formFuel, form_nil] at h0
    | cons t ts =>
      refine ⟨t, rfl, fun hc => ?_⟩
      obtain ⟨msg, hm⟩ := formFuel_closer lib k t ts hp hc
      rw [hm] at h0
      simp at h0

/-- The loop of `list` on a run of forms that are read one after the other and
followed by the end of the tokens or the closing token. -/
theorem listLoop_readsAll (lib : GoLib) (e : GoString) (he : isCloser e) (K : Nat)
    {rdr rdr' : reader} {vs : List Value} (h : ReadsAll lib rdr vs rdr') :
    (rdr'.peek = none ∨ rdr'.peek = some e) →
    ∀ (n : Nat) (acc : List Value), rdr.tokens.length < n → rdr.tokens.length < K →
      listLoop (formFuel lib K) e n rdr acc = .ok (acc ++ vs, rdr') := by
  induction h with
  | nil rdr =>
    intro hend n acc hn _
    cases n with
    | zero => simp at hn
    | succ n =>
      rw [listLoop]
      rcases hend with h | h
      · simp [h]
      · simp [h]
  | @cons rdr r1 rdr' v vs h1 _ ih =>
    intro hend n acc hn hK
    cases n with
    | zero => simp at hn
    | succ n =>
      obtain ⟨t, hp, hnc⟩ := reads_peek h1
      have hte : t ≠ e := fun h => hnc (h ▸ he)
      have hlt := reads_lt h1
      rw [listLoop]
      simp only [hp, if_neg hte, reads_fuel h1 K hK]
      rw [ih hend n _ (by omega) (by omega)]
      simp

theorem listLoop_readsAll_error (lib : GoLib) (e : GoString) (he : isCloser e) (K : Nat)
    {rdr rdr' : reader} {vs : List Value} (h : ReadsAll lib rdr vs rdr') (t : GoString)
    (err : Error) (hp : rdr'.peek = some t) (hte : t ≠ e)
    (herr : formFuel lib K rdr' = .error err) :
    ∀ (n : Nat) (acc : List Value), rdr.tokens.length < n → rdr.tokens.length < K →
      listLoop (formFuel lib K) e n rdr acc = .error err := by
  induction h with
  | nil rdr =>
    intro n acc hn _
    cases n with
    | zero => simp at hn
    | succ n =>
      rw [listLoop]
      simp only [hp, if_neg hte, herr]
  | @cons rdr r1 rdr' v vs h1 _ ih =>
    intro n acc hn hK
    cases n with
    | zero => simp at hn
    | succ n =>
      obtain ⟨t1, hp1, hnc⟩ := reads_peek h1
      have hte1 : t1 ≠ e := fun h => hnc (h ▸ he)
      have hlt := reads_lt h1
      rw [listLoop]
      simp only [hp1, if_neg hte1, reads_fuel h1 K hK]
      exact ih hp herr n _ (by omega) (by omega)

theorem list_readsAll (lib : GoLib) (start e : GoString) (he : isCloser e) (K : Nat)
    (ts : List GoString) (h : Nat) (vs : List Value) (rdr' : reader) (rest : List GoString)
    (hall : ReadsAll lib ⟨ts, h + 1⟩ vs rdr') (hclose : rdr'.tokens = e :: rest)
    (hK : ts.length < K) :
    list (formFuel lib K) start e ⟨start :: ts, h⟩ = .ok ((h, vs), ⟨rest, rdr'.heap⟩) := by
  rw [list_def]
  have hl := listLoop_readsAll lib e he K hall (Or.inr (by simp [peek, hclose]))
    (ts.length + 1) [] (by simp) hK
  obtain ⟨ts', h'⟩ := rdr'
  simp only at hclose
  subst hclose
  simp [hl, next]

theorem list_readsAll_underflow (lib : GoLib) (start e : GoString) (he : isCloser e) (K : Nat)
    (ts : List GoString) (h : Nat) (vs : List Value) (rdr' : reader)
    (hall : ReadsAll lib ⟨ts, h + 1⟩ vs rdr') (hend : rdr'.tokens = []) (hK : ts.length < K) :
    list (formFuel lib K) start e ⟨start :: ts, h⟩ = .error .ErrUnderflow := by
  rw [list_def]
  have hl := listLoop_readsAll lib e he K hall (Or.inl (by simp [peek, hend]))
    (ts.length + 1) [] (by simp) hK
  obtain ⟨ts', h'⟩ := rdr'
  simp only at hend
  subst hend
  simp [hl, next]

theorem list_readsAll_error (lib : GoLib) (start e : GoString) (he : isCloser e) (K : Nat)
    (ts : List GoString) (h : Nat) (vs : List Value) (rdr' : reader) (t : GoString)
    (err : Error) (hall : ReadsAll lib ⟨ts, h + 1⟩ vs rdr') (hp : rdr'.peek = some t)
    (hte : t ≠ e) (herr : formFuel lib K rdr' = .error err) (hK : ts.length < K) :
    list (formFuel lib K) start e ⟨start :: ts, h⟩ = .error err := by
  rw [list_def]
  have hl := listLoop_readsAll_error lib e he K hall t err hp hte herr
    (ts.length + 1) [] (by simp) hK
  simp [hl]

theorem formFuel_succ (lib : GoLib) (k : Nat) (rdr : reader) :
    formFuel lib (k + 1) rdr = form lib (formFuel lib k) rdr := rfl

/-- Complete forms between parentheses are read as a list. -/
theorem reads_list (lib : GoLib) (ts : List GoString) (h : Nat) (vs : List Value)
    (rdr' : reader) (rest : List GoString) (hall : ReadsAll lib ⟨ts, h + 1⟩ vs rdr')
    (hclose : rdr'.tokens = ")".toList :: rest) :
    Reads lib ⟨"(".toList :: ts, h⟩ (.list h vs .nil) ⟨rest, rdr'.heap⟩ := by
  refine ⟨ts.length + 2, ?_⟩
  rw [formFuel_succ, form_cons]
  simp only [show ¬ "(".toList = "'".toList by decide, show ¬ "(".toList = "`".toList by decide,
    show ¬ "(".toList = "~".toList by decide, show ¬ "(".toList = "~@".toList by decide,
    show ¬ "(".toList = "^".toList by decide, show ¬ "(".toList = "@".toList by decide,
    show ¬ "(".toList = ")".toList by decide, if_false, if_true]
  rw [list_readsAll lib _ _ (Or.inl rfl) _ ts h vs rdr' rest hall hclose (by omega)]

/-- Complete forms between brackets are read as a vector. -/
theorem reads_vector (lib : GoLib) (ts : List GoString) (h : Nat) (vs : List Value)
    (rdr' : reader) (rest : List GoString) (hall : ReadsAll lib ⟨ts, h + 1⟩ vs rdr')
    (hclose : rdr'.tokens = "]".toList :: rest) :
    Reads lib ⟨"[".toList :: ts, h⟩ (.vector rdr'.heap vs .nil) ⟨rest, rdr'.heap + 1⟩ := by
  refine ⟨ts.length + 2, ?_⟩
  rw [formFuel_succ, form_cons]
  simp only [show ¬ "[".toList = "'".toList by decide, show ¬ "[".toList = "`".toList by decide,
    show ¬ "[".toList = "~".toList by decide, show ¬ "[".toList = "~@".toList by decide,
    show ¬ "[".toList = "^".toList by decide, show ¬ "[".toList = "@".toList by decide,
    show ¬ "[".toList = ")".toList by decide, show ¬ "[".toList = "(".toList by decide,
    show ¬ "[".toList = "]".toList by decide, if_false, if_true]
  rw [vector_def,
    list_readsAll lib _ _ (Or.inr (Or.inl rfl)) _ ts h vs rdr' rest hall hclose (by omega)]

/-- Complete forms between braces: `hashMap` hands them to `NewHashmap`. -/
theorem formFuel_hashMap (lib : GoLib) (ts : List GoString) (h : Nat) (vs : List Value)
    (rdr' : reader) (rest : List GoString) (hall : ReadsAll lib ⟨ts, h + 1⟩ vs rdr')
    (hclose : rdr'.tokens = "\x7d".toList :: rest) (K : Nat) (hK : ts.length + 1 < K) :
    formFuel lib K ⟨"\x7b".toList :: ts, h⟩ =
      if vs.length % 2 = 1 then .error (.new "Odd number of arguments to NewHashMap".toList)
      else .ok (.hashmap rdr'.heap (newHashmapLoop [] vs []) .nil, ⟨rest, rdr'.heap + 1⟩) := by
  obtain ⟨k, rfl⟩ : ∃ k, K = k + 1 := ⟨K - 1, by omega⟩
  rw [formFuel_succ, form_cons]
  simp only [show ¬ "\x7b".toList = "'".toList by decide, show ¬ "\x7b".toList = "`".toList by decide,
    show ¬ "\x7b".toList = "~".toList by decide, show ¬ "\x7b".toList = "~@".toList by decide,
    show ¬ "\x7b".toList = "^".toList by decide, show ¬ "\x7b".toList = "@".toList by decide,
    show ¬ "\x7b".toList = ")".toList by decide, show ¬ "\x7b".toList = "(".toList by decide,
    show ¬ "\x7b".toList = "]".toList by decide, show ¬ "\x7b".toList = "[".toList by decide,
    show ¬ "\x7b".toList = "\x7d".toList by decide, if_false, if_true]
  rw [hashMap_def,
    list_readsAll lib _ _ (Or.inr (Or.inr rfl)) _ ts h vs rdr' rest hall hclose (by omega)]

/-- Two forms after `^` are read as `(with-meta F M)`. -/
theorem reads_meta (lib : GoLib) (ts : List GoString) (h : Nat) (M F : Value)
    (rdr1 rdr2 : reader) (hM : Reads lib ⟨ts, h⟩ M rdr1) (hF : Reads lib rdr1 F rdr2) :
    Reads lib ⟨"^".toList :: ts, h⟩
      (.list rdr2.heap [.symbol "with-meta".toList, F, M] .nil)
      ⟨rdr2.tokens, rdr2.heap + 1⟩ := by
  refine ⟨ts.length + 2, ?_⟩
  have h1 := reads_fuel hM (ts.length + 1) (by simp)
  have h2 := reads_fuel hF (ts.length + 1) (by have := reads_lt hM; simp only at this; omega)
  rw [formFuel_succ, form_cons]
  simp only [show ¬ "^".toList = "'".toList by decide, show ¬ "^".toList = "`".toList by decide,
    show ¬ "^".toList = "~".toList by decide, show ¬ "^".toList = "~@".toList by decide,
    if_false, if_true]
  rw [meta_def, h1]
  simp only [h2]

theorem ReadString_of_reads (lib : GoLib) (inp : GoString) (heap : Nat) (v : Value)
    (rdr' : reader) (h : Reads lib ⟨tokenize inp, heap⟩ v rdr') :
    ReadString lib inp heap = .ok (v, rdr'.heap) := by
  unfold ReadString
  rw [reads_fuel h _ (by simp)]

/-- The recursion budget of `ReadString` is never exhausted: the outcome is a
value, an error or a panic of the host. -/
theorem ReadString_ne_fuel (lib : GoLib) (inp : GoString) (heap : Nat) :
    ReadString lib inp heap ≠ .fuel := by
  unfold ReadString
  have h := formFuel_noFuel lib ((tokenize inp).length + 1) ⟨tokenize inp, heap⟩ (by simp)
  cases hr : formFuel lib ((tokenize inp).length + 1) ⟨tokenize inp, heap⟩ with
  | ok x => simp
  | error e => simp
  | panic m => simp
  | fuel => exact absurd hr h

theorem ReadString_of_error (lib : GoLib) (inp : GoString) (heap : Nat) (k : Nat) (e : Error)
    (h : formFuel lib k ⟨tokenize inp, heap⟩ = .error e) :
    ReadString lib inp heap = .error e := by
  unfold ReadString
  rw [formFuel_of_ok lib k _ _ _ h (by simp) (by simp)]


theorem newHashmapLoop_eq_foldl :
    ∀ (vs : List Value) (m : GoMap),
      newHashmapLoop [] vs m = (pairUp vs).foldl (fun m kv => mapAssign m kv.1 kv.2) m
  | [], _ => rfl
  | [_], _ => rfl
  | k :: v :: rest, m => by
    simp only [newHashmapLoop, pairUp, List.foldl_cons, List.any_nil]
    exact newHashmapLoop_eq_foldl rest _

theorem mapAssign_fresh (m : GoMap) (k v : Value) (h : ∀ e ∈ m, goEq e.1 k = false) :
    mapAssign m k v = m ++ [(k, v)] := by
  induction m with
  | nil => rfl
  | cons e m ih =>
    obtain ⟨k', v'⟩ := e
    have h1 : goEq k' k = false := h (k', v') (by simp)
    simp only [mapAssign, h1, Bool.false_eq_true, ↓reduceIte, List.cons_append]
    rw [ih (fun e he => h e (by simp [he]))]

theorem foldl_mapAssign_fresh :
    ∀ (ps : List (Value × Value)) (m : GoMap),
      (∀ a ∈ m, ∀ b ∈ ps, goEq a.1 b.1 = false) →
      ps.Pairwise (fun a b => goEq a.1 b.1 = false) →
      ps.foldl (fun m kv => mapAssign m kv.1 kv.2) m = m ++ ps
  | [], m, _, _ => by simp
  | p :: ps, m, hm, hp => by
    rw [List.pairwise_cons] at hp
    rw [List.foldl_cons, mapAssign_fresh m p.1 p.2 (fun e he => hm e he p (by simp))]
    rw [foldl_mapAssign_fresh ps _ ?_ hp.2]
    · simp
    · intro a ha b hb
      rcases List.mem_append.mp ha with h | h
      · exact hm a h b (by simp [hb])
      · simp only [List.mem_singleton] at h
        subst h
        exact hp.1 b hb

/-- C7: when, after a `^` token, the reader reads a form `M` and then a form
`F`, it returns the three-element list `(with-meta F M)`: the first form read is
the last argument and the second form read is the first argument. This holds
for `^` at any depth (`Reads`) and for `ReadString` on an input that starts with
`^`. -/
theorem meta_reads_with_meta (lib : GoLib) (ts : List GoString) (heap : Nat) (M F : Value)
    (rdr1 rdr2 : reader) (hM : Reads lib ⟨ts, heap⟩ M rdr1) (hF : Reads lib rdr1 F rdr2) :
    Reads lib ⟨"^".toList :: ts, heap⟩
      (.list rdr2.heap [.symbol "with-meta".toList, F, M] .nil) ⟨rdr2.tokens, rdr2.heap + 1⟩ ∧
    ∀ inp, tokenize inp = "^".toList :: ts →
      ReadString lib inp heap =
        .ok (.list rdr2.heap [.symbol "with-meta".toList, F, M] .nil, rdr2.heap + 1) := by
  have h := reads_meta lib ts heap M F rdr1 rdr2 hM hF
  refine ⟨h, fun inp htok => ?_⟩
  have := ReadString_of_reads lib inp heap _ _ (by rw [htok]; exact h)
  simpa using this

/-- C7, witness: `^{:a b} [x]` is read as `(with-meta [x] {:a b})`. -/
theorem meta_reads_with_meta_witness :
    ReadString exampleLib "^\x7b:a b\x7d [x]".toList 0 =
      .ok (.list 4 [.symbol "with-meta".toList, .vector 3 [.symbol "x".toList] .nil,
        .hashmap 1 [(.keyword "a".toList, .symbol "b".toList)] .nil] .nil, 5) :=
  (meta_reads_with_meta exampleLib
    ["\x7b".toList, ":a".toList, "b".toList, "\x7d".toList, "[".toList, "x".toList, "]".toList] 0
    (.hashmap 1 [(.keyword "a".toList, .symbol "b".toList)] .nil)
    (.vector 3 [.symbol "x".toList] .nil)
    ⟨["[".toList, "x".toList, "]".toList], 2⟩ ⟨[], 4⟩ ⟨3, rfl⟩ ⟨3, rfl⟩).2 _ rfl

/-- C8: when the forms between `{` and `}` are read one after the other as `vs`,
the reader returns, for an even number of forms, the hash-map that holds the
forms paired as key, value, key, value, ... (assigned in this order, a later
entry replacing an earlier one of the same key; with keys pairwise different
under Go's `==` the entries are exactly these pairs), and for an odd number of
forms the error of `NewHashmap` and no value. -/
theorem hashMap_reads_pairs (lib : GoLib) (ts : List GoString) (heap : Nat) (vs : List Value)
    (rdr' : reader) (rest : List GoString) (hall : ReadsAll lib ⟨ts, heap + 1⟩ vs rdr')
    (hclose : rdr'.tokens = "\x7d".toList :: rest) :
    (vs.length % 2 = 0 →
      Reads lib ⟨"\x7b".toList :: ts, heap⟩ (.hashmap rdr'.heap (mapOfPairs (pairUp vs)) .nil)
        ⟨rest, rdr'.heap + 1⟩ ∧
      ∀ inp, tokenize inp = "\x7b".toList :: ts →
        ReadString lib inp heap =
          .ok (.hashmap rdr'.heap (mapOfPairs (pairUp vs)) .nil, rdr'.heap + 1)) ∧
    (vs.length % 2 = 1 →
      ∀ inp, tokenize inp = "\x7b".toList :: ts →
        ReadString lib inp heap =
          .error (.new "Odd number of arguments to NewHashMap".toList)) ∧
    ((pairUp vs).Pairwise (fun a b => goEq a.1 b.1 = false) →
      mapOfPairs (pairUp vs) = pairUp vs) := by
  have key := formFuel_hashMap lib ts heap vs rdr' rest hall hclose (ts.length + 2) (by omega)
  refine ⟨fun heven => ?_, fun hodd inp htok => ?_, fun hd => ?_⟩
  · have hr : Reads lib ⟨"\x7b".toList :: ts, heap⟩
        (.hashmap rdr'.heap (mapOfPairs (pairUp vs)) .nil) ⟨rest, rdr'.heap + 1⟩ := by
      refine ⟨ts.length + 2, ?_⟩
      rw [key, if_neg (by omega), newHashmapLoop_eq_foldl]
      rfl
    refine ⟨hr, fun inp htok => ?_⟩
    have := ReadString_of_reads lib inp heap _ _ (by rw [htok]; exact hr)
    simpa using this
  · rw [if_pos hodd] at key
    exact ReadString_of_error lib inp heap _ _ (by rw [htok]; exact key)
  · have := foldl_mapAssign_fresh (pairUp vs) [] (by simp) hd
    simpa [mapOfPairs] using this

/-- C8, witness: `{:a b "k" (c)}` is read as the map of the two pairs. -/
theorem hashMap_reads_pairs_witness :
    ReadString exampleLib "\x7b:a b \"k\" (c)\x7d".toList 0 =
      .ok (.hashmap 2 [(.keyword "a".toList, .symbol "b".toList),
        (.str "k".toList, .list 1 [.symbol "c".toList] .nil)] .nil, 3) :=
  ((hashMap_reads_pairs exampleLib
    [":a".toList, "b".toList, "\"k\"".toList, "(".toList, "c".toList, ")".toList, "\x7d".toList]
    0 [.keyword "a".toList, .symbol "b".toList, .str "k".toList,
      .list 1 [.symbol "c".toList] .nil]
    ⟨["\x7d".toList], 2⟩ []
    (.cons ⟨1, rfl⟩ (.cons ⟨1, rfl⟩ (.cons ⟨1, rfl⟩ (.cons ⟨2, rfl⟩ (.nil _)))))
    rfl).1 rfl).2 _ rfl

/-! ### Unterminated forms -/

theorem unterminated_peek {lib : GoLib} {rdr : reader} (h : Unterminated lib rdr) :
    ∃ t, rdr.peek = some t ∧ ¬ isCloser t := by
  cases h with
  | missing o ts h vs rdr' ho _ _ =>
    refine ⟨o, rfl, ?_⟩
    rcases ho with rfl | rfl | rfl <;> (unfold isCloser; decide)
  | inner o ts h vs rdr' ho _ _ =>
    refine ⟨o, rfl, ?_⟩
    rcases ho with rfl | rfl | rfl <;> (unfold isCloser; decide)
  | modifier m ts h hm _ =>
    refine ⟨m, rfl, ?_⟩
    rcases hm with rfl | rfl | rfl | rfl | rfl <;> (unfold isCloser; decide)
  | metaFirst ts h _ => exact ⟨_, rfl, by unfold isCloser; decide⟩
  | metaSecond ts h M rdr1 _ _ => exact ⟨_, rfl, by unfold isCloser; decide⟩

/-- What `form` returns on an opening bracket, in terms of `list`. -/
theorem form_opener_error (lib : GoLib) (F : reader → Result (Value × reader)) (o : GoString)
    (ho : isOpener o) (ts : List GoString) (h : Nat) (err : Error)
    (hl : ∀ e, isCloser e → list F o e ⟨o :: ts, h⟩ = .error err) :
    form lib F ⟨o :: ts, h⟩ = .error err := by
  rcases ho with rfl | rfl | rfl
  · rw [form_cons]
    simp only [show ¬ "(".toList = "'".toList by decide,
      show ¬ "(".toList = "`".toList by decide, show ¬ "(".toList = "~".toList by decide,
      show ¬ "(".toList = "~@".toList by decide, show ¬ "(".toList = "^".toList by decide,
      show ¬ "(".toList = "@".toList by decide, show ¬ "(".toList = ")".toList by decide,
      if_false, if_true]
    rw [hl _ (Or.inl rfl)]
  · rw [form_cons]
    simp only [show ¬ "[".toList = "'".toList by decide,
      show ¬ "[".toList = "`".toList by decide, show ¬ "[".toList = "~".toList by decide,
      show ¬ "[".toList = "~@".toList by decide, show ¬ "[".toList = "^".toList by decide,
      show ¬ "[".toList = "@".toList by decide, show ¬ "[".toList = ")".toList by decide,
      show ¬ "[".toList = "(".toList by decide, show ¬ "[".toList = "]".toList by decide,
      if_false, if_true]
    rw [vector_def, hl _ (Or.inr (Or.inl rfl))]
  · rw [form_cons]
    simp only [show ¬ "\x7b".toList = "'".toList by decide,
      show ¬ "\x7b".toList = "`".toList by decide, show ¬ "\x7b".toList = "~".toList by decide,
      show ¬ "\x7b".toList = "~@".toList by decide, show ¬ "\x7b".toList = "^".toList by decide,
      show ¬ "\x7b".toList = "@".toList by decide, show ¬ "\x7b".toList = ")".toList by decide,
      show ¬ "\x7b".toList = "(".toList by decide, show ¬ "\x7b".toList = "]".toList by decide,
      show ¬ "\x7b".toList = "[".toList by decide, show ¬ "\x7b".toList = "\x7d".toList by decide,
      if_false, if_true]
    rw [hashMap_def, hl _ (Or.inr (Or.inr rfl))]

theorem form_modifier (lib : GoLib) (F : reader → Result (Value × reader)) (m : GoString)
    (hm : isModifier m) (ts : List GoString) (h : Nat) :
    ∃ sym, form lib F ⟨m :: ts, h⟩ = modifier F sym ⟨m :: ts, h⟩ := by
  rcases hm with rfl | rfl | rfl | rfl | rfl
  · exact ⟨_, rfl⟩
  · exact ⟨_, rfl⟩
  · exact ⟨_, rfl⟩
  · exact ⟨_, rfl⟩
  · exact ⟨_, rfl⟩

theorem form_caret (lib : GoLib) (F : reader → Result (Value × reader))
    (ts : List GoString) (h : Nat) :
    form lib F ⟨"^".toList :: ts, h⟩ = meta F ⟨"^".toList :: ts, h⟩ := rfl

/-- An unterminated form makes `form` return `ErrUnderflow`. -/
theorem formFuel_unterminated (lib : GoLib) {rdr : reader} (h : Unterminated lib rdr) :
    ∀ K, rdr.tokens.length < K → formFuel lib K rdr = .error .ErrUnderflow := by
  induction h with
  | missing o ts h vs rdr' ho hall hend =>
    intro K hK
    obtain ⟨k, rfl⟩ : ∃ k, K = k + 1 := ⟨K - 1, by omega⟩
    rw [formFuel_succ]
    apply form_opener_error lib _ o ho
    intro e he
    exact list_readsAll_underflow lib o e he k ts h vs rdr' hall hend
      (by simp only [List.length_cons] at hK; omega)
  | inner o ts h vs rdr' ho hall hun ih =>
    intro K hK
    obtain ⟨k, rfl⟩ : ∃ k, K = k + 1 := ⟨K - 1, by omega⟩
    rw [formFuel_succ]
    apply form_opener_error lib _ o ho
    intro e he
    obtain ⟨t, hp, hnc⟩ := unterminated_peek hun
    have hle := readsAll_le hall
    simp only [List.length_cons] at hK hle
    exact list_readsAll_error lib o e he k ts h vs rdr' t _ hall hp
      (fun h => hnc (h ▸ he)) (ih k (by omega)) (by omega)
  | modifier m ts h hm hun ih =>
    intro K hK
    obtain ⟨k, rfl⟩ : ∃ k, K = k + 1 := ⟨K - 1, by omega⟩
    obtain ⟨sym, hs⟩ := form_modifier lib (formFuel lib k) m hm ts h
    simp only [List.length_cons] at hK
    rw [formFuel_succ, hs, modifier_def, ih k (by simp only; omega)]
  | metaFirst ts h hun ih =>
    intro K hK
    obtain ⟨k, rfl⟩ : ∃ k, K = k + 1 := ⟨K - 1, by omega⟩
    simp only [List.length_cons] at hK
    rw [formFuel_succ, form_caret, meta_def, ih k (by simp only; omega)]
  | metaSecond ts h M rdr1 hM hun ih =>
    intro K hK
    obtain ⟨k, rfl⟩ : ∃ k, K = k + 1 := ⟨K - 1, by omega⟩
    simp only [List.length_cons] at hK
    have hlt := reads_lt hM
    simp only at hlt
    rw [formFuel_succ, form_caret, meta_def, reads_fuel hM k (by simp only; omega)]
    simp only [ih k (by omega)]

theorem atom_open_string (lib : GoLib) (t : GoString) (ts : List GoString) (h : Nat)
    (h1 : t.head? = some '"') (h2 : t.getLast? ≠ some '"') :
    atom lib ⟨t :: ts, h⟩ = .error (.new "expected '\"', got EOF".toList) := by
  cases t with
  | nil => simp at h1
  | cons c cs =>
    simp only [List.head?_cons, Option.some.injEq] at h1
    subst h1
    have e1 : ('"' :: cs) ≠ "nil".toList := by simp
    have e2 : ('"' :: cs) ≠ "true".toList := by simp
    have e3 : ('"' :: cs) ≠ "false".toList := by simp
    simp only [atom, next, e1, e2, e3, ↓reduceIte, numberPattern_quote]
    simp [h2]

theorem form_string_token (lib : GoLib) (F : reader → Result (Value × reader)) (t : GoString)
    (ts : List GoString) (h : Nat) (h1 : t.head? = some '"') :
    form lib F ⟨t :: ts, h⟩ = atom lib ⟨t :: ts, h⟩ := by
  cases t with
  | nil => simp at h1
  | cons c cs =>
    simp only [List.head?_cons, Option.some.injEq] at h1
    subst h1
    rw [form_cons]
    simp only [show ∀ x : GoString, ¬ ('"' :: cs) = '\'' :: x from by simp,
      show ∀ x : GoString, ¬ ('"' :: cs) = '`' :: x from by simp,
      show ∀ x : GoString, ¬ ('"' :: cs) = '~' :: x from by simp,
      show ∀ x : GoString, ¬ ('"' :: cs) = '^' :: x from by simp,
      show ∀ x : GoString, ¬ ('"' :: cs) = '@' :: x from by simp,
      show ∀ x : GoString, ¬ ('"' :: cs) = ')' :: x from by simp,
      show ∀ x : GoString, ¬ ('"' :: cs) = '(' :: x from by simp,
      show ∀ x : GoString, ¬ ('"' :: cs) = ']' :: x from by simp,
      show ∀ x : GoString, ¬ ('"' :: cs) = '[' :: x from by simp,
      show ∀ x : GoString, ¬ ('"' :: cs) = '}' :: x from by simp,
      show ∀ x : GoString, ¬ ('"' :: cs) = '{' :: x from by simp,
      String.toList, if_false]

/-- C5, counterexample: a string without its closing quote is reported with the
error `expected '"', got EOF`, which is not `ErrUnderflow`. -/
theorem ReadString_open_string :
    ReadString exampleLib "\"abc".toList 0 = .error (.new "expected '\"', got EOF".toList) ∧
    ReadString exampleLib "\"abc".toList 0 ≠ .error .ErrUnderflow := by
  have h : ReadString exampleLib "\"abc".toList 0 =
      .error (.new "expected '\"', got EOF".toList) := by rfl
  refine ⟨h, ?_⟩
  rw [h]
  simp

/-- C5, amended: for every input that starts a list, vector or hash-map whose
closing bracket is missing (at any depth, also behind reader macros),
`ReadString` returns `ErrUnderflow`; for an input whose first token is a string
that does not end in a double quote it returns the error
`expected '"', got EOF` instead. -/
theorem ReadString_unterminated (lib : GoLib) (inp : GoString) (heap : Nat) :
    (Unterminated lib ⟨tokenize inp, heap⟩ → ReadString lib inp heap = .error .ErrUnderflow) ∧
    (∀ t ts, tokenize inp = t :: ts → t.head? = some '"' → t.getLast? ≠ some '"' →
      ReadString lib inp heap = .error (.new "expected '\"', got EOF".toList)) := by
  constructor
  · intro h
    exact ReadString_of_error lib inp heap _ _
      (formFuel_unterminated lib h ((tokenize inp).length + 1) (by simp))
  · intro t ts htok h1 h2
    apply ReadString_of_error lib inp heap 1
    rw [htok, formFuel_succ, form_string_token lib _ t ts heap h1,
      atom_open_string lib t ts heap h1 h2]

/-- C5, witness: in `(a [b {:k c}` the vector and the list are not closed. -/
theorem ReadString_unterminated_witness :
    ReadString exampleLib "(a [b \x7b:k c\x7d".toList 0 = .error .ErrUnderflow :=
  (ReadString_unterminated exampleLib "(a [b \x7b:k c\x7d".toList 0).1
    (Unterminated.inner "(".toList _ 0 [.symbol "a".toList] ⟨_, 1⟩ (Or.inl rfl)
      (.cons ⟨1, rfl⟩ (.nil _))
      (Unterminated.missing "[".toList _ 1
        [.symbol "b".toList, .hashmap 3 [(.keyword "k".toList, .symbol "c".toList)] .nil]
        ⟨[], 4⟩ (Or.inr (Or.inl rfl)) (.cons ⟨1, rfl⟩ (.cons ⟨3, rfl⟩ (.nil _))) rfl))

end reader


/-! ## Print and read back -/

theorem matchToken_skip (c : Char) (s : List Char) (hc : isSkip c = true) :
    matchToken (c :: s) = matchToken s := by
  simp [matchToken, List.dropWhile, hc]

theorem tokenize_skip (c : Char) (s : List Char) (hc : isSkip c = true) :
    tokenize (c :: s) = tokenize s := by
  rw [tokenize_cons, matchToken_skip c s hc]
  cases s with
  | nil => rfl
  | cons d s => rw [tokenize_cons]

theorem matchToken_bracket (c : Char) (s : List Char) (hc : isSpecial c = true)
    (hne : c ≠ '~') : matchToken (c :: s) = ([c], s) := by
  have h1 : isSkip c = false := by
    simp only [isSpecial, isSkip, isSpace, Bool.or_eq_true, beq_iff_eq] at hc ⊢
    rcases hc with ((((((((((h | h) | h) | h) | h) | h) | h) | h) | h) | h) | h) <;>
      subst h <;> rfl
  have h2 : (c == '~') = false := by simpa using hne
  simp [matchToken, List.dropWhile, h1, h2, hc]

theorem tokenize_bracket (c : Char) (s : List Char) (hc : isSpecial c = true)
    (hne : c ≠ '~') : tokenize (c :: s) = [c] :: tokenize s := by
  rw [tokenize_cons, matchToken_bracket c s hc hne]
  have : c ≠ ';' := by
    rintro rfl
    simp [isSpecial] at hc
  simp [this]

theorem isSkip_of_not_isSymChar_false (c : Char) (h : isSymChar c = true) :
    isSkip c = false := by
  simp only [isSymChar, isSkip, Bool.not_eq_true', Bool.or_eq_false_iff] at h ⊢
  simp_all

theorem takeWhile_append_of_all (p : Char → Bool) (t rest : List Char)
    (ht : ∀ c ∈ t, p c = true) (hr : ∀ c, rest.head? = some c → p c = false) :
    (t ++ rest).takeWhile p = t ∧ (t ++ rest).dropWhile p = rest := by
  induction t with
  | nil =>
    cases rest with
    | nil => simp
    | cons d rest =>
      have := hr d rfl
      simp [List.takeWhile, List.dropWhile, this]
  | cons c t ih =>
    have hc := ht c (by simp)
    have := ih (fun x hx => ht x (by simp [hx]))
    simp [List.takeWhile, List.dropWhile, hc, this]

/-- A run of symbol characters that does not start with a special character and
is followed by the end or by a character outside the class is one token. -/
theorem tokenize_run (t rest : List Char) (hne : t ≠ [])
    (ht : ∀ c ∈ t, isSymChar c = true) (hhead : ∀ c, t.head? = some c → isSpecial c = false)
    (hr : ∀ c, rest.head? = some c → isSymChar c = false) :
    tokenize (t ++ rest) = t :: tokenize rest := by
  cases t with
  | nil => exact absurd rfl hne
  | cons c t =>
    have hc : isSymChar c = true := ht c (by simp)
    have hsk : isSkip c = false := isSkip_of_not_isSymChar_false c hc
    have hsp : isSpecial c = false := hhead c rfl
    have hq : (c == '"') = false := by
      have : c ≠ '"' := by rintro rfl; simp [isSymChar] at hc
      simpa using this
    have hsc : (c == ';') = false := by
      have : c ≠ ';' := by rintro rfl; simp [isSymChar] at hc
      simpa using this
    have htl : (c == '~') = false := by
      have : c ≠ '~' := by rintro rfl; simp [isSpecial] at hsp
      simpa using this
    obtain ⟨e1, e2⟩ := takeWhile_append_of_all isSymChar (c :: t) rest ht hr
    have hm : matchToken (c :: t ++ rest) = (c :: t, rest) := by
      have hd : (c :: t ++ rest).dropWhile isSkip = c :: (t ++ rest) := by
        simp [List.dropWhile, hsk]
      unfold matchToken
      rw [hd]
      simp only [htl, hsp, hq, hsc, Bool.false_and, Bool.false_eq_true, if_false]
      rw [← List.cons_append, e1, e2]
    rw [List.cons_append, tokenize_cons, ← List.cons_append, hm]
    have : ¬ (c = ';') := by simpa using hsc
    simp [this]

theorem stringBody_quote (rest : List Char) : stringBody ('"' :: rest) = ([], '"' :: rest) := by
  rw [stringBody.eq_def]; simp

theorem stringBody_plain (c : Char) (rest : List Char) (h1 : c ≠ '\\') (h2 : c ≠ '"') :
    stringBody (c :: rest) = (c :: (stringBody rest).1, (stringBody rest).2) := by
  rw [stringBody.eq_def]; simp [h1, h2]

theorem stringBody_pair (d : Char) (rest : List Char) (h : d ≠ '\n') :
    stringBody ('\\' :: d :: rest) = ('\\' :: d :: (stringBody rest).1, (stringBody rest).2) := by
  rw [stringBody.eq_def]; simp [h]

theorem stringBody_escape (s : GoString) (rest : List Char) :
    stringBody (s.flatMap escapeChar ++ '"' :: rest) = (s.flatMap escapeChar, '"' :: rest) := by
  induction s with
  | nil => simpa using stringBody_quote rest
  | cons c s ih =>
    rw [List.flatMap_cons]
    by_cases h1 : c = '\\'
    · subst h1
      have e : escapeChar '\\' = ['\\', '\\'] := rfl
      rw [e]
      simp only [List.cons_append, List.nil_append]
      rw [stringBody_pair _ _ (by decide), ih]
    · by_cases h2 : c = '"'
      · subst h2
        have e : escapeChar '"' = ['\\', '"'] := rfl
        rw [e]
        simp only [List.cons_append, List.nil_append]
        rw [stringBody_pair _ _ (by decide), ih]
      · by_cases h3 : c = '\n'
        · subst h3
          have e : escapeChar '\n' = ['\\', 'n'] := rfl
          rw [e]
          simp only [List.cons_append, List.nil_append]
          rw [stringBody_pair _ _ (by decide), ih]
        · have e : escapeChar c = [c] := by simp [escapeChar, h1, h2, h3]
          rw [e]
          simp only [List.cons_append, List.nil_append]
          rw [stringBody_plain c _ h1 h2, ih]

/-- The printed form of a string is one token, whatever follows. -/
theorem tokenize_string (s : GoString) (rest : List Char) :
    tokenize ('"' :: (s.flatMap escapeChar ++ '"' :: rest)) =
      ('"' :: (s.flatMap escapeChar ++ ['"'])) :: tokenize rest := by
  have hm : matchToken ('"' :: (s.flatMap escapeChar ++ '"' :: rest)) =
      ('"' :: (s.flatMap escapeChar ++ ['"']), rest) := by
    simp [matchToken, List.dropWhile, isSkip, isSpace, isSpecial, stringBody_escape]
  rw [tokenize_cons, hm]
  simp


theorem isRun_spec (t : GoString) (h : isRun t = true) :
    t ≠ [] ∧ (∀ c ∈ t, isSymChar c = true) ∧ ∀ c, t.head? = some c → isSpecial c = false := by
  cases t with
  | nil => simp [isRun] at h
  | cons c t =>
    simp only [isRun, Bool.and_eq_true, Bool.not_eq_true', List.all_eq_true] at h
    refine ⟨by simp, h.2, fun x hx => ?_⟩
    simp only [List.head?_cons, Option.some.injEq] at hx
    subst hx; exact h.1

theorem tokenize_isRun (t rest : List Char) (h : isRun t = true) (hr : Delimited rest) :
    tokenize (t ++ rest) = t :: tokenize rest := by
  obtain ⟨h1, h2, h3⟩ := isRun_spec t h
  exact tokenize_run t rest h1 h2 h3 hr

theorem isDigit_isSymChar (c : Char) (h : isDigit c = true) :
    isSymChar c = true ∧ isSpecial c = false ∧ c ≠ ':' := by
  simp only [isDigit, Bool.and_eq_true, decide_eq_true_eq] at h
  have h1 : 48 ≤ c.val.toNat := by
    have := h.1
    rw [Char.le_def] at this
    exact this
  have h2 : c.val.toNat ≤ 57 := by
    have := h.2
    rw [Char.le_def] at this
    exact this
  have key : ∀ d : Char, (d.val.toNat < 48 ∨ 57 < d.val.toNat) → c ≠ d := by
    intro d hd hcd
    subst hcd
    omega
  refine ⟨?_, ?_, key ':' (by decide)⟩
  · simp only [isSymChar, isSpace, Bool.not_eq_true', Bool.or_eq_false_iff, beq_eq_false_iff_ne,
      ne_eq]
    refine ⟨⟨⟨⟨⟨⟨⟨⟨⟨⟨⟨⟨⟨⟨⟨?_, ?_⟩, ?_⟩, ?_⟩, ?_⟩, ?_⟩, ?_⟩, ?_⟩, ?_⟩, ?_⟩, ?_⟩, ?_⟩, ?_⟩, ?_⟩, ?_⟩, ?_⟩ <;>
      exact key _ (by decide)
  · simp only [isSpecial, Bool.or_eq_false_iff, beq_eq_false_iff_ne, ne_eq]
    refine ⟨⟨⟨⟨⟨⟨⟨⟨⟨⟨?_, ?_⟩, ?_⟩, ?_⟩, ?_⟩, ?_⟩, ?_⟩, ?_⟩, ?_⟩, ?_⟩, ?_⟩ <;>
      exact key _ (by decide)


theorem numberPattern_tail (t1 : GoString)
    (h1 : (t1.takeWhile isDigit).isEmpty = false)
    (h2 : (if (t1.dropWhile isDigit).head? == some '.' then (t1.dropWhile isDigit).tail
      else t1.dropWhile isDigit).all isDigit = true) :
    t1 ≠ [] ∧ ∀ c ∈ t1, (isDigit c = true ∨ c = '-' ∨ c = '.') := by
  have hsplit := List.takeWhile_append_dropWhile isDigit t1
  constructor
  · rintro rfl
    simp at h1
  · intro c hc
    rw [← hsplit] at hc
    rcases List.mem_append.mp hc with h | h
    · exact Or.inl (List.mem_takeWhile_imp h)
    · cases hr : t1.dropWhile isDigit with
      | nil => rw [hr] at h; simp at h
      | cons d r =>
        rw [hr] at h h2
        by_cases hd : d = '.'
        · subst hd
          simp only [List.head?_cons, beq_self_eq_true, ↓reduceIte, List.tail_cons,
            List.all_eq_true] at h2
          rcases List.mem_cons.mp h with h | h
          · exact Or.inr (Or.inr h)
          · exact Or.inl (h2 c h)
        · have : (some d == some '.') = false := by simpa using hd
          simp only [List.head?_cons, this, Bool.false_eq_true, ↓reduceIte,
            List.all_eq_true] at h2
          exact Or.inl (h2 c h)

theorem numberPattern_chars (t : GoString) (h : numberPattern t = true) :
    t ≠ [] ∧ ∀ c ∈ t, (isDigit c = true ∨ c = '-' ∨ c = '.') := by
  simp only [numberPattern, Bool.and_eq_true, Bool.not_eq_true'] at h
  by_cases hm : t.head? = some '-'
  · simp only [hm, beq_self_eq_true, ↓reduceIte] at h
    obtain ⟨n1, n2⟩ := numberPattern_tail t.tail h.1 h.2
    cases t with
    | nil => simp at hm
    | cons c t =>
      simp only [List.head?_cons, Option.some.injEq] at hm
      subst hm
      refine ⟨by simp, fun x hx => ?_⟩
      rcases List.mem_cons.mp hx with hx | hx
      · exact Or.inr (Or.inl hx)
      · exact n2 x hx
  · have : (t.head? == some '-') = false := by simpa using hm
    simp only [this, Bool.false_eq_true, ↓reduceIte] at h
    exact numberPattern_tail t h.1 h.2

theorem numberChar_facts (c : Char) (h : isDigit c = true ∨ c = '-' ∨ c = '.') :
    isSymChar c = true ∧ isSpecial c = false ∧ c ≠ ':' ∧ c ≠ 'n' ∧ c ≠ 't' ∧ c ≠ 'f' ∧
      c ≠ '"' := by
  rcases h with h | rfl | rfl
  · obtain ⟨a, b, d⟩ := isDigit_isSymChar c h
    refine ⟨a, b, d, ?_, ?_, ?_, ?_⟩ <;> (rintro rfl; simp [isDigit] at h)
  · decide
  · decide

/-- A token of the number pattern is a run of symbol characters and none of the
words `nil`, `true`, `false`, nor a keyword or a string. -/
theorem numberPattern_isRun (t : GoString) (h : numberPattern t = true) :
    isRun t = true ∧ t ≠ "nil".toList ∧ t ≠ "true".toList ∧ t ≠ "false".toList ∧
      ∃ c cs, t = c :: cs ∧ (c == ':') = false := by
  obtain ⟨hne, hall⟩ := numberPattern_chars t h
  cases t with
  | nil => exact absurd rfl hne
  | cons c cs =>
    have hc := numberChar_facts c (hall c (by simp))
    refine ⟨?_, ?_, ?_, ?_, c, cs, rfl, by simpa using hc.2.2.1⟩
    · simp only [isRun, hc.2.1, Bool.not_false, Bool.true_and, List.all_eq_true]
      intro x hx
      exact (numberChar_facts x (hall x hx)).1
    · intro e
      have : c = 'n' := by simpa using congrArg List.head? e
      exact hc.2.2.2.1 this
    · intro e
      have : c = 't' := by simpa using congrArg List.head? e
      exact hc.2.2.2.2.1 this
    · intro e
      have : c = 'f' := by simpa using congrArg List.head? e
      exact hc.2.2.2.2.2.1 this


theorem delimited_cons (c : Char) (s : List Char) (h : isSymChar c = false) :
    Delimited (c :: s) := by
  intro x hx
  simp only [List.head?_cons, Option.some.injEq] at hx
  subst hx; exact h

theorem delimited_nil : Delimited [] := by
  intro x hx; simp at hx

theorem tokenize_Join_cons (a : GoString) (L : List GoString) (tail : List Char)
    (T : List GoString) (ha : ∀ X, Delimited X → tokenize (a ++ X) = T ++ tokenize X)
    (htail : Delimited tail) :
    tokenize (Join (a :: L) " ".toList ++ tail) = T ++ tokenize (Join L " ".toList ++ tail) := by
  cases L with
  | nil => simpa [Join] using ha tail htail
  | cons b L =>
    have e : Join (a :: b :: L) " ".toList ++ tail = a ++ (' ' :: (Join (b :: L) " ".toList ++ tail)) := by
      simp [Join]
    rw [e, ha _ (delimited_cons _ _ (by decide)), tokenize_skip _ _ (by decide)]

theorem Print_list (lib : GoLib) (p : Nat) (forms : List Value) (m : Value) (rest : List Char) :
    Print lib (.list p forms m) true ++ rest =
      '(' :: (Join (printForms lib forms true) " ".toList ++ ')' :: rest) := by
  simp [Print]

theorem Print_vector (lib : GoLib) (p : Nat) (forms : List Value) (m : Value) (rest : List Char) :
    Print lib (.vector p forms m) true ++ rest =
      '[' :: (Join (printForms lib forms true) " ".toList ++ ']' :: rest) := by
  simp [Print]

theorem Print_hashmap (lib : GoLib) (p : Nat) (forms : GoMap) (m : Value) (rest : List Char) :
    Print lib (.hashmap p forms m) true ++ rest =
      '\x7b' :: (Join (printEntries lib forms true) " ".toList ++ '\x7d' :: rest) := by
  simp [Print]

mutual
/-- The tokens of the printing of a printable value. -/
theorem tokenize_Print (lib : GoLib) :
    ∀ v, printable lib v = true → ∀ rest, Delimited rest →
      tokenize (Print lib v true ++ rest) = toks lib v ++ tokenize rest
  | .nil, _, rest, hr => by
    simpa [Print, toks] using tokenize_isRun "nil".toList rest (by decide) hr
  | .bool true, _, rest, hr => by
    simpa [Print, toks] using tokenize_isRun "true".toList rest (by decide) hr
  | .bool false, _, rest, hr => by
    simpa [Print, toks] using tokenize_isRun "false".toList rest (by decide) hr
  | .number x, hv, rest, hr => by
    simp only [printable, Bool.and_eq_true] at hv
    simpa [Print, toks] using
      tokenize_isRun (lib.Sprintf x) rest (numberPattern_isRun _ hv.1).1 hr
  | .str s, _, rest, _ => by
    rw [Print_str_pretty]
    simpa [toks] using tokenize_string s rest
  | .symbol s, hv, rest, hr => by
    simp only [printable, isSymbolToken, Bool.and_eq_true] at hv
    simpa [Print, toks] using tokenize_isRun s rest hv.1.1.1.1.1 hr
  | .keyword s, hv, rest, hr => by
    simp only [printable] at hv
    have hrun : isRun (':' :: s) = true := by
      simp only [isRun, List.all_cons, Bool.and_eq_true, Bool.not_eq_true']
      exact ⟨by decide, by decide, hv⟩
    simpa [Print, toks] using tokenize_isRun (':' :: s) rest hrun hr
  | .list p forms m, hv, rest, hr => by
    simp only [printable] at hv
    rw [Print_list, tokenize_bracket _ _ (by decide) (by decide),
      tokenize_printForms lib forms hv _ (delimited_cons _ _ (by decide)),
      tokenize_bracket _ _ (by decide) (by decide)]
    simp [toks]
  | .vector p forms m, hv, rest, hr => by
    simp only [printable] at hv
    rw [Print_vector, tokenize_bracket _ _ (by decide) (by decide),
      tokenize_printForms lib forms hv _ (delimited_cons _ _ (by decide)),
      tokenize_bracket _ _ (by decide) (by decide)]
    simp [toks]
  | .hashmap p forms m, hv, rest, hr => by
    simp only [printable, Bool.and_eq_true] at hv
    rw [Print_hashmap, tokenize_bracket _ _ (by decide) (by decide),
      tokenize_printEntries lib forms hv.1 _ (delimited_cons _ _ (by decide)),
      tokenize_bracket _ _ (by decide) (by decide)]
    simp [toks]
  | .atom _ _, hv, _, _ => by simp [printable] at hv
  | .stdFunc _ _, hv, _, _ => by simp [printable] at hv
  | .extFunc _ _ _ _ _ _, hv, _, _ => by simp [printable] at hv
/-- The tokens of the printings of a list of values, joined by spaces. -/
theorem tokenize_printForms (lib : GoLib) :
    ∀ forms, printableAll lib forms = true → ∀ tail, Delimited tail →
      tokenize (Join (printForms lib forms true) " ".toList ++ tail) =
        toksAll lib forms ++ tokenize tail
  | [], _, tail, _ => by simp [printForms, Join, toksAll]
  | v :: forms, hv, tail, ht => by
    simp only [printableAll, Bool.and_eq_true] at hv
    rw [printForms, tokenize_Join_cons _ _ _ _ (tokenize_Print lib v hv.1) ht,
      tokenize_printForms lib forms hv.2 tail ht]
    simp [toksAll]
/-- The tokens of the printings of the keys and values of a map. -/
theorem tokenize_printEntries (lib : GoLib) :
    ∀ forms, printableEntries lib forms = true → ∀ tail, Delimited tail →
      tokenize (Join (printEntries lib forms true) " ".toList ++ tail) =
        toksEntries lib forms ++ tokenize tail
  | [], _, tail, _ => by simp [printEntries, Join, toksEntries]
  | (k, v) :: forms, hv, tail, ht => by
    simp only [printableEntries, Bool.and_eq_true] at hv
    rw [printEntries, tokenize_Join_cons _ _ _ _ (tokenize_Print lib k hv.1.1.2) ht,
      tokenize_Join_cons _ _ _ _ (tokenize_Print lib v hv.1.2) ht,
      tokenize_printEntries lib forms hv.2 tail ht]
    simp [toksEntries]
end


namespace reader

/-- On a token that does not start with a special character `form` is `atom`. -/
theorem form_atom_of_head (lib : GoLib) (F : reader → Result (Value × reader)) (c : Char)
    (cs : List Char) (ts : List GoString) (h : Nat) (hsp : isSpecial c = false) :
    form lib F ⟨(c :: cs) :: ts, h⟩ = atom lib ⟨(c :: cs) :: ts, h⟩ := by
  have key : ∀ (d : Char) (x : List Char), isSpecial d = true → ¬ (c :: cs) = d :: x := by
    intro d x hd e
    have := (List.cons.inj e).1
    subst this
    rw [hd] at hsp
    exact Bool.noConfusion hsp
  rw [form_cons]
  simp only [String.toList, key '\'' _ (by decide), key '`' _ (by decide),
    key '~' _ (by decide), key '^' _ (by decide), key '@' _ (by decide),
    key ')' _ (by decide), key '(' _ (by decide), key ']' _ (by decide),
    key '[' _ (by decide), key '\x7d' _ (by decide), key '\x7b' _ (by decide), if_false]

theorem reads_of_atom (lib : GoLib) (c : Char) (cs : List Char) (ts : List GoString) (h : Nat)
    (hsp : isSpecial c = false) (v : Value)
    (ha : atom lib ⟨(c :: cs) :: ts, h⟩ = .ok (v, ⟨ts, h⟩)) :
    Reads lib ⟨(c :: cs) :: ts, h⟩ v ⟨ts, h⟩ := by
  refine ⟨1, ?_⟩
  rw [formFuel_succ, form_atom_of_head lib _ c cs ts h hsp, ha]

theorem atom_keyword (lib : GoLib) (s : GoString) (ts : List GoString) (h : Nat) :
    atom lib ⟨(':' :: s) :: ts, h⟩ = .ok (.keyword s, ⟨ts, h⟩) := by
  have h1 : (':' :: s) ≠ "nil".toList := by simp
  have h2 : (':' :: s) ≠ "true".toList := by simp
  have h3 : (':' :: s) ≠ "false".toList := by simp
  simp [atom, next, h1, h2, h3]

theorem atom_number (lib : GoLib) (t : GoString) (ts : List GoString) (h : Nat)
    (hn : numberPattern t = true) :
    atom lib ⟨t :: ts, h⟩ = .ok (.number (lib.ParseFloat t), ⟨ts, h⟩) := by
  obtain ⟨_, h1, h2, h3, c, cs, rfl, hc⟩ := numberPattern_isRun t hn
  simp only [atom, next, h1, h2, h3, ↓reduceIte, hc, Bool.false_eq_true, hn]

theorem atom_symbol (lib : GoLib) (s : GoString) (ts : List GoString) (h : Nat)
    (hs : isSymbolToken s = true) :
    atom lib ⟨s :: ts, h⟩ = .ok (.symbol s, ⟨ts, h⟩) := by
  simp only [isSymbolToken, Bool.and_eq_true, bne_iff_ne, ne_eq, Bool.not_eq_true'] at hs
  obtain ⟨⟨⟨⟨⟨hrun, h1⟩, h2⟩, h3⟩, h4⟩, h5⟩ := hs
  obtain ⟨_, hall, _⟩ := isRun_spec s hrun
  cases s with
  | nil => simp [isRun] at hrun
  | cons c cs =>
    have hc : (c == ':') = false := by
      have : c ≠ ':' := by
        intro e; subst e; simp at h4
      simpa using this
    have hq : (c == '"') = false := by
      have : c ≠ '"' := by
        intro e; subst e
        have := hall '"' (by simp)
        simp [isSymChar] at this
      simpa using this
    simp only [atom, next, h1, h2, h3, ↓reduceIte, hc, Bool.false_eq_true, h5, hq]

theorem atom_escaped (lib : GoLib) (s : GoString) (ts : List GoString) (h : Nat)
    (hs : sentinel ∉ s) :
    atom lib ⟨('"' :: (s.flatMap escapeChar ++ ['"'])) :: ts, h⟩ = .ok (.str s, ⟨ts, h⟩) := by
  rw [atom_string_token, unescape_eq_onePass _ (sentinel_not_mem_escape s hs),
    unescapeOnePass_escape]

end reader

theorem float64_eq_comm (x y : Float64) : Float64.eq x y = Float64.eq y x := by
  simp only [Float64.eq]
  rw [Bool.and_comm (!x.isNaN) (!y.isNaN), Bool.and_comm x.isZero y.isZero]
  congr 2
  exact Bool.eq_iff_iff.mpr (by simp only [beq_iff_eq]; exact ⟨Eq.symm, Eq.symm⟩)

theorem float64_isZero_of_bits (a c : Float64) (h : a.bits % 2 ^ 64 = c.bits % 2 ^ 64) :
    a.isZero = c.isZero := by
  have h1 : a.bits % 2 ^ 63 = c.bits % 2 ^ 63 := by
    have e1 : a.bits % 2 ^ 64 % 2 ^ 63 = a.bits % 2 ^ 63 :=
      Nat.mod_mod_of_dvd _ (by norm_num)
    have e2 : c.bits % 2 ^ 64 % 2 ^ 63 = c.bits % 2 ^ 63 :=
      Nat.mod_mod_of_dvd _ (by norm_num)
    rw [← e1, ← e2, h]
  simp only [Float64.isZero, h1]

/-- Two numbers that are `==` compare alike with every third number. -/
theorem float64_eq_congr (a b c : Float64) (h : Float64.eq a b = true) :
    Float64.eq a c = Float64.eq b c := by
  simp only [Float64.eq, Bool.and_eq_true, Bool.not_eq_true', Bool.or_eq_true, beq_iff_eq] at h
  obtain ⟨⟨ha, hb⟩, hz⟩ := h
  simp only [Float64.eq, ha, hb, Bool.not_false, Bool.true_and]
  congr 1
  rcases hz with ⟨za, zb⟩ | hbits
  · have k1 : (a.bits % 2 ^ 64 == c.bits % 2 ^ 64) = true → c.isZero = true := by
      intro e
      rw [← float64_isZero_of_bits a c (by simpa using e)]; exact za
    have k2 : (b.bits % 2 ^ 64 == c.bits % 2 ^ 64) = true → c.isZero = true := by
      intro e
      rw [← float64_isZero_of_bits b c (by simpa using e)]; exact zb
    rw [za, zb]
    cases hc : c.isZero
    · have n1 : (a.bits % 2 ^ 64 == c.bits % 2 ^ 64) = false := by
        cases h1 : (a.bits % 2 ^ 64 == c.bits % 2 ^ 64)
        · rfl
        · rw [k1 h1] at hc; exact Bool.noConfusion hc
      have n2 : (b.bits % 2 ^ 64 == c.bits % 2 ^ 64) = false := by
        cases h2 : (b.bits % 2 ^ 64 == c.bits % 2 ^ 64)
        · rfl
        · rw [k2 h2] at hc; exact Bool.noConfusion hc
      rw [n1, n2]
    · rfl
  · rw [float64_isZero_of_bits a b hbits, hbits]

theorem keyEquiv_refl (v : Value) : KeyEquiv v v := fun _ => ⟨rfl, rfl⟩

theorem keyEquiv_number (x' x : Float64) (h : Float64.eq x' x = true) :
    KeyEquiv (.number x') (.number x) := by
  intro w
  cases w <;> simp only [goEq, and_self]
  rename_i y
  refine ⟨float64_eq_congr x' x y h, ?_⟩
  rw [float64_eq_comm y x', float64_eq_comm y x]
  exact float64_eq_congr x' x y h

/-- A printable key is equal to itself under Go's `==`. -/
theorem goEq_self_of_printable (lib : GoLib) (k : Value) (h : isMapKey k = true)
    (hp : printable lib k = true) : goEq k k = true := by
  cases k <;> simp [isMapKey] at h <;> try simp [goEq]
  rename_i x
  simp only [printable, Bool.and_eq_true] at hp
  have := float64_eq_congr _ _ x hp.2
  rw [← this]; exact hp.2

theorem pairUp_ToList : ∀ m : GoMap, pairUp (ToList m) = m
  | [] => rfl
  | (k, v) :: m => by simp [ToList, pairUp, pairUp_ToList m]

theorem length_ToList : ∀ m : GoMap, (ToList m).length = 2 * m.length
  | [] => rfl
  | (k, v) :: m => by simp [ToList, length_ToList m]; omega

theorem keysDistinct_pairwise :
    ∀ m : GoMap, keysDistinct m = true → m.Pairwise (fun a b => goEq a.1 b.1 = false)
  | [], _ => List.Pairwise.nil
  | (k, v) :: m, h => by
    simp only [keysDistinct, Bool.and_eq_true, List.all_eq_true, Bool.not_eq_true'] at h
    exact List.Pairwise.cons (fun b hb => h.1 b hb) (keysDistinct_pairwise m h.2)

theorem all_keys_congr (k' k : Value) (hk : KeyEquiv k' k) {m' m : GoMap}
    (h : List.Forall₂ (fun e' e => KeyEquiv e'.1 e.1) m' m) :
    m'.all (fun e => !goEq k' e.1) = m.all (fun e => !goEq k e.1) := by
  induction h with
  | nil => rfl
  | @cons a b l1 l2 h1 _ ih =>
    simp only [List.all_cons, ih]
    rw [(hk a.1).1, (h1 k).2]

theorem keysDistinct_congr {m' m : GoMap}
    (h : List.Forall₂ (fun e' e => KeyEquiv e'.1 e.1) m' m) :
    keysDistinct m' = keysDistinct m := by
  induction h with
  | nil => rfl
  | @cons a b l1 l2 h1 h2 ih =>
    obtain ⟨k', v'⟩ := a
    obtain ⟨k, v⟩ := b
    simp only [keysDistinct, ih, all_keys_congr k' k h1 h2]

theorem mapLookup_congr (k' k : Value) (hk : KeyEquiv k' k) :
    ∀ m : GoMap, mapLookup m k' = mapLookup m k
  | [] => rfl
  | (a, v) :: m => by
    simp only [mapLookup, (hk a).2, mapLookup_congr k' k hk m]

theorem mapLookup_self :
    ∀ m : GoMap, keysDistinct m = true → (∀ e ∈ m, goEq e.1 e.1 = true) →
      ∀ e ∈ m, mapLookup m e.1 = some e.2
  | [], _, _, e, he => by simp at he
  | (k, v) :: m, hd, hr, e, he => by
    simp only [keysDistinct, Bool.and_eq_true, List.all_eq_true, Bool.not_eq_true'] at hd
    rcases List.mem_cons.mp he with rfl | hmem
    · simp [mapLookup, hr (k, v) (by simp)]
    · have h1 : goEq k e.1 = false := hd.1 e hmem
      simp only [mapLookup, h1, Bool.false_eq_true, ↓reduceIte]
      exact mapLookup_self m hd.2 (fun x hx => hr x (by simp [hx])) e hmem

theorem equalMapsLoop_true {sub' sub : GoMap}
    (h : List.Forall₂ (fun e' e => KeyEquiv e'.1 e.1 ∧ checkEquality e'.2 e.2 = .ok true)
      sub' sub)
    (full : GoMap) (hl : ∀ e ∈ sub, mapLookup full e.1 = some e.2) :
    equalMapsLoop sub' full = .ok true := by
  induction h with
  | nil => simp [equalMapsLoop]
  | @cons a b l1 l2 h1 _ ih =>
    obtain ⟨k', v'⟩ := a
    obtain ⟨k, v⟩ := b
    simp only at h1
    obtain ⟨hk, hv⟩ := h1
    have := hl (k, v) (by simp)
    simp only at this
    simp only [equalMapsLoop, mapLookup_congr k' k hk, this, hv, Bool.not_true,
      Bool.false_eq_true, ↓reduceIte]
    exact ih (fun e he => hl e (by simp [he]))

theorem keys_forall_of_forall₂ {m' m : GoMap}
    (h : List.Forall₂ (fun e' e => KeyEquiv e'.1 e.1) m' m)
    (hm : ∀ e ∈ m, goEq e.1 e.1 = true) : ∀ e ∈ m', goEq e.1 e.1 = true := by
  induction h with
  | nil => intro e he; simp at he
  | @cons a b l1 l2 h1 _ ih =>
    intro e he
    rcases List.mem_cons.mp he with rfl | hmem
    · rw [(h1 e.1).1, (h1 b.1).2]; exact hm b (by simp)
    · exact ih (fun x hx => hm x (by simp [hx])) e hmem

theorem key_self_of_entries (lib : GoLib) :
    ∀ m : GoMap, printableEntries lib m = true → ∀ e ∈ m, goEq e.1 e.1 = true
  | [], _, e, he => by simp at he
  | (k, v) :: m, h, e, he => by
    simp only [printableEntries, Bool.and_eq_true] at h
    rcases List.mem_cons.mp he with rfl | hmem
    · exact goEq_self_of_printable lib _ h.1.1.1 h.1.1.2
    · exact key_self_of_entries lib m h.2 e hmem

theorem keyEquiv_symm {a b : Value} (h : KeyEquiv a b) : KeyEquiv b a :=
  fun w => ⟨(h w).1.symm, (h w).2.symm⟩

theorem checkEquality_hashmap_of_match (lib : GoLib) (p q : Nat) (m' m : GoMap) (x y : Value)
    (hm : EntriesMatch m' m) (hp : printableEntries lib m = true)
    (hd : keysDistinct m = true) :
    checkEquality (.hashmap p m' x) (.hashmap q m y) = .ok true ∧
    checkEquality (.hashmap q m y) (.hashmap p m' x) = .ok true := by
  have hlen : m'.length = m.length := hm.length_eq
  have hkeys : List.Forall₂ (fun e' e => KeyEquiv e'.1 e.1) m' m := hm.imp (fun _ _ h => h.1)
  have hd' : keysDistinct m' = true := by rw [keysDistinct_congr hkeys, hd]
  have hk : ∀ e ∈ m, goEq e.1 e.1 = true := key_self_of_entries lib m hp
  have hk' : ∀ e ∈ m', goEq e.1 e.1 = true := keys_forall_of_forall₂ hkeys hk
  constructor
  · simp only [checkEquality, hlen, ne_eq, not_true_eq_false, ↓reduceIte]
    exact equalMapsLoop_true (hm.imp (fun _ _ h => ⟨h.1, h.2.1⟩)) m (mapLookup_self m hd hk)
  · simp only [checkEquality, hlen, ne_eq, not_true_eq_false, ↓reduceIte]
    exact equalMapsLoop_true (hm.flip.imp (fun _ _ h => ⟨keyEquiv_symm h.1, h.2.2⟩)) m'
      (mapLookup_self m' hd' hk')

theorem readBack_self (v : Value) (h : checkEquality v v = .ok true) : ReadBack v v :=
  ⟨h, h, fun _ => keyEquiv_refl v⟩

mutual
/-- Reading the tokens of a printable value. -/
theorem reads_toks (lib : GoLib) :
    ∀ v, printable lib v = true → ∀ (rest : List GoString) (h : Nat),
      ∃ v' h', Reads lib ⟨toks lib v ++ rest, h⟩ v' ⟨rest, h'⟩ ∧ ReadBack v' v
  | .nil, _, rest, h =>
    ⟨.nil, h, ⟨1, rfl⟩, readBack_self _ rfl⟩
  | .bool true, _, rest, h =>
    ⟨.bool true, h, ⟨1, rfl⟩, readBack_self _ rfl⟩
  | .bool false, _, rest, h =>
    ⟨.bool false, h, ⟨1, rfl⟩, readBack_self _ rfl⟩
  | .number x, hv, rest, h => by
    simp only [printable, Bool.and_eq_true] at hv
    obtain ⟨hrun, _, _, _, c, cs, hc, _⟩ := numberPattern_isRun _ hv.1
    obtain ⟨_, _, hsp⟩ := isRun_spec _ hrun
    refine ⟨.number (lib.ParseFloat (lib.Sprintf x)), h, ?_, ?_, ?_, ?_⟩
    · have ha := reader.atom_number lib (lib.Sprintf x) rest h hv.1
      simp only [toks, List.singleton_append]
      rw [hc] at ha ⊢
      exact reader.reads_of_atom lib c cs rest h (hsp c (by rw [hc]; rfl)) _ ha
    · simp [checkEquality, hv.2]
    · simp [checkEquality, float64_eq_comm x, hv.2]
    · intro _; exact keyEquiv_number _ _ hv.2
  | .str s, hv, rest, h => by
    simp only [printable, Bool.not_eq_true', List.contains_eq_any_beq, List.any_eq_false,
      beq_iff_eq] at hv
    have hs : sentinel ∉ s := fun hmem => hv sentinel hmem rfl
    refine ⟨.str s, h, ?_, readBack_self _ (by simp [checkEquality])⟩
    simp only [toks, List.singleton_append]
    exact reader.reads_of_atom lib _ _ rest h (by decide) _ (reader.atom_escaped lib s rest h hs)
  | .symbol s, hv, rest, h => by
    simp only [printable] at hv
    have hrun : isRun s = true := by
      simp only [isSymbolToken, Bool.and_eq_true] at hv
      exact hv.1.1.1.1.1
    obtain ⟨hne, _, hsp⟩ := isRun_spec _ hrun
    refine ⟨.symbol s, h, ?_, readBack_self _ (by simp [checkEquality])⟩
    have ha := reader.atom_symbol lib s rest h hv
    simp only [toks, List.singleton_append]
    cases s with
    | nil => exact absurd rfl hne
    | cons c cs => exact reader.reads_of_atom lib c cs rest h (hsp c rfl) _ ha
  | .keyword s, _, rest, h => by
    refine ⟨.keyword s, h, ?_, readBack_self _ (by simp [checkEquality])⟩
    simp only [toks, List.singleton_append]
    exact reader.reads_of_atom lib _ _ rest h (by decide) _ (reader.atom_keyword lib s rest h)
  | .list p forms m, hv, rest, h => by
    simp only [printable] at hv
    obtain ⟨vs', h', hall, e1, e2⟩ := reads_toksAll lib forms hv (")".toList :: rest) (h + 1)
    refine ⟨.list h vs' .nil, h', ?_, ?_, ?_, ?_⟩
    · have := reader.reads_list lib _ h vs' ⟨")".toList :: rest, h'⟩ rest hall rfl
      simpa [toks] using this
    · rw [checkEquality_list]
      exact (equalLists_true_iff vs' forms).mpr e1
    · rw [checkEquality_list]
      exact (equalLists_true_iff forms vs').mpr e2
    · intro hk; simp [isMapKey] at hk
  | .vector p forms m, hv, rest, h => by
    simp only [printable] at hv
    obtain ⟨vs', h', hall, e1, e2⟩ := reads_toksAll lib forms hv ("]".toList :: rest) (h + 1)
    refine ⟨.vector h' vs' .nil, h' + 1, ?_, ?_, ?_, ?_⟩
    · have := reader.reads_vector lib _ h vs' ⟨"]".toList :: rest, h'⟩ rest hall rfl
      simpa [toks] using this
    · rw [checkEquality_vector]
      exact (equalLists_true_iff vs' forms).mpr e1
    · rw [checkEquality_vector]
      exact (equalLists_true_iff forms vs').mpr e2
    · intro hk; simp [isMapKey] at hk
  | .hashmap p forms m, hv, rest, h => by
    simp only [printable, Bool.and_eq_true] at hv
    obtain ⟨m', h', hall, hm⟩ := reads_toksEntries lib forms hv.1 ("\x7d".toList :: rest) (h + 1)
    have hkeys : List.Forall₂ (fun e' e => KeyEquiv e'.1 e.1) m' forms :=
      hm.imp (fun _ _ h => h.1)
    have hd' : keysDistinct m' = true := by rw [keysDistinct_congr hkeys, hv.2]
    have hmap : newHashmapLoop [] (ToList m') [] = m' := by
      rw [reader.newHashmapLoop_eq_foldl, pairUp_ToList,
        reader.foldl_mapAssign_fresh m' [] (by simp) (keysDistinct_pairwise m' hd')]
      simp
    have key := reader.formFuel_hashMap lib _ h (ToList m') ⟨"\x7d".toList :: rest, h'⟩ rest
      hall rfl ((toksEntries lib forms ++ "\x7d".toList :: rest).length + 2) (by omega)
    rw [if_neg (by rw [length_ToList]; omega), hmap] at key
    obtain ⟨c1, c2⟩ := checkEquality_hashmap_of_match lib h' p m' forms .nil m hm hv.1 hv.2
    refine ⟨.hashmap h' m' .nil, h' + 1,
      ⟨(toksEntries lib forms ++ "\x7d".toList :: rest).length + 2, ?_⟩, c1, c2, ?_⟩
    · simpa [toks] using key
    · intro hk; simp [isMapKey] at hk
  | .atom _ _, hv, _, _ => by simp [printable] at hv
  | .stdFunc _ _, hv, _, _ => by simp [printable] at hv
  | .extFunc _ _ _ _ _ _, hv, _, _ => by simp [printable] at hv
/-- Reading the tokens of a list of printable values, one form after the other. -/
theorem reads_toksAll (lib : GoLib) :
    ∀ forms, printableAll lib forms = true → ∀ (rest : List GoString) (h : Nat),
      ∃ vs' h', ReadsAll lib ⟨toksAll lib forms ++ rest, h⟩ vs' ⟨rest, h'⟩ ∧
        List.Forall₂ (fun x y => checkEquality x y = .ok true) vs' forms ∧
        List.Forall₂ (fun x y => checkEquality x y = .ok true) forms vs'
  | [], _, rest, h => ⟨[], h, by simpa [toksAll] using ReadsAll.nil _, .nil, .nil⟩
  | v :: forms, hv, rest, h => by
    simp only [printableAll, Bool.and_eq_true] at hv
    obtain ⟨v', h1, hr, hb⟩ := reads_toks lib v hv.1 (toksAll lib forms ++ rest) h
    obtain ⟨vs', h2, hall, e1, e2⟩ := reads_toksAll lib forms hv.2 rest h1
    refine ⟨v' :: vs', h2, ?_, .cons hb.1 e1, .cons hb.2.1 e2⟩
    simp only [toksAll, List.append_assoc]
    exact .cons hr hall
/-- Reading the tokens of the keys and values of a printable map. -/
theorem reads_toksEntries (lib : GoLib) :
    ∀ m, printableEntries lib m = true → ∀ (rest : List GoString) (h : Nat),
      ∃ m' h', ReadsAll lib ⟨toksEntries lib m ++ rest, h⟩ (ToList m') ⟨rest, h'⟩ ∧
        EntriesMatch m' m
  | [], _, rest, h => ⟨[], h, by simpa [toksEntries, ToList] using ReadsAll.nil _, .nil⟩
  | (k, v) :: m, hv, rest, h => by
    simp only [printableEntries, Bool.and_eq_true] at hv
    obtain ⟨k', h1, hrk, hbk⟩ :=
      reads_toks lib k hv.1.1.2 (toks lib v ++ (toksEntries lib m ++ rest)) h
    obtain ⟨v', h2, hrv, hbv⟩ := reads_toks lib v hv.1.2 (toksEntries lib m ++ rest) h1
    obtain ⟨m', h3, hall, hm⟩ := reads_toksEntries lib m hv.2 rest h2
    refine ⟨(k', v') :: m', h3, ?_, .cons ⟨hbk.2.2 hv.1.1.1, hbv.1, hbv.2.1⟩ hm⟩
    simp only [toksEntries, List.append_assoc, ToList]
    exact .cons hrk (.cons hrv hall)
end


/-- C1, counterexample: four values built from symbols, strings, lists and
hash-maps whose readable printing is not read back as an equal value. The
symbol named `a b` is read back as the symbol `a`; the symbol with the empty
name prints as the empty input, on which the reader fails; the string `ʞ` is
read back as a backslash; the map `{(a) b}`, keyed by a list, is read back as a
map keyed by another list object. -/
theorem ReadString_Print_fails :
    (ReadString exampleLib (Print exampleLib (.symbol "a b".toList) true) 0 =
        .ok (.symbol "a".toList, 0) ∧
      equal [.symbol "a".toList, .symbol "a b".toList] = .ok false) ∧
    ReadString exampleLib (Print exampleLib (.symbol []) true) 0 = .error .ErrUnderflow ∧
    (ReadString exampleLib (Print exampleLib (.str [sentinel]) true) 0 =
        .ok (.str ['\\'], 0) ∧
      equal [.str ['\\'], .str [sentinel]] = .ok false) ∧
    (ReadString exampleLib
        (Print exampleLib
          (.hashmap 0 [(.list 1 [.symbol "a".toList] .nil, .symbol "b".toList)] .nil) true) 2 =
        .ok (.hashmap 4 [(.list 3 [.symbol "a".toList] .nil, .symbol "b".toList)] .nil, 5) ∧
      equal [.hashmap 4 [(.list 3 [.symbol "a".toList] .nil, .symbol "b".toList)] .nil,
        .hashmap 0 [(.list 1 [.symbol "a".toList] .nil, .symbol "b".toList)] .nil] =
        .ok false) := by
  refine ⟨⟨by rfl, by rfl⟩, by rfl, ⟨by rfl, by rfl⟩, ⟨by rfl, by rfl⟩⟩

/-- C1, amended: for every value built from nil, booleans, numbers, strings,
symbols, keywords, lists, vectors and hash-maps that is `printable` (each number
prints as a decimal literal of the number pattern that parses back to an equal
number; no string holds U+029E; each symbol and keyword name is a token of its
kind; each hash-map key is nil, a boolean, a number, a string, a symbol or a
keyword),
`ReadString` applied to the readable printing succeeds and returns a value
equal to the original under `=`, in both argument orders. -/
theorem ReadString_Print (lib : GoLib) (v : Value) (heap : Nat)
    (hv : printable lib v = true) :
    ∃ v' heap', ReadString lib (Print lib v true) heap = .ok (v', heap') ∧
      equal [v', v] = .ok true ∧ equal [v, v'] = .ok true := by
  have ht : tokenize (Print lib v true) = toks lib v := by
    have := tokenize_Print lib v hv [] delimited_nil
    simpa [tokenize_nil] using this
  obtain ⟨v', h', hr, hb⟩ := reads_toks lib v hv [] heap
  refine ⟨v', h', ?_, hb.1, hb.2.1⟩
  have := reader.ReadString_of_reads lib (Print lib v true) heap v' ⟨[], h'⟩
    (by rw [ht]; simpa using hr)
  simpa using this

/-- C1, witness: the list `(a "s\"x" :k [nil true] {:k 1 2 (b)} 2 3)`. -/
theorem ReadString_Print_witness :
    ∃ v' heap',
      ReadString exampleLib
        (Print exampleLib
          (.list 0 [.symbol "a".toList, .str "s\"x".toList, .keyword "k".toList,
            .vector 1 [.nil, .bool true] .nil,
            .hashmap 2 [(.keyword "k".toList, .number one),
              (.number two, .list 3 [.symbol "b".toList] .nil)] .nil,
            .number two, .number three] .nil) true) 4 = .ok (v', heap') ∧
      equal [v', .list 0 [.symbol "a".toList, .str "s\"x".toList, .keyword "k".toList,
            .vector 1 [.nil, .bool true] .nil,
            .hashmap 2 [(.keyword "k".toList, .number one),
              (.number two, .list 3 [.symbol "b".toList] .nil)] .nil,
            .number two, .number three] .nil] = .ok true ∧
      equal [.list 0 [.symbol "a".toList, .str "s\"x".toList, .keyword "k".toList,
            .vector 1 [.nil, .bool true] .nil,
            .hashmap 2 [(.keyword "k".toList, .number one),
              (.number two, .list 3 [.symbol "b".toList] .nil)] .nil,
            .number two, .number three] .nil, v'] = .ok true :=
  ReadString_Print exampleLib
    (.list 0 [.symbol "a".toList, .str "s\"x".toList, .keyword "k".toList,
      .vector 1 [.nil, .bool true] .nil,
      .hashmap 2 [(.keyword "k".toList, .number one),
        (.number two, .list 3 [.symbol "b".toList] .nil)] .nil,
      .number two, .number three] .nil) 4 (by rfl)

/-! ## Environments -/

namespace Env

theorem lookup_assign_self (data : List (GoString × Value)) (key : GoString) (value : Value) :
    lookup (assign data key value) key = some value := by
  induction data with
  | nil => simp [assign, lookup]
  | cons kv rest ih =>
    obtain ⟨k, v⟩ := kv
    by_cases h : k = key
    · simp [assign, lookup, h]
    · simp [assign, lookup, h, ih]

theorem lookup_assign_of_ne (data : List (GoString × Value)) (key other : GoString)
    (value : Value) (h : other ≠ key) :
    lookup (assign data key value) other = lookup data other := by
  induction data with
  | nil =>
    have h' : ¬ key = other := fun e => h e.symm
    simp [assign, lookup, h']
  | cons kv rest ih =>
    obtain ⟨k, v⟩ := kv
    by_cases hk : k = key
    · subst hk
      have h' : ¬ k = other := fun e => h e.symm
      simp [assign, lookup, h']
    · simp only [assign, hk, if_false, lookup, ih]

theorem Set_envs_of_ne (σ : Store) (e a : Nat) (key : GoString) (value : Value) (h : a ≠ e) :
    (Set σ e key value).envs[a]? = σ.envs[a]? := by
  unfold Set
  cases he : σ.envs[e]? with
  | none => rfl
  | some env =>
    simp only
    rw [List.getElem?_set_ne (Ne.symm h)]

theorem Set_envs_self (σ : Store) (e : Nat) (key : GoString) (value : Value) (env : Env)
    (h : σ.envs[e]? = some env) :
    (Set σ e key value).envs[e]? = some { env with data := assign env.data key value } := by
  unfold Set
  rw [h]
  simp only
  have hlt : e < σ.envs.length := by
    rcases Nat.lt_or_ge e σ.envs.length with h' | h'
    · exact h'
    · rw [List.getElem?_eq_none h'] at h; cases h
  rw [List.getElem?_set_self hlt]

theorem Set_length (σ : Store) (e : Nat) (key : GoString) (value : Value) :
    (Set σ e key value).envs.length = σ.envs.length := by
  unfold Set
  cases σ.envs[e]? <;> simp

theorem Set_heap (σ : Store) (e : Nat) (key : GoString) (value : Value) :
    (Set σ e key value).heap = σ.heap := by
  unfold Set
  cases σ.envs[e]? <;> rfl

end Env

namespace Env

theorem findLoop_chain (σ : Store) (key : GoString) (e : Nat) (frames : List Env)
    (h : Chain σ e frames) (fuel : Nat) (hf : e < fuel) :
    (∀ a, findLoop σ.envs fuel e key = some a →
      ∃ env, σ.envs[a]? = some env ∧ lookup env.data key = nearest frames key ∧
        (lookup env.data key).isSome = true) ∧
    (findLoop σ.envs fuel e key = none → nearest frames key = none) := by
  induction h generalizing fuel with
  | root e env he ho =>
    cases fuel with
    | zero => omega
    | succ fuel =>
      simp only [findLoop, he, ho]
      cases hl : lookup env.data key with
      | none => simp [nearest, hl]
      | some v =>
        simp only [Option.isSome_some, if_true, Option.some.injEq]
        refine ⟨?_, by simp⟩
        rintro a rfl
        exact ⟨env, he, by simp [nearest, hl], by simp [hl]⟩
  | frame e outer env frames he ho hlt _ ih =>
    cases fuel with
    | zero => omega
    | succ fuel =>
      simp only [findLoop, he, ho]
      cases hl : lookup env.data key with
      | none =>
        simp only [Option.isSome_none, Bool.false_eq_true, if_false]
        have := ih fuel (by omega)
        simpa [nearest, hl] using this
      | some v =>
        simp only [Option.isSome_some, if_true, Option.some.injEq]
        refine ⟨?_, by simp⟩
        rintro a rfl
        exact ⟨env, he, by simp [nearest, hl], by simp [hl]⟩

theorem Get_chain (σ : Store) (key : GoString) (e : Nat) (frames : List Env)
    (h : Chain σ e frames) :
    Get σ e key =
      match nearest frames key with
      | some value => .ok value
      | none => .error (.new ("'".toList ++ key ++ "' not found".toList)) := by
  have hc := findLoop_chain σ key e frames h (e + 1) (Nat.lt_succ_self e)
  unfold Get Find
  cases hf : findLoop σ.envs (e + 1) e key with
  | none => simp [hc.2 hf]
  | some a =>
    obtain ⟨env, ha, hl, hs⟩ := hc.1 a hf
    simp only [ha]
    rw [← hl]
    cases hv : lookup env.data key with
    | none => simp [hv] at hs
    | some v => simp

theorem nearest_shadow (pre : List Env) (env : Env) (post : List Env) (key : GoString)
    (value : Value) (hpre : ∀ f ∈ pre, lookup f.data key = none)
    (henv : lookup env.data key = some value) :
    nearest (pre ++ env :: post) key = some value := by
  induction pre with
  | nil => simp [nearest, henv]
  | cons f pre ih =>
    have hf : lookup f.data key = none := hpre f (by simp)
    simp only [List.cons_append, nearest, hf]
    exact ih (fun g hg => hpre g (by simp [hg]))

theorem nearest_none_iff (frames : List Env) (key : GoString) :
    nearest frames key = none ↔ ∀ f ∈ frames, lookup f.data key = none := by
  induction frames with
  | nil => simp [nearest]
  | cons f frames ih =>
    cases hf : lookup f.data key with
    | none => simp [nearest, hf, ih]
    | some v => simp [nearest, hf]

end Env

/-- C12: along every chain of frames starting at the frame `e`, `e.Get(s)`
returns the value bound to `s` in the nearest frame that binds it (a frame
`env` such that no frame before it on the chain binds `s`), and it returns the
error `'<s>' not found` exactly when no frame of the chain binds `s`. -/
theorem Env.Get_nearest_frame (σ : Store) (e : Nat) (frames : List Env) (s : GoString)
    (h : Chain σ e frames) :
    (∀ (pre : List Env) (env : Env) (post : List Env) (value : Value),
        frames = pre ++ env :: post → (∀ f ∈ pre, Env.lookup f.data s = none) →
        Env.lookup env.data s = some value → Env.Get σ e s = .ok value) ∧
    (Env.Get σ e s = .error (.new ("'".toList ++ s ++ "' not found".toList)) ↔
      ∀ f ∈ frames, Env.lookup f.data s = none) := by
  have hg := Env.Get_chain σ s e frames h
  constructor
  · intro pre env post value hfr hpre henv
    rw [hg, hfr, Env.nearest_shadow pre env post s value hpre henv]
  · rw [← Env.nearest_none_iff, hg]
    cases hn : nearest frames s with
    | none => simp
    | some v => simp

namespace Env

theorem Set_lookup_of_ne (σ : Store) (e a : Nat) (key other : GoString) (value : Value)
    (h : other ≠ key) :
    ((Set σ e key value).envs[a]?).map (fun env => (lookup env.data other, env.outer)) =
      (σ.envs[a]?).map (fun env => (lookup env.data other, env.outer)) := by
  by_cases ha : a = e
  · subst ha
    cases he : σ.envs[a]? with
    | none => simp [Set, he]
    | some env =>
      rw [Set_envs_self σ a key value env he]
      simp [lookup_assign_of_ne _ _ _ _ h]
  · rw [Set_envs_of_ne σ e a key value ha]

theorem findLoop_Set_of_ne (σ : Store) (e : Nat) (key other : GoString) (value : Value)
    (h : other ≠ key) (fuel a : Nat) :
    findLoop (Set σ e key value).envs fuel a other = findLoop σ.envs fuel a other := by
  induction fuel generalizing a with
  | zero => rfl
  | succ fuel ih =>
    have hs := Set_lookup_of_ne σ e a key other value h
    simp only [findLoop]
    cases h1 : (Set σ e key value).envs[a]? with
    | none =>
      cases h2 : σ.envs[a]? with
      | none => rfl
      | some env => simp [h1, h2] at hs
    | some env' =>
      cases h2 : σ.envs[a]? with
      | none => simp [h1, h2] at hs
      | some env =>
        simp only [h1, h2, Option.map_some', Option.some.injEq, Prod.mk.injEq] at hs
        simp only [hs.1, hs.2]
        cases env.outer with
        | none => rfl
        | some o => simp only [ih]

theorem Get_Set_of_ne (σ : Store) (e a : Nat) (key other : GoString) (value : Value)
    (h : other ≠ key) :
    Get (Set σ e key value) a other = Get σ a other := by
  unfold Get Find
  rw [findLoop_Set_of_ne σ e key other value h]
  cases findLoop σ.envs (a + 1) a other with
  | none => rfl
  | some b =>
    have hs := Set_lookup_of_ne σ e b key other value h
    cases h1 : (Set σ e key value).envs[b]? with
    | none =>
      cases h2 : σ.envs[b]? with
      | none => simp only [h1, h2]
      | some env => simp [h1, h2] at hs
    | some env' =>
      cases h2 : σ.envs[b]? with
      | none => simp [h1, h2] at hs
      | some env =>
        simp only [h1, h2, Option.map_some', Option.some.injEq, Prod.mk.injEq] at hs
        simp only [h1, h2, hs.1]

theorem Get_Set_self (σ : Store) (e : Nat) (key : GoString) (value : Value) (env : Env)
    (h : σ.envs[e]? = some env) :
    Get (Set σ e key value) e key = .ok value := by
  have hs := Set_envs_self σ e key value env h
  unfold Get Find
  simp [findLoop, hs, lookup_assign_self]

end Env

/-- C13: `f.Set(s, v)` on a frame `f` of the heap changes only `f`'s own binding
of `s`. Afterwards `f.Get(s)` is `v`; the frame `f` holds `v` for `s`, keeps its
enclosing frame and its binding of every other symbol; the lookup of every
other symbol, from `f` and from any frame, is what it was; and every other
frame of the heap, the ancestors of `f` among them, is unchanged. -/
theorem Env.Set_changes_own_binding (σ : Store) (f : Nat) (s : GoString) (v : Value)
    (env : Env) (h : σ.envs[f]? = some env) :
    Env.Get (Env.Set σ f s v) f s = .ok v ∧
    (∃ env', (Env.Set σ f s v).envs[f]? = some env' ∧ Env.lookup env'.data s = some v ∧
      env'.outer = env.outer ∧
      ∀ s', s' ≠ s → Env.lookup env'.data s' = Env.lookup env.data s') ∧
    (∀ (a : Nat) (s' : GoString), s' ≠ s →
      Env.Get (Env.Set σ f s v) a s' = Env.Get σ a s') ∧
    (∀ a, a ≠ f → (Env.Set σ f s v).envs[a]? = σ.envs[a]?) := by
  refine ⟨Env.Get_Set_self σ f s v env h, ?_, ?_, ?_⟩
  · refine ⟨_, Env.Set_envs_self σ f s v env h, Env.lookup_assign_self _ _ _, rfl, ?_⟩
    intro s' hs
    exact Env.lookup_assign_of_ne _ _ _ _ hs
  · intro a s' hs
    exact Env.Get_Set_of_ne σ f a s s' v hs
  · intro a ha
    exact Env.Set_envs_of_ne σ f a s v ha

namespace Env

theorem lookup_foldl_assign_of_not_mem (pairs : List (GoString × Value))
    (data : List (GoString × Value)) (key : GoString) (h : key ∉ pairs.map Prod.fst) :
    lookup (pairs.foldl (fun d p => assign d p.1 p.2) data) key = lookup data key := by
  induction pairs generalizing data with
  | nil => rfl
  | cons p pairs ih =>
    simp only [List.map_cons, List.mem_cons, not_or] at h
    simp only [List.foldl_cons]
    rw [ih _ h.2, lookup_assign_of_ne _ _ _ _ h.1]

theorem lookup_foldl_assign_of_mem (pairs : List (GoString × Value))
    (data : List (GoString × Value)) (key : GoString) (value : Value)
    (hnd : (pairs.map Prod.fst).Nodup) (h : (key, value) ∈ pairs) :
    lookup (pairs.foldl (fun d p => assign d p.1 p.2) data) key = some value := by
  induction pairs generalizing data with
  | nil => cases h
  | cons p pairs ih =>
    simp only [List.map_cons, List.nodup_cons] at hnd
    simp only [List.foldl_cons]
    rcases List.mem_cons.mp h with rfl | h'
    · rw [lookup_foldl_assign_of_not_mem _ _ _ hnd.1, lookup_assign_self]
    · exact ih _ hnd.2 h'

theorem bindAll_envs_self (env : Nat) (pairs : List (GoString × Value)) (σ : Store)
    (frame : Env) (h : σ.envs[env]? = some frame) :
    (bindAll env σ pairs).envs[env]? =
      some { frame with data := pairs.foldl (fun d p => assign d p.1 p.2) frame.data } := by
  induction pairs generalizing σ frame with
  | nil => simpa [bindAll] using h
  | cons p pairs ih =>
    simp only [bindAll, List.foldl_cons]
    exact ih (Set σ env p.1 p.2) _ (Set_envs_self σ env p.1 p.2 frame h)

theorem bindAll_envs_of_ne (env a : Nat) (pairs : List (GoString × Value)) (σ : Store)
    (h : a ≠ env) : (bindAll env σ pairs).envs[a]? = σ.envs[a]? := by
  induction pairs generalizing σ with
  | nil => rfl
  | cons p pairs ih =>
    simp only [bindAll, List.foldl_cons]
    exact (ih (Set σ env p.1 p.2)).trans (Set_envs_of_ne σ env a p.1 p.2 h)

theorem bindAll_heap (env : Nat) (pairs : List (GoString × Value)) (σ : Store) :
    (bindAll env σ pairs).heap = σ.heap := by
  induction pairs generalizing σ with
  | nil => rfl
  | cons p pairs ih =>
    simp only [bindAll, List.foldl_cons]
    exact (ih (Set σ env p.1 p.2)).trans (Set_heap σ env p.1 p.2)

/-- The loop of `New` over parameters that are symbols other than `&`, with an
argument for each: every parameter is assigned its argument. -/
theorem newLoop_symbols (env : Nat) (exprs : List Value) (names : List GoString)
    (rest : List Value) (i : Nat) (σ : Store) (hamp : "&".toList ∉ names)
    (hlen : i + names.length ≤ exprs.length) :
    newLoop env exprs (names.map Value.symbol ++ rest) i σ =
      newLoop env exprs rest (i + names.length)
        (bindAll env σ (names.zip (exprs.drop i))) := by
  induction names generalizing i σ with
  | nil => simp [bindAll]
  | cons name names ih =>
    simp only [List.mem_cons, not_or] at hamp
    simp only [List.length_cons] at hlen
    have hi : i < exprs.length := by omega
    have hne : ¬ name = "&".toList := fun e => hamp.1 e.symm
    have hdrop : exprs.drop i = exprs[i] :: exprs.drop (i + 1) := List.drop_eq_getElem_cons hi
    simp only [List.map_cons, List.cons_append, newLoop, hne, if_false,
      List.getElem?_eq_getElem hi]
    show newLoop env exprs (names.map Value.symbol ++ rest) (i + 1) _ = _
    rw [ih (i + 1) _ hamp.2 (by omega), hdrop]
    simp only [List.zip_cons_cons, bindAll, List.foldl_cons, List.length_cons]
    congr 1
    omega

end Env

namespace Env

/-- Assigning the pairs of a list one after the other leaves each key with the
value of its last occurrence. -/
theorem lookup_foldl_assign_last (pairs : List (GoString × Value))
    (data : List (GoString × Value)) (key : GoString) :
    lookup (pairs.foldl (fun d p => assign d p.1 p.2) data) key =
      match lastBinding pairs key with
      | some w => some w
      | none => lookup data key := by
  induction pairs generalizing data with
  | nil => rfl
  | cons p pairs ih =>
    obtain ⟨k, v⟩ := p
    simp only [List.foldl_cons, lastBinding]
    rw [ih]
    cases lastBinding pairs key with
    | some w => rfl
    | none =>
      by_cases hk : k = key
      · subst hk
        simp [lookup_assign_self]
      · simp only [hk, if_false]
        exact lookup_assign_of_ne _ _ _ _ (fun e => hk e.symm)

end Env

/-- C14, counterexample: with the parameters `(a a & r)` and the arguments
`1 2 3` the frame binds `a` to the second argument, not to the first; with
`(a & a)` it binds `a` to the list `(2 3)`, not to the first argument. -/
theorem Env.New_repeated_parameter :
    (∃ σ' env, Env.New twoFrames (some 1)
        [.symbol "a".toList, .symbol "a".toList, .symbol "&".toList, .symbol "r".toList]
        [.number one, .number two, .number three] = .ok 2 σ' ∧
      σ'.envs[2]? = some env ∧ Env.lookup env.data "a".toList = some (.number two)) ∧
    (∃ σ' env, Env.New twoFrames (some 1)
        [.symbol "a".toList, .symbol "&".toList, .symbol "a".toList]
        [.number one, .number two, .number three] = .ok 2 σ' ∧
      σ'.envs[2]? = some env ∧
      Env.lookup env.data "a".toList = some (.list 0 [.number two, .number three] .nil)) :=
  ⟨⟨_, _, rfl, rfl, rfl⟩, ⟨_, _, rfl, rfl, rfl⟩⟩

/-- C14, amended: for a parameter list `p1 … pk & r` of symbols, the `pi` other
than `&`, and `n ≥ k` arguments, `New` returns a new frame, enclosed by
`outer`, that binds `r` to a new list of the arguments after the `k`-th, in
order (the empty list when `n = k`), and every other symbol to the argument at
the last position where the symbol stands in `p1 … pk` (a frame is a map, and
a later assignment replaces an earlier one); so when `p1 … pk`, `r` are
different from one another it binds each `pi` to the `i`-th argument. The
frames that were there are unchanged. -/
theorem Env.New_rest_parameter (σ : Store) (outer : Option Nat) (names : List GoString)
    (r : GoString) (args : List Value) (hamp : "&".toList ∉ names)
    (hlen : names.length ≤ args.length) :
    ∃ σ' env, Env.New σ outer
        (names.map Value.symbol ++ [Value.symbol "&".toList, Value.symbol r]) args =
        .ok σ.envs.length σ' ∧
      σ'.envs[σ.envs.length]? = some env ∧ env.outer = outer ∧
      ((names ++ [r]).Nodup →
        ∀ i (h : i < names.length), Env.lookup env.data names[i] = args[i]?) ∧
      Env.lookup env.data r = some (.list σ.heap (args.drop names.length) .nil) ∧
      (∀ key, key ≠ r → Env.lookup env.data key = lastBinding (names.zip args) key) ∧
      ∀ a, a < σ.envs.length → σ'.envs[a]? = σ.envs[a]? := by
  let σ0 : Store := { σ with envs := σ.envs ++ [⟨[], outer⟩] }
  have h0 : σ0.envs[σ.envs.length]? = some ⟨[], outer⟩ := by
    simp [σ0]
  let σ1 := Env.bindAll σ.envs.length σ0 (names.zip args)
  have h1 := Env.bindAll_envs_self σ.envs.length (names.zip args) σ0 _ h0
  have hheap : σ1.heap = σ.heap := Env.bindAll_heap _ _ _
  have hrun : Env.New σ outer
      (names.map Value.symbol ++ [Value.symbol "&".toList, Value.symbol r]) args =
      .ok σ.envs.length (Env.Set (NewList (args.drop names.length) σ1).2 σ.envs.length r
        (NewList (args.drop names.length) σ1).1) := by
    unfold Env.New
    rw [Env.newLoop_symbols _ _ _ _ _ _ hamp (by simpa using hlen)]
    have hlt : ¬ args.length < names.length := by omega
    simp [Env.newLoop, hlt, σ1, σ0]
  have hs := Env.Set_envs_self (NewList (args.drop names.length) σ1).2 σ.envs.length r
    (NewList (args.drop names.length) σ1).1 _ (by simpa [NewList] using h1)
  refine ⟨_, _, hrun, hs, ?_, ?_, ?_, ?_, ?_⟩
  · rfl
  · intro hnd i hi
    have hr : ¬ r ∈ names := by
      intro hmem
      have := List.nodup_append.mp hnd
      exact this.2.2 hmem (by simp)
    have hnames : names.Nodup := (List.nodup_append.mp hnd).1
    have hne : names[i] ≠ r := fun e => hr (e ▸ List.getElem_mem hi)
    simp only
    rw [Env.lookup_assign_of_ne _ _ _ _ hne]
    have hia : i < args.length := by omega
    rw [List.getElem?_eq_getElem hia]
    apply Env.lookup_foldl_assign_of_mem
    · rw [List.map_fst_zip _ _ hlen]
      exact hnames
    · have hz : i < (names.zip args).length := by simp [List.length_zip]; omega
      have := List.getElem_mem hz
      simpa [List.getElem_zip] using this
  · simp only
    rw [Env.lookup_assign_self]
    simp [NewList, hheap]
  · intro key hkey
    simp only
    rw [Env.lookup_assign_of_ne _ _ _ _ hkey, Env.lookup_foldl_assign_last]
    cases lastBinding (names.zip args) key <;> rfl
  · intro a ha
    rw [Env.Set_envs_of_ne _ _ _ _ _ (by omega)]
    show σ1.envs[a]? = _
    rw [Env.bindAll_envs_of_ne _ _ _ _ (by omega)]
    simp [σ0, List.getElem?_append_left ha]

/-- Witness for C14: the parameters `(a b & r)` and the arguments `1 2 3 1`. -/
theorem Env.New_rest_parameter_witness :
    ∃ σ' env, Env.New twoFrames (some 1)
        (["a".toList, "b".toList].map Value.symbol ++
          [Value.symbol "&".toList, Value.symbol "r".toList])
        [.number one, .number two, .number three, .number one] = .ok 2 σ' ∧
      σ'.envs[2]? = some env ∧ env.outer = some 1 ∧
      (∀ i (h : i < ["a".toList, "b".toList].length),
        Env.lookup env.data ["a".toList, "b".toList][i] =
          [Value.number one, .number two, .number three, .number one][i]?) ∧
      Env.lookup env.data "r".toList = some (.list 0 [.number three, .number one] .nil) ∧
      ∀ a, a < 2 → σ'.envs[a]? = twoFrames.envs[a]? :=
  let ⟨σ', env, h1, h2, h3, h4, h5, _, h7⟩ :=
    Env.New_rest_parameter twoFrames (some 1) ["a".toList, "b".toList] "r".toList
      [.number one, .number two, .number three, .number one] (by decide) (by decide)
  ⟨σ', env, h1, h2, h3, h4 (by decide), h5, h7⟩

namespace Env

/-- The loop of `New` over more parameters than there are arguments: the index
into the arguments runs out of range. -/
theorem newLoop_too_few (env : Nat) (exprs : List Value) (names : List GoString) (i : Nat)
    (σ : Store) (hamp : "&".toList ∉ names) (hi : i ≤ exprs.length)
    (hlen : exprs.length < i + names.length) :
    newLoop env exprs (names.map Value.symbol) i σ =
      .panic (indexPanic exprs.length exprs.length) := by
  induction names generalizing i σ with
  | nil => simp at hlen; omega
  | cons name names ih =>
    simp only [List.mem_cons, not_or] at hamp
    have hne : ¬ name = "&".toList := fun e => hamp.1 e.symm
    simp only [List.map_cons, newLoop, hne, if_false]
    rcases Nat.lt_or_ge i exprs.length with h | h
    · rw [List.getElem?_eq_getElem h]
      simp only
      exact ih (i + 1) _ hamp.2 (by omega) (by simp only [List.length_cons] at hlen; omega)
    · have : i = exprs.length := by omega
      subst this
      simp

end Env

/-- C15: for a parameter list of `k` symbols without `&` and fewer than `k`
arguments, `env.New` (and with it `Env.Child`) neither returns a frame nor an
error: the index into the arguments runs out of range and the host panics. -/
theorem Env.New_too_few_panics (σ : Store) (outer : Option Nat) (names : List GoString)
    (args : List Value) (hamp : "&".toList ∉ names) (hlen : args.length < names.length) :
    Env.New σ outer (names.map Value.symbol) args =
      .panic (indexPanic args.length args.length) ∧
    ∀ e, Env.Child σ e (names.map Value.symbol) args =
      .panic (indexPanic args.length args.length) := by
  have h : ∀ o, Env.New σ o (names.map Value.symbol) args =
      .panic (indexPanic args.length args.length) := by
    intro o
    unfold Env.New
    exact Env.newLoop_too_few _ _ _ _ _ hamp (Nat.zero_le _) (by omega)
  exact ⟨h outer, fun e => h (some e)⟩

/-- Witness for C12 on the heap `twoFrames`, from the child frame: `x` is found
in the child, which shadows the root, `y` in the root, and `z` nowhere. -/
theorem Env.Get_nearest_frame_witness :
    Chain twoFrames 1 twoFrames.envs.reverse ∧
    ((∀ (pre : List Env) (env : Env) (post : List Env) (value : Value),
        twoFrames.envs.reverse = pre ++ env :: post →
        (∀ f ∈ pre, Env.lookup f.data "y".toList = none) →
        Env.lookup env.data "y".toList = some value →
        Env.Get twoFrames 1 "y".toList = .ok value) ∧
     (Env.Get twoFrames 1 "y".toList =
        .error (.new ("'".toList ++ "y".toList ++ "' not found".toList)) ↔
      ∀ f ∈ twoFrames.envs.reverse, Env.lookup f.data "y".toList = none)) :=
  have h : Chain twoFrames 1 twoFrames.envs.reverse :=
    Chain.frame 1 0 _ _ rfl rfl (by decide) (Chain.root 0 _ rfl rfl)
  ⟨h, Env.Get_nearest_frame twoFrames 1 _ "y".toList h⟩

/-- Witness for C13: `Set` of `y` on the child frame of `twoFrames`. -/
theorem Env.Set_changes_own_binding_witness :
    twoFrames.envs[1]? = some ⟨[("x".toList, .number three)], some 0⟩ ∧
    Env.Get (Env.Set twoFrames 1 "y".toList (.number one)) 1 "y".toList = .ok (.number one) ∧
    (Env.Set twoFrames 1 "y".toList (.number one)).envs[0]? = twoFrames.envs[0]? :=
  have h := Env.Set_changes_own_binding twoFrames 1 "y".toList (.number one) _ rfl
  ⟨rfl, h.1, h.2.2.2 0 (by decide)⟩

set_option maxRecDepth 1000000 in
/-- Witness for C15: the parameters `(a b)` and the single argument `1`; the
form `((fn* (a b) a) 1)` evaluated in the default namespace panics. -/
theorem Env.New_too_few_panics_witness :
    (Env.New twoFrames (some 1) [.symbol "a".toList, .symbol "b".toList] [.number one] =
      .panic "runtime error: index out of range [1] with length 1".toList ∧
    ∀ e, Env.Child twoFrames e [.symbol "a".toList, .symbol "b".toList] [.number one] =
      .panic "runtime error: index out of range [1] with length 1".toList) ∧
    readEval exampleHost 3 3 defaultStore 0 "((fn* (a b) a) 1)" =
      .panic "runtime error: index out of range [1] with length 1".toList :=
  ⟨Env.New_too_few_panics twoFrames (some 1) ["a".toList, "b".toList] [.number one]
    (by decide) (by decide), rfl⟩

/-! ## The loop of `Eval` -/

theorem macroExpand_of_not_macro (Eval : Store → Nat → Value → Outcome Value) (fuel : Nat)
    (σ : Store) (e : Nat) (ast : Value) (h : isMacroCall σ e ast = false) :
    macroExpand Eval (fuel + 1) σ e ast = .ok ast σ := by
  simp [macroExpand, h]

theorem evalList_if (H : Host) (c : Caps) (fuel : Nat) (σ : Store) (e : Nat) (tobject : Value)
    (args : List Value) :
    evalList H c fuel σ e tobject (.symbol "if".toList) args =
      match evalIf c.Eval σ e args with
      | .ok object σ => .loop σ e object
      | .error err _ σ => .ret (.error err .nil σ)
      | .panic msg => .ret (.panic msg)
      | .fuel => .ret .fuel := rfl

theorem evalList_do (H : Host) (c : Caps) (fuel : Nat) (σ : Store) (e : Nat) (tobject : Value)
    (args : List Value) :
    evalList H c fuel σ e tobject (.symbol "do".toList) args =
      match evalDo c.Eval σ e args with
      | .ok object σ => .loop σ e object
      | .error err _ σ => .ret (.error err .nil σ)
      | .panic msg => .ret (.panic msg)
      | .fuel => .ret .fuel := rfl

theorem evalList_def (H : Host) (c : Caps) (fuel : Nat) (σ : Store) (e : Nat) (tobject : Value)
    (args : List Value) :
    evalList H c fuel σ e tobject (.symbol "def!".toList) args =
      .ret (evalDef c.Eval σ e args) := rfl

theorem evalList_defmacroForm (H : Host) (c : Caps) (fuel : Nat) (σ : Store) (e : Nat)
    (tobject : Value) (args : List Value) :
    evalList H c fuel σ e tobject (.symbol "defmacro!".toList) args =
      .ret (evalDefMacro c.Eval σ e args) := rfl

theorem evalList_let (H : Host) (c : Caps) (fuel : Nat) (σ : Store) (e : Nat) (tobject : Value)
    (args : List Value) :
    evalList H c fuel σ e tobject (.symbol "let*".toList) args =
      match evalLet c.Eval σ e args with
      | .ok (object, newEnv) σ => .loop σ newEnv object
      | .error err _ σ => .ret (.error err .nil σ)
      | .panic msg => .ret (.panic msg)
      | .fuel => .ret .fuel := rfl

theorem evalList_try (H : Host) (c : Caps) (fuel : Nat) (σ : Store) (e : Nat) (tobject : Value)
    (args : List Value) :
    evalList H c fuel σ e tobject (.symbol "try*".toList) args =
      match evalTry c.Eval σ e args with
      | .ok object σ => .loop σ e object
      | .error err _ σ => .ret (.error err .nil σ)
      | .panic msg => .ret (.panic msg)
      | .fuel => .ret .fuel := rfl

theorem evalList_quote (H : Host) (c : Caps) (fuel : Nat) (σ : Store) (e : Nat)
    (tobject form : Value) (rest : List Value) :
    evalList H c fuel σ e tobject (.symbol "quote".toList) (form :: rest) =
      .ret (.ok form σ) := rfl

theorem evalList_quasiquote (H : Host) (c : Caps) (fuel : Nat) (σ : Store) (e : Nat)
    (tobject form : Value) (rest : List Value) :
    evalList H c fuel σ e tobject (.symbol "quasiquote".toList) (form :: rest) =
      match evalQuasiQuote form σ.heap with
      | .ok (object, heap) => .loop { σ with heap := heap } e object
      | .error err => .ret (.error (.native err) .nil σ)
      | .panic msg => .ret (.panic msg)
      | .fuel => .ret .fuel := rfl

theorem evalList_fn (H : Host) (c : Caps) (fuel : Nat) (σ : Store) (e : Nat) (tobject : Value)
    (args : List Value) :
    evalList H c fuel σ e tobject (.symbol "fn*".toList) args = .ret (NewFunc σ e args) := rfl

theorem evalList_macroexpand (H : Host) (c : Caps) (fuel : Nat) (σ : Store) (e : Nat)
    (tobject form : Value) (rest : List Value) :
    evalList H c fuel σ e tobject (.symbol "macroexpand".toList) (form :: rest) =
      .ret (macroExpand c.Eval fuel σ e form) := rfl

/-- A turn of the loop on a non-empty list that is not a macro call. -/
theorem evalLoop_list (H : Host) (c : Caps) (n : Nat) (σ : Store) (e : Nat) (ptr : Nat)
    (head : Value) (args : List Value) (meta : Value)
    (h : isMacroCall σ e (.list ptr (head :: args) meta) = false) :
    evalLoop H c (n + 1) σ e (.list ptr (head :: args) meta) =
      match evalList H c (n + 1) σ e (.list ptr (head :: args) meta) head args with
      | .ret out => out
      | .loop σ e object => evalLoop H c n σ e object := by
  simp only [evalLoop, evalStep, macroExpand_of_not_macro _ _ _ _ _ h]

theorem evalLoop_nil (H : Host) (c : Caps) (n : Nat) (σ : Store) (e : Nat) :
    evalLoop H c (n + 1) σ e .nil = .ok .nil σ := by
  simp [evalLoop, evalStep, macroExpand, isMacroCall, evalAST]

/-! ## Special forms -/

theorem evalIf_of_ok (Eval : Store → Nat → Value → Outcome Value) (σ : Store) (e : Nat)
    (cond thenForm : Value) (rest : List Value) (v : Value) (σ' : Store)
    (h : Eval σ e cond = .ok v σ') :
    evalIf Eval σ e (cond :: thenForm :: rest) = .ok (ifBranch v thenForm rest) σ' := by
  simp only [evalIf, evalBool, h, Outcome.bind]
  cases v with
  | nil => cases rest <;> rfl
  | bool b => cases b <;> cases rest <;> rfl
  | _ => rfl

/-- C11: when the condition of `(if cond then else?)` evaluates to `v` in the
frame `e`, `evalIf` hands back `ifBranch v`: the `else` form (`nil` when it is absent)
for `v` nil or false and the `then` form for every other `v`, the number 0,
the empty string and the empty list among them; the loop of `Eval`, when the form
is not a macro call, goes on with that form in the same frame; and the form
`nil`, with which it goes on when `else` is absent, evaluates to `nil`. -/
theorem evalIf_truthiness (H : Host) (c : Caps) (n : Nat) (σ : Store) (e ptr : Nat)
    (cond thenForm meta : Value) (rest : List Value) (v : Value) (σ' : Store)
    (h : c.Eval σ e cond = .ok v σ') :
    evalIf c.Eval σ e (cond :: thenForm :: rest) =
      .ok (ifBranch v thenForm rest) σ' ∧
    (isMacroCall σ e (.list ptr (.symbol "if".toList :: cond :: thenForm :: rest) meta) = false →
      evalLoop H c (n + 1) σ e (.list ptr (.symbol "if".toList :: cond :: thenForm :: rest) meta) =
        evalLoop H c n σ' e (ifBranch v thenForm rest)) ∧
    evalLoop H c (n + 1) σ' e .nil = .ok .nil σ' := by
  have hif := evalIf_of_ok c.Eval σ e cond thenForm rest v σ' h
  refine ⟨hif, ?_, evalLoop_nil H c n σ' e⟩
  intro hm
  rw [evalLoop_list H c n σ e ptr _ _ meta hm, evalList_if, hif]

set_option maxRecDepth 1000000 in
/-- Witness for C11 in the default namespace: the conditions `nil`, `false`
(without `else`), the number 0, the empty string and the empty list. -/
theorem evalIf_truthiness_witness :
    (capsFuel exampleHost 1 1).Eval defaultStore 0 (.str []) = .ok (.str []) defaultStore ∧
    readEval exampleHost 2 2 defaultStore 0 "(if \"\" 1 2)" =
      .ok (.number one) { defaultStore with heap := defaultStore.heap + 1 } ∧
    readEval exampleHost 2 2 defaultStore 0 "(if 0 1 2)" =
      .ok (.number one) { defaultStore with heap := defaultStore.heap + 1 } ∧
    readEval exampleHost 2 2 defaultStore 0 "(if () 1 2)" =
      .ok (.number one) { defaultStore with heap := defaultStore.heap + 2 } ∧
    readEval exampleHost 2 2 defaultStore 0 "(if nil 1 2)" =
      .ok (.number two) { defaultStore with heap := defaultStore.heap + 1 } ∧
    readEval exampleHost 2 3 defaultStore 0 "(if false 1)" =
      .ok .nil { defaultStore with heap := defaultStore.heap + 1 } ∧
    (evalIf (capsFuel exampleHost 1 1).Eval defaultStore 0 [.str [], .number one, .number two] =
      .ok (.number one) defaultStore) :=
  have h : (capsFuel exampleHost 1 1).Eval defaultStore 0 (.str []) =
      .ok (.str []) defaultStore := rfl
  ⟨h, rfl, rfl, rfl, rfl, rfl,
    (evalIf_truthiness exampleHost (capsFuel exampleHost 1 1) 0 defaultStore 0 0 (.str [])
      (.number one) .nil [.number two] (.str []) defaultStore h).1⟩

set_option maxRecDepth 1000000 in
/-- C16, counterexample: in the default namespace neither `x` nor `y` is bound;
the form `(def! x (do (def! y 1) (abc)))` fails with `'abc' not found`, and
afterwards the root frame binds `y` to 1: its bindings are not as they were.
The symbol `x` is still not bound. -/
theorem evalDef_failure_keeps_inner_definition :
    Env.Get defaultStore 0 "y".toList = .error (.new "'y' not found".toList) ∧
    ∃ σ', readEval exampleHost 4 4 defaultStore 0 "(def! x (do (def! y 1) (abc)))" =
        .error (.native (.new "'abc' not found".toList)) .nil σ' ∧
      Env.Get σ' 0 "y".toList = .ok (.number one) ∧
      Env.Get σ' 0 "x".toList = .error (.new "'x' not found".toList) :=
  ⟨rfl, _, rfl, rfl, rfl⟩

/-- C16, amended: `(def! name expr)` in the frame `e`. When `expr` evaluates to
`v`, `evalDef` returns `v` and the heap in which `e.Set(name, v)` was done on
the heap the evaluation left: there `e` itself binds `name` to `v` and
`e.Get(name)` is `v`. When the evaluation of `expr` fails, `evalDef` returns
that failure with the heap exactly as the failed evaluation left it: `evalDef`
itself binds nothing, in `e` or elsewhere, and what the evaluation of `expr`
bound before it failed stays bound; so when that evaluation left the frames
as they were, every frame is afterwards as it was. The loop of `Eval`, on a
form that is not a macro call, returns what `evalDef` returns. -/
theorem evalDef_defines_or_propagates (H : Host) (c : Caps) (n : Nat) (σ : Store) (e ptr : Nat)
    (name : GoString) (expr meta : Value) (rest : List Value) :
    (∀ v σ', c.Eval σ e expr = .ok v σ' →
      evalDef c.Eval σ e (.symbol name :: expr :: rest) = .ok v (Env.Set σ' e name v) ∧
      ∀ env, σ'.envs[e]? = some env →
        Env.Get (Env.Set σ' e name v) e name = .ok v ∧
        ∃ env', (Env.Set σ' e name v).envs[e]? = some env' ∧
          Env.lookup env'.data name = some v) ∧
    (∀ err val σ', c.Eval σ e expr = .error err val σ' →
      evalDef c.Eval σ e (.symbol name :: expr :: rest) = .error err val σ') ∧
    (isMacroCall σ e (.list ptr (.symbol "def!".toList :: .symbol name :: expr :: rest) meta)
        = false →
      evalLoop H c (n + 1) σ e
          (.list ptr (.symbol "def!".toList :: .symbol name :: expr :: rest) meta) =
        evalDef c.Eval σ e (.symbol name :: expr :: rest)) ∧
    (∀ err val σ', c.Eval σ e expr = .error err val σ' →
      ∃ τ, evalDef c.Eval σ e (.symbol name :: expr :: rest) = .error err val τ ∧
        (∀ a key, Env.Get τ a key = Env.Get σ' a key) ∧
        (σ'.envs = σ.envs → τ.envs = σ.envs)) := by
  refine ⟨?_, ?_, ?_, ?_⟩
  · intro v σ' h
    refine ⟨by simp only [evalDef, h], ?_⟩
    intro env henv
    exact ⟨Env.Get_Set_self σ' e name v env henv,
      _, Env.Set_envs_self σ' e name v env henv, Env.lookup_assign_self _ _ _⟩
  · intro err val σ' h
    simp only [evalDef, h]
  · intro hm
    rw [evalLoop_list H c n σ e ptr _ _ meta hm, evalList_def]
  · intro err val σ' h
    exact ⟨σ', by simp only [evalDef, h], fun _ _ => rfl, fun h' => h'⟩

set_option maxRecDepth 1000000 in
/-- Witness for C16, amended, in the child frame of `twoFrames`: `(def! z 1)`
returns 1 and binds `z` to 1 there; `(def! z abc)` fails with `'abc' not found`
and leaves the heap as it was; and in the default namespace `(def! x (abc))`
fails and leaves the frames as they were. -/
theorem evalDef_defines_or_propagates_witness :
    (evalDef (capsFuel exampleHost 1 1).Eval twoFrames 1 [.symbol "z".toList, .number one] =
        .ok (.number one) (Env.Set twoFrames 1 "z".toList (.number one)) ∧
      Env.Get (Env.Set twoFrames 1 "z".toList (.number one)) 1 "z".toList =
        .ok (.number one)) ∧
    evalDef (capsFuel exampleHost 1 1).Eval twoFrames 1
        [.symbol "z".toList, .symbol "abc".toList] =
      .error (.native (.new "'abc' not found".toList)) .nil twoFrames ∧
    ∃ σ', readEval exampleHost 3 3 defaultStore 0 "(def! x (abc))" =
        .error (.native (.new "'abc' not found".toList)) .nil σ' ∧
      σ'.envs = defaultStore.envs :=
  have h := evalDef_defines_or_propagates exampleHost (capsFuel exampleHost 1 1) 0 twoFrames 1 0
    "z".toList (.number one) .nil []
  have h' := evalDef_defines_or_propagates exampleHost (capsFuel exampleHost 1 1) 0 twoFrames 1
    0 "z".toList (.symbol "abc".toList) .nil []
  ⟨⟨(h.1 (.number one) twoFrames rfl).1,
      ((h.1 (.number one) twoFrames rfl).2 _ rfl).1⟩,
    h'.2.1 _ .nil twoFrames rfl, _, rfl, rfl⟩

theorem evalDefMacro_of_ok (Eval : Store → Nat → Value → Outcome Value) (σ : Store) (e : Nat)
    (name : GoString) (expr : Value) (rest : List Value) (v : Value) (σ' : Store)
    (h : Eval σ e expr = .ok v σ') (hv : isClosure v = false) :
    evalDefMacro Eval σ e (.symbol name :: expr :: rest) =
      .error (.native (.new "non-func value passed to defmacro".toList)) .nil
        (Env.Set σ' e name v) := by
  simp only [evalDefMacro, evalDef, h, Outcome.bind]
  cases v <;> first | rfl | simp [isClosure] at hv

set_option maxRecDepth 1000000 in
/-- C17, the failing input in the default namespace: `m` is not bound, the form
`(defmacro! m 1)` fails because 1 is not a closure, and afterwards `m` is bound
to 1 in the root frame. -/
theorem evalDefMacro_defines_before_check :
    Env.Get defaultStore 0 "m".toList = .error (.new "'m' not found".toList) ∧
    ∃ σ', readEval exampleHost 2 2 defaultStore 0 "(defmacro! m 1)" =
        .error (.native (.new "non-func value passed to defmacro".toList)) .nil σ' ∧
      Env.Get σ' 0 "m".toList = .ok (.number one) :=
  ⟨rfl, _, rfl, rfl⟩

/-- C17, failing inputs: when the `expr` of `(defmacro! name expr)` evaluates
to a value `v` that is not a closure, `evalDefMacro` fails with the error
`non-func value passed to defmacro`, but `evalDef` has by then written the
definition, where `evalDef` itself writes only after the evaluation has
succeeded: in the heap that the failed form leaves, the frame `e` binds `name`
to `v`. -/
theorem evalDefMacro_non_closure (H : Host) (c : Caps) (n : Nat) (σ : Store) (e ptr : Nat)
    (name : GoString) (expr meta : Value) (rest : List Value) (v : Value) (σ' : Store)
    (env : Env) (h : c.Eval σ e expr = .ok v σ') (hv : isClosure v = false)
    (he : σ'.envs[e]? = some env) :
    evalDefMacro c.Eval σ e (.symbol name :: expr :: rest) =
      .error (.native (.new "non-func value passed to defmacro".toList)) .nil
        (Env.Set σ' e name v) ∧
    Env.Get (Env.Set σ' e name v) e name = .ok v ∧
    (isMacroCall σ e
        (.list ptr (.symbol "defmacro!".toList :: .symbol name :: expr :: rest) meta) = false →
      evalLoop H c (n + 1) σ e
          (.list ptr (.symbol "defmacro!".toList :: .symbol name :: expr :: rest) meta) =
        .error (.native (.new "non-func value passed to defmacro".toList)) .nil
          (Env.Set σ' e name v)) := by
  have hd := evalDefMacro_of_ok c.Eval σ e name expr rest v σ' h hv
  refine ⟨hd, Env.Get_Set_self σ' e name v env he, ?_⟩
  intro hm
  rw [evalLoop_list H c n σ e ptr _ _ meta hm, evalList_defmacroForm, hd]

set_option maxRecDepth 1000000 in
/-- Witness for C17: `(defmacro! m 1)` in the child frame of `twoFrames`. -/
theorem evalDefMacro_non_closure_witness :
    evalDefMacro (capsFuel exampleHost 1 1).Eval twoFrames 1
        [.symbol "m".toList, .number one] =
      .error (.native (.new "non-func value passed to defmacro".toList)) .nil
        (Env.Set twoFrames 1 "m".toList (.number one)) ∧
    Env.Get (Env.Set twoFrames 1 "m".toList (.number one)) 1 "m".toList = .ok (.number one) :=
  have h := evalDefMacro_non_closure exampleHost (capsFuel exampleHost 1 1) 0 twoFrames 1 0
    "m".toList (.number one) .nil [] (.number one) twoFrames _ rfl rfl rfl
  ⟨h.1, h.2.1⟩

set_option maxRecDepth 1000000 in
/-- C19, the failing input: `evalDo` without arguments slices `args[:-1]` and
panics, and so does `(do)` evaluated in the default namespace. -/
theorem evalDo_empty_panics :
    (∀ (Eval : Store → Nat → Value → Outcome Value) (σ : Store) (e : Nat),
      evalDo Eval σ e [] = .panic "runtime error: slice bounds out of range [:-1]".toList) ∧
    ∀ depth turns, readEval exampleHost (depth + 1) (turns + 1) defaultStore 0 "(do)" =
      .panic "runtime error: slice bounds out of range [:-1]".toList := by
  refine ⟨fun _ _ _ => rfl, ?_⟩
  intro depth turns
  have hr : ReadString exampleHost.lib "(do)".toList defaultStore.heap =
      .ok (.list defaultStore.heap [.symbol "do".toList] .nil, defaultStore.heap + 1) := rfl
  have hm : ∀ σ : Store, σ.envs = defaultStore.envs →
      isMacroCall σ 0 (.list defaultStore.heap [.symbol "do".toList] .nil) = false := by
    intro σ hσ
    simp only [isMacroCall, Env.Get, Env.Find, hσ]
    rfl
  simp only [readEval, hr, Eval, capsFuel]
  rw [evalLoop_list _ _ _ _ _ _ _ _ _
    (hm { defaultStore with heap := defaultStore.heap + 1 } rfl), evalList_do]
  rfl

theorem letLoop_of_binds (Eval : Store → Nat → Value → Outcome Value) (newEnv : Nat)
    (defs : List Value) (σ σ'' : Store) (h : LetBinds Eval newEnv defs σ σ'') :
    letLoop Eval newEnv defs σ = .ok () σ'' := by
  induction h with
  | done σ => rfl
  | bind name expr rest σ value σ' σ'' he _ ih =>
    simp only [letLoop, evalDef, he, Outcome.bind, ih]

/-- C18: `(let* (x1 e1 … xn en) body)` in the frame `e`. `evalLet` makes a new
frame enclosed by `e`; when the definitions can be done in order in that frame
(`LetBinds`: each `ei` evaluated there, after `x1 … x(i-1)` were bound there),
it returns `body` and the new frame, and the loop of `Eval`, on a form that is
not a macro call, goes on with `body` in the new frame. Making the frame and
binding a symbol in it leave every frame that was there unchanged. -/
theorem evalLet_binds_in_child (H : Host) (c : Caps) (n : Nat) (σ : Store) (e ptr : Nat)
    (bindings body meta : Value) (rest defs : List Value) (σ'' : Store)
    (hb : asCollection bindings = some defs)
    (hl : LetBinds c.Eval σ.envs.length defs
      { σ with envs := σ.envs ++ [⟨[], some e⟩] } σ'') :
    evalLet c.Eval σ e (bindings :: body :: rest) = .ok (body, σ.envs.length) σ'' ∧
    (isMacroCall σ e (.list ptr (.symbol "let*".toList :: bindings :: body :: rest) meta)
        = false →
      evalLoop H c (n + 1) σ e
          (.list ptr (.symbol "let*".toList :: bindings :: body :: rest) meta) =
        evalLoop H c n σ'' σ.envs.length body) ∧
    (∀ a, a < σ.envs.length →
      ({ σ with envs := σ.envs ++ [⟨[], some e⟩] } : Store).envs[a]? = σ.envs[a]?) ∧
    (∀ (σ1 : Store) (name : GoString) (value : Value) (a : Nat), a ≠ σ.envs.length →
      (Env.Set σ1 σ.envs.length name value).envs[a]? = σ1.envs[a]?) := by
  have hlet : evalLet c.Eval σ e (bindings :: body :: rest) = .ok (body, σ.envs.length) σ'' := by
    simp only [evalLet, Env.Child, Env.New, Env.newLoop, Outcome.bind, hb,
      letLoop_of_binds _ _ _ _ _ hl]
  refine ⟨hlet, ?_, ?_, ?_⟩
  · intro hm
    rw [evalLoop_list H c n σ e ptr _ _ meta hm, evalList_let, hlet]
  · intro a ha
    simp [List.getElem?_append_left ha]
  · intro σ1 name value a ha
    exact Env.Set_envs_of_ne σ1 _ a name value ha

set_option maxRecDepth 1000000 in
/-- Witness for C18 in the default namespace: `(let* (x 1 y (+ x 1)) (+ x y))`
gives 3, and the root frame is afterwards what it was. -/
theorem evalLet_binds_in_child_witness :
    (∃ σ'', evalLet (capsFuel exampleHost 2 3).Eval defaultStore 0
        [.list 0 [.symbol "x".toList, .number one, .symbol "y".toList,
            .list 1 [.symbol "+".toList, .symbol "x".toList, .number one] .nil] .nil,
          .list 2 [.symbol "+".toList, .symbol "x".toList, .symbol "y".toList] .nil] =
      .ok (.list 2 [.symbol "+".toList, .symbol "x".toList, .symbol "y".toList] .nil, 1) σ'') ∧
    ∃ σ', readEval exampleHost 3 3 defaultStore 0 "(let* (x 1 y (+ x 1)) (+ x y))" =
        .ok (.number three) σ' ∧
      σ'.envs[0]? = defaultStore.envs[0]? :=
  ⟨⟨_, (evalLet_binds_in_child exampleHost (capsFuel exampleHost 2 3) 0 defaultStore 0 0
      (.list 0 [.symbol "x".toList, .number one, .symbol "y".toList,
            .list 1 [.symbol "+".toList, .symbol "x".toList, .number one] .nil] .nil)
      (.list 2 [.symbol "+".toList, .symbol "x".toList, .symbol "y".toList] .nil) .nil [] _ _
      rfl
      (LetBinds.bind _ _ _ _ _ _ _ rfl (LetBinds.bind _ _ _ _ _ _ _ rfl (LetBinds.done _)))).1⟩,
   _, rfl, rfl⟩

/-! ## Quasiquote -/

theorem quasiQuoteList_eq (forms : List Value) (heap : Nat) :
    quasiQuoteList forms heap = evalQuasiQuote (.list heap forms .nil) (heap + 1) := by
  cases forms with
  | nil => simp [quasiQuoteList, evalQuasiQuote]
  | cons head tail => simp [quasiQuoteList, evalQuasiQuote]

/-- The result `(cons H T)` of the last rule, from the two recursive calls. -/
theorem quasiQuotePair_eq (f g : Nat → Result (Value × Nat)) (head : Value)
    (tail : List Value) (heap : Nat) :
    quasiQuotePair f g head tail heap =
      if isUnquote head then
        match tail with
        | operand :: _ => .ok (operand, heap)
        | [] => .panic (indexPanic 1 1)
      else
        match spliceForm head with
        | some (operand :: _) =>
          match g heap with
          | .ok (rest, heap) =>
            .ok (.list heap [.symbol "concat".toList, operand, rest] .nil, heap + 1)
          | .error e => .error e
          | .panic m => .panic m
          | .fuel => .fuel
        | some [] => .panic (indexPanic 1 1)
        | none =>
          match f heap with
          | .ok (first, heap) =>
            match g heap with
            | .ok (rest, heap) =>
              .ok (.list heap [.symbol "cons".toList, first, rest] .nil, heap + 1)
            | .error e => .error e
            | .panic m => .panic m
            | .fuel => .fuel
          | .error e => .error e
          | .panic m => .panic m
          | .fuel => .fuel := by
  cases head with
  | symbol sym =>
    by_cases h : sym = "unquote".toList
    · subst h
      cases tail <;> rfl
    · simp [quasiQuotePair, isUnquote, spliceForm, isPair, asCollection, h]
  | list p forms m =>
    cases forms with
    | nil => simp [quasiQuotePair, isUnquote, spliceForm, isPair, asCollection]
    | cons x xs =>
      cases x with
      | symbol sym =>
        by_cases h : sym = "splice-unquote".toList
        · subst h
          cases xs <;> rfl
        · have h' := h
          simp only [String.toList] at h'
          simp [quasiQuotePair, isUnquote, spliceForm, isPair, asCollection, h']
      | _ => simp [quasiQuotePair, isUnquote, spliceForm, isPair, asCollection]
  | vector p forms m =>
    cases forms with
    | nil => simp [quasiQuotePair, isUnquote, spliceForm, isPair, asCollection]
    | cons x xs =>
      cases x with
      | symbol sym =>
        by_cases h : sym = "splice-unquote".toList
        · subst h
          cases xs <;> rfl
        · have h' := h
          simp only [String.toList] at h'
          simp [quasiQuotePair, isUnquote, spliceForm, isPair, asCollection, h']
      | _ => simp [quasiQuotePair, isUnquote, spliceForm, isPair, asCollection]
  | _ => simp [quasiQuotePair, isUnquote, spliceForm, isPair, asCollection]

/-- A non-empty sequence whose forms have their operands is rewritten by
`quasiQuotePair` as the rules say, once its head and its tail are. -/
theorem quasiQuotePair_rewrite (x head : Value) (tail : List Value)
    (hx : isPair x = (head :: tail, true)) (h : hasOperandsList (head :: tail) = true)
    (ihH : hasOperands head = true → ∀ heap, ∃ y heap',
      evalQuasiQuote head heap = .ok (y, heap') ∧ QuasiquoteRewrite head y)
    (ihT : hasOperandsList tail = true → ∀ heap, ∃ q y heap',
      quasiQuoteList tail heap = .ok (y, heap') ∧ QuasiquoteRewrite (.list q tail .nil) y)
    (heap : Nat) :
    ∃ y heap', quasiQuotePair (evalQuasiQuote head) (quasiQuoteList tail) head tail heap =
        .ok (y, heap') ∧ QuasiquoteRewrite x y := by
  rw [quasiQuotePair_eq]
  rw [hasOperandsList] at h
  by_cases hu : isUnquote head = true
  · simp only [hu, if_true] at h ⊢
    cases tail with
    | nil => simp at h
    | cons operand rest => exact ⟨_, _, rfl, .unquote x head operand rest hx hu⟩
  · have hu' : isUnquote head = false := by simpa using hu
    simp only [hu', Bool.false_eq_true, if_false] at h ⊢
    cases hs : spliceForm head with
    | some more =>
      simp only [hs, Bool.and_eq_true] at h
      cases more with
      | nil => simp at h
      | cons operand more =>
        obtain ⟨q, t, heap', ht, hr⟩ := ihT h.2 heap
        simp only [ht]
        exact ⟨_, _, rfl, .splice x head tail operand more q heap' t hx hu' hs hr⟩
    | none =>
      simp only [hs, Bool.and_eq_true] at h
      obtain ⟨y1, heap1, h1, r1⟩ := ihH h.1 heap
      obtain ⟨q, t, heap2, h2, r2⟩ := ihT h.2 heap1
      simp only [h1, h2]
      exact ⟨_, _, rfl, .cons x head tail q heap2 y1 t hx hu' hs r1 r2⟩

theorem isPair_list_cons (p : Nat) (head : Value) (tail : List Value) (m : Value) :
    isPair (.list p (head :: tail) m) = (head :: tail, true) := by
  simp [isPair, asCollection]

theorem isPair_vector_cons (p : Nat) (head : Value) (tail : List Value) (m : Value) :
    isPair (.vector p (head :: tail) m) = (head :: tail, true) := by
  simp [isPair, asCollection]

mutual
/-- The rewrite of a value whose forms have their operands. -/
theorem evalQuasiQuote_rewrite_value :
    ∀ x, hasOperands x = true → ∀ heap, ∃ y heap',
      evalQuasiQuote x heap = .ok (y, heap') ∧ QuasiquoteRewrite x y
  | .list p [] m, _, heap => ⟨_, _, rfl, .quote _ heap rfl⟩
  | .list p (head :: tail) m, h, heap => by
    rw [hasOperands] at h
    rw [evalQuasiQuote]
    exact quasiQuotePair_rewrite _ head tail (isPair_list_cons p head tail m) h
      (evalQuasiQuote_rewrite_value head)
      (evalQuasiQuote_rewrite_list tail) heap
  | .vector p [] m, _, heap => ⟨_, _, rfl, .quote _ heap rfl⟩
  | .vector p (head :: tail) m, h, heap => by
    rw [hasOperands] at h
    rw [evalQuasiQuote]
    exact quasiQuotePair_rewrite _ head tail (isPair_vector_cons p head tail m) h
      (evalQuasiQuote_rewrite_value head)
      (evalQuasiQuote_rewrite_list tail) heap
  | .nil, _, heap => ⟨_, _, rfl, .quote _ heap rfl⟩
  | .bool _, _, heap => ⟨_, _, rfl, .quote _ heap rfl⟩
  | .number _, _, heap => ⟨_, _, rfl, .quote _ heap rfl⟩
  | .str _, _, heap => ⟨_, _, rfl, .quote _ heap rfl⟩
  | .symbol _, _, heap => ⟨_, _, rfl, .quote _ heap rfl⟩
  | .keyword _, _, heap => ⟨_, _, rfl, .quote _ heap rfl⟩
  | .hashmap _ _ _, _, heap => ⟨_, _, rfl, .quote _ heap rfl⟩
  | .atom _ _, _, heap => ⟨_, _, rfl, .quote _ heap rfl⟩
  | .stdFunc _ _, _, heap => ⟨_, _, rfl, .quote _ heap rfl⟩
  | .extFunc _ _ _ _ _ _, _, heap => ⟨_, _, rfl, .quote _ heap rfl⟩

/-- The rewrite of the tail of a sequence, made a list first. -/
theorem evalQuasiQuote_rewrite_list :
    ∀ forms, hasOperandsList forms = true → ∀ heap, ∃ q y heap',
      quasiQuoteList forms heap = .ok (y, heap') ∧ QuasiquoteRewrite (.list q forms .nil) y
  | [], _, heap => ⟨heap, _, _, rfl, .quote _ (heap + 1) rfl⟩
  | head :: tail, h, heap => by
    rw [quasiQuoteList]
    obtain ⟨y, heap', hy, hr⟩ := quasiQuotePair_rewrite (.list heap (head :: tail) .nil)
      head tail (isPair_list_cons heap head tail .nil) h (evalQuasiQuote_rewrite_value head)
      (evalQuasiQuote_rewrite_list tail) (heap + 1)
    exact ⟨heap, y, heap', hy, hr⟩
end

/-- C20: for every form `x` in which each `unquote` and `splice-unquote` form
met by the rewrite has an operand, `evalQuasiQuote(x)` returns a form `y`, and
`y` is the four-rule rewrite of `x` (`QuasiquoteRewrite`): `(quote x)` when `x`
is not a non-empty list or vector, the second element of `x` when its head is
`unquote`, `(concat A T)` when its head is a sequence starting with
`splice-unquote` and `A` after it, and `(cons H T)` otherwise, where `T`
rewrites the tail made a list, also when `x` is a vector. -/
theorem evalQuasiQuote_four_rules (x : Value) (heap : Nat) (h : hasOperands x = true) :
    ∃ y heap', evalQuasiQuote x heap = .ok (y, heap') ∧ QuasiquoteRewrite x y :=
  evalQuasiQuote_rewrite_value x h heap

/-- Witness for C20: the vector `[1 (unquote 2) (splice-unquote 3)]`, rewritten
to `(cons (quote 1) (cons 2 (concat 3 (quote ()))))`. -/
theorem evalQuasiQuote_four_rules_witness :
    evalQuasiQuote (.vector 0 [.number one, .list 1 [.symbol "unquote".toList, .number two] .nil,
        .list 2 [.symbol "splice-unquote".toList, .number three] .nil] .nil) 3 =
      .ok (.list 10 [.symbol "cons".toList, .list 3 [.symbol "quote".toList, .number one] .nil,
        .list 9 [.symbol "cons".toList, .number two,
          .list 8 [.symbol "concat".toList, .number three,
            .list 7 [.symbol "quote".toList, .list 6 [] .nil] .nil] .nil] .nil] .nil, 11) ∧
    ∃ y heap', evalQuasiQuote (.vector 0 [.number one,
        .list 1 [.symbol "unquote".toList, .number two] .nil,
        .list 2 [.symbol "splice-unquote".toList, .number three] .nil] .nil) 3 = .ok (y, heap') ∧
      QuasiquoteRewrite (.vector 0 [.number one,
        .list 1 [.symbol "unquote".toList, .number two] .nil,
        .list 2 [.symbol "splice-unquote".toList, .number three] .nil] .nil) y :=
  ⟨rfl, evalQuasiQuote_four_rules _ 3 rfl⟩

/-! ## `try*` -/

theorem evalTry_of_ok (Eval : Store → Nat → Value → Outcome Value) (σ : Store) (e q : Nat)
    (expr handler m : Value) (name : GoString) (more : List Value) (v : Value) (σ' : Store)
    (h : Eval σ e expr = .ok v σ') :
    evalTry Eval σ e
        [expr, .list q (.symbol "catch*".toList :: .symbol name :: handler :: more) m] =
      .ok v σ' := by
  simp [evalTry, isPair, asCollection, h]

/-- C22: `evalTry` on `(try* expr (catch* sym handler))` returns the value `v`
of `expr` when `expr` evaluates, without evaluating `handler`; but the loop of
`Eval`, on a form that is not a macro call, takes what `evalTry` returns for
the next form and evaluates it once more: the result of the `try*` form is the
result of evaluating `v`, not `v`. -/
theorem evalTry_result_evaluated_again (H : Host) (c : Caps) (n : Nat) (σ : Store)
    (e ptr q : Nat) (expr handler meta m : Value) (name : GoString) (more : List Value)
    (v : Value) (σ' : Store) (h : c.Eval σ e expr = .ok v σ')
    (hm : isMacroCall σ e (.list ptr [.symbol "try*".toList, expr,
      .list q (.symbol "catch*".toList :: .symbol name :: handler :: more) m] meta) = false) :
    evalTry c.Eval σ e
        [expr, .list q (.symbol "catch*".toList :: .symbol name :: handler :: more) m] =
      .ok v σ' ∧
    evalLoop H c (n + 1) σ e (.list ptr [.symbol "try*".toList, expr,
        .list q (.symbol "catch*".toList :: .symbol name :: handler :: more) m] meta) =
      evalLoop H c n σ' e v := by
  have ht := evalTry_of_ok c.Eval σ e q expr handler m name more v σ' h
  refine ⟨ht, ?_⟩
  rw [evalLoop_list H c n σ e ptr _ _ meta hm, evalList_try, ht]

set_option maxRecDepth 1000000 in
/-- C22, the failing input `(try* (quote a) (catch* e 0))` in the default
namespace: `(quote a)` evaluates to the symbol `a`, and the form fails with
`'a' not found`. -/
theorem evalTry_result_evaluated_again_witness :
    readEval exampleHost 2 2 defaultStore 0 "(quote a)" =
      .ok (.symbol "a".toList) { defaultStore with heap := defaultStore.heap + 1 } ∧
    readEval exampleHost 2 2 defaultStore 0 "(try* (quote a) (catch* e 0))" =
      .error (.native (.new "'a' not found".toList)) .nil
        { defaultStore with heap := defaultStore.heap + 3 } ∧
    evalLoop exampleHost (capsFuel exampleHost 1 1) 2 defaultStore 0
      (.list 0 [.symbol "try*".toList, .list 1 [.symbol "quote".toList, .symbol "a".toList] .nil,
        .list 2 [.symbol "catch*".toList, .symbol "e".toList, .number one] .nil] .nil) =
      evalLoop exampleHost (capsFuel exampleHost 1 1) 1 defaultStore 0 (.symbol "a".toList) :=
  ⟨rfl, rfl,
    (evalTry_result_evaluated_again exampleHost (capsFuel exampleHost 1 1) 1 defaultStore 0 0 2
      (.list 1 [.symbol "quote".toList, .symbol "a".toList] .nil) (.number one) .nil .nil
      "e".toList [] (.symbol "a".toList) defaultStore rfl rfl).2⟩

/-! ## Atoms and metadata -/

theorem core.deref_setVal (c : Caps) (σ : Store) (e ptr : Nat) (val value : Value) :
    core.deref c (core.setVal σ ptr value) e [.atom ptr val] =
      .ok value (core.setVal σ ptr value) := by
  simp [core.deref, core.setVal, Store.Val, List.lookup]

/-- C23: for an atom holding `v` (the value `σ.Val ptr val` of its field `Val`),
when `CallFunc` of `f` on `v` and the extra arguments succeeds with `r`,
`swap` returns `r` and stores it in the atom: afterwards `deref` of the atom,
through any reference to it, returns `r`. -/
theorem core.swap_stores_result (c : Caps) (σ : Store) (e ptr : Nat) (val f : Value)
    (args : List Value) (r : Value) (σ' : Store)
    (h : c.CallFunc σ e f (σ.Val ptr val :: args) = .ok r σ') :
    core.swap c σ e (.atom ptr val :: f :: args) = .ok r (core.setVal σ' ptr r) ∧
    ∀ (c' : Caps) (e' : Nat) (val' : Value),
      core.deref c' (core.setVal σ' ptr r) e' [.atom ptr val'] =
        .ok r (core.setVal σ' ptr r) := by
  refine ⟨by simp only [core.swap, h], ?_⟩
  intro c' e' val'
  exact core.deref_setVal c' σ' e' ptr val' r

set_option maxRecDepth 1000000 in
/-- Witness for C23 in the default namespace: an atom holding 1 and the closure
`(fn* (x) (+ x 1))`; `swap!` returns 2 and `deref` then returns 2. -/
theorem core.swap_stores_result_witness :
    (∃ σ', readEval exampleHost 9 9 defaultStore 0
        "(do (def! a (atom 1)) (swap! a (fn* (x) (+ x 1))))" = .ok (.number two) σ') ∧
    (∃ σ', readEval exampleHost 9 9 defaultStore 0
        "(do (def! a (atom 1)) (swap! a (fn* (x) (+ x 1))) (deref a))" =
      .ok (.number two) σ') ∧
    ∃ σ', core.swap (capsFuel exampleHost 3 3) defaultStore 0
        [.atom 0 (.number one), .stdFunc 0 .nil, .number one] =
      .ok (.number two) (core.setVal σ' 0 (.number two)) :=
  ⟨⟨_, rfl⟩, ⟨_, rfl⟩, _,
    (core.swap_stores_result (capsFuel exampleHost 3 3) defaultStore 0 0 (.number one)
      (.stdFunc 0 .nil) [.number one] (.number two) defaultStore rfl).1⟩

/-- C24: when `CallFunc` of `f` on the value of the atom and the extra
arguments fails, `swap` returns the error, and it has assigned to the atom the
value that came back with the error (`nil` from a closure whose body throws):
afterwards `deref` returns that value, not the value the atom held. -/
theorem core.swap_failure_overwrites (c : Caps) (σ : Store) (e ptr : Nat) (val f : Value)
    (args : List Value) (err : GoError) (value : Value) (σ' : Store)
    (h : c.CallFunc σ e f (σ.Val ptr val :: args) = .error err value σ') :
    core.swap c σ e (.atom ptr val :: f :: args) =
      .error err value (core.setVal σ' ptr value) ∧
    ∀ (c' : Caps) (e' : Nat) (val' : Value),
      core.deref c' (core.setVal σ' ptr value) e' [.atom ptr val'] =
        .ok value (core.setVal σ' ptr value) := by
  refine ⟨by simp only [core.swap, h], ?_⟩
  intro c' e' val'
  exact core.deref_setVal c' σ' e' ptr val' value

set_option maxRecDepth 1000000 in
/-- C24, the failing input in the default namespace: after
`(def! a (atom 1))`, the form `(swap! a (fn* (x) (throw "boom")))` fails, and
`(deref a)` then gives `nil`. -/
theorem core.swap_failure_overwrites_witness :
    (∃ σ', readEval exampleHost 9 9 defaultStore 0
        "(do (def! a (atom 1)) (try* (swap! a (fn* (x) (throw \"boom\"))) (catch* e 0)) (deref a))" =
      .ok .nil σ') ∧
    (∃ σ', readEval exampleHost 9 9 defaultStore 0 "(do (def! a (atom 1)) (deref a))" =
      .ok (.number one) σ') ∧
    core.swap (capsFuel exampleHost 3 3) defaultStore 0
        [.atom 0 (.number one), .stdFunc 29 .nil, .number one] =
      .error (.UserError (.number one)) .nil (core.setVal defaultStore 0 .nil) :=
  ⟨⟨_, rfl⟩, ⟨_, rfl⟩,
    (core.swap_failure_overwrites (capsFuel exampleHost 3 3) defaultStore 0 0 (.number one)
      (.stdFunc 29 .nil) [.number one] (.UserError (.number one)) .nil defaultStore rfl).1⟩

theorem newHashmapLoop_ToList (forms : GoMap) (h : keysDistinct forms = true) :
    newHashmapLoop [] (ToList forms) [] = forms := by
  rw [reader.newHashmapLoop_eq_foldl, pairUp_ToList,
    reader.foldl_mapAssign_fresh forms [] (by simp) (keysDistinct_pairwise forms h)]
  simp

/-- C25: `(with-meta v m)` returns a new object (at the next free address)
whose metadata is `m` and whose contents are those of `v`: the forms of a list
or vector; the entries of a hash-map (a Go map, whose keys differ from one
another); the Go function of a built-in function; the body, parameters,
captured frame and current macro flag of a closure. The value `v` is not
changed: `(meta v)` afterwards is the metadata `v` had. -/
theorem core.withmeta_keeps_contents (c : Caps) (σ : Store) (e : Nat) (m m0 : Value) :
    (∀ p forms, core.withmeta c σ e [.list p forms m0, m] =
        .ok (.list σ.heap forms m) σ.alloc.2 ∧
      core.meta c σ.alloc.2 e [.list p forms m0] = .ok m0 σ.alloc.2 ∧
      core.meta c σ.alloc.2 e [.list σ.heap forms m] = .ok m σ.alloc.2) ∧
    (∀ p forms, core.withmeta c σ e [.vector p forms m0, m] =
        .ok (.vector σ.heap forms m) σ.alloc.2 ∧
      core.meta c σ.alloc.2 e [.vector p forms m0] = .ok m0 σ.alloc.2 ∧
      core.meta c σ.alloc.2 e [.vector σ.heap forms m] = .ok m σ.alloc.2) ∧
    (∀ p forms, keysDistinct forms = true →
      core.withmeta c σ e [.hashmap p forms m0, m] =
        .ok (.hashmap σ.heap forms m) σ.alloc.2 ∧
      core.meta c σ.alloc.2 e [.hashmap p forms m0] = .ok m0 σ.alloc.2 ∧
      core.meta c σ.alloc.2 e [.hashmap σ.heap forms m] = .ok m σ.alloc.2) ∧
    (∀ p fn, σ.fns.lookup p = some fn →
      ∃ σ', core.withmeta c σ e [.stdFunc p m0, m] = .ok (.stdFunc σ.heap m) σ' ∧
        σ'.fns.lookup σ.heap = some fn ∧
        core.meta c σ' e [.stdFunc p m0] = .ok m0 σ' ∧
        core.meta c σ' e [.stdFunc σ.heap m] = .ok m σ') ∧
    (∀ p ast params env isMacro,
      core.withmeta c σ e [.extFunc p ast params env isMacro m0, m] =
        .ok (.extFunc σ.heap ast params env (σ.IsMacro p isMacro) m) σ.alloc.2 ∧
      core.meta c σ.alloc.2 e [.extFunc p ast params env isMacro m0] = .ok m0 σ.alloc.2 ∧
      core.meta c σ.alloc.2 e [.extFunc σ.heap ast params env (σ.IsMacro p isMacro) m] =
        .ok m σ.alloc.2) := by
  refine ⟨fun p forms => ⟨rfl, rfl, rfl⟩, fun p forms => ⟨rfl, rfl, rfl⟩, ?_, ?_,
    fun p ast params env isMacro => ⟨rfl, rfl, rfl⟩⟩
  · intro p forms h
    refine ⟨?_, rfl, rfl⟩
    simp only [core.withmeta, newHashmapLoop_ToList forms h]
  · intro p fn h
    refine ⟨_, rfl, ?_, rfl, rfl⟩
    simp [h, List.lookup, Store.alloc]

set_option maxRecDepth 1000000 in
/-- Witness for C25 in the default namespace: `with-meta` on the built-in
function `+` and on a hash-map with two keys. -/
theorem core.withmeta_keeps_contents_witness :
    (∃ σ', core.withmeta (capsFuel exampleHost 1 1) defaultStore 0
        [.stdFunc 0 .nil, .number one] = .ok (.stdFunc defaultStore.heap (.number one)) σ' ∧
      σ'.fns.lookup defaultStore.heap = some (.core "add".toList) ∧
      core.meta (capsFuel exampleHost 1 1) σ' 0 [.stdFunc 0 .nil] = .ok .nil σ' ∧
      core.meta (capsFuel exampleHost 1 1) σ' 0 [.stdFunc defaultStore.heap (.number one)] =
        .ok (.number one) σ') ∧
    core.withmeta (capsFuel exampleHost 1 1) defaultStore 0
        [.hashmap 0 [(.keyword "a".toList, .number one), (.str "b".toList, .number two)] .nil,
          .number three] =
      .ok (.hashmap defaultStore.heap
        [(.keyword "a".toList, .number one), (.str "b".toList, .number two)] (.number three))
        defaultStore.alloc.2 :=
  have h := core.withmeta_keeps_contents (capsFuel exampleHost 1 1) defaultStore 0
    (.number one) .nil
  have h3 := core.withmeta_keeps_contents (capsFuel exampleHost 1 1) defaultStore 0
    (.number three) .nil
  ⟨h.2.2.2.1 0 (.core "add".toList) rfl,
    (h3.2.2.1 0 [(.keyword "a".toList, .number one), (.str "b".toList, .number two)] rfl).1⟩

/-! ## Hash-map forms, primitives that panic, `eval` -/

theorem evalListForms_length (Eval : Store → Nat → Value → Outcome Value) :
    ∀ (values : List Value) (σ : Store) (env : Nat) (lst : List Value) (σ' : Store),
      evalListForms Eval values σ env = .ok lst σ' → lst.length = values.length
  | [], σ, env, lst, σ', h => by
    simp only [evalListForms, Outcome.ok.injEq] at h
    rw [← h.1]
  | form :: rest, σ, env, lst, σ', h => by
    simp only [evalListForms] at h
    cases h1 : Eval σ env form with
    | ok value σ1 =>
      simp only [h1] at h
      cases h2 : evalListForms Eval rest σ1 env with
      | ok values σ2 =>
        simp only [h2, Outcome.ok.injEq] at h
        rw [← h.1]
        simp [evalListForms_length Eval rest σ1 env values σ2 h2]
      | error err values σ2 => simp [h2] at h
      | panic msg => simp [h2] at h
      | fuel => simp [h2] at h
    | error err value σ1 => simp [h1] at h
    | panic msg => simp [h1] at h
    | fuel => simp [h1] at h

theorem evalLoop_selfEvaluating (H : Host) (c : Caps) (n : Nat) (σ : Store) (e : Nat)
    (k : Value) (h : selfEvaluating k = true) :
    evalLoop H c (n + 1) σ e k = .ok k σ := by
  cases k <;>
    first
    | (simp [evalLoop, evalStep, macroExpand, isMacroCall, evalAST]; done)
    | simp [selfEvaluating] at h

set_option maxRecDepth 1000000 in
/-- C26, the claim fails: in the default namespace the hash-map form `{a 1}`,
whose key is the symbol `a`, fails with `'a' not found`: the key is looked up. -/
theorem evalAST_hashmap_key_looked_up :
    readEval exampleHost 3 3 defaultStore 0 "\x7ba 1\x7d" =
      .error (.native (.new "'a' not found".toList)) .nil
        { defaultStore with heap := defaultStore.heap + 2 } := rfl

/-- A symbol evaluates to the value it is bound to. -/
theorem evalLoop_symbol (H : Host) (c : Caps) (t : Nat) (σ : Store) (e : Nat) (sym : GoString)
    (v : Value) (h : Env.Get σ e sym = .ok v) :
    evalLoop H c (t + 1) σ e (.symbol sym) = .ok v σ := by
  simp [evalLoop, evalStep, macroExpand, isMacroCall, evalAST, h]

theorem evalListForms_of_entries (Eval : Store → Nat → Value → Outcome Value) (env : Nat)
    (forms : GoMap) (σ : Store) (pairs : List (Value × Value)) (σ' : Store)
    (h : EvalsEntries Eval env forms σ pairs σ') :
    evalListForms Eval (ToList forms) σ env = .ok (ToList pairs) σ' := by
  induction h with
  | done σ => rfl
  | entry key expr rest σ k σ1 v σ2 pairs σ3 hk hv _ ih =>
    simp only [ToList, evalListForms, hk, hv, ih]

theorem entries_of_evalListForms (Eval : Store → Nat → Value → Outcome Value) (env : Nat) :
    ∀ (forms : GoMap) (σ : Store) (lst : List Value) (σ' : Store),
      evalListForms Eval (ToList forms) σ env = .ok lst σ' →
      ∃ pairs, lst = ToList pairs ∧ EvalsEntries Eval env forms σ pairs σ'
  | [], σ, lst, σ', h => by
    simp only [ToList, evalListForms, Outcome.ok.injEq] at h
    obtain ⟨rfl, rfl⟩ := h
    exact ⟨[], rfl, EvalsEntries.done σ⟩
  | (key, expr) :: rest, σ, lst, σ', h => by
    simp only [ToList, evalListForms] at h
    cases hk : Eval σ env key with
    | ok k σ1 =>
      simp only [hk] at h
      cases hv : Eval σ1 env expr with
      | ok v σ2 =>
        simp only [hv] at h
        cases hr : evalListForms Eval (ToList rest) σ2 env with
        | ok values σ3 =>
          simp only [hr, Outcome.ok.injEq] at h
          obtain ⟨rfl, rfl⟩ := h
          obtain ⟨pairs, rfl, hp⟩ := entries_of_evalListForms Eval env rest σ2 values σ3 hr
          exact ⟨(k, v) :: pairs, rfl, EvalsEntries.entry _ _ _ _ _ _ _ _ _ _ hk hv hp⟩
        | error err values σ3 => simp [hr] at h
        | panic msg => simp [hr] at h
        | fuel => simp [hr] at h
      | error err value σ2 => simp [hv] at h
      | panic msg => simp [hv] at h
      | fuel => simp [hv] at h
    | error err value σ1 => simp [hk] at h
    | panic msg => simp [hk] at h
    | fuel => simp [hk] at h

/-- Behind entries that evaluate, `evalListForms` fails where the rest fails. -/
theorem evalListForms_entries_error (Eval : Store → Nat → Value → Outcome Value) (env : Nat)
    (pre : GoMap) (σ : Store) (pairs : List (Value × Value)) (σ1 : Store)
    (h : EvalsEntries Eval env pre σ pairs σ1) (rest : List Value) (err : GoError)
    (σ2 : Store) (hr : ∃ vals, evalListForms Eval rest σ1 env = .error err vals σ2) :
    ∃ vals, evalListForms Eval (ToList pre ++ rest) σ env = .error err vals σ2 := by
  induction h with
  | done σ => simpa [ToList] using hr
  | entry key expr rest' σ k σa v σb pairs σc hk hv _ ih =>
    obtain ⟨vals, hvals⟩ := ih hr
    refine ⟨k :: v :: vals, ?_⟩
    have hcons : ToList ((key, expr) :: rest') ++ rest =
        key :: expr :: (ToList rest' ++ rest) := rfl
    rw [hcons]
    simp only [evalListForms, hk, hv, hvals]

theorem ToList_append (a b : GoMap) : ToList (a ++ b) = ToList a ++ ToList b := by
  induction a with
  | nil => rfl
  | cons p a ih =>
    obtain ⟨k, v⟩ := p
    simp [ToList, ih]

/-- What `evalAST` returns for a hash-map form whose entries evaluate. -/
theorem evalAST_hashmap_of_entries (Eval : Store → Nat → Value → Outcome Value) (σ : Store)
    (e p : Nat) (forms : GoMap) (m : Value) (pairs : List (Value × Value)) (σ' : Store)
    (h : EvalsEntries Eval e forms σ pairs σ') :
    evalAST Eval σ e (.hashmap p forms m) =
      .ok (.hashmap σ'.heap (mapOfPairs pairs) .nil) { σ' with heap := σ'.heap + 1 } := by
  have hl := evalListForms_of_entries Eval e forms σ pairs σ' h
  have hodd : ¬ (ToList pairs).length % 2 = 1 := by
    rw [length_ToList]; omega
  simp only [evalAST, hl, Outcome.bind, NewHashmap, hodd, if_false,
    reader.newHashmapLoop_eq_foldl, mapOfPairs, pairUp_ToList]

/-- The evaluation of a symbol that is not bound fails. -/
theorem evalLoop_symbol_error (H : Host) (c : Caps) (t : Nat) (σ : Store) (e : Nat)
    (sym : GoString) (err : Error) (h : Env.Get σ e sym = .error err) :
    evalLoop H c (t + 1) σ e (.symbol sym) = .error (.native err) .nil σ := by
  simp [evalLoop, evalStep, macroExpand, isMacroCall, evalAST, h]

/-- C26, amended: for a hash-map form, `evalAST` evaluates the keys and the
values, each entry's key and then its value, in order (`EvalsEntries`). When
all evaluate, it returns the new map that holds the pairs of the results,
assigned in that order: it maps the value of every key expression to the value
of its paired expression; and it returns a map only so. When a key or a value
fails to evaluate, `evalAST` fails with that error. A key that is not a
symbol, list, vector or hash-map (a string, keyword, number, boolean, nil)
evaluates to itself, so such a key stays as it is; a key that is a symbol
evaluates to what the symbol is bound to, and fails when it is not bound. -/
theorem evalAST_hashmap_evaluates_keys (H : Host) (c : Caps) (σ : Store) (e p : Nat)
    (forms : GoMap) (m : Value) :
    (∀ pairs σ', EvalsEntries c.Eval e forms σ pairs σ' →
      evalAST c.Eval σ e (.hashmap p forms m) =
        .ok (.hashmap σ'.heap (mapOfPairs pairs) .nil) { σ' with heap := σ'.heap + 1 }) ∧
    (∀ v τ, evalAST c.Eval σ e (.hashmap p forms m) = .ok v τ →
      ∃ pairs σ', EvalsEntries c.Eval e forms σ pairs σ' ∧
        v = .hashmap σ'.heap (mapOfPairs pairs) .nil ∧ τ = { σ' with heap := σ'.heap + 1 }) ∧
    (∀ pre key expr post pairs σ1 err val σ2, forms = pre ++ (key, expr) :: post →
      EvalsEntries c.Eval e pre σ pairs σ1 → c.Eval σ1 e key = .error err val σ2 →
      evalAST c.Eval σ e (.hashmap p forms m) = .error err .nil σ2) ∧
    (∀ pre key expr post pairs σ1 k σ2 err val σ3, forms = pre ++ (key, expr) :: post →
      EvalsEntries c.Eval e pre σ pairs σ1 → c.Eval σ1 e key = .ok k σ2 →
      c.Eval σ2 e expr = .error err val σ3 →
      evalAST c.Eval σ e (.hashmap p forms m) = .error err .nil σ3) ∧
    (∀ (n : Nat) (σ1 : Store) (e1 : Nat) (k : Value), selfEvaluating k = true →
      evalLoop H c (n + 1) σ1 e1 k = .ok k σ1) ∧
    (∀ (n : Nat) (σ1 : Store) (e1 : Nat) (s : GoString),
      (∀ v, Env.Get σ1 e1 s = .ok v → evalLoop H c (n + 1) σ1 e1 (.symbol s) = .ok v σ1) ∧
      (∀ err, Env.Get σ1 e1 s = .error err →
        evalLoop H c (n + 1) σ1 e1 (.symbol s) = .error (.native err) .nil σ1)) := by
  refine ⟨fun pairs σ' h => evalAST_hashmap_of_entries c.Eval σ e p forms m pairs σ' h,
    ?_, ?_, ?_, fun n σ1 e1 k hk => evalLoop_selfEvaluating H c n σ1 e1 k hk,
    fun n σ1 e1 s => ⟨fun v h => evalLoop_symbol H c n σ1 e1 s v h,
      fun err h => evalLoop_symbol_error H c n σ1 e1 s err h⟩⟩
  · intro v τ h
    simp only [evalAST, Outcome.bind] at h
    cases hl : evalListForms c.Eval (ToList forms) σ e with
    | ok lst σ' =>
      obtain ⟨pairs, rfl, hp⟩ := entries_of_evalListForms c.Eval e forms σ lst σ' hl
      have hv := evalAST_hashmap_of_entries c.Eval σ e p forms m pairs σ' hp
      simp only [evalAST, Outcome.bind] at hv
      rw [hv] at h
      simp only [Outcome.ok.injEq] at h
      exact ⟨pairs, σ', hp, h.1.symm, h.2.symm⟩
    | error err lst σ' => simp [hl] at h
    | panic msg => simp [hl] at h
    | fuel => simp [hl] at h
  · intro pre key expr post pairs σ1 err val σ2 hf hp hk
    subst hf
    obtain ⟨vals, hvals⟩ := evalListForms_entries_error c.Eval e pre σ pairs σ1 hp
      (ToList ((key, expr) :: post)) err σ2
      ⟨val :: (expr :: ToList post).map (fun _ => Value.nil),
        by simp only [ToList, evalListForms, hk]⟩
    simp only [evalAST, ToList_append, hvals, Outcome.bind]
    rfl
  · intro pre key expr post pairs σ1 k σ2 err val σ3 hf hp hk hv
    subst hf
    obtain ⟨vals, hvals⟩ := evalListForms_entries_error c.Eval e pre σ pairs σ1 hp
      (ToList ((key, expr) :: post)) err σ3
      ⟨k :: val :: (ToList post).map (fun _ => Value.nil),
        by simp only [ToList, evalListForms, hk, hv]⟩
    simp only [evalAST, ToList_append, hvals, Outcome.bind]
    rfl

set_option maxRecDepth 1000000 in
/-- Witness for C26, amended: in the default namespace the form
`{"k" (+ 1 1) :j 3}` evaluates to the map `{"k" 2 :j 3}`; and where `x` is
bound to 3, the form `{x 1}` evaluates to the map `{3 1}`. -/
theorem evalAST_hashmap_evaluates_keys_witness :
    (∃ σ' : Store, evalAST (capsFuel exampleHost 3 3).Eval defaultStore 0
        (.hashmap 0 [(.str "k".toList,
            .list 1 [.symbol "+".toList, .number one, .number one] .nil),
          (.keyword "j".toList, .number three)] .nil) =
      .ok (.hashmap σ'.heap [(.str "k".toList, .number two),
        (.keyword "j".toList, .number three)] .nil) { σ' with heap := σ'.heap + 1 }) ∧
    evalAST (capsFuel exampleHost 1 1).Eval twoFrames 1
        (.hashmap 0 [(.symbol "x".toList, .number one)] .nil) =
      .ok (.hashmap 0 [(.number three, .number one)] .nil) { twoFrames with heap := 1 } :=
  ⟨⟨_, (evalAST_hashmap_evaluates_keys exampleHost (capsFuel exampleHost 3 3) defaultStore 0 0
    [(.str "k".toList, .list 1 [.symbol "+".toList, .number one, .number one] .nil),
      (.keyword "j".toList, .number three)] .nil).1
    [(.str "k".toList, .number two), (.keyword "j".toList, .number three)] _
    (EvalsEntries.entry _ _ _ _ _ _ _ _ _ _ rfl rfl
      (EvalsEntries.entry _ _ _ _ _ _ _ _ _ _ rfl rfl (EvalsEntries.done _)))⟩,
   (evalAST_hashmap_evaluates_keys exampleHost (capsFuel exampleHost 1 1) twoFrames 1 0
    [(.symbol "x".toList, .number one)] .nil).1
    [(.number three, .number one)] _
    (EvalsEntries.entry _ _ _ _ _ _ _ _ _ _ rfl rfl (EvalsEntries.done _))⟩

set_option maxRecDepth 1000000 in
/-- C27, failing inputs: `add` (and with it `sub`, `mul`, `div`) asserts that
its arguments are numbers and panics on a string; `nth` indexes with a
negative index and panics; `slurp` indexes `a[0]` without arguments and
panics; and `(+ "a" 1)` evaluated in the default namespace panics. -/
theorem core.primitives_panic :
    (∀ (H : Host) (c : Caps) (σ : Store) (e : Nat) (s : GoString) (y : Value),
      core.add H c σ e [.str s, y] =
        .panic "interface conversion: types.Base is string, not float64".toList) ∧
    (∀ (H : Host) (c : Caps) (σ : Store) (e : Nat) (col : Value) (data : List Value)
      (x : Float64) (i : Nat), asCollection col = some data → H.toInt x = Int.negSucc i →
      core.nth H c σ e [col, .number x] =
        .panic ("runtime error: index out of range [-".toList ++ natStr (i + 1) ++ "]".toList)) ∧
    (∀ (H : Host) (c : Caps) (σ : Store) (e : Nat),
      core.slurp H c σ e [] = .panic "runtime error: index out of range [0] with length 0".toList) ∧
    readEval exampleHost 3 3 defaultStore 0 "(+ \"a\" 1)" =
      .panic "interface conversion: types.Base is string, not float64".toList ∧
    core.nth exampleHost (capsFuel exampleHost 1 1) defaultStore 0
        [.list 0 [.number one] .nil, .number minusOne] =
      .panic "runtime error: index out of range [-1]".toList := by
  refine ⟨fun H c σ e s y => rfl, ?_, fun H c σ e => rfl, rfl, rfl⟩
  intro H c σ e col data x i hc hx
  have hneg : ¬ ((data.length : Int) ≤ Int.negSucc i) := by
    have : Int.negSucc i < 0 := Int.negSucc_lt_zero i
    omega
  simp only [core.nth, hc, hx, hneg, if_false]

set_option maxRecDepth 1000000 in
/-- On the example host `DefaultNamespace` returns the root frame at address 0
and leaves the heap `defaultStore`. -/
theorem DefaultNamespace_exampleHost :
    core.DefaultNamespace exampleHost 3 4 = .ok 0 defaultStore := rfl

set_option maxRecDepth 1000000 in
/-- C28: the primitive `eval` evaluates its argument in the frame that
`eval(defaultEnv)` captured, whatever the frame `e` of the call;
`DefaultNamespace` binds `eval` in its root frame to that closure over the root
frame; and `(let* (y 1) (eval (quote y)))`, with `y` not bound at the root,
fails with `'y' not found`. -/
theorem core.eval_in_root_frame :
    (∀ (defaultEnv : Nat) (c : Caps) (σ : Store) (e : Nat) (x : Value) (rest : List Value),
      core.eval defaultEnv c σ e (x :: rest) = c.Eval σ defaultEnv x) ∧
    (∃ σ, core.DefaultNamespace exampleHost 3 4 = .ok 0 σ ∧ σ = defaultStore ∧
      ∃ p, Env.Get σ 0 "eval".toList = .ok (.stdFunc p .nil) ∧
        σ.fns.lookup p = some (.eval 0)) ∧
    Env.Get defaultStore 0 "y".toList = .error (.new "'y' not found".toList) ∧
    ∃ σ', readEval exampleHost 4 4 defaultStore 0 "(let* (y 1) (eval (quote y)))" =
      .error (.native (.new "'y' not found".toList)) .nil σ' :=
  ⟨fun _ _ _ _ _ _ => rfl, ⟨_, rfl, rfl, _, rfl, rfl⟩, rfl, _, rfl⟩

/-! ## Application of closures -/

/-- The turn of the loop on a list whose head is not the symbol of a special
form: the forms are evaluated and the first is applied to the others. -/
theorem evalList_apply (H : Host) (c : Caps) (fuel : Nat) (σ : Store) (e : Nat)
    (tobject head : Value) (args : List Value) (hs : headSymbol head ∉ specialForms) :
    evalList H c fuel σ e tobject head args =
      match evalAST c.Eval σ e tobject with
      | .ok lst σ =>
        match lst with
        | .list _ (fn :: arguments) _ =>
          match fn with
          | .stdFunc ptr _ => .ret (callStd H c σ e ptr arguments)
          | .extFunc _ ast params env _ _ =>
            match Env.Child σ env params arguments with
            | .ok newEnv σ => .loop σ newEnv ast
            | .error err _ σ => .ret (.error err .nil σ)
            | .panic msg => .ret (.panic msg)
            | .fuel => .ret .fuel
          | _ =>
            .ret (.error (.native (.new ("attempt to call non-function ".toList ++ H.Sprint fn)))
              .nil σ)
        | _ => .ret (.panic (indexPanic 0 0))
      | .error err _ σ => .ret (.error err .nil σ)
      | .panic msg => .ret (.panic msg)
      | .fuel => .ret .fuel := by
  simp only [specialForms, List.map_cons, List.map_nil, List.mem_cons, List.mem_nil_iff,
    or_false, not_or] at hs
  obtain ⟨h1, h2, h3, h4, h5, h6, h7, h8, h9, h10⟩ := hs
  simp only [evalList, h1, h2, h3, h4, h5, h6, h7, h8, h9, h10, if_false]

namespace Env

theorem newLoop_frame (env : Nat) (exprs binds : List Value) (outer : Option Nat) :
    ∀ (i : Nat) (σ : Store) (env' : Nat) (σ' : Store),
      (∃ frame, σ.envs[env]? = some frame ∧ frame.outer = outer) →
      newLoop env exprs binds i σ = .ok env' σ' →
      env' = env ∧ ∃ frame, σ'.envs[env]? = some frame ∧ frame.outer = outer := by
  induction binds with
  | nil =>
    intro i σ env' σ' hf h
    simp only [newLoop, Outcome.ok.injEq] at h
    obtain ⟨rfl, rfl⟩ := h
    exact ⟨rfl, hf⟩
  | cons bind rest ih =>
    intro i σ env' σ' hf h
    have hset : ∀ (τ : Store) (key : GoString) (v : Value),
        (∃ frame, τ.envs[env]? = some frame ∧ frame.outer = outer) →
        ∃ frame, (Set τ env key v).envs[env]? = some frame ∧ frame.outer = outer := by
      rintro τ key v ⟨frame, h1, h2⟩
      exact ⟨_, Set_envs_self τ env key v frame h1, h2⟩
    cases bind with
    | symbol key =>
      simp only [newLoop] at h
      by_cases hk : key = "&".toList
      · simp only [hk, if_true] at h
        cases rest with
        | nil => simp at h
        | cons r rest' =>
          cases r with
          | symbol name =>
            simp only at h
            by_cases hl : exprs.length < i
            · simp [hl] at h
            · simp only [hl, if_false, Outcome.ok.injEq] at h
              obtain ⟨rfl, rfl⟩ := h
              refine ⟨rfl, hset _ _ _ ?_⟩
              simpa [NewList] using hf
          | _ => simp at h
      · simp only [hk, if_false] at h
        cases hx : exprs[i]? with
        | none => simp [hx] at h
        | some value =>
          simp only [hx] at h
          exact ih (i + 1) _ env' σ' (hset σ key value hf) h
    | _ => simp [newLoop, Outcome.fail] at h

/-- The frame that `New` returns is the next frame of the heap, and its
enclosing frame is `outer`. -/
theorem New_frame (σ : Store) (outer : Option Nat) (binds exprs : List Value) (env : Nat)
    (σ' : Store) (h : New σ outer binds exprs = .ok env σ') :
    env = σ.envs.length ∧ ∃ frame, σ'.envs[env]? = some frame ∧ frame.outer = outer := by
  unfold New at h
  have := newLoop_frame σ.envs.length exprs binds outer 0 _ env σ' ⟨⟨[], outer⟩, by simp, rfl⟩ h
  obtain ⟨rfl, hf⟩ := this
  exact ⟨rfl, hf⟩

end Env

/-- C29: `fn*` in the frame `F` makes a closure that captures `F`. When the
forms of an application (a list that is neither a special form nor a macro
call) evaluate to such a closure and its arguments, the loop of `Eval` makes a
new frame and goes on with the body of the closure in it; the new frame is
enclosed by the captured frame `F`, whatever the frame `e` of the call. -/
theorem closure_body_in_child_of_captured_frame (H : Host) (c : Caps) (n : Nat) (σ : Store)
    (e ptr : Nat) (head : Value) (args : List Value) (meta : Value) (q p : Nat)
    (ast : Value) (params : List Value) (F : Nat) (isMacro : Bool) (fmeta : Value)
    (arguments : List Value) (m : Value) (σ1 : Store) (newEnv : Nat) (σ2 : Store)
    (hs : headSymbol head ∉ specialForms)
    (hm : isMacroCall σ e (.list ptr (head :: args) meta) = false)
    (ha : evalAST c.Eval σ e (.list ptr (head :: args) meta) =
      .ok (.list q (.extFunc p ast params F isMacro fmeta :: arguments) m) σ1)
    (hc : Env.Child σ1 F params arguments = .ok newEnv σ2) :
    evalLoop H c (n + 1) σ e (.list ptr (head :: args) meta) = evalLoop H c n σ2 newEnv ast ∧
    newEnv = σ1.envs.length ∧
    (∃ frame, σ2.envs[newEnv]? = some frame ∧ frame.outer = some F) ∧
    ∀ (τ : Store) (G : Nat) (fnParams body : Value) (rest ps : List Value),
      asCollection fnParams = some ps →
      NewFunc τ G (fnParams :: body :: rest) =
        .ok (.extFunc τ.heap body ps G false .nil) { τ with heap := τ.heap + 1 } := by
  have hf := Env.New_frame σ1 (some F) params arguments newEnv σ2 hc
  refine ⟨?_, hf.1, hf.2, ?_⟩
  · rw [evalLoop_list H c n σ e ptr _ _ meta hm, evalList_apply H c _ σ e _ head args hs, ha]
    simp only [hc]
  · intro τ G fnParams body rest ps hps
    simp only [NewFunc, hps]

set_option maxRecDepth 1000000 in
/-- Witness for C29 in the default namespace: the closure made under `x = 1`
returns 1 when it is called where `x` is 2. -/
theorem closure_body_in_child_of_captured_frame_witness :
    (∃ σ', readEval exampleHost 9 9 defaultStore 0
        "(let* (f (let* (x 1) (fn* () x)) x 2) (f))" = .ok (.number one) σ') ∧
    ∃ σ2, evalLoop exampleHost (capsFuel exampleHost 2 2) 2
        (Env.Set twoFrames 0 "f".toList (.extFunc 0 (.symbol "x".toList) [] 0 false .nil)) 1
        (.list 1 [.symbol "f".toList] .nil) =
      evalLoop exampleHost (capsFuel exampleHost 2 2) 1 σ2 2 (.symbol "x".toList) ∧
      evalLoop exampleHost (capsFuel exampleHost 2 2) 1 σ2 2 (.symbol "x".toList) =
        .ok (.number one) σ2 ∧
      Env.Get σ2 1 "x".toList = .ok (.number three) :=
  ⟨⟨_, rfl⟩, _,
    (closure_body_in_child_of_captured_frame exampleHost (capsFuel exampleHost 2 2) 1
      (Env.Set twoFrames 0 "f".toList (.extFunc 0 (.symbol "x".toList) [] 0 false .nil)) 1 1
      (.symbol "f".toList) [] .nil 0 0 (.symbol "x".toList) [] 0 false .nil [] .nil _ 2 _
      (by decide) rfl rfl rfl).1, rfl, rfl⟩

/-! ## Macro expansion -/

theorem macroExpand_not_macro (Eval : Store → Nat → Value → Outcome Value) :
    ∀ (fuel : Nat) (σ : Store) (e : Nat) (form ast : Value) (σ' : Store),
      macroExpand Eval fuel σ e form = .ok ast σ' → isMacroCall σ' e ast = false := by
  intro fuel
  induction fuel with
  | zero => intro σ e form ast σ' h; simp [macroExpand] at h
  | succ fuel ih =>
    intro σ e form ast σ' h
    by_cases hm : isMacroCall σ e form = true
    · simp only [macroExpand, hm, if_true] at h
      cases form with
      | list p forms m =>
        cases forms with
        | nil => simp at h
        | cons x args =>
          cases x with
          | symbol sym =>
            simp only at h
            cases hg : Env.Get σ e sym with
            | ok val =>
              simp only [hg] at h
              cases ha : Apply Eval σ val args with
              | ok ast1 σ1 =>
                simp only [ha, Outcome.bind] at h
                exact ih σ1 e ast1 ast σ' h
              | error err v σ1 => simp [ha, Outcome.bind] at h
              | panic msg => simp [ha, Outcome.bind] at h
              | fuel => simp [ha, Outcome.bind] at h
            | error err => simp [hg] at h
            | panic msg => simp [hg] at h
            | fuel => simp [hg] at h
          | _ => simp at h
      | _ => simp at h
    · have hm' : isMacroCall σ e form = false := by simpa using hm
      simp only [macroExpand, hm', Bool.false_eq_true, if_false, Outcome.ok.injEq] at h
      obtain ⟨rfl, rfl⟩ := h
      exact hm'

/-- C30: when `macroExpand(e, form)` returns `ast`, leaving the heap `σ'`:
`Eval` of `form` from the heap before is `Eval` of `ast` from `σ'`, the same
value or the same error; what `macroExpand` returned is not a macro call, and
`macroExpand` applied to it returns it unchanged and leaves the heap as it is. -/
theorem macroExpand_then_eval (H : Host) (c : Caps) (n : Nat) (σ : Store) (e : Nat)
    (form ast : Value) (σ' : Store) (h : macroExpand c.Eval (n + 1) σ e form = .ok ast σ') :
    evalLoop H c (n + 1) σ e form = evalLoop H c (n + 1) σ' e ast ∧
    isMacroCall σ' e ast = false ∧
    ∀ k, macroExpand c.Eval (k + 1) σ' e ast = .ok ast σ' := by
  have hm := macroExpand_not_macro c.Eval (n + 1) σ e form ast σ' h
  refine ⟨?_, hm, fun k => macroExpand_of_not_macro c.Eval k σ' e ast hm⟩
  simp only [evalLoop, evalStep, h, macroExpand_of_not_macro c.Eval n σ' e ast hm]

set_option maxRecDepth 1000000 in
/-- Witness for C30: with the macro `unless` defined in the default namespace,
`(unless false 1 2)` expands to `(if false 2 1)` and evaluates to 1. -/
theorem macroExpand_then_eval_witness :
    (∃ σ', macroExpand (capsFuel exampleHost 3 3).Eval 3 unlessStore 0
        (.list 0 [.symbol "unless".toList, .bool false, .number one, .number two] .nil) =
      .ok (.list (unlessStore.heap + 1)
        [.symbol "if".toList, .bool false, .number two, .number one] .nil) σ' ∧
      evalLoop exampleHost (capsFuel exampleHost 3 3) 3 unlessStore 0
          (.list 0 [.symbol "unless".toList, .bool false, .number one, .number two] .nil) =
        evalLoop exampleHost (capsFuel exampleHost 3 3) 3 σ' 0
          (.list (unlessStore.heap + 1)
            [.symbol "if".toList, .bool false, .number two, .number one] .nil)) ∧
    ∃ σ', readEval exampleHost 4 4 unlessStore 0 "(unless false 1 2)" = .ok (.number one) σ' :=
  ⟨⟨_, rfl, (macroExpand_then_eval exampleHost (capsFuel exampleHost 3 3) 2 unlessStore 0
      (.list 0 [.symbol "unless".toList, .bool false, .number one, .number two] .nil)
      _ _ rfl).1⟩, _, rfl⟩

/-! ## Quasiquote of a datum -/

theorem Eval_succ (H : Host) (d n : Nat) (σ : Store) (e : Nat) (object : Value) :
    Eval H (d + 1) n σ e object = evalLoop H (capsFuel H d n) n σ e object := rfl

theorem capsFuel_Eval (H : Host) (d n : Nat) : (capsFuel H d n).Eval = Eval H d n := rfl

theorem isMacroCall_of_find_none (σ : Store) (e : Nat) (ptr : Nat) (sym : GoString)
    (args : List Value) (meta : Value) (h : Env.Find σ e sym = none) :
    isMacroCall σ e (.list ptr (.symbol sym :: args) meta) = false := by
  simp [isMacroCall, Env.Get, h]

theorem isMacroCall_of_stdFunc (σ : Store) (e : Nat) (ptr : Nat) (sym : GoString)
    (args : List Value) (meta : Value) (p : Nat) (m : Value)
    (h : Env.Get σ e sym = .ok (.stdFunc p m)) :
    isMacroCall σ e (.list ptr (.symbol sym :: args) meta) = false := by
  simp [isMacroCall, h]

/-- `(quote x)` evaluates to `x`. -/
theorem evalLoop_quote (H : Host) (c : Caps) (t : Nat) (σ : Store) (e q : Nat) (x meta : Value)
    (h : Env.Find σ e "quote".toList = none) :
    evalLoop H c (t + 1) σ e (.list q [.symbol "quote".toList, x] meta) = .ok x σ := by
  rw [evalLoop_list H _ t σ e q _ _ meta (isMacroCall_of_find_none _ _ _ _ _ _ h),
    evalList_quote]

/-- `(cons a b)` evaluates to the new list of the value of `a` and the forms of
the value of `b`, when `cons` is bound to the primitive and `a`, `b` evaluate. -/
theorem evalLoop_cons (H : Host) (c : Caps) (t : Nat) (σ : Store) (e q : Nat)
    (a b meta : Value) (p : Nat) (m : Value) (a' : Value) (σ1 : Store) (b' : Value)
    (σ2 : Store) (data : List Value)
    (hget : Env.Get σ e "cons".toList = .ok (.stdFunc p m))
    (hfn : σ2.fns.lookup p = some (.core "cons".toList))
    (hs : c.Eval σ e (.symbol "cons".toList) = .ok (.stdFunc p m) σ)
    (ha : c.Eval σ e a = .ok a' σ1) (hb : c.Eval σ1 e b = .ok b' σ2)
    (hdata : asCollection b' = some data) :
    evalLoop H c (t + 1) σ e (.list q [.symbol "cons".toList, a, b] meta) =
      .ok (.list (σ2.heap + 1) (a' :: data) .nil) { σ2 with heap := σ2.heap + 2 } := by
  rw [evalLoop_list H _ t σ e q _ _ meta (isMacroCall_of_stdFunc _ _ _ _ _ _ p m hget),
    evalList_apply H _ _ σ e _ _ _ (by decide)]
  simp only [evalAST, evalListForms, hs, ha, hb]
  simp only [callStd, hfn]
  have hfn' : core.Fn H (.core "cons".toList) = core.cons := rfl
  rw [hfn']
  simp only [core.cons, hdata, NewList]

theorem rebuilds_pair (H : Host) (σ : Store) (e : Nat) (hEnv : QuasiquoteEnv σ e)
    (head : Value) (tail : List Value) (hu : isUnquote head = false)
    (hs : spliceForm head = none) (ihH : RebuildsValue H σ e head)
    (ihT : RebuildsList H σ e tail) : RebuildsPair H σ e head tail := by
  obtain ⟨D1, h1⟩ := ihH
  obtain ⟨D2, h2⟩ := ihT
  obtain ⟨⟨p, m, hget, hfn⟩, -, -⟩ := hEnv
  refine ⟨max D1 D2 + 1, ?_⟩
  intro d hd n t h0
  obtain ⟨k, rfl⟩ : ∃ k, d = k + 1 := ⟨d - 1, by omega⟩
  have hk1 : D1 ≤ k := by omega
  have hk2 : D2 ≤ k := by omega
  obtain ⟨yh, g1, e1, ev1⟩ := h1 k hk1 n n h0
  obtain ⟨yt, g2, e2, ev2⟩ := h2 k hk2 n n g1
  refine ⟨.list g2 [.symbol "cons".toList, yh, yt] .nil, g2 + 1, ?_, ?_⟩
  · rw [quasiQuotePair_eq]
    simp only [hu, hs, e1, e2, Bool.false_eq_true, if_false]
  · intro h
    obtain ⟨a', ha', eva, eqa⟩ := ev1 h
    obtain ⟨p', forms', m', hb', evb, hlen, eqb⟩ := ev2 ha'
    refine ⟨hb' + 1, a' :: forms', .nil, hb' + 2, ?_, by simp [hlen], ?_⟩
    · exact evalLoop_cons H (capsFuel H (k + 1) (n + 1)) t { σ with heap := h } e g2 yh yt .nil
        p m a' { σ with heap := ha' } (.list p' forms' m') { σ with heap := hb' } forms'
        hget hfn (evalLoop_symbol H (capsFuel H k (n + 1)) n _ e _ _ hget) eva evb rfl
    · simp only [equalListsLoop, eqa, eqb]
      rfl

theorem rebuilds_nonpair (H : Host) (σ : Store) (e : Nat) (hEnv : QuasiquoteEnv σ e)
    (x : Value)
    (hx : ∀ h0, evalQuasiQuote x h0 = .ok (.list h0 [.symbol "quote".toList, x] .nil, h0 + 1))
    (heq : checkEquality x x = .ok true) : RebuildsValue H σ e x := by
  refine ⟨0, ?_⟩
  intro d _ n t h0
  refine ⟨_, _, hx h0, fun h => ⟨x, h, ?_, heq⟩⟩
  exact evalLoop_quote H _ t { σ with heap := h } e h0 x .nil hEnv.2.1

theorem rebuilds_of_pair (H : Host) (σ : Store) (e : Nat) (x head : Value)
    (tail : List Value) (hc : asCollection x = some (head :: tail))
    (hx : ∀ h0, evalQuasiQuote x h0 =
      quasiQuotePair (evalQuasiQuote head) (quasiQuoteList tail) head tail h0)
    (hp : RebuildsPair H σ e head tail) : RebuildsValue H σ e x := by
  obtain ⟨D, hD⟩ := hp
  refine ⟨D, ?_⟩
  intro d hd n t h0
  obtain ⟨y, h1, ey, ev⟩ := hD d hd n t h0
  refine ⟨y, h1, by rw [hx, ey], ?_⟩
  intro h
  obtain ⟨p', forms', m', h', evy, hlen, heq⟩ := ev h
  refine ⟨_, _, evy, ?_⟩
  simp only [checkEquality, hc, hlen, ne_eq, not_true_eq_false, if_false, heq]

theorem equalListsLoop_cons_self (head : Value) (tail : List Value)
    (h : equalListsLoop (head :: tail) (head :: tail) = .ok true) :
    checkEquality head head = .ok true ∧ equalListsLoop tail tail = .ok true := by
  rw [equalListsLoop_true_iff _ _ rfl, List.forall₂_cons] at h
  exact ⟨h.1, (equalListsLoop_true_iff _ _ rfl).mpr h.2⟩

theorem noUnquoteList_cons (head : Value) (tail : List Value)
    (h : noUnquoteList (head :: tail) = true) :
    isUnquote head = false ∧ spliceForm head = none ∧ noUnquote head = true ∧
      noUnquoteList tail = true := by
  simp only [noUnquoteList, Bool.and_eq_true, Bool.not_eq_true', Option.isNone_iff_eq_none] at h
  exact ⟨h.1.1.1, h.1.1.2, h.1.2, h.2⟩

theorem checkEquality_self_list (p : Nat) (forms : List Value) (m : Value)
    (h : checkEquality (.list p forms m) (.list p forms m) = .ok true) :
    equalListsLoop forms forms = .ok true := by
  simpa [checkEquality, asCollection] using h

theorem checkEquality_self_vector (p : Nat) (forms : List Value) (m : Value)
    (h : checkEquality (.vector p forms m) (.vector p forms m) = .ok true) :
    equalListsLoop forms forms = .ok true := by
  simpa [checkEquality, asCollection] using h

mutual
/-- The rewrite of a datum without `unquote` and `splice-unquote` that is equal
to itself evaluates to a value equal to it. -/
theorem rebuilds_value (H : Host) (σ : Store) (e : Nat) (hEnv : QuasiquoteEnv σ e) :
    ∀ x, noUnquote x = true → checkEquality x x = .ok true → RebuildsValue H σ e x
  | .list p [] m, _, heq => rebuilds_nonpair H σ e hEnv _ (fun _ => rfl) heq
  | .list p (head :: tail) m, hn, heq => by
    rw [noUnquote] at hn
    obtain ⟨hu, hs, hnh, hnt⟩ := noUnquoteList_cons head tail hn
    obtain ⟨eh, et⟩ := equalListsLoop_cons_self head tail (checkEquality_self_list _ _ _ heq)
    exact rebuilds_of_pair H σ e _ head tail rfl (fun _ => by rw [evalQuasiQuote])
      (rebuilds_pair H σ e hEnv head tail hu hs (rebuilds_value H σ e hEnv head hnh eh)
        (rebuilds_list H σ e hEnv tail hnt et))
  | .vector p [] m, _, heq => rebuilds_nonpair H σ e hEnv _ (fun _ => rfl) heq
  | .vector p (head :: tail) m, hn, heq => by
    rw [noUnquote] at hn
    obtain ⟨hu, hs, hnh, hnt⟩ := noUnquoteList_cons head tail hn
    obtain ⟨eh, et⟩ := equalListsLoop_cons_self head tail (checkEquality_self_vector _ _ _ heq)
    exact rebuilds_of_pair H σ e _ head tail rfl (fun _ => by rw [evalQuasiQuote])
      (rebuilds_pair H σ e hEnv head tail hu hs (rebuilds_value H σ e hEnv head hnh eh)
        (rebuilds_list H σ e hEnv tail hnt et))
  | .nil, _, heq => rebuilds_nonpair H σ e hEnv _ (fun _ => rfl) heq
  | .bool _, _, heq => rebuilds_nonpair H σ e hEnv _ (fun _ => rfl) heq
  | .number _, _, heq => rebuilds_nonpair H σ e hEnv _ (fun _ => rfl) heq
  | .str _, _, heq => rebuilds_nonpair H σ e hEnv _ (fun _ => rfl) heq
  | .symbol _, _, heq => rebuilds_nonpair H σ e hEnv _ (fun _ => rfl) heq
  | .keyword _, _, heq => rebuilds_nonpair H σ e hEnv _ (fun _ => rfl) heq
  | .hashmap _ _ _, _, heq => rebuilds_nonpair H σ e hEnv _ (fun _ => rfl) heq
  | .atom _ _, _, heq => rebuilds_nonpair H σ e hEnv _ (fun _ => rfl) heq
  | .stdFunc _ _, _, heq => rebuilds_nonpair H σ e hEnv _ (fun _ => rfl) heq
  | .extFunc _ _ _ _ _ _, _, heq => rebuilds_nonpair H σ e hEnv _ (fun _ => rfl) heq

/-- The same for the tail of a sequence, made a list. -/
theorem rebuilds_list (H : Host) (σ : Store) (e : Nat) (hEnv : QuasiquoteEnv σ e) :
    ∀ forms, noUnquoteList forms = true → equalListsLoop forms forms = .ok true →
      RebuildsList H σ e forms
  | [], _, _ => by
    refine ⟨0, ?_⟩
    intro d _ n t h0
    refine ⟨_, _, rfl, fun h => ⟨h0, [], .nil, h, ?_, rfl, rfl⟩⟩
    exact evalLoop_quote H _ t { σ with heap := h } e (h0 + 1) _ .nil hEnv.2.1
  | head :: tail, hn, heq => by
    obtain ⟨hu, hs, hnh, hnt⟩ := noUnquoteList_cons head tail hn
    obtain ⟨eh, et⟩ := equalListsLoop_cons_self head tail heq
    obtain ⟨D, hD⟩ := rebuilds_pair H σ e hEnv head tail hu hs
      (rebuilds_value H σ e hEnv head hnh eh) (rebuilds_list H σ e hEnv tail hnt et)
    refine ⟨D, ?_⟩
    intro d hd n t h0
    obtain ⟨y, h1, ey, ev⟩ := hD d hd n t (h0 + 1)
    exact ⟨y, h1, by rw [quasiQuoteList, ey], ev⟩
end

set_option maxRecDepth 1000000 in
/-- C21, the claim fails, in the default namespace. The datum
`(splice-unquote 1)` is a `splice-unquote` form, and `(quasiquote
(splice-unquote 1))` evaluates to a value equal to it under `=`. The datum NaN
holds no `unquote`, and `(quasiquote NaN)` evaluates to NaN, which `=` does not
find equal to itself. The datum `(1 unquote 2)` holds no list that starts with
`unquote`, and its quasiquote fails. -/
theorem quasiquote_fixed_point_fails :
    (∃ v' σ', Eval exampleHost 9 9 defaultStore 0
        (.list 1 [.symbol "quasiquote".toList,
          .list 0 [.symbol "splice-unquote".toList, .number one] .nil] .nil) = .ok v' σ' ∧
      equal [v', .list 0 [.symbol "splice-unquote".toList, .number one] .nil] = .ok true) ∧
    (∃ v' σ', Eval exampleHost 9 9 defaultStore 0
        (.list 1 [.symbol "quasiquote".toList, .number NaN] .nil) = .ok v' σ' ∧
      equal [v', .number NaN] = .ok false) ∧
    ∃ σ', Eval exampleHost 9 9 defaultStore 0
        (.list 1 [.symbol "quasiquote".toList,
          .list 0 [.number one, .symbol "unquote".toList, .number two] .nil] .nil) =
      .error (.native (.new "cannot cons a non list".toList)) .nil σ' :=
  ⟨⟨_, _, rfl, rfl⟩, ⟨_, _, rfl, rfl⟩, _, rfl⟩

/-- C21, amended: from a frame in which `cons` is bound to the primitive `cons`
and `quote` and `quasiquote` are not bound (as in the default namespace), for
a datum `v` in which no list or vector reached by the rewrite starts with
`unquote` or has a first element starting with `splice-unquote`, and which `=`
finds equal to itself, `(quasiquote v)` evaluates to a value equal to `v` under
`=`: `Eval` returns it for every depth budget from some `D` on and every budget
of at least two turns. -/
theorem quasiquote_datum_equal (H : Host) (σ : Store) (e ptr : Nat) (v meta : Value)
    (hEnv : QuasiquoteEnv σ e) (hn : noUnquote v = true)
    (heq : checkEquality v v = .ok true) :
    ∃ D, ∀ d, D ≤ d → ∀ n, ∃ v' σ',
      Eval H d (n + 2) σ e (.list ptr [.symbol "quasiquote".toList, v] meta) = .ok v' σ' ∧
      equal [v', v] = .ok true := by
  obtain ⟨D, hD⟩ := rebuilds_value H σ e hEnv v hn heq
  refine ⟨D + 1, ?_⟩
  intro d hd n
  obtain ⟨k, rfl⟩ : ∃ k, d = k + 1 := ⟨d - 1, by omega⟩
  obtain ⟨y, h1, ey, ev⟩ := hD k (by omega) (n + 1) n σ.heap
  obtain ⟨v', h', evy, hv'⟩ := ev h1
  refine ⟨v', { σ with heap := h' }, ?_, hv'⟩
  rw [Eval_succ, evalLoop_list H _ (n + 1) σ e ptr _ _ meta
    (isMacroCall_of_find_none _ _ _ _ _ _ hEnv.2.2), evalList_quasiquote, ey]
  exact evy

set_option maxRecDepth 1000000 in
/-- Witness for C21, amended: the default namespace and the datum
`(1 [2 "a"] :k)`. -/
theorem quasiquote_datum_equal_witness :
    QuasiquoteEnv defaultStore 0 ∧
    (∃ D, ∀ d, D ≤ d → ∀ n, ∃ v' σ',
      Eval exampleHost d (n + 2) defaultStore 0
        (.list 3 [.symbol "quasiquote".toList,
          .list 2 [.number one, .vector 1 [.number two, .str "a".toList] .nil,
            .keyword "k".toList] .nil] .nil) = .ok v' σ' ∧
      equal [v', .list 2 [.number one, .vector 1 [.number two, .str "a".toList] .nil,
        .keyword "k".toList] .nil] = .ok true) ∧
    ∃ v' σ', Eval exampleHost 9 9 defaultStore 0
        (.list 3 [.symbol "quasiquote".toList,
          .list 2 [.number one, .vector 1 [.number two, .str "a".toList] .nil,
            .keyword "k".toList] .nil] .nil) = .ok v' σ' ∧
      equal [v', .list 2 [.number one, .vector 1 [.number two, .str "a".toList] .nil,
        .keyword "k".toList] .nil] = .ok true :=
  have hEnv : QuasiquoteEnv defaultStore 0 := ⟨⟨_, _, rfl, rfl⟩, rfl, rfl⟩
  ⟨hEnv, quasiquote_datum_equal exampleHost defaultStore 0 3 _ .nil hEnv rfl rfl, _, _, rfl, rfl⟩

/-! ## The predicates `true?` and `false?` -/

set_option maxRecDepth 1000000 in
/-- C31, failing input: `isfalse` returns `!isbool || !val`. On a boolean it
returns the negation, so true for `false` and false for `true`; on every
value that is no boolean (nil, numbers, strings, collections, ...) it returns
true, not false. The sibling `istrue` returns `isbool && val`: false on every
value that is no boolean. In the default namespace `(false? nil)`,
`(false? 1)`, `(false? "")` and `(false? ())` are true. -/
theorem core.isfalse_true_on_non_boolean :
    (∀ (c : Caps) (σ : Store) (e : Nat) (val : Bool),
      core.isfalse c σ e [.bool val] = .ok (.bool !val) σ) ∧
    (∀ (c : Caps) (σ : Store) (e : Nat) (v : Value), (∀ val, v ≠ .bool val) →
      core.isfalse c σ e [v] = .ok (.bool true) σ) ∧
    (∀ (c : Caps) (σ : Store) (e : Nat) (v : Value), (∀ val, v ≠ .bool val) →
      core.istrue c σ e [v] = .ok (.bool false) σ) ∧
    readEval exampleHost 3 3 defaultStore 0 "(false? nil)" =
      .ok (.bool true) { defaultStore with heap := defaultStore.heap + 2 } ∧
    readEval exampleHost 3 3 defaultStore 0 "(false? 1)" =
      .ok (.bool true) { defaultStore with heap := defaultStore.heap + 2 } ∧
    readEval exampleHost 3 3 defaultStore 0 "(false? \"\")" =
      .ok (.bool true) { defaultStore with heap := defaultStore.heap + 2 } ∧
    readEval exampleHost 3 3 defaultStore 0 "(false? ())" =
      .ok (.bool true) { defaultStore with heap := defaultStore.heap + 3 } ∧
    readEval exampleHost 3 3 defaultStore 0 "(false? false)" =
      .ok (.bool true) { defaultStore with heap := defaultStore.heap + 2 } ∧
    readEval exampleHost 3 3 defaultStore 0 "(true? nil)" =
      .ok (.bool false) { defaultStore with heap := defaultStore.heap + 2 } := by
  refine ⟨fun _ _ _ _ => rfl, ?_, ?_, rfl, rfl, rfl, rfl, rfl, rfl⟩
  · intro c σ e v hv
    cases v <;> first | rfl | exact absurd rfl (hv _)
  · intro c σ e v hv
    cases v <;> first | rfl | exact absurd rfl (hv _)

/-! ## Tail positions -/

namespace Env

theorem Set_fns (σ : Store) (e : Nat) (key : GoString) (value : Value) :
    (Set σ e key value).fns = σ.fns := by
  unfold Set
  cases σ.envs[e]? <;> rfl

theorem Set_macros (σ : Store) (e : Nat) (key : GoString) (value : Value) :
    (Set σ e key value).macros = σ.macros := by
  unfold Set
  cases σ.envs[e]? <;> rfl

theorem lookup_single_of_ne (k key : GoString) (v : Value) (h : k ≠ key) :
    lookup [(k, v)] key = none := by
  simp [lookup, h]

end Env

/-- What the frame of a call of `walk` gives for the symbols of the body. -/
theorem WalkFrame_gets {σ : Store} {p q e : Nat} {arg : Value} (h : WalkFrame σ p q e arg) :
    ∃ (pf pr : Nat) (mf mr : Value),
      Env.Get σ e "xs".toList = .ok arg ∧
      Env.Get σ e "walk".toList = .ok (walkFn p q) ∧
      Env.Get σ e "first".toList = .ok (.stdFunc pf mf) ∧
      Env.Get σ e "rest".toList = .ok (.stdFunc pr mr) ∧
      Env.Get σ e "if".toList = .error (.new "'if' not found".toList) ∧
      σ.fns.lookup pf = some (.core "first".toList) ∧
      σ.fns.lookup pr = some (.core "rest".toList) ∧
      σ.macros.contains p = false := by
  obtain ⟨⟨root, pf, pr, mf, mr, h0, ho, hw, hf, hr, hi, hq, hff, hfr, hm⟩, he, hfr'⟩ := h
  have hc : Chain σ e [⟨[("xs".toList, arg)], some 0⟩, root] :=
    Chain.frame e 0 _ _ hfr' rfl he (Chain.root 0 root h0 ho)
  refine ⟨pf, pr, mf, mr, ?_, ?_, ?_, ?_, ?_, hff, hfr, hm⟩
  · rw [Env.Get_chain σ _ e _ hc]; rfl
  · rw [Env.Get_chain σ _ e _ hc]
    have : Env.lookup [("xs".toList, arg)] "walk".toList = none :=
      Env.lookup_single_of_ne _ _ _ (by decide)
    simp only [nearest, this, hw]
  · rw [Env.Get_chain σ _ e _ hc]
    have : Env.lookup [("xs".toList, arg)] "first".toList = none :=
      Env.lookup_single_of_ne _ _ _ (by decide)
    simp only [nearest, this, hf]
  · rw [Env.Get_chain σ _ e _ hc]
    have : Env.lookup [("xs".toList, arg)] "rest".toList = none :=
      Env.lookup_single_of_ne _ _ _ (by decide)
    simp only [nearest, this, hr]
  · rw [Env.Get_chain σ _ e _ hc]
    have : Env.lookup [("xs".toList, arg)] "if".toList = none :=
      Env.lookup_single_of_ne _ _ _ (by decide)
    simp only [nearest, this, hi]
    rfl

/-- What the root frame gives for `walk` and `quote`. -/
theorem WalkRoot_gets {σ : Store} {p q : Nat} (h : WalkRoot σ p q) :
    Env.Get σ 0 "walk".toList = .ok (walkFn p q) ∧ Env.Find σ 0 "quote".toList = none ∧
      σ.macros.contains p = false := by
  obtain ⟨root, pf, pr, mf, mr, h0, ho, hw, hf, hr, hi, hq, hff, hfr, hm⟩ := h
  refine ⟨?_, ?_, hm⟩
  · rw [Env.Get_chain σ _ 0 _ (Chain.root 0 root h0 ho)]
    simp only [nearest, hw]
  · simp only [Env.Find, Env.findLoop, h0, hq, ho]
    rfl

theorem WalkRoot_heap {σ : Store} {p q : Nat} (h : WalkRoot σ p q) (k : Nat) :
    WalkRoot { σ with heap := k } p q := h

theorem WalkFrame_heap {σ : Store} {p q e : Nat} {arg : Value} (h : WalkFrame σ p q e arg)
    (k : Nat) : WalkFrame { σ with heap := k } p q e arg := h

/-- The frame that a call of `walk` makes. -/
theorem WalkRoot_child {σ : Store} {p q : Nat} (h : WalkRoot σ p q) (arg : Value) :
    ∃ σ', Env.Child σ 0 [.symbol "xs".toList] [arg] = .ok σ.envs.length σ' ∧
      WalkFrame σ' p q σ.envs.length arg := by
  obtain ⟨root, pf, pr, mf, mr, h0, ho, hw, hf, hr, hi, hq, hff, hfr, hm⟩ := h
  have hlen : 0 < σ.envs.length := by
    rcases Nat.lt_or_ge 0 σ.envs.length with h' | h'
    · exact h'
    · rw [List.getElem?_eq_none h'] at h0; cases h0
  have hne : ¬ "xs".toList = "&".toList := by decide
  refine ⟨Env.Set { σ with envs := σ.envs ++ [⟨[], some 0⟩] } σ.envs.length "xs".toList
      arg, ?_, ⟨root, pf, pr, mf, mr, ?_, ho, hw, hf, hr, hi, hq, ?_, ?_, ?_⟩, hlen, ?_⟩
  · simp only [Env.Child, Env.New, Env.newLoop, hne, if_false, List.getElem?_cons_zero]
  · rw [Env.Set_envs_of_ne _ _ _ _ _ (Nat.ne_of_lt hlen)]
    simpa [List.getElem?_append_left hlen] using h0
  · rw [Env.Set_fns]; exact hff
  · rw [Env.Set_fns]; exact hfr
  · rw [Env.Set_macros]; exact hm
  · rw [Env.Set_envs_self _ _ _ _ ⟨[], some 0⟩ (by simp)]
    rfl

/-- A symbol evaluates to its binding in a nested call of `Eval`. -/
theorem Eval_symbol (H : Host) (d t : Nat) (σ : Store) (e : Nat) (sym : GoString) (v : Value)
    (h : Env.Get σ e sym = .ok v) :
    (capsFuel H (d + 1) (t + 1)).Eval σ e (.symbol sym) = .ok v σ :=
  evalLoop_symbol H (capsFuel H d (t + 1)) t σ e sym v h

/-- `(first xs)` in the frame of a call of `walk` on a list. -/
theorem Eval_first_xs (H : Host) (d t : Nat) (σ : Store) (p q e a : Nat) (m : Value)
    (lp : Nat) (items : List Value) (lm : Value) (h : WalkFrame σ p q e (.list lp items lm)) :
    (capsFuel H (d + 2) (t + 1)).Eval σ e
        (.list a [.symbol "first".toList, .symbol "xs".toList] m) =
      .ok (items.headD .nil) { σ with heap := σ.heap + 1 } := by
  obtain ⟨pf, pr, mf, mr, hxs, hw, hf, hr, hi, hff, hfr, hm⟩ := WalkFrame_gets h
  show evalLoop H (capsFuel H (d + 1) (t + 1)) (t + 1) σ e _ = _
  rw [evalLoop_list H _ t σ e a _ _ m (isMacroCall_of_stdFunc _ _ _ _ _ _ pf mf hf),
    evalList_apply H _ _ σ e _ _ _ (by decide)]
  simp only [evalAST, evalListForms, Eval_symbol H d t σ e _ _ hf, Eval_symbol H d t σ e _ _ hxs]
  simp only [callStd, hff]
  have hfn : core.Fn H (.core "first".toList) = core.first := rfl
  rw [hfn]
  cases items <;> rfl

/-- `(rest xs)` in the frame of a call of `walk` on a list. -/
theorem Eval_rest_xs (H : Host) (d t : Nat) (σ : Store) (p q e a : Nat) (m : Value)
    (lp : Nat) (items : List Value) (lm : Value) (h : WalkFrame σ p q e (.list lp items lm)) :
    (capsFuel H (d + 2) (t + 1)).Eval σ e
        (.list a [.symbol "rest".toList, .symbol "xs".toList] m) =
      .ok (.list (σ.heap + 1) items.tail .nil) { σ with heap := σ.heap + 2 } := by
  obtain ⟨pf, pr, mf, mr, hxs, hw, hf, hr, hi, hff, hfr, hm⟩ := WalkFrame_gets h
  show evalLoop H (capsFuel H (d + 1) (t + 1)) (t + 1) σ e _ = _
  rw [evalLoop_list H _ t σ e a _ _ m (isMacroCall_of_stdFunc _ _ _ _ _ _ pr mr hr),
    evalList_apply H _ _ σ e _ _ _ (by decide)]
  simp only [evalAST, evalListForms, Eval_symbol H d t σ e _ _ hr, Eval_symbol H d t σ e _ _ hxs]
  simp only [callStd, hfr]
  have hfn : core.Fn H (.core "rest".toList) = core.rest := rfl
  rw [hfn]
  cases items <;> rfl

/-- The turn of the loop on the body of `walk`: the condition `(first xs)` is
evaluated by a nested call, and the loop goes on with the branch. -/
theorem evalLoop_walkBody (H : Host) (d t n : Nat) (σ : Store) (p q e : Nat)
    (lp : Nat) (items : List Value) (lm : Value) (h : WalkFrame σ p q e (.list lp items lm)) :
    evalLoop H (capsFuel H (d + 2) (t + 1)) (n + 1) σ e (walkBody q) =
      evalLoop H (capsFuel H (d + 2) (t + 1)) n { σ with heap := σ.heap + 1 } e
        (ifBranch (items.headD .nil)
          (.list (q + 2) [.symbol "walk".toList,
            .list (q + 3) [.symbol "rest".toList, .symbol "xs".toList] .nil] .nil)
          [.keyword "done".toList]) := by
  obtain ⟨pf, pr, mf, mr, hxs, hw, hf, hr, hi, hff, hfr, hm⟩ := WalkFrame_gets h
  have hmc : isMacroCall σ e (walkBody q) = false := by
    simp only [walkBody, isMacroCall, hi]
  unfold walkBody at hmc ⊢
  rw [evalLoop_list H _ n σ e q _ _ .nil hmc, evalList_if,
    evalIf_of_ok _ σ e _ _ _ _ _ (Eval_first_xs H d t σ p q e (q + 1) .nil lp items lm h)]

/-- The turn of the loop on a call `(walk arg)` in a frame that sees the root
binding of `walk`: the argument is evaluated by a nested call, and the loop
goes on with the body of `walk` in a new frame. -/
theorem evalLoop_walk_call (H : Host) (d t n : Nat) (σ : Store) (p q e a : Nat)
    (argForm m arg : Value) (σ1 : Store)
    (hw : Env.Get σ e "walk".toList = .ok (walkFn p q))
    (ha : (capsFuel H (d + 2) (t + 1)).Eval σ e argForm = .ok arg σ1)
    (h1 : WalkRoot σ1 p q) (hm : σ.macros.contains p = false) :
    ∃ σ2, WalkFrame σ2 p q σ1.envs.length arg ∧
      evalLoop H (capsFuel H (d + 2) (t + 1)) (n + 1) σ e
          (.list a [.symbol "walk".toList, argForm] m) =
        evalLoop H (capsFuel H (d + 2) (t + 1)) n σ2 σ1.envs.length (walkBody q) := by
  obtain ⟨σ2, hc, hf2⟩ := WalkRoot_child (WalkRoot_heap h1 (σ1.heap + 1)) arg
  refine ⟨σ2, hf2, ?_⟩
  have hmc : isMacroCall σ e (.list a [.symbol "walk".toList, argForm] m) = false := by
    simp only [isMacroCall, hw, walkFn, Store.IsMacro, hm, Bool.or_self]
  rw [evalLoop_list H _ n σ e a _ _ m hmc, evalList_apply H _ _ σ e _ _ _ (by decide)]
  simp only [evalAST, evalListForms, Eval_symbol H (d + 1) t σ e _ _ hw, ha, walkFn]
  simp only [hc]

/-- The loop of `Eval` on the body of `walk`, in the frame of a call on a list
of `k` true values: two turns for each value and two more, all in the same
call of `Eval`. -/
theorem evalLoop_walk (H : Host) (d t : Nat) (p q : Nat) :
    ∀ (items : List Value), (∀ x ∈ items, truthy x = true) →
      ∀ (n : Nat) (σ : Store) (e lp : Nat) (lm : Value),
        WalkFrame σ p q e (.list lp items lm) →
        ∃ σ', evalLoop H (capsFuel H (d + 2) (t + 1)) (2 * items.length + 2 + n) σ e
          (walkBody q) = .ok (.keyword "done".toList) σ'
  | [], _, n, σ, e, lp, lm, h => by
    refine ⟨{ σ with heap := σ.heap + 1 }, ?_⟩
    have e1 : 2 * ([] : List Value).length + 2 + n = (n + 1) + 1 := by simp; omega
    rw [e1, evalLoop_walkBody H d t (n + 1) σ p q e lp [] lm h]
    exact evalLoop_selfEvaluating H _ n _ e _ rfl
  | x :: items, hx, n, σ, e, lp, lm, h => by
    have e1 : 2 * (x :: items).length + 2 + n = ((2 * items.length + 2 + n) + 1) + 1 := by
      simp only [List.length_cons]; omega
    rw [e1, evalLoop_walkBody H d t _ σ p q e lp (x :: items) lm h]
    have hb : ifBranch ((x :: items).headD .nil)
        (.list (q + 2) [.symbol "walk".toList,
          .list (q + 3) [.symbol "rest".toList, .symbol "xs".toList] .nil] .nil)
        [.keyword "done".toList] =
        .list (q + 2) [.symbol "walk".toList,
          .list (q + 3) [.symbol "rest".toList, .symbol "xs".toList] .nil] .nil := by
      have := hx x (by simp)
      cases x with
      | nil => simp [truthy] at this
      | bool b =>
        cases b with
        | false => simp [truthy] at this
        | true => rfl
      | _ => rfl
    rw [hb]
    have h' := WalkFrame_heap h (σ.heap + 1)
    obtain ⟨pf, pr, mf, mr, hxs, hw, hf, hr, hi, hff, hfr, hm⟩ := WalkFrame_gets h'
    obtain ⟨σ2, hf2, hstep⟩ := evalLoop_walk_call H d t (2 * items.length + 2 + n)
      { σ with heap := σ.heap + 1 } p q e (q + 2) _ .nil _ _ hw
      (Eval_rest_xs H d t _ p q e (q + 3) .nil lp (x :: items) lm h')
      (WalkRoot_heap h'.1 _) hm
    rw [hstep]
    exact evalLoop_walk H d t p q items (fun y hy => hx y (by simp [hy])) n σ2 _ _ _ hf2

/-- The call `(walk (quote items))` in the root frame, `items` a list of `k`
true values, returns `:done` from one call of `Eval` with two nested levels,
whatever `k` is. -/
theorem Eval_walk (H : Host) (σ : Store) (p q : Nat) (h : WalkRoot σ p q) (a b lp : Nat)
    (items : List Value) (lm : Value) (hx : ∀ x ∈ items, truthy x = true) (n : Nat) :
    ∃ σ', Eval H 3 (2 * items.length + 3 + n) σ 0 (walkCall a b (.list lp items lm)) =
      .ok (.keyword "done".toList) σ' := by
  obtain ⟨hw, hq, hm⟩ := WalkRoot_gets h
  have e1 : 2 * items.length + 3 + n = (2 * items.length + 2 + n) + 1 := by omega
  rw [e1]
  obtain ⟨σ2, hf2, hstep⟩ := evalLoop_walk_call H 0 (2 * items.length + 2 + n)
    (2 * items.length + 2 + n) σ p q 0 a
    (.list b [.symbol "quote".toList, .list lp items lm] .nil) .nil (.list lp items lm) σ hw
    (evalLoop_quote H _ _ σ 0 b _ .nil hq) h hm
  obtain ⟨σ', hrun⟩ :=
    evalLoop_walk H 0 (2 * items.length + 2 + n) p q items hx n σ2 _ lp lm hf2
  exact ⟨σ', by
    show evalLoop H (capsFuel H 2 (2 * items.length + 2 + n + 1)) _ σ 0 _ = _
    unfold walkCall
    rw [hstep, hrun]⟩

/-! ### The closure `f` of the specification -/

/-- What the frame of a call of `f` gives for the symbols of the body. -/
theorem CountFrame_gets {σ : Store} {p q e : Nat} {zero one x y : Float64}
    (h : CountFrame σ p q zero one e x y) :
    ∃ (pe ps pa : Nat) (me ms ma : Value),
      Env.Get σ e "n".toList = .ok (.number x) ∧
      Env.Get σ e "acc".toList = .ok (.number y) ∧
      Env.Get σ e "f".toList = .ok (countFn p q zero one) ∧
      Env.Get σ e "=".toList = .ok (.stdFunc pe me) ∧
      Env.Get σ e "-".toList = .ok (.stdFunc ps ms) ∧
      Env.Get σ e "+".toList = .ok (.stdFunc pa ma) ∧
      Env.Get σ e "if".toList = .error (.new "'if' not found".toList) ∧
      σ.fns.lookup pe = some (.core "equal".toList) ∧
      σ.fns.lookup ps = some (.core "sub".toList) ∧
      σ.fns.lookup pa = some (.core "add".toList) ∧
      σ.macros.contains p = false := by
  obtain ⟨⟨root, pe, ps, pa, me, ms, ma, h0, ho, hf, heq, hs, ha, hi, hfe, hfs, hfa, hm⟩, he,
    hfr⟩ := h
  have hc : Chain σ e [⟨[("n".toList, .number x), ("acc".toList, .number y)], some 0⟩, root] :=
    Chain.frame e 0 _ _ hfr rfl he (Chain.root 0 root h0 ho)
  have hl : ∀ key : GoString, "n".toList ≠ key → "acc".toList ≠ key →
      Env.lookup [("n".toList, Value.number x), ("acc".toList, .number y)] key = none := by
    intro key h1 h2
    simp only [Env.lookup, if_neg h1, if_neg h2]
  refine ⟨pe, ps, pa, me, ms, ma, ?_, ?_, ?_, ?_, ?_, ?_, ?_, hfe, hfs, hfa, hm⟩
  · rw [Env.Get_chain σ _ e _ hc]; rfl
  · rw [Env.Get_chain σ _ e _ hc]; rfl
  · rw [Env.Get_chain σ _ e _ hc]
    simp only [nearest, hl "f".toList (by decide) (by decide), hf]
  · rw [Env.Get_chain σ _ e _ hc]
    simp only [nearest, hl "=".toList (by decide) (by decide), heq]
  · rw [Env.Get_chain σ _ e _ hc]
    simp only [nearest, hl "-".toList (by decide) (by decide), hs]
  · rw [Env.Get_chain σ _ e _ hc]
    simp only [nearest, hl "+".toList (by decide) (by decide), ha]
  · rw [Env.Get_chain σ _ e _ hc]
    simp only [nearest, hl "if".toList (by decide) (by decide), hi]
    rfl

/-- What the root frame gives for `f`. -/
theorem CountRoot_gets {σ : Store} {p q : Nat} {zero one : Float64}
    (h : CountRoot σ p q zero one) :
    Env.Get σ 0 "f".toList = .ok (countFn p q zero one) ∧ σ.macros.contains p = false := by
  obtain ⟨root, pe, ps, pa, me, ms, ma, h0, ho, hf, heq, hs, ha, hi, hfe, hfs, hfa, hm⟩ := h
  refine ⟨?_, hm⟩
  rw [Env.Get_chain σ _ 0 _ (Chain.root 0 root h0 ho)]
  simp only [nearest, hf]

theorem CountRoot_heap {σ : Store} {p q : Nat} {zero one : Float64}
    (h : CountRoot σ p q zero one) (k : Nat) : CountRoot { σ with heap := k } p q zero one := h

theorem CountFrame_heap {σ : Store} {p q e : Nat} {zero one x y : Float64}
    (h : CountFrame σ p q zero one e x y) (k : Nat) :
    CountFrame { σ with heap := k } p q zero one e x y := h

/-- The frame that a call of `f` makes. -/
theorem CountRoot_child {σ : Store} {p q : Nat} {zero one : Float64}
    (h : CountRoot σ p q zero one) (x y : Float64) :
    ∃ σ', Env.Child σ 0 [.symbol "n".toList, .symbol "acc".toList] [.number x, .number y] =
        .ok σ.envs.length σ' ∧
      CountFrame σ' p q zero one σ.envs.length x y := by
  obtain ⟨root, pe, ps, pa, me, ms, ma, h0, ho, hf, heq, hs, ha, hi, hfe, hfs, hfa, hm⟩ := h
  have hlen : 0 < σ.envs.length := by
    rcases Nat.lt_or_ge 0 σ.envs.length with h' | h'
    · exact h'
    · rw [List.getElem?_eq_none h'] at h0; cases h0
  have hn1 : ¬ "n".toList = "&".toList := by decide
  have hn2 : ¬ "acc".toList = "&".toList := by decide
  refine ⟨Env.Set (Env.Set { σ with envs := σ.envs ++ [⟨[], some 0⟩] } σ.envs.length
      "n".toList (.number x)) σ.envs.length "acc".toList (.number y), ?_,
    ⟨root, pe, ps, pa, me, ms, ma, ?_, ho, hf, heq, hs, ha, hi, ?_, ?_, ?_, ?_⟩, hlen, ?_⟩
  · simp only [Env.Child, Env.New, Env.newLoop, hn1, hn2, if_false, List.getElem?_cons_zero,
      List.getElem?_cons_succ]
  · rw [Env.Set_envs_of_ne _ _ _ _ _ (Nat.ne_of_lt hlen),
      Env.Set_envs_of_ne _ _ _ _ _ (Nat.ne_of_lt hlen)]
    simpa [List.getElem?_append_left hlen] using h0
  · rw [Env.Set_fns, Env.Set_fns]; exact hfe
  · rw [Env.Set_fns, Env.Set_fns]; exact hfs
  · rw [Env.Set_fns, Env.Set_fns]; exact hfa
  · rw [Env.Set_macros, Env.Set_macros]; exact hm
  · rw [Env.Set_envs_self _ _ _ _ ⟨[("n".toList, .number x)], some 0⟩
      (by rw [Env.Set_envs_self _ _ _ _ ⟨[], some 0⟩ (by simp)]; rfl)]
    rfl

/-- A number evaluates to itself in a nested call of `Eval`. -/
theorem Eval_number (H : Host) (d t : Nat) (σ : Store) (e : Nat) (x : Float64) :
    (capsFuel H (d + 1) (t + 1)).Eval σ e (.number x) = .ok (.number x) σ :=
  evalLoop_selfEvaluating H (capsFuel H d (t + 1)) t σ e (.number x) rfl

/-- The call of a primitive on a symbol and a number, in a nested call of
`Eval`: the forms are evaluated and the Go function is called on the values. -/
theorem Eval_prim (H : Host) (d t : Nat) (σ : Store) (e a : Nat) (m : Value)
    (op sym : GoString) (lit : Float64) (pf : Nat) (mf v : Value)
    (hs : op ∉ specialForms) (hop : Env.Get σ e op = .ok (.stdFunc pf mf))
    (hsym : Env.Get σ e sym = .ok v) :
    (capsFuel H (d + 2) (t + 1)).Eval σ e (.list a [.symbol op, .symbol sym, .number lit] m) =
      callStd H (capsFuel H (d + 1) (t + 1)) { σ with heap := σ.heap + 1 } e pf
        [v, .number lit] := by
  show evalLoop H (capsFuel H (d + 1) (t + 1)) (t + 1) σ e _ = _
  rw [evalLoop_list H _ t σ e a _ _ m (isMacroCall_of_stdFunc _ _ _ _ _ _ pf mf hop),
    evalList_apply H _ _ σ e _ (.symbol op) _ hs]
  simp only [evalAST, evalListForms, Eval_symbol H d t σ e _ _ hop,
    Eval_symbol H d t σ e _ _ hsym, Eval_number H d t σ e lit]

/-- The turn of the loop on the body of `f`: the condition `(= n 0)` is
evaluated by a nested call, and the loop goes on with the branch. -/
theorem evalLoop_countBody (H : Host) (d t n : Nat) (σ : Store) (p q e : Nat)
    (zero one x y : Float64) (h : CountFrame σ p q zero one e x y) :
    evalLoop H (capsFuel H (d + 2) (t + 1)) (n + 1) σ e (countBody q zero one) =
      evalLoop H (capsFuel H (d + 2) (t + 1)) n { σ with heap := σ.heap + 1 } e
        (ifBranch (.bool (Float64.eq x zero)) (.symbol "acc".toList)
          [.list (q + 2) [.symbol "f".toList,
            .list (q + 3) [.symbol "-".toList, .symbol "n".toList, .number one] .nil,
            .list (q + 4) [.symbol "+".toList, .symbol "acc".toList, .number one] .nil]
            .nil]) := by
  obtain ⟨pe, ps, pa, me, ms, ma, hn, hacc, hf, heq, hs, ha, hi, hfe, hfs, hfa, hm⟩ :=
    CountFrame_gets h
  have hmc : isMacroCall σ e (countBody q zero one) = false := by
    simp only [countBody, isMacroCall, hi]
  have hcond : (capsFuel H (d + 2) (t + 1)).Eval σ e
      (.list (q + 1) [.symbol "=".toList, .symbol "n".toList, .number zero] .nil) =
      .ok (.bool (Float64.eq x zero)) { σ with heap := σ.heap + 1 } := by
    rw [Eval_prim H d t σ e (q + 1) .nil _ _ zero pe me _ (by decide) heq hn]
    simp only [callStd, hfe]
    rfl
  unfold countBody at hmc ⊢
  rw [evalLoop_list H _ n σ e q _ _ .nil hmc, evalList_if,
    evalIf_of_ok _ σ e _ _ _ _ _ hcond]

/-- The turn of the loop on a call `(f a b)` in a frame that sees the root
binding of `f`: the arguments are evaluated by nested calls, and the loop goes
on with the body of `f` in a new frame. -/
theorem evalLoop_count_call (H : Host) (d t n : Nat) (σ : Store) (p q e a : Nat)
    (zero one : Float64) (A B m : Value) (x y : Float64) (σ1 σ2 : Store)
    (hf : Env.Get σ e "f".toList = .ok (countFn p q zero one))
    (hA : (capsFuel H (d + 2) (t + 1)).Eval σ e A = .ok (.number x) σ1)
    (hB : (capsFuel H (d + 2) (t + 1)).Eval σ1 e B = .ok (.number y) σ2)
    (h2 : CountRoot σ2 p q zero one) (hm : σ.macros.contains p = false) :
    ∃ σ3, CountFrame σ3 p q zero one σ2.envs.length x y ∧
      evalLoop H (capsFuel H (d + 2) (t + 1)) (n + 1) σ e (.list a [.symbol "f".toList, A, B] m) =
        evalLoop H (capsFuel H (d + 2) (t + 1)) n σ3 σ2.envs.length (countBody q zero one) := by
  obtain ⟨σ3, hc, hf3⟩ := CountRoot_child (CountRoot_heap h2 (σ2.heap + 1)) x y
  refine ⟨σ3, hf3, ?_⟩
  have hmc : isMacroCall σ e (.list a [.symbol "f".toList, A, B] m) = false := by
    simp only [isMacroCall, hf, countFn, Store.IsMacro, hm, Bool.or_self]
  rw [evalLoop_list H _ n σ e a _ _ m hmc, evalList_apply H _ _ σ e _ _ _ (by decide)]
  simp only [evalAST, evalListForms, Eval_symbol H (d + 1) t σ e _ _ hf, hA, hB, countFn]
  simp only [hc]

/-- The loop of `Eval` on the body of `f`, in the frame of the call on the
numbers `j` and `i`: two turns for each unit of `j` and two more, all in the
same call of `Eval`; the result is the number `i + j`. -/
theorem evalLoop_count (H : Host) (num : Nat → Float64) (K : Nat) (hH : Counts H num K)
    (d t : Nat) (p q : Nat) :
    ∀ (j i : Nat), i + j ≤ K → ∀ (n : Nat) (σ : Store) (e : Nat),
      CountFrame σ p q (num 0) (num 1) e (num j) (num i) →
      ∃ σ', evalLoop H (capsFuel H (d + 2) (t + 1)) (2 * j + 2 + n) σ e
        (countBody q (num 0) (num 1)) = .ok (.number (num (i + j))) σ'
  | 0, i, hK, n, σ, e, h => by
    refine ⟨{ σ with heap := σ.heap + 1 }, ?_⟩
    have e1 : 2 * 0 + 2 + n = (n + 1) + 1 := by omega
    rw [e1, evalLoop_countBody H d t (n + 1) σ p q e _ _ _ _ h, hH.2.2 0 (Nat.zero_le K)]
    obtain ⟨pe, ps, pa, me, ms, ma, hn, hacc, hf, heq, hs, ha, hi, hfe, hfs, hfa, hm⟩ :=
      CountFrame_gets (CountFrame_heap h (σ.heap + 1))
    exact evalLoop_symbol H _ n _ e _ _ hacc
  | j + 1, i, hK, n, σ, e, h => by
    have e1 : 2 * (j + 1) + 2 + n = ((2 * j + 2 + n) + 1) + 1 := by omega
    rw [e1, evalLoop_countBody H d t _ σ p q e _ _ _ _ h, hH.2.2 (j + 1) (by omega)]
    have hb : ∀ (thenForm elseForm : Value),
        ifBranch (.bool (decide (j + 1 = 0))) thenForm [elseForm] = elseForm := by
      intro thenForm elseForm
      simp [ifBranch]
    rw [hb]
    have h' := CountFrame_heap h (σ.heap + 1)
    obtain ⟨pe, ps, pa, me, ms, ma, hn, hacc, hf, heq, hs, ha, hi, hfe, hfs, hfa, hm⟩ :=
      CountFrame_gets h'
    have hA : (capsFuel H (d + 2) (t + 1)).Eval { σ with heap := σ.heap + 1 } e
        (.list (q + 3) [.symbol "-".toList, .symbol "n".toList, .number (num 1)] .nil) =
        .ok (.number (num j)) { σ with heap := σ.heap + 1 + 1 } := by
      rw [Eval_prim H d t _ e (q + 3) .nil _ _ (num 1) ps ms _ (by decide) hs hn]
      simp only [callStd, hfs]
      have hfn : core.Fn H (.core "sub".toList) = core.sub H := rfl
      rw [hfn]
      simp only [core.sub, core.arith, hH.1 j (by omega)]
    have h'' := CountFrame_heap h (σ.heap + 1 + 1)
    obtain ⟨pe', ps', pa', me', ms', ma', hn', hacc', hf', heq', hs', ha', hi', hfe', hfs',
      hfa', hm'⟩ := CountFrame_gets h''
    have hB : (capsFuel H (d + 2) (t + 1)).Eval { σ with heap := σ.heap + 1 + 1 } e
        (.list (q + 4) [.symbol "+".toList, .symbol "acc".toList, .number (num 1)] .nil) =
        .ok (.number (num (i + 1))) { σ with heap := σ.heap + 1 + 1 + 1 } := by
      rw [Eval_prim H d t _ e (q + 4) .nil _ _ (num 1) pa' ma' _ (by decide) ha' hacc']
      simp only [callStd, hfa']
      have hfn : core.Fn H (.core "add".toList) = core.add H := rfl
      rw [hfn]
      simp only [core.add, core.arith, hH.2.1 i (by omega)]
    obtain ⟨σ3, hf3, hstep⟩ := evalLoop_count_call H d t (2 * j + 2 + n)
      { σ with heap := σ.heap + 1 } p q e (q + 2) (num 0) (num 1) _ _ .nil (num j) (num (i + 1))
      _ _ hf hA hB (CountRoot_heap h.1 _) hm
    rw [hstep]
    obtain ⟨σ', hrun⟩ := evalLoop_count H num K hH d t p q j (i + 1) (by omega) n σ3 _ hf3
    exact ⟨σ', by rw [hrun]; congr 3; omega⟩

/-- The call `(f k 0)` in the root frame returns the number `k` from one call
of `Eval` with two nested levels, whatever `k` is. -/
theorem Eval_count (H : Host) (num : Nat → Float64) (K : Nat) (hH : Counts H num K)
    (σ : Store) (p q : Nat) (h : CountRoot σ p q (num 0) (num 1)) (a k : Nat) (hk : k ≤ K)
    (n : Nat) :
    ∃ σ', Eval H 3 (2 * k + 3 + n) σ 0 (countCall a (num k) (num 0)) =
      .ok (.number (num k)) σ' := by
  obtain ⟨hf, hm⟩ := CountRoot_gets h
  have e1 : 2 * k + 3 + n = (2 * k + 2 + n) + 1 := by omega
  rw [e1]
  obtain ⟨σ3, hf3, hstep⟩ := evalLoop_count_call H 0 (2 * k + 2 + n) (2 * k + 2 + n) σ p q 0 a
    (num 0) (num 1) (.number (num k)) (.number (num 0)) .nil (num k) (num 0) σ σ hf
    (Eval_number H 1 _ σ 0 _) (Eval_number H 1 _ σ 0 _) h hm
  obtain ⟨σ', hrun⟩ :=
    evalLoop_count H num K hH 0 (2 * k + 2 + n) p q k 0 (by omega) n σ3 _ hf3
  exact ⟨σ', by
    show evalLoop H (capsFuel H 2 (2 * k + 2 + n + 1)) _ σ 0 _ = _
    unfold countCall
    rw [hstep, hrun]
    congr 3
    omega⟩

theorem float64_fields (e m : Nat) (he : e ≤ 52) (hm : m < 2 ^ 52) :
    Float64.expField ⟨(1023 + e) * 2 ^ 52 + m⟩ = 1023 + e ∧
      Float64.fracField ⟨(1023 + e) * 2 ^ 52 + m⟩ = m := by
  simp only [Float64.expField, Float64.fracField]
  norm_num at hm ⊢
  omega

/-- The exponent and the fraction of a positive whole number below `2^53`. -/
theorem ofWhole_pos (k : Nat) (h0 : k ≠ 0) (hk : k < 2 ^ 53) :
    Nat.log 2 k ≤ 52 ∧ (k - 2 ^ Nat.log 2 k) * 2 ^ (52 - Nat.log 2 k) < 2 ^ 52 ∧
      2 ^ Nat.log 2 k ≤ k := by
  have h1 : 2 ^ Nat.log 2 k ≤ k := Nat.pow_log_le_self 2 h0
  have h2 : k < 2 ^ (Nat.log 2 k + 1) := Nat.lt_pow_succ_log_self (by norm_num) k
  have h3 : Nat.log 2 k < 53 := Nat.log_lt_of_lt_pow h0 hk
  have h4 : Nat.log 2 k ≤ 52 := by omega
  refine ⟨h4, ?_, h1⟩
  have h5 : (2 : Nat) ^ 52 = 2 ^ Nat.log 2 k * 2 ^ (52 - Nat.log 2 k) := by
    rw [← pow_add]; congr 1; omega
  rw [h5]
  apply Nat.mul_lt_mul_of_pos_right _ (by positivity)
  rw [pow_succ] at h2
  omega

theorem toWhole_ofWhole (k : Nat) (hk : k < 2 ^ 53) : toWhole (ofWhole k) = k := by
  by_cases h0 : k = 0
  · subst h0
    rfl
  · obtain ⟨he, hm, hle⟩ := ofWhole_pos k h0 hk
    obtain ⟨hx, hf⟩ := float64_fields _ _ he hm
    simp only [ofWhole, h0, if_false, toWhole, hx, hf]
    have hne : 1023 + Nat.log 2 k ≠ 0 := by omega
    simp only [hne, if_false]
    have h5 : (2 : Nat) ^ 52 = 2 ^ Nat.log 2 k * 2 ^ (52 - Nat.log 2 k) := by
      rw [← pow_add]; congr 1; omega
    have h6 : 1075 - (1023 + Nat.log 2 k) = 52 - Nat.log 2 k := by omega
    rw [h6, h5, ← Nat.add_mul, Nat.mul_div_cancel _ (by positivity)]
    omega

theorem ofWhole_one : ofWhole 1 = one := by
  simp [ofWhole, one]

theorem ofWhole_ne_zero (k : Nat) (h0 : k ≠ 0) (hk : k < 2 ^ 53) :
    Float64.eq (ofWhole k) (ofWhole 0) = false := by
  obtain ⟨he, hm, hle⟩ := ofWhole_pos k h0 hk
  obtain ⟨hx, hf⟩ := float64_fields _ _ he hm
  have hz : (ofWhole k).isZero = false := by
    simp only [ofWhole, h0, if_false, Float64.isZero]
    norm_num at hm ⊢
    omega
  have hb : ((ofWhole k).bits % 2 ^ 64 == (ofWhole 0).bits % 2 ^ 64) = false := by
    simp only [ofWhole, h0, if_false, if_true]
    norm_num at hm ⊢
    omega
  simp only [Float64.eq, hz, hb, Bool.false_and, Bool.or_self, Bool.and_false]

theorem wholeHost_sub (x y : Float64) :
    wholeHost.sub x y = ofWhole (toWhole x - toWhole y) := rfl

theorem wholeHost_add (x y : Float64) :
    wholeHost.add x y = ofWhole (toWhole x + toWhole y) := rfl

/-- On the whole numbers below `2^53` the host `wholeHost` counts. -/
theorem counts_wholeHost : Counts wholeHost ofWhole (2 ^ 53 - 1) := by
  have h1 : toWhole (ofWhole 1) = 1 := toWhole_ofWhole 1 (by norm_num)
  refine ⟨?_, ?_, ?_⟩
  · intro k hk
    rw [wholeHost_sub, toWhole_ofWhole (k + 1) (by omega), h1, Nat.add_sub_cancel]
  · intro k hk
    rw [wholeHost_add, toWhole_ofWhole k (by omega), h1]
  · intro k hk
    by_cases h0 : k = 0
    · subst h0
      rfl
    · rw [ofWhole_ne_zero k h0 (by omega)]
      simp [h0]

/-- C32: in the loop of `Eval` the forms `if`, `do`, `let*` and the application
of a closure (on a form that is not a macro call) hand their tail expression
back to the loop. The condition of the `if`, the forms of the `do` before the
last, the definitions of the `let*` and the forms of the application are
evaluated by the nested calls `c.Eval`; the branch, the last form and the
bodies are not: after the turn the same loop, with the same `c`, goes on with
them, in the frame the form made. So a closure that calls itself in tail
position runs in one call of `Eval` with depth budget 3 (the loop, the nested
call for a condition or an argument, and the nested calls for its forms),
whatever the number of iterations: the closure `walk`, which calls itself once
for each element of its list, returns `:done`; and on a host whose arithmetic
counts up to `K`, the closure `f` of the specification returns `k` for
`(f k 0)`, for every `k` up to `K`. -/
theorem tail_forms_continue_loop (H : Host) :
    (∀ (c : Caps) (n : Nat) (σ : Store) (e ptr : Nat) (cond thenForm meta : Value)
      (rest : List Value) (v : Value) (σ' : Store),
      c.Eval σ e cond = .ok v σ' →
      isMacroCall σ e (.list ptr (.symbol "if".toList :: cond :: thenForm :: rest) meta)
        = false →
      evalLoop H c (n + 1) σ e (.list ptr (.symbol "if".toList :: cond :: thenForm :: rest) meta) =
        evalLoop H c n σ' e (ifBranch v thenForm rest)) ∧
    (∀ (c : Caps) (n : Nat) (σ : Store) (e ptr : Nat) (args : List Value) (last meta lst : Value)
      (σ' : Store),
      args.getLast? = some last →
      evalAST c.Eval (NewList args.dropLast σ).2 e (NewList args.dropLast σ).1 = .ok lst σ' →
      isMacroCall σ e (.list ptr (.symbol "do".toList :: args) meta) = false →
      evalLoop H c (n + 1) σ e (.list ptr (.symbol "do".toList :: args) meta) =
        evalLoop H c n σ' e last) ∧
    (∀ (c : Caps) (n : Nat) (σ : Store) (e ptr : Nat) (bindings body meta : Value)
      (rest defs : List Value) (σ'' : Store),
      asCollection bindings = some defs →
      LetBinds c.Eval σ.envs.length defs { σ with envs := σ.envs ++ [⟨[], some e⟩] } σ'' →
      isMacroCall σ e (.list ptr (.symbol "let*".toList :: bindings :: body :: rest) meta)
        = false →
      evalLoop H c (n + 1) σ e
          (.list ptr (.symbol "let*".toList :: bindings :: body :: rest) meta) =
        evalLoop H c n σ'' σ.envs.length body) ∧
    (∀ (c : Caps) (n : Nat) (σ : Store) (e ptr : Nat) (head : Value) (args : List Value)
      (meta : Value) (q p : Nat) (ast : Value) (params : List Value) (F : Nat) (isMacro : Bool)
      (fmeta : Value) (arguments : List Value) (m : Value) (σ1 : Store) (newEnv : Nat)
      (σ2 : Store),
      headSymbol head ∉ specialForms →
      isMacroCall σ e (.list ptr (head :: args) meta) = false →
      evalAST c.Eval σ e (.list ptr (head :: args) meta) =
        .ok (.list q (.extFunc p ast params F isMacro fmeta :: arguments) m) σ1 →
      Env.Child σ1 F params arguments = .ok newEnv σ2 →
      evalLoop H c (n + 1) σ e (.list ptr (head :: args) meta) =
        evalLoop H c n σ2 newEnv ast) ∧
    (∀ (σ : Store) (p q : Nat), WalkRoot σ p q →
      ∀ (a b lp : Nat) (items : List Value) (lm : Value), (∀ x ∈ items, truthy x = true) →
        ∀ n : Nat, ∃ σ',
          Eval H 3 (2 * items.length + 3 + n) σ 0 (walkCall a b (.list lp items lm)) =
            .ok (.keyword "done".toList) σ') ∧
    (∀ (num : Nat → Float64) (K : Nat), Counts H num K →
      ∀ (σ : Store) (p q : Nat), CountRoot σ p q (num 0) (num 1) →
        ∀ (a k : Nat), k ≤ K → ∀ n : Nat, ∃ σ',
          Eval H 3 (2 * k + 3 + n) σ 0 (countCall a (num k) (num 0)) =
            .ok (.number (num k)) σ') := by
  refine ⟨?_, ?_, ?_, ?_, ?_, ?_⟩
  · intro c n σ e ptr cond thenForm meta rest v σ' h hm
    rw [evalLoop_list H c n σ e ptr _ _ meta hm, evalList_if,
      evalIf_of_ok c.Eval σ e cond thenForm rest v σ' h]
  · intro c n σ e ptr args last meta lst σ' hl ha hm
    rw [evalLoop_list H c n σ e ptr _ _ meta hm, evalList_do]
    simp only [evalDo, hl, ha, Outcome.bind]
  · intro c n σ e ptr bindings body meta rest defs σ'' hb hl hm
    have hlet : evalLet c.Eval σ e (bindings :: body :: rest) =
        .ok (body, σ.envs.length) σ'' := by
      simp only [evalLet, Env.Child, Env.New, Env.newLoop, Outcome.bind, hb,
        letLoop_of_binds _ _ _ _ _ hl]
    rw [evalLoop_list H c n σ e ptr _ _ meta hm, evalList_let, hlet]
  · intro c n σ e ptr head args meta q p ast params F isMacro fmeta arguments m σ1 newEnv σ2
      hs hm ha hc
    rw [evalLoop_list H c n σ e ptr _ _ meta hm, evalList_apply H c _ σ e _ head args hs, ha]
    simp only [hc]
  · intro σ p q h a b lp items lm hx n
    exact Eval_walk H σ p q h a b lp items lm hx n
  · intro num K hH σ p q h a k hk n
    exact Eval_count H num K hH σ p q h a k hk n

set_option maxRecDepth 1000000 in
/-- Witness for C32 in the default namespace. After
`(def! walk (fn* (xs) (if (first xs) (walk (rest xs)) :done)))` the call of
`walk` on a list of 10000 elements `true` returns `:done` with depth budget 3,
and so does `(walk (quote (1 2 3)))`, evaluated. After
`(def! f (fn* (n acc) (if (= n 0) acc (f (- n 1) (+ acc 1)))))`, on the host
that adds and subtracts whole numbers as Go does, `(f 10000 0)` returns 10000
with depth budget 3; the number 10000 is there the `float64` with the bits
`0x40C3880000000000`. -/
theorem tail_forms_continue_loop_witness :
    WalkRoot walkStore 141 137 ∧
    (∃ σ', Eval exampleHost 3 (2 * 10000 + 3) walkStore 0
        (walkCall 0 1 (.list 2 (List.replicate 10000 (.bool true)) .nil)) =
      .ok (.keyword "done".toList) σ') ∧
    (∃ σ', readEval exampleHost 3 9 walkStore 0 "(walk (quote (1 2 3)))" =
      .ok (.keyword "done".toList) σ') ∧
    Counts wholeHost ofWhole (2 ^ 53 - 1) ∧
    CountRoot countStore 142 137 (ofWhole 0) (ofWhole 1) ∧
    ofWhole 10000 = ⟨0x40C3880000000000⟩ ∧
    (∃ σ', Eval wholeHost 3 (2 * 10000 + 3) countStore 0
        (countCall 0 (ofWhole 10000) (ofWhole 0)) =
      .ok (.number (ofWhole 10000)) σ') :=
  have h : WalkRoot walkStore 141 137 :=
    ⟨_, 27, 28, .nil, .nil, rfl, rfl, rfl, rfl, rfl, rfl, rfl, rfl, rfl, rfl⟩
  have hc : CountRoot countStore 142 137 (ofWhole 0) (ofWhole 1) := by
    rw [ofWhole_one]
    exact ⟨_, 4, 1, 0, .nil, .nil, .nil, rfl, rfl, rfl, rfl, rfl, rfl, rfl, rfl, rfl, rfl, rfl⟩
  have hb : ofWhole 10000 = ⟨0x40C3880000000000⟩ := by
    have hl : Nat.log 2 10000 = 13 := by
      rw [Nat.log_eq_iff (Or.inl (by norm_num))]
      norm_num
    unfold ofWhole
    rw [if_neg (by norm_num), hl]
    norm_num
  ⟨h, by
    have := (tail_forms_continue_loop exampleHost).2.2.2.2.1 walkStore 141 137 h 0 1 2
      (List.replicate 10000 (.bool true)) .nil
      (fun x hx => by rw [List.eq_of_mem_replicate hx]; rfl) 0
    rw [List.length_replicate] at this
    exact this, ⟨_, rfl⟩, counts_wholeHost, hc, hb,
    (tail_forms_continue_loop wholeHost).2.2.2.2.2 ofWhole (2 ^ 53 - 1) counts_wholeHost
      countStore 142 137 hc 0 10000 (by norm_num) 0⟩

/-! ## Equality of plain data -/

theorem goEq_stringKey (k w : Value) (h : isStringKey k = true) : goEq k w = true ↔ k = w := by
  cases k <;> simp [isStringKey] at h <;> cases w <;> simp [goEq]

theorem isDataEntries_mem :
    ∀ m : GoMap, isDataEntries m = true →
      ∀ e ∈ m, isStringKey e.1 = true ∧ isData e.2 = true
  | [], _, e, he => by simp at he
  | (k, v) :: m, h, e, he => by
    simp only [isDataEntries, Bool.and_eq_true] at h
    rcases List.mem_cons.mp he with rfl | hmem
    · exact ⟨h.1.1, h.1.2⟩
    · exact isDataEntries_mem m h.2 e hmem

/-- In a map of distinct string keys, the lookup finds exactly the entries. -/
theorem mapLookup_eq_some_iff :
    ∀ m : GoMap, keysDistinct m = true → (∀ e ∈ m, isStringKey e.1 = true) →
      ∀ k v, mapLookup m k = some v ↔ (k, v) ∈ m
  | [], _, _, k, v => by simp [mapLookup]
  | (k0, v0) :: m, hd, hk, k, v => by
    simp only [keysDistinct, Bool.and_eq_true, List.all_eq_true, Bool.not_eq_true'] at hd
    have ih := mapLookup_eq_some_iff m hd.2 (fun e he => hk e (by simp [he])) k v
    have hk0 : isStringKey k0 = true := hk (k0, v0) (by simp)
    by_cases hg : goEq k0 k = true
    · have hkk : k0 = k := (goEq_stringKey k0 k hk0).mp hg
      subst hkk
      simp only [mapLookup, hg, ↓reduceIte, Option.some.injEq, List.mem_cons, Prod.mk.injEq,
        true_and]
      constructor
      · intro h; exact Or.inl h.symm
      · rintro (h | h)
        · exact h.symm
        · have := hd.1 (k0, v) h
          simp [hg] at this
    · have hne : k0 ≠ k := fun h => hg ((goEq_stringKey k0 k hk0).mpr h)
      simp only [mapLookup, hg, Bool.false_eq_true, ↓reduceIte, ih, List.mem_cons,
        Prod.mk.injEq]
      constructor
      · intro h; exact Or.inr h
      · rintro (h | h)
        · exact absurd h.1.symm hne
        · exact h

theorem keys_nodup :
    ∀ m : GoMap, keysDistinct m = true → (∀ e ∈ m, isStringKey e.1 = true) →
      (m.map Prod.fst).Nodup
  | [], _, _ => by simp
  | (k0, v0) :: m, hd, hk => by
    simp only [keysDistinct, Bool.and_eq_true, List.all_eq_true, Bool.not_eq_true'] at hd
    have ih := keys_nodup m hd.2 (fun e he => hk e (by simp [he]))
    have hk0 : isStringKey k0 = true := hk (k0, v0) (by simp)
    simp only [List.map_cons, List.nodup_cons, ih, and_true, List.mem_map, not_exists, not_and]
    intro e he hek
    have := hd.1 e he
    rw [(goEq_stringKey k0 e.1 hk0).mpr hek.symm] at this
    exact absurd this (by simp)

/-- Two maps of the same size with distinct keys: when every key of the first
is a key of the second, every key of the second is a key of the first. -/
theorem keys_subset_symm (m1 m2 : GoMap) (h1 : (m1.map Prod.fst).Nodup)
    (hl : m1.length = m2.length)
    (hs : ∀ e ∈ m1, ∃ v, (e.1, v) ∈ m2) : ∀ e ∈ m2, ∃ v, (e.1, v) ∈ m1 := by
  have hsub : m1.map Prod.fst ⊆ m2.map Prod.fst := by
    intro k hk
    obtain ⟨e, he, rfl⟩ := List.mem_map.mp hk
    obtain ⟨v, hv⟩ := hs e he
    exact List.mem_map.mpr ⟨(e.1, v), hv, rfl⟩
  have hperm : (m1.map Prod.fst).Perm (m2.map Prod.fst) :=
    (List.subperm_of_subset h1 hsub).perm_of_length_le (by simp [hl])
  intro e he
  have : e.1 ∈ m1.map Prod.fst := hperm.symm.subset (List.mem_map.mpr ⟨e, he, rfl⟩)
  obtain ⟨e', he', hk⟩ := List.mem_map.mp this
  exact ⟨e'.2, by rw [← hk]; exact he'⟩

/-- The loop of `equalMaps` returns a boolean when the comparisons of the values
do, and returns true exactly when every entry of the first map has an equal
value under the same key in the second. -/
theorem equalMapsLoop_ok_iff :
    ∀ (sub full : GoMap),
      (∀ e ∈ sub, ∀ v, mapLookup full e.1 = some v → ∃ r, checkEquality e.2 v = .ok r) →
      ∃ r, equalMapsLoop sub full = .ok r ∧
        (r = true ↔
          ∀ e ∈ sub, ∃ v, mapLookup full e.1 = some v ∧ checkEquality e.2 v = .ok true)
  | [], full, _ => ⟨true, by simp [equalMapsLoop]⟩
  | (k, v) :: sub, full, h => by
    obtain ⟨r, hr, hiff⟩ := equalMapsLoop_ok_iff sub full (fun e he => h e (by simp [he]))
    cases hl : mapLookup full k with
    | none =>
      refine ⟨false, by simp [equalMapsLoop, hl], ?_⟩
      simp only [Bool.false_eq_true, false_iff, not_forall]
      exact ⟨(k, v), by simp, by simp [hl]⟩
    | some other =>
      obtain ⟨b, hb⟩ := h (k, v) (by simp) other hl
      cases b with
      | false =>
        refine ⟨false, by simp [equalMapsLoop, hl, hb], ?_⟩
        simp only [Bool.false_eq_true, false_iff, not_forall]
        exact ⟨(k, v), by simp, by simp [hl, hb]⟩
      | true =>
        refine ⟨r, by simp [equalMapsLoop, hl, hb, hr], ?_⟩
        rw [hiff]
        constructor
        · intro hall e he
          rcases List.mem_cons.mp he with rfl | hmem
          · exact ⟨other, hl, hb⟩
          · exact hall e hmem
        · intro hall e he
          exact hall e (by simp [he])

/-- The loop of `equalMaps` on two maps of plain data of the same size gives the
same boolean in both directions, when the comparison of each value of the first
map is symmetric. -/
theorem equalMapsLoop_symm (m1 m2 : GoMap)
    (hd1 : keysDistinct m1 = true) (hd2 : keysDistinct m2 = true)
    (he1 : isDataEntries m1 = true) (he2 : isDataEntries m2 = true)
    (hl : m1.length = m2.length)
    (hv : ∀ e ∈ m1, ∀ b, isData b = true →
      (∃ r, checkEquality e.2 b = .ok r) ∧ checkEquality b e.2 = checkEquality e.2 b) :
    (∃ r, equalMapsLoop m1 m2 = .ok r) ∧ equalMapsLoop m2 m1 = equalMapsLoop m1 m2 := by
  have hk1 : ∀ e ∈ m1, isStringKey e.1 = true := fun e he => (isDataEntries_mem m1 he1 e he).1
  have hk2 : ∀ e ∈ m2, isStringKey e.1 = true := fun e he => (isDataEntries_mem m2 he2 e he).1
  have L1 := mapLookup_eq_some_iff m1 hd1 hk1
  have L2 := mapLookup_eq_some_iff m2 hd2 hk2
  obtain ⟨r1, hr1, hiff1⟩ := equalMapsLoop_ok_iff m1 m2 (fun e he v hlk =>
    (hv e he v (isDataEntries_mem m2 he2 (e.1, v) ((L2 _ _).mp hlk)).2).1)
  obtain ⟨r2, hr2, hiff2⟩ := equalMapsLoop_ok_iff m2 m1 (fun e he v hlk => by
    have hmem := (L1 _ _).mp hlk
    have := hv (e.1, v) hmem e.2 (isDataEntries_mem m2 he2 e he).2
    obtain ⟨r, hr⟩ := this.1
    exact ⟨r, by rw [this.2]; exact hr⟩)
  refine ⟨⟨r1, hr1⟩, ?_⟩
  rw [hr1, hr2]
  congr 1
  apply Bool.eq_iff_iff.mpr
  rw [hiff1, hiff2]
  constructor
  · intro h e he
    obtain ⟨v, hvm⟩ := keys_subset_symm m2 m1 (keys_nodup m2 hd2 hk2) hl.symm
      (fun e' he' => by
        obtain ⟨v', hv', _⟩ := h e' he'
        exact ⟨v', (L1 _ _).mp hv'⟩) e he
    obtain ⟨v', hv', hc⟩ := h (e.1, v) hvm
    have hself : mapLookup m1 e.1 = some e.2 := (L1 _ _).mpr he
    have hvv : v' = e.2 := by
      rw [hself] at hv'
      exact (Option.some.inj hv').symm
    subst hvv
    refine ⟨v, (L2 _ _).mpr hvm, ?_⟩
    rw [← (hv e he v (isDataEntries_mem m2 he2 (e.1, v) hvm).2).2]
    exact hc
  · intro h e he
    obtain ⟨v, hvm⟩ := keys_subset_symm m1 m2 (keys_nodup m1 hd1 hk1) hl
      (fun e' he' => by
        obtain ⟨v', hv', _⟩ := h e' he'
        exact ⟨v', (L2 _ _).mp hv'⟩) e he
    obtain ⟨v', hv', hc⟩ := h (e.1, v) hvm
    have hself : mapLookup m2 e.1 = some e.2 := (L2 _ _).mpr he
    have hvv : v' = e.2 := by
      rw [hself] at hv'
      exact (Option.some.inj hv').symm
    subst hvv
    refine ⟨v, (L1 _ _).mpr hvm, ?_⟩
    rw [(hv (e.1, v) hvm e.2 (isDataEntries_mem m2 he2 e he).2).2]
    exact hc

theorem checkEquality_noncollection (b : Value) (h : asCollection b = none) (p : Nat)
    (l : List Value) (m : Value) :
    checkEquality b (.list p l m) = .ok false ∧ checkEquality b (.vector p l m) = .ok false := by
  cases b <;> simp [asCollection] at h <;> simp [checkEquality]

mutual
/-- On plain data `checkEquality` returns a boolean, the same in both
directions. -/
theorem checkEquality_symm_value :
    ∀ a : Value, isData a = true → ∀ b : Value, isData b = true →
      (∃ r, checkEquality a b = .ok r) ∧ checkEquality b a = checkEquality a b
  | .nil, _, b, _ => by cases b <;> simp [checkEquality, asCollection]
  | .bool x, _, b, _ => by
    cases b <;> simp [checkEquality, asCollection]
    exact eq_comm
  | .number x, _, b, _ => by
    cases b <;> simp [checkEquality, asCollection]
    exact float64_eq_comm _ _
  | .str x, _, b, _ => by
    cases b <;> simp [checkEquality, asCollection]
    exact eq_comm
  | .symbol x, _, b, _ => by
    cases b <;> simp [checkEquality, asCollection]
    exact eq_comm
  | .keyword x, _, b, _ => by
    cases b <;> simp [checkEquality, asCollection]
    exact eq_comm
  | .list p l m, ha, b, hb => by
    have ih := checkEquality_symm_list l (by simpa [isData] using ha)
    cases hc : asCollection b with
    | none =>
      rw [(checkEquality_noncollection b hc p l m).1]
      simp [checkEquality, hc]
    | some other =>
      have hother : isDataAll other = true := by
        cases b <;> simp [asCollection] at hc <;> subst hc <;> simpa [isData] using hb
      have hba : checkEquality b (.list p l m) =
          if other.length ≠ l.length then .ok false else equalListsLoop other l := by
        cases b <;> simp [asCollection] at hc <;> subst hc <;> simp [checkEquality, asCollection]
      rw [hba]
      simp only [checkEquality, hc]
      by_cases hlen : l.length = other.length
      · simp only [hlen, ne_eq, not_true_eq_false, ↓reduceIte]
        have := ih other hother hlen
        exact this
      · have hlen2 : ¬ other.length = l.length := fun h => hlen h.symm
        simp [hlen, hlen2]
  | .vector p l m, ha, b, hb => by
    have ih := checkEquality_symm_list l (by simpa [isData] using ha)
    cases hc : asCollection b with
    | none =>
      rw [(checkEquality_noncollection b hc p l m).2]
      simp [checkEquality, hc]
    | some other =>
      have hother : isDataAll other = true := by
        cases b <;> simp [asCollection] at hc <;> subst hc <;> simpa [isData] using hb
      have hba : checkEquality b (.vector p l m) =
          if other.length ≠ l.length then .ok false else equalListsLoop other l := by
        cases b <;> simp [asCollection] at hc <;> subst hc <;> simp [checkEquality, asCollection]
      rw [hba]
      simp only [checkEquality, hc]
      by_cases hlen : l.length = other.length
      · simp only [hlen, ne_eq, not_true_eq_false, ↓reduceIte]
        exact ih other hother hlen
      · have hlen2 : ¬ other.length = l.length := fun h => hlen h.symm
        simp [hlen, hlen2]
  | .hashmap p m1 m, ha, b, hb => by
    simp only [isData, Bool.and_eq_true] at ha
    have ih := checkEquality_symm_entries m1 ha.1
    cases b with
    | hashmap q m2 m' =>
      simp only [isData, Bool.and_eq_true] at hb
      simp only [checkEquality]
      by_cases hlen : m1.length = m2.length
      · simp only [hlen, ne_eq, not_true_eq_false, ↓reduceIte]
        exact equalMapsLoop_symm m1 m2 ha.2 hb.2 ha.1 hb.1 hlen ih
      · have hlen2 : ¬ m2.length = m1.length := fun h => hlen h.symm
        simp [hlen, hlen2]
    | _ => simp [checkEquality, asCollection]
  | .atom _ _, ha, _, _ => by simp [isData] at ha
  | .stdFunc _ _, ha, _, _ => by simp [isData] at ha
  | .extFunc _ _ _ _ _ _, ha, _, _ => by simp [isData] at ha
/-- The loop of `equalLists` on two lists of plain data of the same length. -/
theorem checkEquality_symm_list :
    ∀ l : List Value, isDataAll l = true → ∀ v : List Value, isDataAll v = true →
      l.length = v.length →
      (∃ r, equalListsLoop l v = .ok r) ∧ equalListsLoop v l = equalListsLoop l v
  | [], _, v, _, hl => by
    cases v with
    | nil => simp [equalListsLoop]
    | cons y v => simp at hl
  | x :: l, ha, v, hb, hl => by
    cases v with
    | nil => simp at hl
    | cons y v =>
      simp only [isDataAll, Bool.and_eq_true] at ha hb
      obtain ⟨⟨r, hr⟩, hs⟩ := checkEquality_symm_value x ha.1 y hb.1
      obtain ⟨⟨r', hr'⟩, hs'⟩ := checkEquality_symm_list l ha.2 v hb.2 (by simpa using hl)
      simp only [equalListsLoop, hs, hr, hs']
      cases r <;> simp [hr']
/-- The comparison of each value of a map of plain data with plain data. -/
theorem checkEquality_symm_entries :
    ∀ m : GoMap, isDataEntries m = true → ∀ e ∈ m, ∀ b : Value, isData b = true →
      (∃ r, checkEquality e.2 b = .ok r) ∧ checkEquality b e.2 = checkEquality e.2 b
  | [], _, e, he, _, _ => by simp at he
  | (k, v) :: m, h, e, he, b, hb => by
    simp only [isDataEntries, Bool.and_eq_true] at h
    rcases List.mem_cons.mp he with rfl | hmem
    · exact checkEquality_symm_value v h.1.2 b hb
    · exact checkEquality_symm_entries m h.2 e hmem b hb
end

theorem equalMapsLoop_self :
    ∀ (sub full : GoMap),
      (∀ e ∈ sub, mapLookup full e.1 = some e.2 ∧ checkEquality e.2 e.2 = .ok true) →
      equalMapsLoop sub full = .ok true
  | [], _, _ => by simp [equalMapsLoop]
  | (k, v) :: sub, full, h => by
    have h0 := h (k, v) (by simp)
    simp only [equalMapsLoop, h0.1, h0.2, Bool.not_true, Bool.false_eq_true, ↓reduceIte]
    exact equalMapsLoop_self sub full (fun e he => h e (by simp [he]))

mutual
/-- A plain datum without NaN is equal to itself. -/
theorem checkEquality_refl_value :
    ∀ a : Value, isData a = true → noNaN a = true → checkEquality a a = .ok true
  | .nil, _, _ => by simp [checkEquality]
  | .bool x, _, _ => by simp [checkEquality]
  | .number x, _, hn => by
    simp only [noNaN, Bool.not_eq_true'] at hn
    simp [checkEquality, Float64.eq, hn]
  | .str x, _, _ => by simp [checkEquality]
  | .symbol x, _, _ => by simp [checkEquality]
  | .keyword x, _, _ => by simp [checkEquality]
  | .list p l m, ha, hn => by
    have := checkEquality_refl_list l (by simpa [isData] using ha) (by simpa [noNaN] using hn)
    simp [checkEquality, asCollection, this]
  | .vector p l m, ha, hn => by
    have := checkEquality_refl_list l (by simpa [isData] using ha) (by simpa [noNaN] using hn)
    simp [checkEquality, asCollection, this]
  | .hashmap p m1 m, ha, hn => by
    simp only [isData, Bool.and_eq_true] at ha
    have ih := checkEquality_refl_entries m1 ha.1 (by simpa [noNaN] using hn)
    have hself := mapLookup_self m1 ha.2 (fun e he =>
      (goEq_stringKey e.1 e.1 (isDataEntries_mem m1 ha.1 e he).1).mpr rfl)
    simp only [checkEquality, ne_eq, not_true_eq_false, ↓reduceIte]
    exact equalMapsLoop_self m1 m1 (fun e he => ⟨hself e he, ih e he⟩)
  | .atom _ _, ha, _ => by simp [isData] at ha
  | .stdFunc _ _, ha, _ => by simp [isData] at ha
  | .extFunc _ _ _ _ _ _, ha, _ => by simp [isData] at ha
/-- The loop of `equalLists` on a list of plain data without NaN and itself. -/
theorem checkEquality_refl_list :
    ∀ l : List Value, isDataAll l = true → noNaNAll l = true → equalListsLoop l l = .ok true
  | [], _, _ => by simp [equalListsLoop]
  | x :: l, ha, hn => by
    simp only [isDataAll, noNaNAll, Bool.and_eq_true] at ha hn
    simp [equalListsLoop, checkEquality_refl_value x ha.1 hn.1,
      checkEquality_refl_list l ha.2 hn.2]
/-- Each value of a map of plain data without NaN is equal to itself. -/
theorem checkEquality_refl_entries :
    ∀ m : GoMap, isDataEntries m = true → noNaNEntries m = true →
      ∀ e ∈ m, checkEquality e.2 e.2 = .ok true
  | [], _, _, e, he => by simp at he
  | (k, v) :: m, h, hn, e, he => by
    simp only [isDataEntries, noNaNEntries, Bool.and_eq_true] at h hn
    rcases List.mem_cons.mp he with rfl | hmem
    · exact checkEquality_refl_value v h.1.2 hn.1.2
    · exact checkEquality_refl_entries m h.2 hn.2 e hmem
end

/-- C33: for all values `a` and `b` built from nil, booleans, numbers, strings,
symbols, keywords, lists, vectors and hash-maps keyed by strings or keywords,
`checkEquality(a, b)` returns a boolean without error, the same boolean as
`checkEquality(b, a)`; and `checkEquality(a, a)` is true when `a` contains no
NaN. -/
theorem checkEquality_symmetric_reflexive (a b : Value) (ha : isData a = true)
    (hb : isData b = true) :
    (∃ r, checkEquality a b = .ok r) ∧ checkEquality a b = checkEquality b a ∧
      (noNaN a = true → checkEquality a a = .ok true) :=
  ⟨(checkEquality_symm_value a ha b hb).1, (checkEquality_symm_value a ha b hb).2.symm,
    checkEquality_refl_value a ha⟩

/-- The list `(1 {"k" [nil] :j true})` and the vector `[1 {:j true "k" (nil)}]`
are equal in both directions and each equal to itself; a NaN is not equal to
itself. -/
theorem checkEquality_symmetric_reflexive_witness :
    (checkEquality exampleData exampleData2 = .ok true ∧
      checkEquality (.number NaN) (.number NaN) = .ok false) ∧
    ((∃ r, checkEquality exampleData exampleData2 = .ok r) ∧
      checkEquality exampleData exampleData2 = checkEquality exampleData2 exampleData ∧
      (noNaN exampleData = true → checkEquality exampleData exampleData = .ok true)) :=
  ⟨⟨rfl, rfl⟩,
    checkEquality_symmetric_reflexive exampleData exampleData2 (by decide) (by decide)⟩

end Wot
